import Mathlib

/-!
# AbstractScriptC: lexer, parser and evaluator

A shallow embedding of `AbstractScriptC.c` and theorems about it.

Conventions of the embedding.

* A C function that may call `exit(1)` returns an `Outcome`.  `Outcome.fatal out`
  is that exit, `out` being what standard output had received.  Behaviour that C
  leaves undefined (a write past a fixed buffer, an out-of-range conversion to
  `int`, an integer remainder by zero, a null dereference) is `Outcome.undefined`.
* Loops and recursion that are not structural take a fuel argument; running out
  of it is `Outcome.outOfFuel`, which no C run corresponds to.
* `malloc` and `realloc` are taken to succeed; `free` of live memory is not
  modelled.  Scopes are never freed while a program runs, so a scope pointer is
  an index into the list of all scopes created so far.
* The input text is a list of `Char`, standing for its UTF-8 bytes; sizes that
  are compared with a buffer capacity are byte counts.
* A `double` is an IEEE-754 binary64 value (`Number`), with round to nearest,
  ties to even.  What C leaves to the platform is that of x86-64 with the GNU C
  library: an `int` has 32 bits; an invalid operation (`0/0`, `inf - inf`,
  `inf * 0`, `inf / inf`) yields the default NaN, whose sign bit is set; an
  operation on a NaN returns that NaN; `printf` writes a NaN whose sign bit is
  set as `-nan`.
-/

namespace AbstractScriptC

/-! ## Outcomes -/

/-- Result of running a C function of the interpreter. -/
inductive Outcome (α : Type) where
  | ok (a : α)
  | fatal (out : String)
  | undefined
  | outOfFuel
deriving DecidableEq

namespace Outcome

/-- Sequencing: the first outcome that is not `ok` ends the run. -/
def bind {α β : Type} (x : Outcome α) (f : α → Outcome β) : Outcome β :=
  match x with
  | ok a => f a
  | fatal out => fatal out
  | undefined => undefined
  | outOfFuel => outOfFuel

instance : Monad Outcome where
  pure := Outcome.ok
  bind := Outcome.bind

/-- Whether the run produced a result. -/
def isOk {α : Type} : Outcome α → Bool
  | ok _ => true
  | _ => false

end Outcome

/-! ## The C `double` -/

/-- IEEE-754 binary64 values.  `fin q` is the finite value `q` (with `fin 0`
positive zero), `negZero` is `-0.0`, `nan neg` is a NaN with sign bit `neg`.
The payload of a NaN is not modelled. -/
inductive Number where
  | fin (q : ℚ)
  | negZero
  | inf (neg : Bool)
  | nan (neg : Bool)
deriving DecidableEq

namespace Number

/-- Number of binary digits of `n`; the first argument is fuel. -/
def bitLength : Nat → Nat → Nat
  | 0, _ => 0
  | f + 1, n => if n = 0 then 0 else bitLength f (n / 2) + 1

/-- The rational `2 ^ e`. -/
def pow2 (e : Int) : ℚ :=
  if 0 ≤ e then ((2 ^ e.toNat : Nat) : ℚ) else 1 / ((2 ^ (-e).toNat : Nat) : ℚ)

/-- Whether `q` is `m * 2 ^ e` for integers `|m| < 2 ^ 53` and
`-1074 ≤ e ≤ 971`, that is, the value of a finite binary64. -/
def representable (q : ℚ) : Bool :=
  let m := q.num.natAbs
  if q.den = 1 then
    m < 2 ^ 53 || (m < 2 ^ 1024 && m % 2 ^ (bitLength m m - 53) = 0)
  else
    m < 2 ^ 53 && q.den ∣ 2 ^ 1074

/-- For `a > 0`, the integer `k` with `2 ^ k ≤ a < 2 ^ (k + 1)`. -/
def floorLog2 (a : ℚ) : Int :=
  let k : Int := (bitLength a.num.natAbs a.num.natAbs : Int) - (bitLength a.den a.den : Int)
  if pow2 k ≤ a then k else k - 1

/-- Nearest integer, ties to the even one. -/
def roundHalfEven (x : ℚ) : Int :=
  let m := Int.floor x
  let r := x - m
  if r < 1 / 2 then m else if 1 / 2 < r then m + 1 else if m % 2 = 0 then m else m + 1

/-- Round a non-zero rational to binary64: the value itself when it is
representable, otherwise the nearest representable one (ties to even), with
overflow to infinity and underflow to a signed zero. -/
def roundToDouble (q : ℚ) : Number :=
  if representable q then fin q else
    let a := |q|
    let e := max (floorLog2 a - 52) (-1074)
    let v := (roundHalfEven (a / pow2 e) : ℚ) * pow2 e
    if v = 0 then (if q < 0 then negZero else fin 0)
    else if pow2 1024 ≤ v then inf (decide (q < 0))
    else fin (if q < 0 then -v else v)

/-- The sign bit. -/
def signBit : Number → Bool
  | fin q => decide (q < 0)
  | negZero => true
  | inf s => s
  | nan s => s

/-- The NaN an invalid operation yields: the default NaN of the SSE2
instructions, whose sign bit is set. -/
def defaultNaN : Number := nan true

/-- Whether the value is `+0.0` or `-0.0`. -/
def isZero : Number → Bool
  | fin q => decide (q = 0)
  | negZero => true
  | _ => false

/-- Zero with the given sign bit. -/
def signedZero (s : Bool) : Number := if s then negZero else fin 0

/-- The subtrahend of `sub`, negated.  A NaN is kept as it is: a subtraction
returns a NaN operand unchanged. -/
def neg : Number → Number
  | fin q => if q = 0 then negZero else fin (-q)
  | negZero => fin 0
  | inf s => inf (!s)
  | nan s => nan s

/-- The C expression `a + b` on doubles.  Of two NaN operands the left one is
returned. -/
def add : Number → Number → Number
  | nan s, _ => nan s
  | _, nan t => nan t
  | inf s, inf t => if s = t then inf s else defaultNaN
  | inf s, _ => inf s
  | _, inf t => inf t
  | negZero, negZero => negZero
  | negZero, fin q => fin q
  | fin q, negZero => fin q
  | fin p, fin q => if p + q = 0 then fin 0 else roundToDouble (p + q)

/-- The C expression `a - b` on doubles. -/
def sub (a b : Number) : Number := add a (neg b)

/-- The C expression `a * b` on doubles. -/
def mul : Number → Number → Number
  | nan s, _ => nan s
  | _, nan t => nan t
  | inf s, b => if b.isZero then defaultNaN else inf (s != b.signBit)
  | a, inf t => if a.isZero then defaultNaN else inf (a.signBit != t)
  | fin p, fin q =>
    if p * q = 0 then signedZero (decide (p < 0) != decide (q < 0)) else roundToDouble (p * q)
  | a, b => signedZero (a.signBit != b.signBit)

/-- The C expression `a / b` on doubles. -/
def div : Number → Number → Number
  | nan s, _ => nan s
  | _, nan t => nan t
  | inf _, inf _ => defaultNaN
  | inf s, b => inf (s != b.signBit)
  | a, inf t => signedZero (a.signBit != t)
  | a, b =>
    if b.isZero then (if a.isZero then defaultNaN else inf (a.signBit != b.signBit))
    else match a, b with
      | fin p, fin q => if p = 0 then signedZero (decide (q < 0)) else roundToDouble (p / q)
      | a, b => signedZero (a.signBit != b.signBit)

/-- The value of a finite double. -/
def toRat? : Number → Option ℚ
  | fin q => some q
  | negZero => some 0
  | _ => none

/-- The C comparison `a == b` on doubles. -/
def eq : Number → Number → Bool
  | nan _, _ => false
  | _, nan _ => false
  | inf s, inf t => s == t
  | inf _, _ => false
  | _, inf _ => false
  | a, b => a.toRat? == b.toRat?

/-- The C comparison `a < b` on doubles. -/
def lt : Number → Number → Bool
  | nan _, _ => false
  | _, nan _ => false
  | inf s, inf t => s && !t
  | inf s, _ => s
  | _, inf t => !t
  | a, b =>
    match a.toRat?, b.toRat? with
    | some p, some q => decide (p < q)
    | _, _ => false

/-- The C comparison `a <= b` on doubles. -/
def le (a b : Number) : Bool := lt a b || eq a b

/-- Truncation toward zero of a rational. -/
def truncate (q : ℚ) : Int := if 0 ≤ q then Int.floor q else -Int.floor (-q)

/-- The C conversion `(int)x` for a 32-bit `int`: the value truncated toward
zero; `none` when C leaves the conversion undefined (the truncated value is not
an `int`, or `x` is infinite or a NaN). -/
def toInt? : Number → Option Int
  | fin q =>
    let t := truncate q
    if -2 ^ 31 ≤ t ∧ t < 2 ^ 31 then some t else none
  | negZero => some 0
  | _ => none

/-- The C conversion of an `int` to `double`, which is exact. -/
def ofInt (i : Int) : Number := fin (i : ℚ)

/-- The C expression `(int)a % (int)b` converted back to `double`; `none` when
a conversion is undefined, the divisor is zero, or the quotient overflows
(`INT_MIN % -1`). -/
def intRemainder (a b : Number) : Option Number :=
  match a.toInt?, b.toInt? with
  | some x, some y =>
    if y = 0 then none
    else if x = -2 ^ 31 ∧ y = -1 then none
    else some (ofInt (Int.tmod x y))
  | _, _ => none

/-! ### Text conversions of doubles -/

/-- The rational `10 ^ e`. -/
def pow10 (e : Int) : ℚ :=
  if 0 ≤ e then ((10 ^ e.toNat : Nat) : ℚ) else 1 / ((10 ^ (-e).toNat : Nat) : ℚ)

/-- Value of a string of decimal digits. -/
def digitsValue (ds : List Char) : Nat :=
  ds.foldl (fun acc c => 10 * acc + (c.toNat - 48)) 0

/-- The C call `atof(s)` for `s` made of the digits `intPart`, followed, when
`fracPart` is `some f`, by a point and the digits `f`: the decimal value,
correctly rounded. -/
def atof (intPart : List Char) (fracPart : Option (List Char)) : Number :=
  let f := fracPart.getD []
  let q : ℚ := (digitsValue intPart : ℚ) + (digitsValue f : ℚ) / ((10 ^ f.length : Nat) : ℚ)
  if q = 0 then fin 0 else roundToDouble q

/-- For `0 < a < 1`, the least `k ≥ start` with `1 ≤ a * 10 ^ k`; fuel first. -/
def leadingExponent : Nat → ℚ → Nat → Nat
  | 0, _, k => k
  | f + 1, a, k => if 1 ≤ a * pow10 k then k else leadingExponent f a (k + 1)

/-- For `a > 0`, the integer `x` with `10 ^ x ≤ a < 10 ^ (x + 1)`. -/
def floorLog10 (a : ℚ) : Int :=
  if 1 ≤ a then ((Nat.toDigits 10 (Int.floor a).toNat).length : Int) - 1
  else -(leadingExponent 400 a 1 : Int)

/-- Drop the zeros at the end of a digit string. -/
def stripTrailingZeros (ds : List Char) : List Char :=
  (ds.reverse.dropWhile (fun c => c = '0')).reverse

/-- The digits of `n`, padded on the left with zeros to `width` digits. -/
def paddedDigits (width n : Nat) : List Char :=
  let ds := Nat.toDigits 10 n
  List.replicate (width - ds.length) '0' ++ ds

/-- The conversion `%g` of `printf` for a non-zero finite magnitude `a`: six
significant digits, fixed notation when the decimal exponent `x` satisfies
`-4 ≤ x < 6` and exponent notation otherwise, trailing zeros removed. -/
def formatMagnitude (a : ℚ) : List Char :=
  let x0 := floorLog10 a
  let n0 := (roundHalfEven (a / pow10 (x0 - 5))).toNat
  let x := if n0 = 1000000 then x0 + 1 else x0
  let n := if n0 = 1000000 then 100000 else n0
  let ds := paddedDigits 6 n
  if x < -4 ∨ 6 ≤ x then
    let frac := stripTrailingZeros (ds.drop 1)
    ds.take 1 ++ (if frac = [] then [] else '.' :: frac) ++
      ['e', if x < 0 then '-' else '+'] ++ paddedDigits 2 x.natAbs
  else if 0 ≤ x then
    let frac := stripTrailingZeros (ds.drop (x.toNat + 1))
    ds.take (x.toNat + 1) ++ (if frac = [] then [] else '.' :: frac)
  else
    '0' :: '.' :: (List.replicate (x.natAbs - 1) '0' ++ stripTrailingZeros ds)

/-- The text `printf("%g", x)` writes.  A NaN is written `-nan` when its sign
bit is set, as that of the default NaN is, and `nan` otherwise. -/
def formatG : Number → String
  | fin q =>
    if q = 0 then "0"
    else String.mk ((if q < 0 then ['-'] else []) ++ formatMagnitude |q|)
  | negZero => "-0"
  | inf s => if s then "-inf" else "inf"
  | nan s => if s then "-nan" else "nan"

end Number

/-! ## Tokens -/

/-- The C enumeration `TokenType`. -/
inductive TokenType where
  | TOKEN_NUMBER | TOKEN_IDENTIFIER | TOKEN_STRING
  | TOKEN_PLUS | TOKEN_MINUS | TOKEN_MULTIPLY | TOKEN_DIVIDE | TOKEN_MODULO
  | TOKEN_ASSIGN | TOKEN_EQUALS | TOKEN_NOT_EQUALS
  | TOKEN_GT | TOKEN_GTE | TOKEN_LT | TOKEN_LTE
  | TOKEN_AND | TOKEN_OR
  | TOKEN_LPAREN | TOKEN_RPAREN | TOKEN_LBRACE | TOKEN_RBRACE
  | TOKEN_SEMICOLON | TOKEN_COMMA
  | TOKEN_LET | TOKEN_IF | TOKEN_ELSE | TOKEN_WHILE | TOKEN_FUNCTION | TOKEN_RETURN
  | TOKEN_TRUE | TOKEN_FALSE | TOKEN_PRINT | TOKEN_IMPORT
  | TOKEN_EOF
deriving DecidableEq

/-- The C struct `Token`: a type and, for a number, an identifier or a string,
the member of the union `value` that the lexer sets. -/
inductive Token where
  | number (number_value : Number)
  | identifier (string_value : String)
  | string (string_value : String)
  | plain (type : TokenType)
deriving DecidableEq

namespace Token

/-- The member `type` of a token. -/
def type : Token → TokenType
  | number _ => .TOKEN_NUMBER
  | identifier _ => .TOKEN_IDENTIFIER
  | string _ => .TOKEN_STRING
  | plain t => t

/-- The member `value.string_value` of a token.  It is set for identifiers and
strings only; reading it from another token is not defined. -/
def string_value? : Token → Option String
  | identifier s => some s
  | string s => some s
  | _ => none

/-- The end-of-input token. -/
def eof : Token := plain .TOKEN_EOF

end Token

/-! ## Lexer -/

/-- The C function `isspace` in the C locale. -/
def isspace (c : Char) : Bool :=
  c = ' ' || c = '\t' || c = '\n' || c = '\x0b' || c = '\x0c' || c = '\r'

/-- The C function `isdigit`. -/
def isdigit (c : Char) : Bool := '0' ≤ c && c ≤ '9'

/-- The C function `isalpha` in the C locale. -/
def isalpha (c : Char) : Bool := ('a' ≤ c && c ≤ 'z') || ('A' ≤ c && c ≤ 'Z')

/-- The C function `isalnum` in the C locale. -/
def isalnum (c : Char) : Bool := isalpha c || isdigit c

/-- Number of bytes of a text. -/
def byteLength (cs : List Char) : Nat := (cs.map Char.utf8Size).sum

/-- The state of a `Lexer` is the input from the cursor on: `current_char` is
its first character, or NUL when it is empty.  `create_lexer` measures the
input with `strlen`, so the input ends at its first NUL. -/
def create_lexer (input : List Char) : List Char :=
  input.takeWhile (fun c => c ≠ '\x00')

/-- One call of `advance_lexer`. -/
def advance_lexer (cs : List Char) : List Char := cs.tail

/-- The function `skip_whitespace`. -/
def skip_whitespace (cs : List Char) : List Char := cs.dropWhile isspace

/-- The function `get_number_token`.  The text of the number goes to a buffer of
64 bytes, NUL included. -/
def get_number_token (cs : List Char) : Outcome (Token × List Char) :=
  let intPart := cs.takeWhile isdigit
  let rest := cs.dropWhile isdigit
  match rest with
  | '.' :: rest' =>
    let fracPart := rest'.takeWhile isdigit
    if intPart.length + 1 + fracPart.length < 64 then
      .ok (.number (Number.atof intPart (some fracPart)), rest'.dropWhile isdigit)
    else .undefined
  | _ =>
    if intPart.length < 64 then .ok (.number (Number.atof intPart none), rest)
    else .undefined

/-- The keyword table of `get_identifier_token`. -/
def keyword_type (identifier : String) : Option TokenType :=
  if identifier = "let" then some .TOKEN_LET
  else if identifier = "if" then some .TOKEN_IF
  else if identifier = "else" then some .TOKEN_ELSE
  else if identifier = "while" then some .TOKEN_WHILE
  else if identifier = "function" then some .TOKEN_FUNCTION
  else if identifier = "return" then some .TOKEN_RETURN
  else if identifier = "true" then some .TOKEN_TRUE
  else if identifier = "false" then some .TOKEN_FALSE
  else if identifier = "print" then some .TOKEN_PRINT
  else if identifier = "import" then some .TOKEN_IMPORT
  else none

/-- The function `get_identifier_token`.  The name goes to a buffer of 256
bytes, NUL included. -/
def get_identifier_token (cs : List Char) : Outcome (Token × List Char) :=
  let identifier := cs.takeWhile (fun c => isalnum c || c = '_')
  let rest := cs.dropWhile (fun c => isalnum c || c = '_')
  if identifier.length < 256 then
    match keyword_type (String.mk identifier) with
    | some t => .ok (.plain t, rest)
    | none => .ok (.identifier (String.mk identifier), rest)
  else .undefined

/-- The function `get_string_token`, called with the cursor on the opening
quote.  The text goes to a buffer of 1024 bytes, NUL included.  The last
`advance_lexer` steps over the closing quote, or over the end of the input. -/
def get_string_token (cs : List Char) : Outcome (Token × List Char) :=
  let body := advance_lexer cs
  let string := body.takeWhile (fun c => c ≠ '"')
  let rest := body.dropWhile (fun c => c ≠ '"')
  if byteLength string < 1024 then .ok (.string (String.mk string), advance_lexer rest)
  else .undefined

/-- The loop of `get_next_token`; the first argument is fuel, one unit for each
pass through the loop. -/
def get_next_token_loop : Nat → List Char → Outcome (Token × List Char)
  | 0, _ => .outOfFuel
  | fuel + 1, cs =>
    match cs with
    | [] => .ok (Token.eof, [])
    | c :: rest =>
      if isspace c then get_next_token_loop fuel (skip_whitespace cs)
      else if isdigit c then get_number_token cs
      else if isalpha c || c = '_' then get_identifier_token cs
      else if c = '"' then get_string_token cs
      else if c = '+' then .ok (.plain .TOKEN_PLUS, rest)
      else if c = '-' then .ok (.plain .TOKEN_MINUS, rest)
      else if c = '*' then .ok (.plain .TOKEN_MULTIPLY, rest)
      else if c = '/' then
        match rest with
        | '/' :: _ => get_next_token_loop fuel (rest.dropWhile (fun c => c ≠ '\n'))
        | _ => .ok (.plain .TOKEN_DIVIDE, rest)
      else if c = '=' then
        match rest with
        | '=' :: rest' => .ok (.plain .TOKEN_EQUALS, rest')
        | _ => .ok (.plain .TOKEN_ASSIGN, rest)
      else if c = '>' then
        match rest with
        | '=' :: rest' => .ok (.plain .TOKEN_GTE, rest')
        | _ => .ok (.plain .TOKEN_GT, rest)
      else if c = '<' then
        match rest with
        | '=' :: rest' => .ok (.plain .TOKEN_LTE, rest')
        | _ => .ok (.plain .TOKEN_LT, rest)
      else if c = '!' then
        match rest with
        | '=' :: rest' => .ok (.plain .TOKEN_NOT_EQUALS, rest')
        | _ => .fatal ""
      else if c = '&' && rest.head? = some '&' then .ok (.plain .TOKEN_AND, rest.tail)
      else if c = '|' && rest.head? = some '|' then .ok (.plain .TOKEN_OR, rest.tail)
      else if c = '(' then .ok (.plain .TOKEN_LPAREN, rest)
      else if c = ')' then .ok (.plain .TOKEN_RPAREN, rest)
      else if c = '{' then .ok (.plain .TOKEN_LBRACE, rest)
      else if c = '}' then .ok (.plain .TOKEN_RBRACE, rest)
      else if c = ';' then .ok (.plain .TOKEN_SEMICOLON, rest)
      else if c = ',' then .ok (.plain .TOKEN_COMMA, rest)
      else if c = '%' then .ok (.plain .TOKEN_MODULO, rest)
      else .fatal ""

/-- The function `get_next_token`: the next token and the lexer state after it.
Every pass through its loop but the last one consumes input, so the length of
the input bounds the number of passes. -/
def get_next_token (cs : List Char) : Outcome (Token × List Char) :=
  get_next_token_loop (cs.length + 1) cs

/-- The loop of `tokenize`; the first argument is fuel, one unit for each
token. -/
def tokenize_loop : Nat → List Char → Outcome (List Token)
  | 0, _ => .outOfFuel
  | fuel + 1, cs =>
    match get_next_token cs with
    | .ok (token, rest) =>
      if token.type = .TOKEN_EOF then .ok [token]
      else
        match tokenize_loop fuel rest with
        | .ok tokens => .ok (token :: tokens)
        | .fatal out => .fatal out
        | .undefined => .undefined
        | .outOfFuel => .outOfFuel
    | .fatal out => .fatal out
    | .undefined => .undefined
    | .outOfFuel => .outOfFuel

/-- The capacity of the array `tokens` of `tokenize` once `count` tokens are
stored by its loop: 1024 at first, doubled each time the loop meets a full
array. -/
def token_capacity (count : Nat) : Nat :=
  (List.range count).foldl (fun capacity k => if k ≥ capacity then 2 * capacity else capacity)
    1024

/-- The function `tokenize` applied to a fresh lexer: all tokens of the input,
the end-of-input token last.  Every token but the last consumes input.  The
end-of-input token is stored after the loop, without the test of the capacity
the loop makes: when the array is full then, it is written past its end. -/
def tokenize (input : List Char) : Outcome (List Token) :=
  match tokenize_loop ((create_lexer input).length + 1) (create_lexer input) with
  | .ok tokens =>
    if tokens.length - 1 < token_capacity (tokens.length - 1) then .ok tokens else .undefined
  | .fatal out => .fatal out
  | .undefined => .undefined
  | .outOfFuel => .outOfFuel

/-! ## Syntax trees -/

/-- The value of a literal node: the union `value` with its tag `value_type`
(`'n'`, `'s'` or `'b'`). -/
inductive LiteralValue where
  | number (number : Number)
  | string (string : String)
  | boolean (boolean : Bool)
deriving DecidableEq

/-- The C struct `ASTNode`, one constructor for each `NodeType`.  An absent
`alternate` (a null pointer) is `none`. -/
inductive ASTNode where
  | program (body : List ASTNode)
  | block_statement (body : List ASTNode)
  | variable_declaration (name : String) (value : ASTNode)
  | assignment_expression (name : String) (value : ASTNode)
  | binary_expression (operator : String) (left right : ASTNode)
  | logical_expression (operator : String) (left right : ASTNode)
  | literal (value : LiteralValue)
  | identifier (name : String)
  | if_statement (test consequent : ASTNode) (alternate : Option ASTNode)
  | while_statement (test body : ASTNode)
  | function_declaration (name : String) (params : List String) (body : ASTNode)
  | call_expression (name : String) (arguments : List ASTNode)
  | return_statement (argument : ASTNode)
  | print_statement (argument : ASTNode)
  | import_statement (path : String)

mutual
/-- Structural equality test on syntax trees. -/
def ASTNode.beq : ASTNode → ASTNode → Bool
  | .program x, .program y => ASTNode.beqList x y
  | .block_statement x, .block_statement y => ASTNode.beqList x y
  | .variable_declaration n v, .variable_declaration n' v' => n = n' && ASTNode.beq v v'
  | .assignment_expression n v, .assignment_expression n' v' => n = n' && ASTNode.beq v v'
  | .binary_expression o l r, .binary_expression o' l' r' =>
    o = o' && ASTNode.beq l l' && ASTNode.beq r r'
  | .logical_expression o l r, .logical_expression o' l' r' =>
    o = o' && ASTNode.beq l l' && ASTNode.beq r r'
  | .literal v, .literal v' => v = v'
  | .identifier n, .identifier n' => n = n'
  | .if_statement t c a, .if_statement t' c' a' =>
    ASTNode.beq t t' && ASTNode.beq c c' && ASTNode.beqOption a a'
  | .while_statement t b, .while_statement t' b' => ASTNode.beq t t' && ASTNode.beq b b'
  | .function_declaration n p b, .function_declaration n' p' b' =>
    n = n' && p = p' && ASTNode.beq b b'
  | .call_expression n a, .call_expression n' a' => n = n' && ASTNode.beqList a a'
  | .return_statement a, .return_statement a' => ASTNode.beq a a'
  | .print_statement a, .print_statement a' => ASTNode.beq a a'
  | .import_statement p, .import_statement p' => p = p'
  | _, _ => false
/-- Structural equality test on lists of syntax trees. -/
def ASTNode.beqList : List ASTNode → List ASTNode → Bool
  | [], [] => true
  | x :: xs, y :: ys => ASTNode.beq x y && ASTNode.beqList xs ys
  | _, _ => false
/-- Structural equality test on optional syntax trees. -/
def ASTNode.beqOption : Option ASTNode → Option ASTNode → Bool
  | none, none => true
  | some x, some y => ASTNode.beq x y
  | _, _ => false
end

/-! ## Parser -/

/-- A parsing function: from the tokens not yet consumed (`current_token` is
the first of them) to a result and the tokens left. -/
abbrev Parser (α : Type) := List Token → Outcome (α × List Token)

/-- The member `current_token` of the parser.  Past the last token its type is
`TOKEN_EOF`. -/
def current_token (ts : List Token) : Token := ts.headD Token.eof

/-- The function `advance_parser` of the source. -/
def advance_tokens (ts : List Token) : List Token := ts.tail

/-- The function `eat`. -/
def eat (type : TokenType) : Parser Token := fun ts =>
  if (current_token ts).type = type then .ok (current_token ts, advance_tokens ts)
  else .fatal ""

/-- The function `eat` for a token whose `string_value` is then read. -/
def eat_string_value (type : TokenType) : Parser String := fun ts =>
  match eat type ts with
  | .ok (token, ts') =>
    match token.string_value? with
    | some s => .ok (s, ts')
    | none => .undefined
  | .fatal out => .fatal out
  | .undefined => .undefined
  | .outOfFuel => .outOfFuel

/-- The loop of `parse_function_call` over the arguments that follow a comma;
fuel first. -/
def parse_arguments_loop (parse_expression : Parser ASTNode) :
    Nat → List ASTNode → Parser (List ASTNode)
  | 0, _, _ => .outOfFuel
  | fuel + 1, arguments, ts =>
    if (current_token ts).type = .TOKEN_COMMA then
      match parse_expression (advance_tokens ts) with
      | .ok (argument, ts') =>
        parse_arguments_loop parse_expression fuel (arguments ++ [argument]) ts'
      | .fatal out => .fatal out
      | .undefined => .undefined
      | .outOfFuel => .outOfFuel
    else .ok (arguments, ts)

/-- The function `parse_function_call`; `parse_expression` is the recursive
reference. -/
def parse_function_call (parse_expression : Parser ASTNode) (name : String) :
    Parser ASTNode := fun ts => do
  let (_, ts) ← eat .TOKEN_LPAREN ts
  let (arguments, ts) ←
    if (current_token ts).type ≠ .TOKEN_RPAREN then do
      let (argument, ts) ← parse_expression ts
      parse_arguments_loop parse_expression (ts.length + 1) [argument] ts
    else (Outcome.ok ([], ts) : Outcome (List ASTNode × List Token))
  let (_, ts) ← eat .TOKEN_RPAREN ts
  return (.call_expression name arguments, ts)

/-- The function `parse_primary`. -/
def parse_primary (parse_expression : Parser ASTNode) : Parser ASTNode := fun ts =>
  match current_token ts with
  | .number v => .ok (.literal (.number v), advance_tokens ts)
  | .string s => .ok (.literal (.string s), advance_tokens ts)
  | .plain .TOKEN_TRUE => .ok (.literal (.boolean true), advance_tokens ts)
  | .plain .TOKEN_FALSE => .ok (.literal (.boolean false), advance_tokens ts)
  | .identifier name =>
    if (current_token (advance_tokens ts)).type = .TOKEN_LPAREN then
      parse_function_call parse_expression name (advance_tokens ts)
    else .ok (.identifier name, advance_tokens ts)
  | .plain .TOKEN_LPAREN => do
    let (node, ts) ← parse_expression (advance_tokens ts)
    let (_, ts) ← eat .TOKEN_RPAREN ts
    return (node, ts)
  | .plain .TOKEN_NUMBER => .undefined
  | .plain .TOKEN_STRING => .undefined
  | .plain .TOKEN_IDENTIFIER => .undefined
  | _ => .fatal ""

/-- The loop shared by the six functions for binary operators: while the
current token is an operator of the level, eat it, parse the right operand and
make the node the new left operand.  Fuel first. -/
def binary_loop (operator : TokenType → Option String)
    (node : String → ASTNode → ASTNode → ASTNode) (operand : Parser ASTNode) :
    Nat → ASTNode → Parser ASTNode
  | 0, _, _ => .outOfFuel
  | fuel + 1, left, ts =>
    match operator (current_token ts).type with
    | some op =>
      match operand (advance_tokens ts) with
      | .ok (right, ts') => binary_loop operator node operand fuel (node op left right) ts'
      | .fatal out => .fatal out
      | .undefined => .undefined
      | .outOfFuel => .outOfFuel
    | none => .ok (left, ts)

/-- A function for one level of binary operators: a first operand, then the
loop.  Every pass of the loop consumes a token. -/
def binary_level (operator : TokenType → Option String)
    (node : String → ASTNode → ASTNode → ASTNode) (operand : Parser ASTNode) :
    Parser ASTNode := fun ts =>
  match operand ts with
  | .ok (left, ts') => binary_loop operator node operand (ts'.length + 1) left ts'
  | .fatal out => .fatal out
  | .undefined => .undefined
  | .outOfFuel => .outOfFuel

/-- Operators of `parse_multiplication`. -/
def multiplication_operator : TokenType → Option String
  | .TOKEN_MULTIPLY => some "*"
  | .TOKEN_DIVIDE => some "/"
  | .TOKEN_MODULO => some "%"
  | _ => none

/-- Operators of `parse_addition`. -/
def addition_operator : TokenType → Option String
  | .TOKEN_PLUS => some "+"
  | .TOKEN_MINUS => some "-"
  | _ => none

/-- Operators of `parse_comparison`. -/
def comparison_operator : TokenType → Option String
  | .TOKEN_GT => some ">"
  | .TOKEN_GTE => some ">="
  | .TOKEN_LT => some "<"
  | .TOKEN_LTE => some "<="
  | _ => none

/-- Operators of `parse_equality`. -/
def equality_operator : TokenType → Option String
  | .TOKEN_EQUALS => some "=="
  | .TOKEN_NOT_EQUALS => some "!="
  | _ => none

/-- Operator of `parse_logical_and`. -/
def logical_and_operator : TokenType → Option String
  | .TOKEN_AND => some "&&"
  | _ => none

/-- Operator of `parse_logical_or`. -/
def logical_or_operator : TokenType → Option String
  | .TOKEN_OR => some "||"
  | _ => none

/-- The function `parse_multiplication`. -/
def parse_multiplication (parse_expression : Parser ASTNode) : Parser ASTNode :=
  binary_level multiplication_operator .binary_expression (parse_primary parse_expression)

/-- The function `parse_addition`. -/
def parse_addition (parse_expression : Parser ASTNode) : Parser ASTNode :=
  binary_level addition_operator .binary_expression (parse_multiplication parse_expression)

/-- The function `parse_comparison`. -/
def parse_comparison (parse_expression : Parser ASTNode) : Parser ASTNode :=
  binary_level comparison_operator .binary_expression (parse_addition parse_expression)

/-- The function `parse_equality`. -/
def parse_equality (parse_expression : Parser ASTNode) : Parser ASTNode :=
  binary_level equality_operator .binary_expression (parse_comparison parse_expression)

/-- The function `parse_logical_and`. -/
def parse_logical_and (parse_expression : Parser ASTNode) : Parser ASTNode :=
  binary_level logical_and_operator .logical_expression (parse_equality parse_expression)

/-- The function `parse_logical_or`. -/
def parse_logical_or (parse_expression : Parser ASTNode) : Parser ASTNode :=
  binary_level logical_or_operator .logical_expression (parse_logical_and parse_expression)

/-- The function `parse_expression`.  The fuel bounds the nesting of
parentheses and call arguments; each nesting consumes a token. -/
def parse_expression : Nat → Parser ASTNode
  | 0 => fun _ => .outOfFuel
  | fuel + 1 => parse_logical_or (parse_expression fuel)

/-- The loop of `parse_program` (`stop` is `TOKEN_EOF`) and of
`parse_block_statement` (`stop` is `TOKEN_RBRACE`): statements are parsed and
appended to the body until the current token has type `stop`.  Fuel first. -/
def parse_body_loop (stop : TokenType) (parse_statement : Parser ASTNode) :
    Nat → List ASTNode → Parser (List ASTNode)
  | 0, _, _ => .outOfFuel
  | fuel + 1, body, ts =>
    if (current_token ts).type ≠ stop then
      match parse_statement ts with
      | .ok (statement, ts') =>
        parse_body_loop stop parse_statement fuel (body ++ [statement]) ts'
      | .fatal out => .fatal out
      | .undefined => .undefined
      | .outOfFuel => .outOfFuel
    else .ok (body, ts)

/-- The function `parse_block_statement`; `parse_statement` is the recursive
reference. -/
def parse_block_statement (parse_statement : Parser ASTNode) : Parser ASTNode := fun ts => do
  let (_, ts) ← eat .TOKEN_LBRACE ts
  let (body, ts) ← parse_body_loop .TOKEN_RBRACE parse_statement (ts.length + 1) [] ts
  let (_, ts) ← eat .TOKEN_RBRACE ts
  return (.block_statement body, ts)

/-- The function `parse_variable_declaration`. -/
def parse_variable_declaration (parse_expression : Parser ASTNode) : Parser ASTNode :=
  fun ts => do
  let (_, ts) ← eat .TOKEN_LET ts
  let (name, ts) ← eat_string_value .TOKEN_IDENTIFIER ts
  let (_, ts) ← eat .TOKEN_ASSIGN ts
  let (value, ts) ← parse_expression ts
  let (_, ts) ← eat .TOKEN_SEMICOLON ts
  return (.variable_declaration name value, ts)

/-- The function `parse_if_statement`. -/
def parse_if_statement (parse_expression parse_statement : Parser ASTNode) :
    Parser ASTNode := fun ts => do
  let (_, ts) ← eat .TOKEN_IF ts
  let (_, ts) ← eat .TOKEN_LPAREN ts
  let (test, ts) ← parse_expression ts
  let (_, ts) ← eat .TOKEN_RPAREN ts
  let (consequent, ts) ← parse_statement ts
  if (current_token ts).type = .TOKEN_ELSE then do
    let (_, ts) ← eat .TOKEN_ELSE ts
    let (alternate, ts) ← parse_statement ts
    return (.if_statement test consequent (some alternate), ts)
  else
    return (.if_statement test consequent none, ts)

/-- The function `parse_while_statement`. -/
def parse_while_statement (parse_expression parse_statement : Parser ASTNode) :
    Parser ASTNode := fun ts => do
  let (_, ts) ← eat .TOKEN_WHILE ts
  let (_, ts) ← eat .TOKEN_LPAREN ts
  let (test, ts) ← parse_expression ts
  let (_, ts) ← eat .TOKEN_RPAREN ts
  let (body, ts) ← parse_statement ts
  return (.while_statement test body, ts)

/-- The loop of `parse_function_declaration` over the parameters that follow a
comma.  The array of parameters has room for 20 and is never enlarged.  Fuel
first. -/
def parse_params_loop : Nat → List String → Parser (List String)
  | 0, _, _ => .outOfFuel
  | fuel + 1, params, ts =>
    if (current_token ts).type = .TOKEN_COMMA then
      match eat_string_value .TOKEN_IDENTIFIER (advance_tokens ts) with
      | .ok (param, ts') =>
        if params.length < 20 then parse_params_loop fuel (params ++ [param]) ts'
        else .undefined
      | .fatal out => .fatal out
      | .undefined => .undefined
      | .outOfFuel => .outOfFuel
    else .ok (params, ts)

/-- The function `parse_function_declaration`. -/
def parse_function_declaration (parse_statement : Parser ASTNode) : Parser ASTNode :=
  fun ts => do
  let (_, ts) ← eat .TOKEN_FUNCTION ts
  let (name, ts) ← eat_string_value .TOKEN_IDENTIFIER ts
  let (_, ts) ← eat .TOKEN_LPAREN ts
  let (params, ts) ←
    if (current_token ts).type ≠ .TOKEN_RPAREN then do
      let (param, ts) ← eat_string_value .TOKEN_IDENTIFIER ts
      parse_params_loop (ts.length + 1) [param] ts
    else (Outcome.ok ([], ts) : Outcome (List String × List Token))
  let (_, ts) ← eat .TOKEN_RPAREN ts
  let (body, ts) ← parse_statement ts
  return (.function_declaration name params body, ts)

/-- The function `parse_return_statement`. -/
def parse_return_statement (parse_expression : Parser ASTNode) : Parser ASTNode :=
  fun ts => do
  let (_, ts) ← eat .TOKEN_RETURN ts
  let (argument, ts) ← parse_expression ts
  let (_, ts) ← eat .TOKEN_SEMICOLON ts
  return (.return_statement argument, ts)

/-- The function `parse_print_statement`. -/
def parse_print_statement (parse_expression : Parser ASTNode) : Parser ASTNode :=
  fun ts => do
  let (_, ts) ← eat .TOKEN_PRINT ts
  let (_, ts) ← eat .TOKEN_LPAREN ts
  let (argument, ts) ← parse_expression ts
  let (_, ts) ← eat .TOKEN_RPAREN ts
  let (_, ts) ← eat .TOKEN_SEMICOLON ts
  return (.print_statement argument, ts)

/-- The function `parse_import_statement`. -/
def parse_import_statement : Parser ASTNode := fun ts => do
  let (_, ts) ← eat .TOKEN_IMPORT ts
  let (_, ts) ← eat .TOKEN_LPAREN ts
  let (path, ts) ← eat_string_value .TOKEN_STRING ts
  let (_, ts) ← eat .TOKEN_RPAREN ts
  let (_, ts) ← eat .TOKEN_SEMICOLON ts
  return (.import_statement path, ts)

/-- The case `TOKEN_IDENTIFIER` of `parse_statement`: an assignment, a call, or
the error after the `switch`. -/
def parse_identifier_statement (parse_expression : Parser ASTNode) : Parser ASTNode :=
  fun ts => do
  let (identifier, ts) ← eat_string_value .TOKEN_IDENTIFIER ts
  if (current_token ts).type = .TOKEN_ASSIGN then do
    let (_, ts) ← eat .TOKEN_ASSIGN ts
    let (value, ts) ← parse_expression ts
    let (_, ts) ← eat .TOKEN_SEMICOLON ts
    return (.assignment_expression identifier value, ts)
  else if (current_token ts).type = .TOKEN_LPAREN then do
    let (call, ts) ← parse_function_call parse_expression identifier ts
    let (_, ts) ← eat .TOKEN_SEMICOLON ts
    return (call, ts)
  else .fatal ""

/-- The function `parse_statement`.  The fuel bounds the nesting of statements
and of expressions; each nesting consumes a token. -/
def parse_statement : Nat → Parser ASTNode
  | 0 => fun _ => .outOfFuel
  | fuel + 1 => fun ts =>
    match (current_token ts).type with
    | .TOKEN_LET => parse_variable_declaration (parse_expression fuel) ts
    | .TOKEN_IF => parse_if_statement (parse_expression fuel) (parse_statement fuel) ts
    | .TOKEN_WHILE => parse_while_statement (parse_expression fuel) (parse_statement fuel) ts
    | .TOKEN_FUNCTION => parse_function_declaration (parse_statement fuel) ts
    | .TOKEN_RETURN => parse_return_statement (parse_expression fuel) ts
    | .TOKEN_PRINT => parse_print_statement (parse_expression fuel) ts
    | .TOKEN_IMPORT => parse_import_statement ts
    | .TOKEN_IDENTIFIER => parse_identifier_statement (parse_expression fuel) ts
    | .TOKEN_LBRACE => parse_block_statement (parse_statement fuel) ts
    | _ => .fatal ""

/-- The function `parse_program`. -/
def parse_program (fuel : Nat) : Parser ASTNode := fun ts => do
  let (body, ts) ← parse_body_loop .TOKEN_EOF (parse_statement fuel) (ts.length + 1) [] ts
  return (.program body, ts)

/-- The function `parse` applied to a fresh parser for the tokens `ts`. -/
def parse (ts : List Token) : Outcome ASTNode :=
  match parse_program (ts.length + 1) ts with
  | .ok (node, _) => .ok node
  | .fatal out => .fatal out
  | .undefined => .undefined
  | .outOfFuel => .outOfFuel

/-! ## Values, scopes and the interpreter state -/

/-- The C struct `Value`.  The closure of a function is the array of scope
pointers that was the scope stack at its declaration. -/
inductive Value where
  | number (number : Number)
  | string (string : String)
  | boolean (boolean : Bool)
  | function (name : String) (params : List String) (body : ASTNode) (closure : List Nat)
  | null

/-- The C enum `ValueType`. -/
inductive ValueType where
  | VALUE_NUMBER
  | VALUE_STRING
  | VALUE_BOOLEAN
  | VALUE_FUNCTION
  | VALUE_NULL
deriving DecidableEq

/-- The member `type` of a value. -/
def Value.type : Value → ValueType
  | .number _ => .VALUE_NUMBER
  | .string _ => .VALUE_STRING
  | .boolean _ => .VALUE_BOOLEAN
  | .function _ _ _ _ => .VALUE_FUNCTION
  | .null => .VALUE_NULL

/-- The C struct `Scope`: the arrays `names` and `values`, as the list of the
pairs `(names[j], values[j])` in index order. -/
structure Scope where
  entries : List (String × Value)

/-- The C struct `Interpreter`.  The scope stack lists scope pointers, the
outermost (index 0) first.  Before the first `return`, `return_value` is not
initialised; it is then never read, and the model holds `null` there. -/
structure Interpreter where
  scope_stack : List Nat
  return_value : Value
  has_return : Bool
  base_dir : String

/-- What all interpreters of a run share: the scopes allocated so far (a scope
pointer is an index into `scopes`), the global array `imported_files`, and the
text written to standard output. -/
structure Globals where
  scopes : List Scope
  imported_files : List String
  stdout : String

/-- The result of evaluating a node: its value and the state afterwards. -/
abbrev EvalResult := Outcome (Value × Interpreter × Globals)

/-- The type of `evaluate`, as the functions for the node types receive it for
their recursive calls. -/
abbrev Eval := ASTNode → Interpreter → Globals → EvalResult

/-- The function `create_scope`: a pointer to a new empty scope. -/
def create_scope (g : Globals) : Nat × Globals :=
  (g.scopes.length, { g with scopes := g.scopes ++ [⟨[]⟩] })

/-- The function `push_scope`. -/
def push_scope (i : Interpreter) (scope : Nat) : Interpreter :=
  { i with scope_stack := i.scope_stack ++ [scope] }

/-- The function `pop_scope`. -/
def pop_scope (i : Interpreter) : Interpreter :=
  { i with scope_stack := i.scope_stack.dropLast }

/-- The function `get_current_scope`; `none` is the null pointer. -/
def get_current_scope (i : Interpreter) : Option Nat := i.scope_stack.getLast?

/-- The function `create_interpreter`. -/
def create_interpreter (g : Globals) : Interpreter × Globals :=
  let (global_scope, g) := create_scope g
  ({ scope_stack := [global_scope], return_value := .null, has_return := false,
     base_dir := "." }, g)

/-- The scope a pointer points to. -/
def Globals.scope (g : Globals) (scope : Nat) : Scope := g.scopes.getD scope ⟨[]⟩

/-- The function `define_variable`: the pair is appended to the scope. -/
def define_variable (g : Globals) (scope : Nat) (name : String) (value : Value) : Globals :=
  { g with scopes := g.scopes.modify (fun s => ⟨s.entries ++ [(name, value)]⟩) scope }

/-- The inner loop of `lookup_variable` and of `evaluate_assignment_expression`:
the first index `j` with `names[j]` equal to `name`. -/
def Scope.index_of (s : Scope) (name : String) : Option Nat :=
  s.entries.findIdx? (fun e => e.1 = name)

/-- The function `lookup_variable`.  Its result, a pointer to `values[j]` of a
scope, is the pair of the scope pointer and `j`; `none` stands for the exit
with "is not defined".  The scopes are scanned from the innermost one. -/
def lookup_variable (i : Interpreter) (g : Globals) (name : String) : Option (Nat × Nat) :=
  i.scope_stack.reverse.findSome? (fun scope =>
    ((g.scope scope).index_of name).map (fun j => (scope, j)))

/-- The value a pointer returned by `lookup_variable` points to. -/
def Globals.value_at (g : Globals) (ref : Nat × Nat) : Value :=
  match (g.scope ref.1).entries.get? ref.2 with
  | some e => e.2
  | none => .null

/-- The assignment `scope->values[j] = value`. -/
def Globals.set_value_at (g : Globals) (ref : Nat × Nat) (value : Value) : Globals :=
  { g with scopes :=
      g.scopes.modify (fun s => ⟨s.entries.modify (fun e => (e.1, value)) ref.2⟩) ref.1 }

/-- The function `is_file_imported`. -/
def is_file_imported (g : Globals) (filename : String) : Bool :=
  g.imported_files.contains filename

/-- The function `add_imported_file`. -/
def add_imported_file (g : Globals) (filename : String) : Globals :=
  { g with imported_files := g.imported_files ++ [filename] }

/-- A call of `printf` that writes `text`. -/
def Globals.print (g : Globals) (text : String) : Globals :=
  { g with stdout := g.stdout ++ text }

/-! ## Evaluator -/

/-- The text of an operand of `+` on operands of different types, built in a
buffer of 64 bytes, NUL included; `none` when a string does not fit. -/
def operand_text : Value → Option String
  | .number n => some (Number.formatG n)
  | .string s => if s.utf8ByteSize < 64 then some s else none
  | .boolean b => some (if b then "true" else "false")
  | _ => some "null"

/-- The part of `evaluate_binary_expression` after the operands are evaluated;
`out` is the text on standard output.  With two numbers and an operator that is
none of those tested, the number returned is not initialised. -/
def binary_operation (out : String) (operator : String) : Value → Value → Outcome Value
  | .number l, .number r =>
    if operator = "+" then .ok (.number (Number.add l r))
    else if operator = "-" then .ok (.number (Number.sub l r))
    else if operator = "*" then .ok (.number (Number.mul l r))
    else if operator = "/" then .ok (.number (Number.div l r))
    else if operator = "%" then
      match Number.intRemainder l r with
      | some n => .ok (.number n)
      | none => .undefined
    else if operator = "==" then .ok (.boolean (Number.eq l r))
    else if operator = "!=" then .ok (.boolean (!Number.eq l r))
    else if operator = ">" then .ok (.boolean (Number.lt r l))
    else if operator = ">=" then .ok (.boolean (Number.le r l))
    else if operator = "<" then .ok (.boolean (Number.lt l r))
    else if operator = "<=" then .ok (.boolean (Number.le l r))
    else .undefined
  | .string l, .string r =>
    if operator = "+" then .ok (.string (l ++ r))
    else if operator = "==" then .ok (.boolean (l = r))
    else if operator = "!=" then .ok (.boolean (l ≠ r))
    else .fatal out
  | .boolean l, .boolean r =>
    if operator = "==" then .ok (.boolean (l = r))
    else if operator = "!=" then .ok (.boolean (l ≠ r))
    else .fatal out
  | left, right =>
    if operator = "+" then
      match operand_text left, operand_text right with
      | some l, some r => .ok (.string (l ++ r))
      | _, _ => .undefined
    else if operator = "==" then .ok (.boolean false)
    else if operator = "!=" then .ok (.boolean true)
    else .fatal out

/-- The function `evaluate_program`, from its loop on. -/
def evaluate_program (evaluate : Eval) :
    List ASTNode → Value → Interpreter → Globals → EvalResult
  | [], result, i, g => .ok (result, i, g)
  | statement :: body, _, i, g =>
    match evaluate statement i g with
    | .ok (result, i, g) =>
      if i.has_return then .ok (i.return_value, i, g)
      else evaluate_program evaluate body result i g
    | .fatal out => .fatal out
    | .undefined => .undefined
    | .outOfFuel => .outOfFuel

/-- The loop of `evaluate_block_statement`. -/
def evaluate_block_body (evaluate : Eval) :
    List ASTNode → Value → Interpreter → Globals → EvalResult
  | [], result, i, g => .ok (result, i, g)
  | statement :: body, _, i, g =>
    match evaluate statement i g with
    | .ok (result, i, g) =>
      if i.has_return then .ok (result, i, g)
      else evaluate_block_body evaluate body result i g
    | .fatal out => .fatal out
    | .undefined => .undefined
    | .outOfFuel => .outOfFuel

/-- The function `evaluate_block_statement`. -/
def evaluate_block_statement (evaluate : Eval) (body : List ASTNode) (i : Interpreter)
    (g : Globals) : EvalResult :=
  let (scope, g) := create_scope g
  match evaluate_block_body evaluate body .null (push_scope i scope) g with
  | .ok (result, i, g) => .ok (result, pop_scope i, g)
  | .fatal out => .fatal out
  | .undefined => .undefined
  | .outOfFuel => .outOfFuel

/-- The function `evaluate_variable_declaration`. -/
def evaluate_variable_declaration (evaluate : Eval) (name : String) (value : ASTNode)
    (i : Interpreter) (g : Globals) : EvalResult :=
  match evaluate value i g with
  | .ok (value, i, g) =>
    match get_current_scope i with
    | some scope => .ok (value, i, define_variable g scope name value)
    | none => .undefined
  | .fatal out => .fatal out
  | .undefined => .undefined
  | .outOfFuel => .outOfFuel

/-- The function `evaluate_assignment_expression`. -/
def evaluate_assignment_expression (evaluate : Eval) (name : String) (value : ASTNode)
    (i : Interpreter) (g : Globals) : EvalResult :=
  match evaluate value i g with
  | .ok (value, i, g) =>
    match lookup_variable i g name with
    | some ref => .ok (value, i, g.set_value_at ref value)
    | none => .fatal g.stdout
  | .fatal out => .fatal out
  | .undefined => .undefined
  | .outOfFuel => .outOfFuel

/-- The function `evaluate_binary_expression`. -/
def evaluate_binary_expression (evaluate : Eval) (operator : String) (left right : ASTNode)
    (i : Interpreter) (g : Globals) : EvalResult :=
  match evaluate left i g with
  | .ok (left, i, g) =>
    match evaluate right i g with
    | .ok (right, i, g) =>
      match binary_operation g.stdout operator left right with
      | .ok result => .ok (result, i, g)
      | .fatal out => .fatal out
      | .undefined => .undefined
      | .outOfFuel => .outOfFuel
    | .fatal out => .fatal out
    | .undefined => .undefined
    | .outOfFuel => .outOfFuel
  | .fatal out => .fatal out
  | .undefined => .undefined
  | .outOfFuel => .outOfFuel

/-- The boolean a logical expression yields from its right operand. -/
def boolean_or_false : Value → Value
  | .boolean b => .boolean b
  | _ => .boolean false

/-- The function `evaluate_logical_expression`.  With an operator other than
`&&` and `||` the value returned is not initialised. -/
def evaluate_logical_expression (evaluate : Eval) (operator : String) (left right : ASTNode)
    (i : Interpreter) (g : Globals) : EvalResult :=
  match evaluate left i g with
  | .ok (left, i, g) =>
    if operator = "&&" then
      match left with
      | .boolean false => .ok (.boolean false, i, g)
      | _ =>
        match evaluate right i g with
        | .ok (right, i, g) => .ok (boolean_or_false right, i, g)
        | .fatal out => .fatal out
        | .undefined => .undefined
        | .outOfFuel => .outOfFuel
    else if operator = "||" then
      match left with
      | .boolean true => .ok (.boolean true, i, g)
      | _ =>
        match evaluate right i g with
        | .ok (right, i, g) => .ok (boolean_or_false right, i, g)
        | .fatal out => .fatal out
        | .undefined => .undefined
        | .outOfFuel => .outOfFuel
    else .undefined
  | .fatal out => .fatal out
  | .undefined => .undefined
  | .outOfFuel => .outOfFuel

/-- The function `evaluate_literal`. -/
def evaluate_literal (value : LiteralValue) (i : Interpreter) (g : Globals) : EvalResult :=
  match value with
  | .number n => .ok (.number n, i, g)
  | .string s => .ok (.string s, i, g)
  | .boolean b => .ok (.boolean b, i, g)

/-- The function `evaluate_identifier`. -/
def evaluate_identifier (name : String) (i : Interpreter) (g : Globals) : EvalResult :=
  match lookup_variable i g name with
  | some ref => .ok (g.value_at ref, i, g)
  | none => .fatal g.stdout

/-- The function `evaluate_if_statement`. -/
def evaluate_if_statement (evaluate : Eval) (test consequent : ASTNode)
    (alternate : Option ASTNode) (i : Interpreter) (g : Globals) : EvalResult :=
  match evaluate test i g with
  | .ok (test, i, g) =>
    match test, alternate with
    | .boolean true, _ => evaluate consequent i g
    | _, some alternate => evaluate alternate i g
    | _, none => .ok (.null, i, g)
  | .fatal out => .fatal out
  | .undefined => .undefined
  | .outOfFuel => .outOfFuel

/-- The function `evaluate_while_statement`, from its loop on; the first
argument after `body` is fuel, one unit for each pass. -/
def evaluate_while_statement (evaluate : Eval) (test body : ASTNode) :
    Nat → Value → Interpreter → Globals → EvalResult
  | 0, _, _, _ => .outOfFuel
  | fuel + 1, result, i, g =>
    match evaluate test i g with
    | .ok (.boolean true, i, g) =>
      match evaluate body i g with
      | .ok (result, i, g) =>
        if i.has_return then .ok (result, i, g)
        else evaluate_while_statement evaluate test body fuel result i g
      | .fatal out => .fatal out
      | .undefined => .undefined
      | .outOfFuel => .outOfFuel
    | .ok (_, i, g) => .ok (result, i, g)
    | .fatal out => .fatal out
    | .undefined => .undefined
    | .outOfFuel => .outOfFuel

/-- The function `evaluate_function_declaration`. -/
def evaluate_function_declaration (name : String) (params : List String) (body : ASTNode)
    (i : Interpreter) (g : Globals) : EvalResult :=
  let result := Value.function name params body i.scope_stack
  match get_current_scope i with
  | some scope => .ok (result, i, define_variable g scope name result)
  | none => .undefined

/-- The loop of `evaluate_call_expression` that evaluates the arguments. -/
def evaluate_arguments (evaluate : Eval) :
    List ASTNode → List Value → Interpreter → Globals →
      Outcome (List Value × Interpreter × Globals)
  | [], args, i, g => .ok (args, i, g)
  | argument :: arguments, args, i, g =>
    match evaluate argument i g with
    | .ok (value, i, g) => evaluate_arguments evaluate arguments (args ++ [value]) i g
    | .fatal out => .fatal out
    | .undefined => .undefined
    | .outOfFuel => .outOfFuel

/-- The loop of `evaluate_call_expression` that binds the parameters: parameter
`k` to argument `k`, or to null when there are fewer arguments. -/
def bind_parameters (local_scope : Nat) : List String → List Value → Globals → Globals
  | [], _, g => g
  | param :: params, [], g =>
    bind_parameters local_scope params [] (define_variable g local_scope param .null)
  | param :: params, arg :: args, g =>
    bind_parameters local_scope params args (define_variable g local_scope param arg)

/-- The function `evaluate_call_expression`.  `func_value` points into a scope
and is read again after the arguments are evaluated; if the value there is then
no function, the members read are those of another member of the union. -/
def evaluate_call_expression (evaluate : Eval) (name : String) (arguments : List ASTNode)
    (i : Interpreter) (g : Globals) : EvalResult :=
  match lookup_variable i g name with
  | none => .fatal g.stdout
  | some func_value =>
    match g.value_at func_value with
    | .function _ _ _ _ =>
      match evaluate_arguments evaluate arguments [] i g with
      | .ok (args, i, g) =>
        let previous_scope := i.scope_stack
        match g.value_at func_value with
        | .function _ params body closure =>
          let (local_scope, g) := create_scope g
          let i := push_scope { i with scope_stack := closure } local_scope
          let g := bind_parameters local_scope params args g
          match evaluate body i g with
          | .ok (result, i, g) =>
            let i := { i with scope_stack := previous_scope }
            if i.has_return then .ok (i.return_value, { i with has_return := false }, g)
            else .ok (result, i, g)
          | .fatal out => .fatal out
          | .undefined => .undefined
          | .outOfFuel => .outOfFuel
        | _ => .undefined
      | .fatal out => .fatal out
      | .undefined => .undefined
      | .outOfFuel => .outOfFuel
    | _ => .fatal g.stdout

/-- The function `evaluate_return_statement`. -/
def evaluate_return_statement (evaluate : Eval) (argument : ASTNode) (i : Interpreter)
    (g : Globals) : EvalResult :=
  match evaluate argument i g with
  | .ok (value, i, g) => .ok (value, { i with return_value := value, has_return := true }, g)
  | .fatal out => .fatal out
  | .undefined => .undefined
  | .outOfFuel => .outOfFuel

/-- The text `evaluate_print_statement` writes for a value, before the newline. -/
def print_text : Value → String
  | .number n => Number.formatG n
  | .string s => s
  | .boolean b => if b then "true" else "false"
  | .function name _ _ _ => "[Function: " ++ name ++ "]"
  | .null => "null"

/-- The function `evaluate_print_statement`. -/
def evaluate_print_statement (evaluate : Eval) (argument : ASTNode) (i : Interpreter)
    (g : Globals) : EvalResult :=
  match evaluate argument i g with
  | .ok (value, i, g) => .ok (value, i, g.print (print_text value ++ "\n"))
  | .fatal out => .fatal out
  | .undefined => .undefined
  | .outOfFuel => .outOfFuel

/-- The part of a path before its last `/` (`strrchr`, then a NUL written over
the slash); `none` when the path has no slash. -/
def directory_of (full_path : String) : Option String :=
  let cs := full_path.toList
  if cs.contains '/' then
    some (String.mk ((cs.reverse.dropWhile (fun c => c ≠ '/')).tail.reverse))
  else none

/-- The function `process_import`.  After the evaluation `scope_stack[0]` is set
to the null pointer and `free_interpreter` passes every entry of the scope stack
to `free_scope`, which reads `scope->length`. -/
def process_import (evaluate : Eval) (code : String) (global_scope : Option Nat)
    (base_dir : String) (g : Globals) : Outcome (Value × Globals) :=
  match tokenize code.toList with
  | .ok tokens =>
    match parse tokens with
    | .ok ast =>
      match global_scope with
      | some global_scope =>
        let (interpreter, g) := create_interpreter g
        let interpreter :=
          { interpreter with base_dir := base_dir, scope_stack := [global_scope] }
        match evaluate ast interpreter g with
        | .ok (result, interpreter, g) =>
          if interpreter.scope_stack.length = 0 then .ok (result, g) else .undefined
        | .fatal out => .fatal out
        | .undefined => .undefined
        | .outOfFuel => .outOfFuel
      | none => .undefined
    | .fatal _ => .fatal g.stdout
    | .undefined => .undefined
    | .outOfFuel => .outOfFuel
  | .fatal _ => .fatal g.stdout
  | .undefined => .undefined
  | .outOfFuel => .outOfFuel

/-- The function `evaluate_import_statement`; `read_file` is the C function of
that name, `none` being its null result. -/
def evaluate_import_statement (read_file : String → Option String) (evaluate : Eval)
    (path : String) (i : Interpreter) (g : Globals) : EvalResult :=
  let full_path := i.base_dir ++ "/" ++ path
  if is_file_imported g full_path then .ok (.null, i, g)
  else
    let g := add_imported_file g full_path
    match read_file full_path with
    | none => .fatal g.stdout
    | some code =>
      let base_dir := (directory_of full_path).getD i.base_dir
      match process_import evaluate code (get_current_scope i) base_dir g with
      | .ok (result, g) => .ok (result, i, g)
      | .fatal out => .fatal out
      | .undefined => .undefined
      | .outOfFuel => .outOfFuel

/-- The function `evaluate`.  The fuel bounds the depth of the recursion and
the number of passes of each `while` loop. -/
def evaluate (read_file : String → Option String) : Nat → Eval
  | 0 => fun _ _ _ => .outOfFuel
  | fuel + 1 => fun node i g =>
    match node with
    | .program body => evaluate_program (evaluate read_file fuel) body .null i g
    | .block_statement body => evaluate_block_statement (evaluate read_file fuel) body i g
    | .variable_declaration name value =>
      evaluate_variable_declaration (evaluate read_file fuel) name value i g
    | .assignment_expression name value =>
      evaluate_assignment_expression (evaluate read_file fuel) name value i g
    | .binary_expression operator left right =>
      evaluate_binary_expression (evaluate read_file fuel) operator left right i g
    | .logical_expression operator left right =>
      evaluate_logical_expression (evaluate read_file fuel) operator left right i g
    | .literal value => evaluate_literal value i g
    | .identifier name => evaluate_identifier name i g
    | .if_statement test consequent alternate =>
      evaluate_if_statement (evaluate read_file fuel) test consequent alternate i g
    | .while_statement test body =>
      evaluate_while_statement (evaluate read_file fuel) test body fuel .null i g
    | .function_declaration name params body =>
      evaluate_function_declaration name params body i g
    | .call_expression name arguments =>
      evaluate_call_expression (evaluate read_file fuel) name arguments i g
    | .return_statement argument =>
      evaluate_return_statement (evaluate read_file fuel) argument i g
    | .print_statement argument =>
      evaluate_print_statement (evaluate read_file fuel) argument i g
    | .import_statement path =>
      evaluate_import_statement read_file (evaluate read_file fuel) path i g

/-- The state of the globals when the process starts. -/
def Globals.initial : Globals := { scopes := [], imported_files := [], stdout := "" }

/-- The function `run_interpreter` for the main file, up to the evaluation of
the program: the value of the program and the state when the evaluation ends.
-/
def run_interpreter (read_file : String → Option String) (fuel : Nat) (code : String) :
    EvalResult :=
  match tokenize code.toList with
  | .ok tokens =>
    match parse tokens with
    | .ok ast =>
      let (interpreter, g) := create_interpreter Globals.initial
      evaluate read_file fuel ast interpreter g
    | .fatal out => .fatal out
    | .undefined => .undefined
    | .outOfFuel => .outOfFuel
  | .fatal out => .fatal out
  | .undefined => .undefined
  | .outOfFuel => .outOfFuel

/-- The text a run of the main file writes to standard output, when the run
ends without an error. -/
def run_output (read_file : String → Option String) (fuel : Nat) (code : String) :
    Option String :=
  match run_interpreter read_file fuel code with
  | .ok (_, _, g) => some g.stdout
  | _ => none

/-- A `read_file` that finds no file. -/
def no_files : String → Option String := fun _ => none

/-! ## Notions used to state the theorems -/

/-- The six levels of binary operators, the lowest precedence first. -/
inductive Level where
  | logical_or | logical_and | equality | comparison | addition | multiplication
deriving DecidableEq

namespace Level

/-- Position of a level in the precedence order. -/
def rank : Level → Nat
  | logical_or => 0
  | logical_and => 1
  | equality => 2
  | comparison => 3
  | addition => 4
  | multiplication => 5

/-- The operators the function of a level accepts, with the text it stores. -/
def operator : Level → TokenType → Option String
  | logical_or => logical_or_operator
  | logical_and => logical_and_operator
  | equality => equality_operator
  | comparison => comparison_operator
  | addition => addition_operator
  | multiplication => multiplication_operator

/-- The node the function of a level builds. -/
def node : Level → String → ASTNode → ASTNode → ASTNode
  | logical_or => .logical_expression
  | logical_and => .logical_expression
  | _ => .binary_expression

/-- The source function of a level. -/
def parse (parse_expression : Parser ASTNode) : Level → Parser ASTNode
  | logical_or => parse_logical_or parse_expression
  | logical_and => parse_logical_and parse_expression
  | equality => parse_equality parse_expression
  | comparison => parse_comparison parse_expression
  | addition => parse_addition parse_expression
  | multiplication => parse_multiplication parse_expression

/-- The source function that parses the operands of a level: the function of
the next level, `parse_primary` for the last one. -/
def operand (parse_expression : Parser ASTNode) : Level → Parser ASTNode
  | logical_or => parse_logical_and parse_expression
  | logical_and => parse_equality parse_expression
  | equality => parse_comparison parse_expression
  | comparison => parse_addition parse_expression
  | addition => parse_multiplication parse_expression
  | multiplication => parse_primary parse_expression

end Level

/-- One link `op p` of a chain `p0 op1 p1 ... opn pn`: the operator token, the
text of the operator, the tokens of the operand and the tree of the operand. -/
structure ChainLink where
  token : Token
  operator : String
  tokens : List Token
  tree : ASTNode

/-- The tokens of the links of a chain, followed by `rest`. -/
def chain_tokens (rest : List Token) : List ChainLink → List Token
  | [] => rest
  | link :: links => link.token :: (link.tokens ++ chain_tokens rest links)

/-- Every link of the chain has an operator of the level, and `operand` parses
the tokens of its operand, in their place before what follows, to its tree. -/
def chain_parses (operator : TokenType → Option String) (operand : Parser ASTNode)
    (rest : List Token) : List ChainLink → Prop
  | [] => True
  | link :: links =>
    operator link.token.type = some link.operator ∧
    operand (link.tokens ++ chain_tokens rest links) =
      .ok (link.tree, chain_tokens rest links) ∧
    chain_parses operator operand rest links

/-- The left-nested tree `((p0 op1 p1) op2 p2) ... opn pn`. -/
def left_nested (node : String → ASTNode → ASTNode → ASTNode) (first : ASTNode)
    (links : List ChainLink) : ASTNode :=
  links.foldl (fun left link => node link.operator left link.tree) first

/-- The lexer and then `parse_expression` on a text: the tree of the expression
the text starts with, and the tokens after it. -/
def parse_expression_text (text : String) : Outcome (ASTNode × List Token) :=
  match tokenize text.toList with
  | .ok tokens => parse_expression (tokens.length + 1) tokens
  | .fatal out => .fatal out
  | .undefined => .undefined
  | .outOfFuel => .outOfFuel

/-- The body of the function `inc` of the closure scenario,
`{ c = c + 1; return c; }`. -/
def counter_inc_body : ASTNode :=
  .block_statement [
    .assignment_expression "c"
      (.binary_expression "+" (.identifier "c") (.literal (.number (.fin 1)))),
    .return_statement (.identifier "c")]

/-- The body of the function `mk` of the closure scenario. -/
def counter_mk_body : ASTNode :=
  .block_statement [
    .variable_declaration "c" (.literal (.number (.fin 0))),
    .function_declaration "inc" [] counter_inc_body,
    .return_statement (.identifier "inc")]

/-- The value of `inc`: its closure is the global scope 0, the scope 1 of the
call of `mk` and the scope 2 of the block of `mk`. -/
def counter_inc : Value := .function "inc" [] counter_inc_body [0, 1, 2]

/-- The globals of the closure scenario once `let g = mk();` is done, with the
number `v` as the value of `c`. -/
def counter_globals (v : Number) : Globals :=
  { scopes := [⟨[("mk", .function "mk" [] counter_mk_body [0]), ("g", counter_inc)]⟩, ⟨[]⟩,
      ⟨[("c", .number v), ("inc", counter_inc)]⟩],
    imported_files := [], stdout := "" }

/-- An interpreter at the top level of the main file, `return_value` being what
the last call left there. -/
def top_level (return_value : Value) : Interpreter :=
  { scope_stack := [0], return_value := return_value, has_return := false, base_dir := "." }

/-- The state after `passes` passes of a `while` loop in each of which the test
is the boolean true and the body ends without a pending return; `none` when
the loop does not make that many such passes. -/
def while_passes (evaluate : Eval) (test body : ASTNode) :
    Nat → Interpreter → Globals → Option (Interpreter × Globals)
  | 0, i, g => some (i, g)
  | passes + 1, i, g =>
    match evaluate test i g with
    | .ok (.boolean true, i, g) =>
      match evaluate body i g with
      | .ok (_, i, g) => if i.has_return then none else while_passes evaluate test body passes i g
      | _ => none
    | _ => none

/-- `Unwinds read_file fuel node i g v i' g'`: from the state `(i, g)` the
evaluation of `node` reaches a `return` statement, `node` itself or nested in
it through blocks, `if` statements and `while` loops, whose argument evaluates
to `v`.  `g'` is the globals right after that argument was evaluated; `i'` is
the interpreter at that point with `return_value` and `has_return` set and the
scopes of the enclosing blocks popped.  The statements `after` the one that
returns, in a block, are arbitrary. -/
inductive Unwinds (read_file : String → Option String) :
    Nat → ASTNode → Interpreter → Globals → Value → Interpreter → Globals → Prop
  | return_statement {fuel : Nat} {argument : ASTNode} {i i1 : Interpreter} {g g1 : Globals}
      {v : Value} :
      evaluate read_file fuel argument i g = .ok (v, i1, g1) →
      Unwinds read_file (fuel + 1) (.return_statement argument) i g v
        { i1 with return_value := v, has_return := true } g1
  | block_statement {fuel : Nat} {before after : List ASTNode} {statement : ASTNode}
      {i i1 i2 : Interpreter} {g g1 g2 : Globals} {r v : Value} :
      evaluate_block_body (evaluate read_file fuel) before .null
        (push_scope i (create_scope g).1) (create_scope g).2 = .ok (r, i1, g1) →
      i1.has_return = false →
      Unwinds read_file fuel statement i1 g1 v i2 g2 →
      Unwinds read_file (fuel + 1) (.block_statement (before ++ statement :: after)) i g v
        (pop_scope i2) g2
  | if_consequent {fuel : Nat} {test consequent : ASTNode} {alternate : Option ASTNode}
      {i i1 i2 : Interpreter} {g g1 g2 : Globals} {v : Value} :
      evaluate read_file fuel test i g = .ok (.boolean true, i1, g1) →
      Unwinds read_file fuel consequent i1 g1 v i2 g2 →
      Unwinds read_file (fuel + 1) (.if_statement test consequent alternate) i g v i2 g2
  | if_alternate {fuel : Nat} {test consequent alternate : ASTNode}
      {i i1 i2 : Interpreter} {g g1 g2 : Globals} {t v : Value} :
      evaluate read_file fuel test i g = .ok (t, i1, g1) → t ≠ .boolean true →
      Unwinds read_file fuel alternate i1 g1 v i2 g2 →
      Unwinds read_file (fuel + 1) (.if_statement test consequent (some alternate)) i g v i2 g2
  | while_statement {fuel passes : Nat} {test body : ASTNode}
      {i i1 i2 i3 : Interpreter} {g g1 g2 g3 : Globals} {v : Value} :
      while_passes (evaluate read_file fuel) test body passes i g = some (i1, g1) →
      passes < fuel →
      evaluate read_file fuel test i1 g1 = .ok (.boolean true, i2, g2) →
      Unwinds read_file fuel body i2 g2 v i3 g3 →
      Unwinds read_file (fuel + 1) (.while_statement test body) i g v i3 g3

/-- A body that returns from inside a block, an `if`, a block and a `while`,
with `print` statements around: `{ print(1); while (true) { if (true)
{ return 7; } print(2); } print(3); }`. -/
def nested_return_body : ASTNode :=
  .block_statement [
    .print_statement (.literal (.number (.fin 1))),
    .while_statement (.literal (.boolean true)) (.block_statement [
      .if_statement (.literal (.boolean true))
        (.block_statement [.return_statement (.literal (.number (.fin 7)))]) none,
      .print_statement (.literal (.number (.fin 2)))]),
    .print_statement (.literal (.number (.fin 3)))]

/-- From `(i, g)` to `(i', g')` the base directory is kept and every imported
file stays imported. -/
def import_stable (i : Interpreter) (g : Globals) (i' : Interpreter) (g' : Globals) : Prop :=
  i'.base_dir = i.base_dir ∧ ∀ f, is_file_imported g f = true → is_file_imported g' f = true

/-- Every evaluation by `ev` that ends normally is `import_stable`. -/
def eval_import_stable (ev : Eval) : Prop :=
  ∀ node i g v i' g', ev node i g = .ok (v, i', g') → import_stable i g i' g'

/-- The files of the import scenario: `./a.as` holds a program that imports
itself and prints 1; there is no other file. -/
def self_import_files : String → Option String :=
  fun path => if path = "./a.as" then some "import(\"a.as\"); print(1);" else none

/-- The spelling of a token that carries no value; the end-of-input token is
spelled by the empty text. -/
def spelling : TokenType → Option (List Char)
  | .TOKEN_PLUS => some ['+']
  | .TOKEN_MINUS => some ['-']
  | .TOKEN_MULTIPLY => some ['*']
  | .TOKEN_DIVIDE => some ['/']
  | .TOKEN_MODULO => some ['%']
  | .TOKEN_ASSIGN => some ['=']
  | .TOKEN_EQUALS => some ['=', '=']
  | .TOKEN_NOT_EQUALS => some ['!', '=']
  | .TOKEN_GT => some ['>']
  | .TOKEN_GTE => some ['>', '=']
  | .TOKEN_LT => some ['<']
  | .TOKEN_LTE => some ['<', '=']
  | .TOKEN_AND => some ['&', '&']
  | .TOKEN_OR => some ['|', '|']
  | .TOKEN_LPAREN => some ['(']
  | .TOKEN_RPAREN => some [')']
  | .TOKEN_LBRACE => some ['{']
  | .TOKEN_RBRACE => some ['}']
  | .TOKEN_SEMICOLON => some [';']
  | .TOKEN_COMMA => some [',']
  | .TOKEN_LET => some ['l', 'e', 't']
  | .TOKEN_IF => some ['i', 'f']
  | .TOKEN_ELSE => some ['e', 'l', 's', 'e']
  | .TOKEN_WHILE => some ['w', 'h', 'i', 'l', 'e']
  | .TOKEN_FUNCTION => some ['f', 'u', 'n', 'c', 't', 'i', 'o', 'n']
  | .TOKEN_RETURN => some ['r', 'e', 't', 'u', 'r', 'n']
  | .TOKEN_TRUE => some ['t', 'r', 'u', 'e']
  | .TOKEN_FALSE => some ['f', 'a', 'l', 's', 'e']
  | .TOKEN_PRINT => some ['p', 'r', 'i', 'n', 't']
  | .TOKEN_IMPORT => some ['i', 'm', 'p', 'o', 'r', 't']
  | .TOKEN_EOF => some []
  | .TOKEN_NUMBER => none
  | .TOKEN_IDENTIFIER => none
  | .TOKEN_STRING => none

/-- The text of a number literal: digits, then possibly a point and digits. -/
def literal_text (intPart : List Char) (fracPart : Option (List Char)) : List Char :=
  match fracPart with
  | none => intPart
  | some f => intPart ++ '.' :: f

/-- `is_text_form token text`: `text` is a text form of `token`.  For an
identifier it is the name, for a string the quoted string, for a token without
a value its spelling, and for a number any number literal that the lexer reads
(it fits the buffer of `get_number_token`) and that `atof` converts to the
number of the token. -/
def is_text_form : Token → List Char → Prop
  | .number v, text =>
    ∃ (intPart : List Char) (fracPart : Option (List Char)),
      text = literal_text intPart fracPart ∧ intPart ≠ [] ∧
      (∀ c ∈ intPart, isdigit c = true) ∧ (∀ c ∈ fracPart.getD [], isdigit c = true) ∧
      text.length < 64 ∧ Number.atof intPart fracPart = v
  | .identifier name, text => text = name.toList
  | .string s, text => text = '"' :: (s.toList ++ ['"'])
  | .plain type, text => spelling type = some text

/-- The texts joined with single spaces. -/
def join_with_spaces (texts : List (List Char)) : List Char :=
  [' '].intercalate texts

/-- The tokens other than end of input that the lexer produces from a text
without NUL: a number that some number literal denotes; an identifier that is a
word of the form `[A-Za-z_][A-Za-z0-9_]*`, no keyword, within the buffer; a
string without a quote and within the buffer; a token without a value that has
a spelling. -/
def lexable : Token → Prop
  | .number v => ∃ text : List Char, is_text_form (.number v) text
  | .identifier name =>
    ∃ (c : Char) (w : List Char), name = String.mk (c :: w) ∧
      (isalpha c || decide (c = '_')) = true ∧
      (∀ x ∈ w, (isalnum x || decide (x = '_')) = true) ∧ (c :: w).length < 256 ∧
      keyword_type (String.mk (c :: w)) = none
  | .string s =>
    ∃ cs : List Char, s = String.mk cs ∧ (∀ c ∈ cs, c ≠ '"') ∧ (∀ c ∈ cs, c ≠ '\x00') ∧
      byteLength cs < 1024
  | .plain type => ∃ (c : Char) (w : List Char), spelling type = some (c :: w)

/-- What one call of `get_next_token` on `cs` does when it returns `token` and
the input `rest`: `rest` is made of characters of `cs`; and either the token is
the end of input, or it is lexable and `rest` is shorter than `cs`. -/
def lex_step (cs : List Char) (token : Token) (rest : List Char) : Prop :=
  (∀ c ∈ rest, c ∈ cs) ∧ (token = Token.eof ∨ (lexable token ∧ rest.length < cs.length))

/-- The part of `evaluate_call_expression` between the evaluation of the
arguments and the evaluation of the body: the scope stack becomes the closure
followed by a new scope, in which the parameters are bound.  The result is the
interpreter and the globals in which the body is evaluated. -/
def enter_function (closure : List Nat) (params : List String) (args : List Value)
    (i : Interpreter) (g : Globals) : Interpreter × Globals :=
  ((push_scope { i with scope_stack := closure } (create_scope g).1),
    bind_parameters (create_scope g).1 params args (create_scope g).2)

/-- The bindings of the parameters `params` for the argument values `args`, in
the words of the specification: parameter `k` is bound to the value of
argument `k` when there is one and to null otherwise; an argument past the last
parameter binds nothing. -/
def parameter_bindings (params : List String) (args : List Value) : List (String × Value) :=
  params.enum.map (fun kp => (kp.2, args.getD kp.1 .null))

/-- The body of the function `f(a, b)` of the parameter scenario,
`{ print(a); print(b); }`. -/
def print_params_body : ASTNode :=
  .block_statement [.print_statement (.identifier "a"), .print_statement (.identifier "b")]

/-- The globals of the parameter scenario: the global scope binds `f`, nothing
is printed. -/
def print_params_globals : Globals :=
  { scopes := [⟨[("f", .function "f" ["a", "b"] print_params_body [0])]⟩],
    imported_files := [], stdout := "" }

/-- The state of the scoping scenario: the scope stack of the caller is
`[0, 1]` and its frame 1 binds `x`. -/
def caller_local_interpreter : Interpreter := { top_level .null with scope_stack := [0, 1] }

/-- The globals of the scoping scenario. -/
def caller_local_globals : Globals :=
  { scopes := [⟨[]⟩, ⟨[("x", .number (.fin 1))]⟩], imported_files := [], stdout := "" }

/-- Every evaluation by `ev` that ends normally leaves the scope stack as it
was. -/
def keeps_scope_stack (ev : Eval) : Prop :=
  ∀ node i g v i' g', ev node i g = .ok (v, i', g') → i'.scope_stack = i.scope_stack

mutual
/-- Whether no `return` statement is part of the node.  The bodies of the
functions that the node declares are left out: they are not evaluated with the
node, but by the calls. -/
def ASTNode.return_free : ASTNode → Bool
  | .program body => ASTNode.return_free_list body
  | .block_statement body => ASTNode.return_free_list body
  | .variable_declaration _ value => ASTNode.return_free value
  | .assignment_expression _ value => ASTNode.return_free value
  | .binary_expression _ left right => ASTNode.return_free left && ASTNode.return_free right
  | .logical_expression _ left right => ASTNode.return_free left && ASTNode.return_free right
  | .literal _ => true
  | .identifier _ => true
  | .if_statement test consequent alternate =>
    ASTNode.return_free test && ASTNode.return_free consequent &&
      ASTNode.return_free_option alternate
  | .while_statement test body => ASTNode.return_free test && ASTNode.return_free body
  | .function_declaration _ _ _ => true
  | .call_expression _ arguments => ASTNode.return_free_list arguments
  | .return_statement _ => false
  | .print_statement argument => ASTNode.return_free argument
  | .import_statement _ => true
/-- Whether no `return` statement is part of the nodes of a list. -/
def ASTNode.return_free_list : List ASTNode → Bool
  | [] => true
  | node :: nodes => ASTNode.return_free node && ASTNode.return_free_list nodes
/-- Whether no `return` statement is part of an optional node. -/
def ASTNode.return_free_option : Option ASTNode → Bool
  | none => true
  | some node => ASTNode.return_free node
end

/-- Every evaluation by `ev` of a node without `return` statement that starts
without a pending return and ends normally, ends without a pending return. -/
def keeps_return_flag (ev : Eval) : Prop :=
  ∀ node i g v i' g', ev node i g = .ok (v, i', g') → ASTNode.return_free node = true →
    i.has_return = false → i'.has_return = false

/-- The globals of the scenario of the pending return: the global scope binds
`f` to the function of `function f() { return 1; }`. -/
def return_one_globals : Globals :=
  { scopes := [⟨[("f", .function "f" []
      (.block_statement [.return_statement (.literal (.number (.fin 1)))]) [0])]⟩],
    imported_files := [], stdout := "" }

/-- The text of an operand of `+` in the words of the specification: a string
as itself, a boolean as `true` or `false`, null as `null`, a number as `%g`
writes it.  For a function, of which the specification says nothing, the text
is `null`, as in the source. -/
def stringified : Value → String
  | .number n => Number.formatG n
  | .string s => s
  | .boolean true => "true"
  | .boolean false => "false"
  | .function _ _ _ _ => "null"
  | .null => "null"

/-- The globals of the scenario of the call of a number: the global scope
binds `p` to the function of `function p(x) { print(x); return x; }` and `n` to
the number 1; `0` was printed. -/
def number_callee_globals : Globals :=
  { scopes := [⟨[("p", .function "p" ["x"]
      (.block_statement [.print_statement (.identifier "x"),
        .return_statement (.identifier "x")]) [0]),
      ("n", .number (.fin 1))]⟩],
    imported_files := [], stdout := "0\n" }

/-- The globals of the block scenario: the global scope binds `x` to 1. -/
def outer_x_globals : Globals :=
  { scopes := [⟨[("x", .number (.fin 1))]⟩], imported_files := [], stdout := "" }

/-- The function `evaluate` for one node, its recursive calls being made by
`ev`; `fuel` is the fuel of a `while` loop. -/
def evaluate_node (read_file : String → Option String) (ev : Eval) (fuel : Nat) : Eval :=
  fun node i g =>
    match node with
    | .program body => evaluate_program ev body .null i g
    | .block_statement body => evaluate_block_statement ev body i g
    | .variable_declaration name value => evaluate_variable_declaration ev name value i g
    | .assignment_expression name value => evaluate_assignment_expression ev name value i g
    | .binary_expression operator left right =>
      evaluate_binary_expression ev operator left right i g
    | .logical_expression operator left right =>
      evaluate_logical_expression ev operator left right i g
    | .literal value => evaluate_literal value i g
    | .identifier name => evaluate_identifier name i g
    | .if_statement test consequent alternate =>
      evaluate_if_statement ev test consequent alternate i g
    | .while_statement test body => evaluate_while_statement ev test body fuel .null i g
    | .function_declaration name params body =>
      evaluate_function_declaration name params body i g
    | .call_expression name arguments => evaluate_call_expression ev name arguments i g
    | .return_statement argument => evaluate_return_statement ev argument i g
    | .print_statement argument => evaluate_print_statement ev argument i g
    | .import_statement path => evaluate_import_statement read_file ev path i g

/-- The function `evaluate` with a check at the start of each of its calls, in
the imported programs too: when the scope stack of the interpreter holds no
scope, the call yields `bad` instead of evaluating the node. -/
def evaluate_checked (read_file : String → Option String) (bad : EvalResult) : Nat → Eval
  | 0 => fun _ _ _ => .outOfFuel
  | fuel + 1 => fun node i g =>
    if i.scope_stack = [] then bad
    else evaluate_node read_file (evaluate_checked read_file bad fuel) fuel node i g

/-- The evaluators `ev` and `ev'` do the same with every interpreter whose
scope stack holds a scope. -/
def agree_on_stacks (ev ev' : Eval) : Prop :=
  ∀ node i g, i.scope_stack ≠ [] → ev node i g = ev' node i g

mutual
/-- Whether no `import` statement is part of the node, the bodies of the
functions it declares included. -/
def ASTNode.import_free : ASTNode → Bool
  | .program body => ASTNode.import_free_list body
  | .block_statement body => ASTNode.import_free_list body
  | .variable_declaration _ value => ASTNode.import_free value
  | .assignment_expression _ value => ASTNode.import_free value
  | .binary_expression _ left right => ASTNode.import_free left && ASTNode.import_free right
  | .logical_expression _ left right => ASTNode.import_free left && ASTNode.import_free right
  | .literal _ => true
  | .identifier _ => true
  | .if_statement test consequent alternate =>
    ASTNode.import_free test && ASTNode.import_free consequent &&
      ASTNode.import_free_option alternate
  | .while_statement test body => ASTNode.import_free test && ASTNode.import_free body
  | .function_declaration _ _ body => ASTNode.import_free body
  | .call_expression _ arguments => ASTNode.import_free_list arguments
  | .return_statement argument => ASTNode.import_free argument
  | .print_statement argument => ASTNode.import_free argument
  | .import_statement _ => false
/-- Whether no `import` statement is part of the nodes of a list. -/
def ASTNode.import_free_list : List ASTNode → Bool
  | [] => true
  | node :: nodes => ASTNode.import_free node && ASTNode.import_free_list nodes
/-- Whether no `import` statement is part of an optional node. -/
def ASTNode.import_free_option : Option ASTNode → Bool
  | none => true
  | some node => ASTNode.import_free node
end

/-- Whether the value, if it is a function, has a closure whose index 0 is
`global_scope` and a body without `import` statement. -/
def Value.rooted (global_scope : Nat) : Value → Bool
  | .function _ _ body closure =>
    decide (closure.head? = some global_scope) && ASTNode.import_free body
  | _ => true

/-- Whether every value bound in a scope is `rooted`. -/
def Globals.rooted (global_scope : Nat) (g : Globals) : Bool :=
  g.scopes.all (fun s => s.entries.all (fun e => e.2.rooted global_scope))

/-- The states in which index 0 of the scope stack is `global_scope` and every
function there is, were it the value last returned or a value bound in a scope,
has a closure whose index 0 is `global_scope` and a body without `import`
statement. -/
def rooted_at (global_scope : Nat) (i : Interpreter) (g : Globals) : Prop :=
  i.scope_stack.head? = some global_scope ∧ i.return_value.rooted global_scope = true ∧
    g.rooted global_scope = true

/-- Every evaluation by `ev` of a node without `import` statement that starts
in a state `rooted_at` the scope and ends normally, ends in such a state, with
such a value. -/
def keeps_rooted (global_scope : Nat) (ev : Eval) : Prop :=
  ∀ node i g v i' g', ASTNode.import_free node = true → rooted_at global_scope i g →
    ev node i g = .ok (v, i', g') →
    Value.rooted global_scope v = true ∧ rooted_at global_scope i' g'

/-- The evaluators `ev` and `ev'` do the same with every node without `import`
statement in every state `rooted_at` the scope. -/
def agree_on_rooted (global_scope : Nat) (ev ev' : Eval) : Prop :=
  ∀ node i g, ASTNode.import_free node = true → rooted_at global_scope i g →
    ev node i g = ev' node i g

/-- The function `evaluate` with a check at the start of each of its calls, in
the imported programs too: when index 0 of the scope stack is not the scope
`global_scope`, the call yields `bad` instead of evaluating the node. -/
def evaluate_rooted (read_file : String → Option String) (global_scope : Nat)
    (bad : EvalResult) : Nat → Eval
  | 0 => fun _ _ _ => .outOfFuel
  | fuel + 1 => fun node i g =>
    if i.scope_stack.head? = some global_scope then
      evaluate_node read_file (evaluate_rooted read_file global_scope bad fuel) fuel node i g
    else bad

/-- The files of the scenario of an import inside a block: `./lib.as` declares
a function that prints `g` and calls it; there is no other file. -/
def lib_files : String → Option String :=
  fun path => if path = "./lib.as" then some "function f() { print(g); } f();" else none

/-- The program `let g = 5; { import("lib.as"); }`. -/
def import_in_block : ASTNode :=
  .program [.variable_declaration "g" (.literal (.number (.fin 5))),
    .block_statement [.import_statement "lib.as"]]

/-- The cursor positions of the lexer: `lexer_reaches cs cs'` when `tokenize`,
with the input `cs` left, has the input `cs'` left after some more calls of
`get_next_token`, none of which returned the end-of-input token. -/
inductive lexer_reaches : List Char → List Char → Prop where
  | start (cs : List Char) : lexer_reaches cs cs
  | token (cs rest cs' : List Char) (t : Token) :
      get_next_token cs = .ok (t, rest) → t.type ≠ .TOKEN_EOF → lexer_reaches rest cs' →
      lexer_reaches cs cs'

/-- Whether `get_next_token` has a case for the character: white space, a
digit, a letter, an underscore, a quote, or one of the characters of the
operators and of the punctuation. -/
def starts_token (c : Char) : Bool :=
  isspace c || isdigit c || isalpha c || c = '_' || c = '"' ||
    ['+', '-', '*', '/', '=', '>', '<', '!', '&', '|', '(', ')', '{', '}', ';', ',',
      '%'].contains c

/-- The ten keywords with their token types. -/
def keywords : List (String × TokenType) :=
  [("let", .TOKEN_LET), ("if", .TOKEN_IF), ("else", .TOKEN_ELSE), ("while", .TOKEN_WHILE),
    ("function", .TOKEN_FUNCTION), ("return", .TOKEN_RETURN), ("true", .TOKEN_TRUE),
    ("false", .TOKEN_FALSE), ("print", .TOKEN_PRINT), ("import", .TOKEN_IMPORT)]

/-- What a call of a parsing function on `len` tokens does: it ends, and when
it returns a result it has consumed `k` tokens at least. -/
def ends_with {α : Type} (r : Outcome (α × List Token)) (len k : Nat) : Prop :=
  r ≠ .outOfFuel ∧ ∀ a ts', r = .ok (a, ts') → ts'.length + k ≤ len

/-- The parsing function ends on every list of fewer than `n` tokens, and
consumes a token at least when it returns a result. -/
def parser_ends {α : Type} (p : Parser α) (n : Nat) : Prop :=
  ∀ ts : List Token, ts.length < n → ends_with (p ts) ts.length 1

/-- From `g` to `g'` no scope and no binding is lost: there are as many scopes
at least, and a name bound at an index of a scope is still bound there. -/
def scopes_grow (g g' : Globals) : Prop :=
  g.scopes.length ≤ g'.scopes.length ∧
    ∀ (s : Nat) (x : String) (j : Nat),
      (g.scope s).index_of x = some j → (g'.scope s).index_of x = some j

/-- The names that the statements of a list declare by a `let` or by a
function declaration. -/
def declared_names : List ASTNode → List String
  | [] => []
  | .variable_declaration name _ :: rest => name :: declared_names rest
  | .function_declaration name _ _ :: rest => name :: declared_names rest
  | _ :: rest => declared_names rest

/-- The files of the scenario of a completed import: `./lib.as` declares `x`
and `f`; there is no other file. -/
def declaring_files : String → Option String :=
  fun path => if path = "./lib.as" then some "let x = 1; function f() { }" else none

/-! # Theorems -/

/-! ## Decidable equality of syntax trees and values -/

theorem and_true_of {a b : Bool} (h : (a && b) = true) : a = true ∧ b = true := by
  cases a <;> cases b <;> simp_all

mutual
theorem ASTNode.eq_of_beq : ∀ a b : ASTNode, ASTNode.beq a b = true → a = b
  | .program x, .program y, h => congrArg _ (ASTNode.eq_of_beqList x y h)
  | .block_statement x, .block_statement y, h => congrArg _ (ASTNode.eq_of_beqList x y h)
  | .variable_declaration n v, .variable_declaration n' v', h => by
    have h := and_true_of h
    rw [of_decide_eq_true h.1, ASTNode.eq_of_beq v v' h.2]
  | .assignment_expression n v, .assignment_expression n' v', h => by
    have h := and_true_of h
    rw [of_decide_eq_true h.1, ASTNode.eq_of_beq v v' h.2]
  | .binary_expression o l r, .binary_expression o' l' r', h => by
    have h := and_true_of h
    have h1 := and_true_of h.1
    rw [of_decide_eq_true h1.1, ASTNode.eq_of_beq l l' h1.2, ASTNode.eq_of_beq r r' h.2]
  | .logical_expression o l r, .logical_expression o' l' r', h => by
    have h := and_true_of h
    have h1 := and_true_of h.1
    rw [of_decide_eq_true h1.1, ASTNode.eq_of_beq l l' h1.2, ASTNode.eq_of_beq r r' h.2]
  | .literal v, .literal v', h => congrArg _ (of_decide_eq_true h)
  | .identifier n, .identifier n', h => congrArg _ (of_decide_eq_true h)
  | .if_statement t c a, .if_statement t' c' a', h => by
    have h := and_true_of h
    have h1 := and_true_of h.1
    rw [ASTNode.eq_of_beq t t' h1.1, ASTNode.eq_of_beq c c' h1.2, ASTNode.eq_of_beqOption a a' h.2]
  | .while_statement t b, .while_statement t' b', h => by
    have h := and_true_of h
    rw [ASTNode.eq_of_beq t t' h.1, ASTNode.eq_of_beq b b' h.2]
  | .function_declaration n p b, .function_declaration n' p' b', h => by
    have h := and_true_of h
    have h1 := and_true_of h.1
    rw [of_decide_eq_true h1.1, of_decide_eq_true h1.2, ASTNode.eq_of_beq b b' h.2]
  | .call_expression n a, .call_expression n' a', h => by
    have h := and_true_of h
    rw [of_decide_eq_true h.1, ASTNode.eq_of_beqList a a' h.2]
  | .return_statement a, .return_statement a', h => congrArg _ (ASTNode.eq_of_beq a a' h)
  | .print_statement a, .print_statement a', h => congrArg _ (ASTNode.eq_of_beq a a' h)
  | .import_statement p, .import_statement p', h => congrArg _ (of_decide_eq_true h)
theorem ASTNode.eq_of_beqList :
    ∀ a b : List ASTNode, ASTNode.beqList a b = true → a = b
  | [], [], _ => rfl
  | x :: xs, y :: ys, h => by
    have h := and_true_of h
    rw [ASTNode.eq_of_beq x y h.1, ASTNode.eq_of_beqList xs ys h.2]
theorem ASTNode.eq_of_beqOption :
    ∀ a b : Option ASTNode, ASTNode.beqOption a b = true → a = b
  | none, none, _ => rfl
  | some x, some y, h => congrArg _ (ASTNode.eq_of_beq x y h)
end

theorem and_true_intro {a b : Bool} (ha : a = true) (hb : b = true) : (a && b) = true := by
  rw [ha, hb]; rfl

mutual
theorem ASTNode.beq_self : ∀ a : ASTNode, ASTNode.beq a a = true
  | .program x => ASTNode.beqList_self x
  | .block_statement x => ASTNode.beqList_self x
  | .variable_declaration _ v => and_true_intro (decide_eq_true rfl) (ASTNode.beq_self v)
  | .assignment_expression _ v => and_true_intro (decide_eq_true rfl) (ASTNode.beq_self v)
  | .binary_expression _ l r =>
    and_true_intro (and_true_intro (decide_eq_true rfl) (ASTNode.beq_self l)) (ASTNode.beq_self r)
  | .logical_expression _ l r =>
    and_true_intro (and_true_intro (decide_eq_true rfl) (ASTNode.beq_self l)) (ASTNode.beq_self r)
  | .literal _ => decide_eq_true rfl
  | .identifier _ => decide_eq_true rfl
  | .if_statement t c a =>
    and_true_intro (and_true_intro (ASTNode.beq_self t) (ASTNode.beq_self c))
      (ASTNode.beqOption_self a)
  | .while_statement t b => and_true_intro (ASTNode.beq_self t) (ASTNode.beq_self b)
  | .function_declaration _ _ b =>
    and_true_intro (and_true_intro (decide_eq_true rfl) (decide_eq_true rfl)) (ASTNode.beq_self b)
  | .call_expression _ a => and_true_intro (decide_eq_true rfl) (ASTNode.beqList_self a)
  | .return_statement a => ASTNode.beq_self a
  | .print_statement a => ASTNode.beq_self a
  | .import_statement _ => decide_eq_true rfl
theorem ASTNode.beqList_self : ∀ a : List ASTNode, ASTNode.beqList a a = true
  | [] => rfl
  | x :: xs => and_true_intro (ASTNode.beq_self x) (ASTNode.beqList_self xs)
theorem ASTNode.beqOption_self : ∀ a : Option ASTNode, ASTNode.beqOption a a = true
  | none => rfl
  | some x => ASTNode.beq_self x
end

instance : DecidableEq ASTNode := fun a b =>
  decidable_of_iff (ASTNode.beq a b = true)
    ⟨ASTNode.eq_of_beq a b, fun h => h ▸ ASTNode.beq_self a⟩

deriving instance DecidableEq for Value
deriving instance DecidableEq for Scope
deriving instance DecidableEq for Interpreter
deriving instance DecidableEq for Globals

/-! ## The loops of the binary operators -/

theorem binary_loop_exit (operator : TokenType → Option String)
    (node : String → ASTNode → ASTNode → ASTNode) (operand : Parser ASTNode)
    (fuel : Nat) (left : ASTNode) (ts : List Token)
    (hno : operator (current_token ts).type = none) :
    binary_loop operator node operand (fuel + 1) left ts = .ok (left, ts) := by
  simp [binary_loop, hno]

theorem binary_loop_step (operator : TokenType → Option String)
    (node : String → ASTNode → ASTNode → ASTNode) (operand : Parser ASTNode)
    (fuel : Nat) (left right : ASTNode) (t : Token) (op : String) (ts ts' : List Token)
    (hop : operator t.type = some op) (hr : operand ts = .ok (right, ts')) :
    binary_loop operator node operand (fuel + 1) left (t :: ts) =
      binary_loop operator node operand fuel (node op left right) ts' := by
  simp [binary_loop, current_token, advance_tokens, hop, hr]

theorem binary_level_exit (operator : TokenType → Option String)
    (node : String → ASTNode → ASTNode → ASTNode) (operand : Parser ASTNode)
    (ts ts' : List Token) (e : ASTNode)
    (h : operand ts = .ok (e, ts')) (hno : operator (current_token ts').type = none) :
    binary_level operator node operand ts = .ok (e, ts') := by
  simp [binary_level, h, binary_loop_exit _ _ _ _ _ _ hno]

theorem binary_level_one (operator : TokenType → Option String)
    (node : String → ASTNode → ASTNode → ASTNode) (operand : Parser ASTNode)
    (ts ts1 ts2 : List Token) (t : Token) (op : String) (l r : ASTNode)
    (h1 : operand ts = .ok (l, t :: ts1)) (hop : operator t.type = some op)
    (h2 : operand ts1 = .ok (r, ts2)) (hno : operator (current_token ts2).type = none) :
    binary_level operator node operand ts = .ok (node op l r, ts2) := by
  simp only [binary_level, h1, List.length_cons]
  rw [binary_loop_step _ _ _ _ _ _ _ _ _ _ hop h2]
  exact binary_loop_exit _ _ _ _ _ _ hno

theorem Level.parse_eq (pe : Parser ASTNode) (l : Level) :
    l.parse pe = binary_level l.operator l.node (l.operand pe) := by
  cases l <;> rfl

/-- An operator token belongs to one level only. -/
theorem Level.operator_unique (l m : Level) (ty : TokenType) (op op' : String)
    (h : l.operator ty = some op) (h' : m.operator ty = some op') : l = m := by
  cases ty <;> cases l <;> first | exact Option.noConfusion h | skip
  all_goals (cases m <;> first | rfl | exact Option.noConfusion h')

/-- A tree parsed at a level is what every lower level returns, when no
operator of the levels in between follows. -/
theorem Level.lift (pe : Parser ASTNode) (ts ts' : List Token) (e : ASTNode) :
    ∀ (d : Nat) (l h : Level), l.rank + d = h.rank →
      h.parse pe ts = .ok (e, ts') →
      (∀ m : Level, l.rank ≤ m.rank → m.rank < h.rank →
        m.operator (current_token ts').type = none) →
      l.parse pe ts = .ok (e, ts') := by
  intro d
  induction d with
  | zero =>
    intro l h hr hp _
    have : l = h := by cases l <;> cases h <;> simp [Level.rank] at hr <;> rfl
    rw [this]; exact hp
  | succ d ih =>
    intro l h hr hp hno
    have key : ∀ n : Level, n.rank = l.rank + 1 → l.operand pe = n.parse pe →
        l.parse pe ts = .ok (e, ts') := by
      intro n hn hop
      rw [Level.parse_eq, hop]
      apply binary_level_exit
      · exact ih n h (by omega) hp (fun m hm hm' => hno m (by omega) hm')
      · exact hno l (Nat.le_refl _) (by omega)
    cases l
    · exact key .logical_and rfl rfl
    · exact key .equality rfl rfl
    · exact key .comparison rfl rfl
    · exact key .addition rfl rfl
    · exact key .multiplication rfl rfl
    · exfalso; cases h <;> simp [Level.rank] at hr <;> omega

theorem Level.operator_none_of_ne (l m : Level) (ty : TokenType) (op : String)
    (h : l.operator ty = some op) (hne : m ≠ l) : m.operator ty = none := by
  cases hm : m.operator ty with
  | none => rfl
  | some op' => exact absurd (Level.operator_unique m l ty op' op hm h) hne

theorem Level.operand_eq_next (pe : Parser ASTNode) (lo hi : Level) (h : lo.rank < hi.rank) :
    ∃ n : Level, n.rank = lo.rank + 1 ∧ lo.operand pe = n.parse pe := by
  cases lo
  · exact ⟨.logical_and, rfl, rfl⟩
  · exact ⟨.equality, rfl, rfl⟩
  · exact ⟨.comparison, rfl, rfl⟩
  · exact ⟨.addition, rfl, rfl⟩
  · exact ⟨.multiplication, rfl, rfl⟩
  · exfalso; cases hi <;> simp [Level.rank] at h

theorem Level.ne_of_rank_lt (l m : Level) (h : l.rank < m.rank) : m ≠ l := by
  intro e; rw [e] at h; exact Nat.lt_irrefl _ h

theorem precedence_general (pe : Parser ASTNode) (lo hi : Level) (tlo thi : Token)
    (oplo ophi : String) (A B C rest : List Token) (a b c : ASTNode)
    (hlt : lo.rank < hi.rank)
    (hlo : lo.operator tlo.type = some oplo) (hhi : hi.operator thi.type = some ophi)
    (hrest : ∀ l : Level, lo.rank ≤ l.rank → l.rank ≤ hi.rank →
      l.operator (current_token rest).type = none) :
    (hi.operand pe (A ++ tlo :: (B ++ thi :: (C ++ rest))) =
        .ok (a, tlo :: (B ++ thi :: (C ++ rest))) →
      hi.operand pe (B ++ thi :: (C ++ rest)) = .ok (b, thi :: (C ++ rest)) →
      hi.operand pe (C ++ rest) = .ok (c, rest) →
      lo.parse pe (A ++ tlo :: (B ++ thi :: (C ++ rest))) =
        .ok (lo.node oplo a (hi.node ophi b c), rest)) ∧
    (hi.operand pe (A ++ thi :: (B ++ tlo :: (C ++ rest))) =
        .ok (a, thi :: (B ++ tlo :: (C ++ rest))) →
      hi.operand pe (B ++ tlo :: (C ++ rest)) = .ok (b, tlo :: (C ++ rest)) →
      hi.operand pe (C ++ rest) = .ok (c, rest) →
      lo.parse pe (A ++ thi :: (B ++ tlo :: (C ++ rest))) =
        .ok (lo.node oplo (hi.node ophi a b) c, rest)) := by
  obtain ⟨n, hn, hnext⟩ := Level.operand_eq_next pe lo hi hlt
  have hd : n.rank + (hi.rank - n.rank) = hi.rank := by omega
  -- the low operator is an operator of no level above `lo`
  have htlo : ∀ m : Level, lo.rank < m.rank → m.operator tlo.type = none :=
    fun m hm => Level.operator_none_of_ne lo m _ oplo hlo (Level.ne_of_rank_lt lo m hm)
  constructor
  · intro hA hB hC
    have h1 : lo.operand pe (A ++ tlo :: (B ++ thi :: (C ++ rest))) =
        .ok (a, tlo :: (B ++ thi :: (C ++ rest))) := by
      rw [hnext]
      apply Level.lift pe _ _ _ _ n hi hd
      · rw [Level.parse_eq]
        exact binary_level_exit _ _ _ _ _ _ hA (htlo hi hlt)
      · intro m hm _
        exact htlo m (by omega)
    have h2 : lo.operand pe (B ++ thi :: (C ++ rest)) = .ok (hi.node ophi b c, rest) := by
      rw [hnext]
      apply Level.lift pe _ _ _ _ n hi hd
      · rw [Level.parse_eq]
        exact binary_level_one _ _ _ _ _ _ _ _ _ _ hB hhi hC
          (hrest hi (Nat.le_of_lt hlt) (Nat.le_refl _))
      · intro m hm hm'
        exact hrest m (by omega) (by omega)
    rw [Level.parse_eq]
    exact binary_level_one _ _ _ _ _ _ _ _ _ _ h1 hlo h2
      (hrest lo (Nat.le_refl _) (Nat.le_of_lt hlt))
  · intro hA hB hC
    have h1 : lo.operand pe (A ++ thi :: (B ++ tlo :: (C ++ rest))) =
        .ok (hi.node ophi a b, tlo :: (C ++ rest)) := by
      rw [hnext]
      apply Level.lift pe _ _ _ _ n hi hd
      · rw [Level.parse_eq]
        exact binary_level_one _ _ _ _ _ _ _ _ _ _ hA hhi hB (htlo hi hlt)
      · intro m hm _
        exact htlo m (by omega)
    have h2 : lo.operand pe (C ++ rest) = .ok (c, rest) := by
      rw [hnext]
      apply Level.lift pe _ _ _ _ n hi hd
      · rw [Level.parse_eq]
        exact binary_level_exit _ _ _ _ _ _ hC (hrest hi (Nat.le_of_lt hlt) (Nat.le_refl _))
      · intro m hm hm'
        exact hrest m (by omega) (by omega)
    rw [Level.parse_eq]
    exact binary_level_one _ _ _ _ _ _ _ _ _ _ h1 hlo h2
      (hrest lo (Nat.le_refl _) (Nat.le_of_lt hlt))

theorem binary_loop_chain (operator : TokenType → Option String)
    (node : String → ASTNode → ASTNode → ASTNode) (operand : Parser ASTNode)
    (rest : List Token) (hno : operator (current_token rest).type = none) :
    ∀ (links : List ChainLink) (left : ASTNode) (fuel : Nat),
      chain_parses operator operand rest links →
      (chain_tokens rest links).length < fuel →
      binary_loop operator node operand fuel left (chain_tokens rest links) =
        .ok (left_nested node left links, rest) := by
  intro links
  induction links with
  | nil =>
    intro left fuel _ hf
    cases fuel with
    | zero => simp at hf
    | succ f => exact binary_loop_exit _ _ _ _ _ _ hno
  | cons link links ih =>
    intro left fuel hp hf
    obtain ⟨hop, hr, hrest⟩ := hp
    cases fuel with
    | zero => simp at hf
    | succ f =>
      simp only [chain_tokens]
      rw [binary_loop_step _ _ _ _ _ _ _ _ _ _ hop hr]
      simp only [left_nested, List.foldl_cons]
      apply ih _ _ hrest
      simp only [chain_tokens, List.length_cons, List.length_append] at hf
      omega

theorem binary_level_chain (operator : TokenType → Option String)
    (node : String → ASTNode → ASTNode → ASTNode) (operand : Parser ASTNode)
    (first rest : List Token) (tree : ASTNode) (links : List ChainLink)
    (hfirst : operand (first ++ chain_tokens rest links) = .ok (tree, chain_tokens rest links))
    (hlinks : chain_parses operator operand rest links)
    (hno : operator (current_token rest).type = none) :
    binary_level operator node operand (first ++ chain_tokens rest links) =
      .ok (left_nested node tree links, rest) := by
  simp only [binary_level, hfirst]
  exact binary_loop_chain operator node operand rest hno links tree _ hlinks (Nat.lt_succ_self _)


/-! ## C1: precedence -/

/-- C1. The expression parser respects the precedence order `||`, `&&`,
equality, comparison, additive, multiplicative (lowest first): when an operator
of a higher level `hi` stands next to one of a lower level `lo`, with operands
`A`, `B`, `C` that the operand function of `hi` parses to `a`, `b`, `c`, the
function of `lo` makes the operation of `hi` a child of the node of `lo`, both
for `A lo B hi C` and for `A hi B lo C`.  In particular `1 + 2 * 3` parses to
Binary(+, 1, Binary(*, 2, 3)) and `a == b && c == d` to
Logical(&&, Binary(==, a, b), Binary(==, c, d)). -/
theorem expression_precedence :
    (∀ (pe : Parser ASTNode) (lo hi : Level) (tlo thi : Token) (oplo ophi : String)
        (A B C rest : List Token) (a b c : ASTNode),
      lo.rank < hi.rank →
      lo.operator tlo.type = some oplo → hi.operator thi.type = some ophi →
      (∀ l : Level, lo.rank ≤ l.rank → l.rank ≤ hi.rank →
        l.operator (current_token rest).type = none) →
      (hi.operand pe (A ++ tlo :: (B ++ thi :: (C ++ rest))) =
          .ok (a, tlo :: (B ++ thi :: (C ++ rest))) →
        hi.operand pe (B ++ thi :: (C ++ rest)) = .ok (b, thi :: (C ++ rest)) →
        hi.operand pe (C ++ rest) = .ok (c, rest) →
        lo.parse pe (A ++ tlo :: (B ++ thi :: (C ++ rest))) =
          .ok (lo.node oplo a (hi.node ophi b c), rest)) ∧
      (hi.operand pe (A ++ thi :: (B ++ tlo :: (C ++ rest))) =
          .ok (a, thi :: (B ++ tlo :: (C ++ rest))) →
        hi.operand pe (B ++ tlo :: (C ++ rest)) = .ok (b, tlo :: (C ++ rest)) →
        hi.operand pe (C ++ rest) = .ok (c, rest) →
        lo.parse pe (A ++ thi :: (B ++ tlo :: (C ++ rest))) =
          .ok (lo.node oplo (hi.node ophi a b) c, rest))) ∧
    parse_expression_text "1 + 2 * 3" =
      .ok (.binary_expression "+" (.literal (.number (.fin 1)))
        (.binary_expression "*" (.literal (.number (.fin 2))) (.literal (.number (.fin 3)))),
        [Token.eof]) ∧
    parse_expression_text "a == b && c == d" =
      .ok (.logical_expression "&&"
        (.binary_expression "==" (.identifier "a") (.identifier "b"))
        (.binary_expression "==" (.identifier "c") (.identifier "d")), [Token.eof]) :=
  ⟨fun pe lo hi tlo thi oplo ophi A B C rest a b c hlt hlo hhi hrest =>
      precedence_general pe lo hi tlo thi oplo ophi A B C rest a b c hlt hlo hhi hrest,
    by decide!, by decide!⟩

/-- The general part of C1 at `x - y / z` and at `x / y - z`, with identifiers as
operands. -/
theorem expression_precedence_witness :
    parse_addition (parse_expression 0)
        [.identifier "x", .plain .TOKEN_MINUS, .identifier "y", .plain .TOKEN_DIVIDE,
          .identifier "z", Token.eof] =
      .ok (.binary_expression "-" (.identifier "x")
        (.binary_expression "/" (.identifier "y") (.identifier "z")), [Token.eof]) ∧
    parse_addition (parse_expression 0)
        [.identifier "x", .plain .TOKEN_DIVIDE, .identifier "y", .plain .TOKEN_MINUS,
          .identifier "z", Token.eof] =
      .ok (.binary_expression "-"
        (.binary_expression "/" (.identifier "x") (.identifier "y")) (.identifier "z"),
        [Token.eof]) :=
  have h := expression_precedence.1 (parse_expression 0) .addition .multiplication
    (.plain .TOKEN_MINUS) (.plain .TOKEN_DIVIDE) "-" "/"
    [.identifier "x"] [.identifier "y"] [.identifier "z"] [Token.eof]
    (.identifier "x") (.identifier "y") (.identifier "z")
    (by decide) rfl rfl (fun l _ _ => by cases l <;> rfl)
  ⟨h.1 rfl rfl rfl, h.2 rfl rfl rfl⟩

/-! ## C2: associativity -/

/-- C2. All binary and logical operators are left-associative: for a chain
`p0 op1 p1 ... opn pn` whose operators all belong to one level, each operand
being parsed by the operand function of the level, the function of the level
yields the left-nested tree `((p0 op1 p1) op2 p2) ... opn pn`.  In particular
`a - b - c` parses to Binary(-, Binary(-, a, b), c). -/
theorem binary_operators_left_associative :
    (∀ (pe : Parser ASTNode) (l : Level) (first rest : List Token) (tree : ASTNode)
        (links : List ChainLink),
      l.operand pe (first ++ chain_tokens rest links) = .ok (tree, chain_tokens rest links) →
      chain_parses l.operator (l.operand pe) rest links →
      l.operator (current_token rest).type = none →
      l.parse pe (first ++ chain_tokens rest links) =
        .ok (left_nested l.node tree links, rest)) ∧
    parse_expression_text "a - b - c" =
      .ok (.binary_expression "-"
        (.binary_expression "-" (.identifier "a") (.identifier "b")) (.identifier "c"),
        [Token.eof]) :=
  ⟨fun pe l first rest tree links hfirst hlinks hno => by
      rw [Level.parse_eq]
      exact binary_level_chain _ _ _ first rest tree links hfirst hlinks hno,
    by decide!⟩

/-- The general part of C2 at the chain `p || q || r || s`. -/
theorem binary_operators_left_associative_witness :
    parse_logical_or (parse_expression 0)
        [.identifier "p", .plain .TOKEN_OR, .identifier "q", .plain .TOKEN_OR,
          .identifier "r", .plain .TOKEN_OR, .identifier "s", Token.eof] =
      .ok (.logical_expression "||" (.logical_expression "||"
        (.logical_expression "||" (.identifier "p") (.identifier "q")) (.identifier "r"))
        (.identifier "s"), [Token.eof]) :=
  binary_operators_left_associative.1 (parse_expression 0) .logical_or
    [.identifier "p"] [Token.eof] (.identifier "p")
    [⟨.plain .TOKEN_OR, "||", [.identifier "q"], .identifier "q"⟩,
      ⟨.plain .TOKEN_OR, "||", [.identifier "r"], .identifier "r"⟩,
      ⟨.plain .TOKEN_OR, "||", [.identifier "s"], .identifier "s"⟩]
    (by decide!) ⟨rfl, by decide!, rfl, by decide!, rfl, by decide!, trivial⟩ rfl

/-! ## C4: return unwinding -/

theorem evaluate_block_body_append (ev : Eval) (after : List ASTNode) :
    ∀ (before : List ASTNode) (r0 r1 : Value) (i i1 : Interpreter) (g g1 : Globals),
      evaluate_block_body ev before r0 i g = .ok (r1, i1, g1) → i1.has_return = false →
      evaluate_block_body ev (before ++ after) r0 i g =
        (match after with
          | [] => .ok (r1, i1, g1)
          | _ :: _ => evaluate_block_body ev after r1 i1 g1) := by
  intro before
  induction before with
  | nil =>
    intro r0 r1 i i1 g g1 h hr
    simp only [evaluate_block_body, Outcome.ok.injEq, Prod.mk.injEq] at h
    obtain ⟨rfl, rfl, rfl⟩ := h
    cases after <;> simp [evaluate_block_body]
  | cons s before ih =>
    intro r0 r1 i i1 g g1 h hr
    simp only [List.cons_append, evaluate_block_body] at h ⊢
    cases hs : ev s i g with
    | ok x =>
      obtain ⟨r, i', g'⟩ := x
      simp only [hs] at h ⊢
      by_cases hret : i'.has_return = true
      · simp only [hret, if_true, Outcome.ok.injEq, Prod.mk.injEq] at h
        obtain ⟨_, rfl, _⟩ := h
        rw [hret] at hr; exact absurd hr (by decide)
      · simp only [hret, if_false] at h ⊢
        exact ih _ _ _ _ _ _ h hr
    | fatal o => simp [hs] at h
    | undefined => simp [hs] at h
    | outOfFuel => simp [hs] at h

theorem evaluate_while_passes (ev : Eval) (test body : ASTNode) :
    ∀ (passes fuel : Nat) (r : Value) (i i1 : Interpreter) (g g1 : Globals),
      while_passes ev test body passes i g = some (i1, g1) →
      ∃ r1, evaluate_while_statement ev test body (passes + fuel) r i g =
        evaluate_while_statement ev test body fuel r1 i1 g1 := by
  intro passes
  induction passes with
  | zero =>
    intro fuel r i i1 g g1 h
    simp only [while_passes, Option.some.injEq, Prod.mk.injEq] at h
    obtain ⟨rfl, rfl⟩ := h
    exact ⟨r, by simp⟩
  | succ p ih =>
    intro fuel r i i1 g g1 h
    simp only [while_passes] at h
    have e : p + 1 + fuel = (p + fuel) + 1 := by omega
    rw [e]
    simp only [evaluate_while_statement]
    split at h
    · rename_i i' g' ht
      simp only [ht]
      split at h
      · rename_i r' i'' g'' hb
        simp only [hb]
        by_cases hret : i''.has_return = true
        · simp [hret] at h
        · simp only [hret, if_false] at h ⊢
          exact ih fuel r' i'' i1 g'' g1 h
      · simp at h
    · simp at h

theorem unwinds_sound (read_file : String → Option String) (fuel : Nat) (node : ASTNode)
    (i i' : Interpreter) (g g' : Globals) (v : Value)
    (h : Unwinds read_file fuel node i g v i' g') :
    evaluate read_file fuel node i g = .ok (v, i', g') ∧ i'.has_return = true ∧
      i'.return_value = v := by
  induction h with
  | return_statement h => simp [evaluate, evaluate_return_statement, h]
  | @block_statement fuel before after statement i i1 i2 g g1 g2 r v hb hr _ ih =>
    obtain ⟨h1, h2, h3⟩ := ih
    refine ⟨?_, by simpa [pop_scope] using h2, by simpa [pop_scope] using h3⟩
    simp only [evaluate, evaluate_block_statement]
    rw [evaluate_block_body_append _ _ _ _ _ _ _ _ _ hb hr]
    simp [evaluate_block_body, h1, h2]
  | if_consequent ht _ ih =>
    obtain ⟨h1, h2, h3⟩ := ih
    exact ⟨by simp [evaluate, evaluate_if_statement, ht, h1], h2, h3⟩
  | @if_alternate fuel test consequent alternate i i1 i2 g g1 g2 t v ht hne _ ih =>
    obtain ⟨h1, h2, h3⟩ := ih
    refine ⟨?_, h2, h3⟩
    simp only [evaluate, evaluate_if_statement, ht]
    exact h1
  | @while_statement fuel passes test body i i1 i2 i3 g g1 g2 g3 v hp hlt ht _ ih =>
    obtain ⟨h1, h2, h3⟩ := ih
    refine ⟨?_, h2, h3⟩
    simp only [evaluate]
    obtain ⟨k, hk⟩ : ∃ k, fuel = passes + (k + 1) := ⟨fuel - passes - 1, by omega⟩
    obtain ⟨r1, hr1⟩ := evaluate_while_passes (evaluate read_file fuel) test body passes (k + 1)
      .null i i1 g g1 hp
    rw [← hk] at hr1
    rw [hr1]
    simp [evaluate_while_statement, ht, h1, h2]


theorem call_returns (read_file : String → Option String) (fuel : Nat) (name : String)
    (arguments : List ASTNode) (i i1 i2 : Interpreter) (g g1 g2 : Globals) (ref : Nat × Nat)
    (fname fname' : String) (params params' : List String) (body body' : ASTNode)
    (closure closure' : List Nat) (args : List Value) (v : Value)
    (hl : lookup_variable i g name = some ref)
    (hf : g.value_at ref = .function fname params body closure)
    (ha : evaluate_arguments (evaluate read_file fuel) arguments [] i g = .ok (args, i1, g1))
    (hf' : g1.value_at ref = .function fname' params' body' closure')
    (hu : Unwinds read_file fuel body'
      (push_scope { i1 with scope_stack := closure' } (create_scope g1).1)
      (bind_parameters (create_scope g1).1 params' args (create_scope g1).2) v i2 g2) :
    evaluate read_file (fuel + 1) (.call_expression name arguments) i g =
      .ok (v, { i2 with scope_stack := i1.scope_stack, has_return := false }, g2) := by
  obtain ⟨h1, h2, h3⟩ := unwinds_sound _ _ _ _ _ _ _ _ hu
  simp [evaluate, evaluate_call_expression, hl, hf, ha, hf', h1, h2, h3]

/-- C4. Return unwinding: when the evaluation of a function body reaches a
`return` statement at any nesting depth of `if`, `while` and block
(`Unwinds`), the evaluation of the body ends in the state in which the
argument of the `return` was evaluated (no statement after it, no loop test,
runs: output and bindings are those of that moment), with the pending return
set; and the call expression then evaluates to the returned value and clears
the flag.  Witness: the factorial program prints `120`. -/
theorem return_unwinding :
    (∀ (read_file : String → Option String) (fuel : Nat) (node : ASTNode)
        (i i' : Interpreter) (g g' : Globals) (v : Value),
      Unwinds read_file fuel node i g v i' g' →
      evaluate read_file fuel node i g = .ok (v, i', g') ∧ i'.has_return = true ∧
        i'.return_value = v) ∧
    (∀ (read_file : String → Option String) (fuel : Nat) (name : String)
        (arguments : List ASTNode) (i i1 i2 : Interpreter) (g g1 g2 : Globals)
        (ref : Nat × Nat) (fname fname' : String) (params params' : List String)
        (body body' : ASTNode) (closure closure' : List Nat) (args : List Value) (v : Value),
      lookup_variable i g name = some ref →
      g.value_at ref = .function fname params body closure →
      evaluate_arguments (evaluate read_file fuel) arguments [] i g = .ok (args, i1, g1) →
      g1.value_at ref = .function fname' params' body' closure' →
      Unwinds read_file fuel body'
        (push_scope { i1 with scope_stack := closure' } (create_scope g1).1)
        (bind_parameters (create_scope g1).1 params' args (create_scope g1).2) v i2 g2 →
      evaluate read_file (fuel + 1) (.call_expression name arguments) i g =
        .ok (v, { i2 with scope_stack := i1.scope_stack, has_return := false }, g2)) ∧
    run_output no_files 100
        "function f(n){ if (n <= 1) { return 1; } return n * f(n-1); } print(f(5));" =
      some "120\n" :=
  ⟨unwinds_sound, call_returns, by decide!⟩

/-- The first part of C4 at `nested_return_body`: the `return 7;` inside the
loop ends the body; only `1` was printed. -/
theorem return_unwinding_witness :
    evaluate no_files 10 nested_return_body (top_level .null)
        { scopes := [⟨[]⟩], imported_files := [], stdout := "" } =
      .ok (.number (.fin 7),
        { scope_stack := [0], return_value := .number (.fin 7), has_return := true,
          base_dir := "." },
        { scopes := [⟨[]⟩, ⟨[]⟩, ⟨[]⟩, ⟨[]⟩], imported_files := [], stdout := "1\n" }) :=
  (return_unwinding.1 no_files 10 nested_return_body _ _ _ _ _
    (@Unwinds.block_statement _ _ [.print_statement (.literal (.number (.fin 1)))]
      [.print_statement (.literal (.number (.fin 3)))] _ _
      { scope_stack := [0, 1], return_value := .null, has_return := false, base_dir := "." } _ _
      { scopes := [⟨[]⟩, ⟨[]⟩], imported_files := [], stdout := "1\n" } _
      (.number (.fin 1)) _ (by decide!) rfl
      (@Unwinds.while_statement _ _ 0 _ _ _
        { scope_stack := [0, 1], return_value := .null, has_return := false, base_dir := "." }
        _ _ _ { scopes := [⟨[]⟩, ⟨[]⟩], imported_files := [], stdout := "1\n" } _ _ _
        rfl (by decide) rfl
        (@Unwinds.block_statement _ _ [] [.print_statement (.literal (.number (.fin 2)))]
          _ _ _ _ _ _ _ _ _ rfl rfl
          (Unwinds.if_consequent rfl
            (@Unwinds.block_statement _ _ [] [] _ _ _ _ _ _ _ _ _ rfl rfl
              (Unwinds.return_statement rfl))))))).1

/-! ## C5: declaring a name twice in one frame -/

theorem scope_define_variable_same (g : Globals) (scope : Nat) (x : String) (a : Value)
    (h : scope < g.scopes.length) :
    (define_variable g scope x a).scope scope = ⟨(g.scope scope).entries ++ [(x, a)]⟩ := by
  simp only [Globals.scope, define_variable, List.getD_eq_getElem?_getD,
    List.getElem?_modify_eq, List.getElem?_eq_getElem h, Option.map_eq_map, Option.map_some',
    Option.getD_some]

theorem scope_define_variable_other (g : Globals) (scope other : Nat) (x : String) (a : Value)
    (h : other ≠ scope) :
    (define_variable g scope x a).scope other = g.scope other := by
  simp only [Globals.scope, define_variable, List.getD_eq_getElem?_getD]
  rw [List.getElem?_modify_ne _ _ (Ne.symm h)]

theorem define_variable_length (g : Globals) (scope : Nat) (x : String) (a : Value) :
    (define_variable g scope x a).scopes.length = g.scopes.length := by
  simp [define_variable]

/-- In a list where `x` is bound, appending bindings does not move its first index. -/
theorem index_of_append_some (entries more : List (String × Value)) (x : String) (j : Nat)
    (h : (Scope.mk entries).index_of x = some j) :
    (Scope.mk (entries ++ more)).index_of x = some j := by
  simp only [Scope.index_of] at h ⊢
  rw [List.findIdx?_append, h]
  rfl

theorem index_of_append_none (entries more : List (String × Value)) (x : String)
    (h : (Scope.mk entries).index_of x = none) :
    (Scope.mk (entries ++ more)).index_of x =
      ((Scope.mk more).index_of x).map (fun j => j + entries.length) := by
  simp only [Scope.index_of] at h ⊢
  rw [List.findIdx?_append, h]
  rfl

theorem index_of_lt (entries : List (String × Value)) (x : String) (j : Nat)
    (h : (Scope.mk entries).index_of x = some j) : j < entries.length := by
  simp only [Scope.index_of] at h
  have := List.findIdx?_eq_some_iff_findIdx_eq.mp h
  exact this.1


theorem lookup_variable_current (i : Interpreter) (g : Globals) (scope : Nat) (x : String)
    (j : Nat) (hcur : get_current_scope i = some scope)
    (hj : (g.scope scope).index_of x = some j) :
    lookup_variable i g x = some (scope, j) := by
  simp only [get_current_scope] at hcur
  obtain ⟨front, hfront⟩ : ∃ front, i.scope_stack = front ++ [scope] := by
    have := List.getLast?_eq_some_iff.mp hcur
    exact this
  simp [lookup_variable, hfront, List.findSome?_cons, hj]

theorem redeclaration_general (i : Interpreter) (g : Globals) (scope : Nat) (x : String)
    (a b : Value) (hcur : get_current_scope i = some scope) (hlen : scope < g.scopes.length) :
    ((define_variable (define_variable g scope x a) scope x b).scope scope).entries =
        (g.scope scope).entries ++ [(x, a), (x, b)] ∧
      lookup_variable i (define_variable (define_variable g scope x a) scope x b) x =
        lookup_variable i (define_variable g scope x a) x ∧
      (lookup_variable i (define_variable (define_variable g scope x a) scope x b) x).map
          (define_variable (define_variable g scope x a) scope x b).value_at =
        (lookup_variable i (define_variable g scope x a) x).map
          (define_variable g scope x a).value_at ∧
      ((g.scope scope).index_of x = none →
        (lookup_variable i (define_variable (define_variable g scope x a) scope x b) x).map
            (define_variable (define_variable g scope x a) scope x b).value_at = some a) := by
  have h1 := scope_define_variable_same g scope x a hlen
  have h2 := scope_define_variable_same (define_variable g scope x a) scope x b
    (by rw [define_variable_length]; exact hlen)
  rw [h1] at h2
  simp only [List.append_assoc, List.singleton_append] at h2
  -- the first index of `x` after the first declaration
  obtain ⟨j, hj⟩ : ∃ j, (Scope.mk ((g.scope scope).entries ++ [(x, a)])).index_of x = some j := by
    cases hx : (Scope.mk (g.scope scope).entries).index_of x with
    | some j => exact ⟨j, index_of_append_some _ _ _ _ hx⟩
    | none =>
      rw [index_of_append_none _ _ _ hx]
      simp [Scope.index_of, List.findIdx?_cons]
  have hj2 : (Scope.mk ((g.scope scope).entries ++ [(x, a), (x, b)])).index_of x = some j := by
    have := index_of_append_some ((g.scope scope).entries ++ [(x, a)]) [(x, b)] x j hj
    simpa using this
  have hl1 := lookup_variable_current i (define_variable g scope x a) scope x j hcur
    (by rw [h1]; exact hj)
  have hl2 := lookup_variable_current i (define_variable (define_variable g scope x a) scope x b)
    scope x j hcur (by rw [h2]; exact hj2)
  have hjlt := index_of_lt _ _ _ hj
  have hv : (define_variable (define_variable g scope x a) scope x b).value_at (scope, j) =
      (define_variable g scope x a).value_at (scope, j) := by
    simp only [Globals.value_at, h1, h2, List.get?_eq_getElem?]
    have e : (g.scope scope).entries ++ [(x, a), (x, b)] =
        ((g.scope scope).entries ++ [(x, a)]) ++ [(x, b)] := by simp
    rw [e, List.getElem?_append_left hjlt]
  refine ⟨by rw [h2], by rw [hl1, hl2], by rw [hl1, hl2]; simp [hv], ?_⟩
  intro hnone
  rw [hl2]
  have hnone' : (Scope.mk (g.scope scope).entries).index_of x = none := hnone
  have hjeq : j = (g.scope scope).entries.length := by
    rw [index_of_append_none _ _ _ hnone'] at hj
    simp [Scope.index_of, List.findIdx?_cons] at hj
    omega
  simp only [Option.map_some']
  rw [hv]
  simp only [Globals.value_at, h1, List.get?_eq_getElem?]
  rw [hjeq]
  simp

/-- C5, the claim as stated, fails: after `let x = 1; let x = 2;` in one frame
the lookup of `x` yields 1, not 2. -/
theorem redeclaration_latest_binding_counterexample :
    run_output no_files 100 "let x = 1; let x = 2; print(x);" = some "1\n" ∧
      run_output no_files 100 "let x = 1; let x = 2; print(x);" ≠ some "2\n" :=
  ⟨by decide!, by decide!⟩

/-- C5, amended.  Re-declaring a name with `let` in the same frame adds a
second binding, and the earlier binding keeps shadowing it: after
`let x = a; let x = b;` in the innermost frame, the lookup of `x` from that
frame finds the same place and value as after `let x = a;` alone, and that
value is `a` when `x` was not bound in the frame before (the earliest binding
in the nearest frame wins). -/
theorem redeclaration_keeps_first_binding (i : Interpreter) (g : Globals) (scope : Nat)
    (x : String) (a b : Value) (hcur : get_current_scope i = some scope)
    (hlen : scope < g.scopes.length) :
    ((define_variable (define_variable g scope x a) scope x b).scope scope).entries =
        (g.scope scope).entries ++ [(x, a), (x, b)] ∧
      lookup_variable i (define_variable (define_variable g scope x a) scope x b) x =
        lookup_variable i (define_variable g scope x a) x ∧
      (lookup_variable i (define_variable (define_variable g scope x a) scope x b) x).map
          (define_variable (define_variable g scope x a) scope x b).value_at =
        (lookup_variable i (define_variable g scope x a) x).map
          (define_variable g scope x a).value_at ∧
      ((g.scope scope).index_of x = none →
        (lookup_variable i (define_variable (define_variable g scope x a) scope x b) x).map
            (define_variable (define_variable g scope x a) scope x b).value_at = some a) :=
  redeclaration_general i g scope x a b hcur hlen

/-- C5, amended, at the top level of a fresh interpreter, for `let x = 1;
let x = 2;`. -/
theorem redeclaration_keeps_first_binding_witness :
    (lookup_variable (top_level .null)
        (define_variable (define_variable (create_interpreter Globals.initial).2 0 "x"
          (.number (.fin 1))) 0 "x" (.number (.fin 2))) "x").map
        (define_variable (define_variable (create_interpreter Globals.initial).2 0 "x"
          (.number (.fin 1))) 0 "x" (.number (.fin 2))).value_at =
      some (.number (.fin 1)) :=
  (redeclaration_keeps_first_binding (top_level .null) (create_interpreter Globals.initial).2 0
    "x" (.number (.fin 1)) (.number (.fin 2)) rfl (by decide)).2.2.2 rfl

/-! ## C8 and C9: the operator `%` -/

theorem modulo_general (out : String) (p q : ℚ)
    (hx : -2 ^ 31 ≤ Number.truncate p ∧ Number.truncate p < 2 ^ 31)
    (hy : -2 ^ 31 ≤ Number.truncate q ∧ Number.truncate q < 2 ^ 31)
    (h0 : Number.truncate q ≠ 0)
    (hmin : ¬(Number.truncate p = -2 ^ 31 ∧ Number.truncate q = -1)) :
    binary_operation out "%" (.number (.fin p)) (.number (.fin q)) =
      .ok (.number (.fin ((Int.tmod (Number.truncate p) (Number.truncate q) : Int) : ℚ))) := by
  have hx' : -2147483648 ≤ Number.truncate p ∧ Number.truncate p < 2147483648 := by
    simpa using hx
  have hy' : -2147483648 ≤ Number.truncate q ∧ Number.truncate q < 2147483648 := by
    simpa using hy
  have hmin' : ¬(Number.truncate p = -2147483648 ∧ Number.truncate q = -1) := by
    simpa using hmin
  simp [binary_operation, Number.intRemainder, Number.toInt?, hx', hy', h0, hmin', Number.ofInt]

theorem modulo_evaluate (ev : Eval) (left right : ASTNode) (i i1 i2 : Interpreter)
    (g g1 g2 : Globals) (p q : ℚ)
    (hl : ev left i g = .ok (.number (.fin p), i1, g1))
    (hr : ev right i1 g1 = .ok (.number (.fin q), i2, g2))
    (hx : -2 ^ 31 ≤ Number.truncate p ∧ Number.truncate p < 2 ^ 31)
    (hy : -2 ^ 31 ≤ Number.truncate q ∧ Number.truncate q < 2 ^ 31)
    (h0 : Number.truncate q ≠ 0)
    (hmin : ¬(Number.truncate p = -2 ^ 31 ∧ Number.truncate q = -1)) :
    evaluate_binary_expression ev "%" left right i g =
      .ok (.number (.fin ((Int.tmod (Number.truncate p) (Number.truncate q) : Int) : ℚ)),
        i2, g2) := by
  simp [evaluate_binary_expression, hl, hr, modulo_general _ p q hx hy h0 hmin]

/-- `Number.truncate` is the truncation toward zero. -/
theorem truncate_toward_zero (p : ℚ) :
    |(Number.truncate p : ℚ)| ≤ |p| ∧ |p| < |(Number.truncate p : ℚ)| + 1 ∧
      (0 ≤ p → 0 ≤ Number.truncate p) ∧ (p ≤ 0 → Number.truncate p ≤ 0) := by
  unfold Number.truncate
  by_cases h : 0 ≤ p
  · simp only [h, if_true]
    have h1 : (0 : ℤ) ≤ ⌊p⌋ := Int.floor_nonneg.mpr h
    have h2 : ((⌊p⌋ : ℤ) : ℚ) ≤ p := Int.floor_le p
    have h3 : p < ⌊p⌋ + 1 := Int.lt_floor_add_one p
    have h4 : (0 : ℚ) ≤ ((⌊p⌋ : ℤ) : ℚ) := by exact_mod_cast h1
    rw [abs_of_nonneg h, abs_of_nonneg h4]
    refine ⟨h2, h3, fun _ => h1, fun hp => ?_⟩
    have : p = 0 := le_antisymm hp h
    rw [this]; simp
  · simp only [h, if_false]
    have hp : p < 0 := lt_of_not_ge h
    have hn : 0 ≤ -p := by linarith
    have h1 : (0 : ℤ) ≤ ⌊-p⌋ := Int.floor_nonneg.mpr hn
    have h2 : ((⌊-p⌋ : ℤ) : ℚ) ≤ -p := Int.floor_le (-p)
    have h3 : -p < ⌊-p⌋ + 1 := Int.lt_floor_add_one (-p)
    have h4 : (0 : ℚ) ≤ ((⌊-p⌋ : ℤ) : ℚ) := by exact_mod_cast h1
    rw [abs_of_neg hp]
    push_cast
    rw [abs_neg, abs_of_nonneg h4]
    refine ⟨h2, h3, fun h' => h'.elim, fun _ => by omega⟩

/-- C8, the claim as stated, fails beyond the 32-bit range: the remainder of
5000000000 by 7 is 2, and `5000000000 % 7` has no defined value, the conversion
of 5000000000 to `int` being out of range. -/
theorem modulo_64_bit_counterexample :
    Int.tmod 5000000000 7 = 2 ∧
      binary_operation "" "%" (.number (.fin 5000000000)) (.number (.fin 7)) = .undefined ∧
      run_interpreter no_files 100 "print(5000000000 % 7);" = .undefined :=
  ⟨by decide, by decide!, by decide!⟩

/-- C8, amended.  For number operands `p` and `q` whose truncations toward zero
fit in a 32-bit signed integer, the truncation of `q` being non-zero and the
pair of truncations not being `(-2^31, -1)`, `p % q` evaluates to the Number
that is the remainder of the truncations (truncated division, sign of the
dividend). -/
theorem modulo_of_32_bit_truncations (ev : Eval) (left right : ASTNode)
    (i i1 i2 : Interpreter) (g g1 g2 : Globals) (p q : ℚ)
    (hl : ev left i g = .ok (.number (.fin p), i1, g1))
    (hr : ev right i1 g1 = .ok (.number (.fin q), i2, g2))
    (hx : -2 ^ 31 ≤ Number.truncate p ∧ Number.truncate p < 2 ^ 31)
    (hy : -2 ^ 31 ≤ Number.truncate q ∧ Number.truncate q < 2 ^ 31)
    (h0 : Number.truncate q ≠ 0)
    (hmin : ¬(Number.truncate p = -2 ^ 31 ∧ Number.truncate q = -1)) :
    evaluate_binary_expression ev "%" left right i g =
        .ok (.number (.fin ((Int.tmod (Number.truncate p) (Number.truncate q) : Int) : ℚ)),
          i2, g2) ∧
      |(Number.truncate p : ℚ)| ≤ |p| ∧ |p| < |(Number.truncate p : ℚ)| + 1 ∧
      |(Number.truncate q : ℚ)| ≤ |q| ∧ |q| < |(Number.truncate q : ℚ)| + 1 :=
  ⟨modulo_evaluate ev left right i i1 i2 g g1 g2 p q hl hr hx hy h0 hmin,
    (truncate_toward_zero p).1, (truncate_toward_zero p).2.1,
    (truncate_toward_zero q).1, (truncate_toward_zero q).2.1⟩

/-- C8, amended, at `(0 - 7.5) % 2`, whose operands evaluate to -7.5 and 2: the
value is -1. -/
theorem modulo_of_32_bit_truncations_witness :
    evaluate_binary_expression (evaluate no_files 5) "%"
        (.binary_expression "-" (.literal (.number (.fin 0))) (.literal (.number (.fin (15 / 2)))))
        (.literal (.number (.fin 2))) (top_level .null) Globals.initial =
      .ok (.number (.fin (-1)), top_level .null, Globals.initial) :=
  have h := (modulo_of_32_bit_truncations (evaluate no_files 5)
    (.binary_expression "-" (.literal (.number (.fin 0))) (.literal (.number (.fin (15 / 2)))))
    (.literal (.number (.fin 2))) (top_level .null) (top_level .null) (top_level .null)
    Globals.initial Globals.initial Globals.initial (-(15 / 2)) 2
    (by decide!) (by decide!) (by decide!) (by decide!) (by decide!) (by decide!)).1
  h.trans (by decide!)

/-- C9, what the code does at the failing inputs `print(5 % 0);` and
`print(5 % 0.5);`: the right operand is converted to the `int` 0 and the
remainder by zero has no defined behaviour. -/
theorem modulo_by_zero_undefined :
    run_interpreter no_files 100 "print(5 % 0);" = .undefined ∧
      run_interpreter no_files 100 "print(5 % 0.5);" = .undefined ∧
      binary_operation "" "%" (.number (.fin 5)) (.number (.fin 0)) = .undefined :=
  ⟨by decide!, by decide!, by decide!⟩

/-! ## C10: a string that is not closed -/

theorem takeWhile_eq_self_of_all {α : Type} (p : α → Bool) (l : List α)
    (h : ∀ c ∈ l, p c = true) : l.takeWhile p = l := by
  induction l with
  | nil => rfl
  | cons a l ih =>
    have ha : p a = true := h a (List.mem_cons_self _ _)
    rw [List.takeWhile_cons, ha]
    simp [ih (fun c hc => h c (List.mem_cons_of_mem _ hc))]

theorem dropWhile_eq_nil_of_all {α : Type} (p : α → Bool) (l : List α)
    (h : ∀ c ∈ l, p c = true) : l.dropWhile p = [] := by
  induction l with
  | nil => rfl
  | cons a l ih =>
    have ha : p a = true := h a (List.mem_cons_self _ _)
    rw [List.dropWhile_cons, ha]
    simp [ih (fun c hc => h c (List.mem_cons_of_mem _ hc))]

theorem unterminated_string_general (s : List Char)
    (hquote : ∀ c ∈ s, c ≠ '"') (hnul : ∀ c ∈ s, c ≠ '\x00') (hlen : byteLength s < 1024) :
    tokenize ('"' :: s) = .ok [.string (String.mk s), Token.eof] := by
  have hq : ∀ c ∈ s, (decide (c ≠ '"')) = true := fun c hc => by simpa using hquote c hc
  have hc : create_lexer ('"' :: s) = '"' :: s := by
    unfold create_lexer
    apply takeWhile_eq_self_of_all
    intro c hc
    rcases List.mem_cons.mp hc with rfl | h
    · decide
    · simpa using hnul c h
  have hs : get_string_token ('"' :: s) = .ok (.string (String.mk s), []) := by
    simp only [get_string_token, advance_lexer, List.tail_cons]
    rw [takeWhile_eq_self_of_all _ s hq, dropWhile_eq_nil_of_all _ s hq]
    simp [hlen]
  have hn : get_next_token ('"' :: s) = .ok (.string (String.mk s), []) := by
    simp only [get_next_token, List.length_cons, get_next_token_loop]
    rw [if_neg (by decide), if_neg (by decide), if_neg (by decide), if_pos (by decide)]
    exact hs
  have hl : tokenize_loop (('"' :: s).length + 1) ('"' :: s) =
      .ok [.string (String.mk s), Token.eof] := by
    simp only [List.length_cons, tokenize_loop, hn]
    simp [Token.type, get_next_token, get_next_token_loop, Token.eof]
  simp only [tokenize, hc, hl]
  rfl

/-- C10, what the code does with a string that is not closed: for every text
`s` without a quote (and without NUL, shorter than the buffer), the input made
of an opening quote and `s` is tokenized without an error, to a string token
that carries `s` and the end-of-input token.  The failing input `print("abc` is
an instance. -/
theorem unterminated_string_yields_token :
    (∀ s : List Char, (∀ c ∈ s, c ≠ '"') → (∀ c ∈ s, c ≠ '\x00') → byteLength s < 1024 →
      tokenize ('"' :: s) = .ok [.string (String.mk s), Token.eof]) ∧
    tokenize "print(\"abc".toList =
      .ok [.plain .TOKEN_PRINT, .plain .TOKEN_LPAREN, .string "abc", Token.eof] :=
  ⟨unterminated_string_general, by decide!⟩

/-! ## C6: importing a file twice -/

theorem import_stable_refl (i : Interpreter) (g : Globals) : import_stable i g i g :=
  ⟨rfl, fun _ h => h⟩

theorem import_stable_trans {i i1 i2 : Interpreter} {g g1 g2 : Globals}
    (h1 : import_stable i g i1 g1) (h2 : import_stable i1 g1 i2 g2) : import_stable i g i2 g2 :=
  ⟨h2.1.trans h1.1, fun f h => h2.2 f (h1.2 f h)⟩

/-- A step that keeps `base_dir` and `imported_files` is `import_stable`. -/
theorem import_stable_of_eq {i i' : Interpreter} {g g' : Globals}
    (hb : i'.base_dir = i.base_dir) (hf : g'.imported_files = g.imported_files) :
    import_stable i g i' g' :=
  ⟨hb, fun f h => by simpa [is_file_imported, hf] using h⟩

theorem evaluate_program_import_stable (ev : Eval) (hev : eval_import_stable ev) :
    ∀ (body : List ASTNode) (r : Value) (i : Interpreter) (g : Globals) (v : Value)
      (i' : Interpreter) (g' : Globals),
      evaluate_program ev body r i g = .ok (v, i', g') → import_stable i g i' g' := by
  intro body
  induction body with
  | nil =>
    intro r i g v i' g' h
    simp only [evaluate_program, Outcome.ok.injEq, Prod.mk.injEq] at h
    obtain ⟨_, rfl, rfl⟩ := h
    exact import_stable_refl _ _
  | cons s body ih =>
    intro r i g v i' g' h
    simp only [evaluate_program] at h
    split at h
    · rename_i r1 i1 g1 hs
      have h1 := hev _ _ _ _ _ _ hs
      split at h
      · simp only [Outcome.ok.injEq, Prod.mk.injEq] at h
        obtain ⟨_, rfl, rfl⟩ := h
        exact h1
      · exact import_stable_trans h1 (ih _ _ _ _ _ _ h)
    all_goals simp at h

theorem evaluate_block_body_import_stable (ev : Eval) (hev : eval_import_stable ev) :
    ∀ (body : List ASTNode) (r : Value) (i : Interpreter) (g : Globals) (v : Value)
      (i' : Interpreter) (g' : Globals),
      evaluate_block_body ev body r i g = .ok (v, i', g') → import_stable i g i' g' := by
  intro body
  induction body with
  | nil =>
    intro r i g v i' g' h
    simp only [evaluate_block_body, Outcome.ok.injEq, Prod.mk.injEq] at h
    obtain ⟨_, rfl, rfl⟩ := h
    exact import_stable_refl _ _
  | cons s body ih =>
    intro r i g v i' g' h
    simp only [evaluate_block_body] at h
    split at h
    · rename_i r1 i1 g1 hs
      have h1 := hev _ _ _ _ _ _ hs
      split at h
      · simp only [Outcome.ok.injEq, Prod.mk.injEq] at h
        obtain ⟨_, rfl, rfl⟩ := h
        exact h1
      · exact import_stable_trans h1 (ih _ _ _ _ _ _ h)
    all_goals simp at h

theorem evaluate_arguments_import_stable (ev : Eval) (hev : eval_import_stable ev) :
    ∀ (arguments : List ASTNode) (args : List Value) (i : Interpreter) (g : Globals)
      (vs : List Value) (i' : Interpreter) (g' : Globals),
      evaluate_arguments ev arguments args i g = .ok (vs, i', g') → import_stable i g i' g' := by
  intro arguments
  induction arguments with
  | nil =>
    intro args i g vs i' g' h
    simp only [evaluate_arguments, Outcome.ok.injEq, Prod.mk.injEq] at h
    obtain ⟨_, rfl, rfl⟩ := h
    exact import_stable_refl _ _
  | cons s rest ih =>
    intro args i g vs i' g' h
    simp only [evaluate_arguments] at h
    split at h
    · rename_i r1 i1 g1 hs
      exact import_stable_trans (hev _ _ _ _ _ _ hs) (ih _ _ _ _ _ _ h)
    all_goals simp at h

theorem evaluate_while_import_stable (ev : Eval) (hev : eval_import_stable ev)
    (test body : ASTNode) :
    ∀ (fuel : Nat) (r : Value) (i : Interpreter) (g : Globals) (v : Value)
      (i' : Interpreter) (g' : Globals),
      evaluate_while_statement ev test body fuel r i g = .ok (v, i', g') →
      import_stable i g i' g' := by
  intro fuel
  induction fuel with
  | zero => intro r i g v i' g' h; simp [evaluate_while_statement] at h
  | succ n ih =>
    intro r i g v i' g' h
    simp only [evaluate_while_statement] at h
    split at h
    · rename_i i1 g1 ht
      have h1 := hev _ _ _ _ _ _ ht
      split at h
      · rename_i r2 i2 g2 hb
        have h2 := import_stable_trans h1 (hev _ _ _ _ _ _ hb)
        split at h
        · simp only [Outcome.ok.injEq, Prod.mk.injEq] at h
          obtain ⟨_, rfl, rfl⟩ := h
          exact h2
        · exact import_stable_trans h2 (ih _ _ _ _ _ _ h)
      all_goals simp at h
    · rename_i t i1 g1 _ ht
      simp only [Outcome.ok.injEq, Prod.mk.injEq] at h
      obtain ⟨_, rfl, rfl⟩ := h
      exact hev _ _ _ _ _ _ ht
    all_goals simp at h

theorem bind_parameters_imported_files (local_scope : Nat) :
    ∀ (params : List String) (args : List Value) (g : Globals),
      (bind_parameters local_scope params args g).imported_files = g.imported_files := by
  intro params
  induction params with
  | nil => intro args g; rfl
  | cons p params ih =>
    intro args g
    cases args with
    | nil => simp only [bind_parameters]; rw [ih]; rfl
    | cons a args => simp only [bind_parameters]; rw [ih]; rfl

theorem process_import_stable (ev : Eval) (hev : eval_import_stable ev) (code : String)
    (scope : Option Nat) (base_dir : String) (g : Globals) (v : Value) (g' : Globals)
    (h : process_import ev code scope base_dir g = .ok (v, g')) :
    ∀ f, is_file_imported g f = true → is_file_imported g' f = true := by
  simp only [process_import] at h
  split at h
  · split at h
    · split at h
      · split at h
        · rename_i r i1 g1 he
          split at h
          · simp only [Outcome.ok.injEq, Prod.mk.injEq] at h
            obtain ⟨_, rfl⟩ := h
            exact (hev _ _ _ _ _ _ he).2
          · simp at h
        all_goals simp at h
      · simp at h
    all_goals simp at h
  all_goals simp at h

theorem evaluate_import_stable (read_file : String → Option String) :
    ∀ fuel : Nat, eval_import_stable (evaluate read_file fuel) := by
  intro fuel
  induction fuel with
  | zero => intro node i g v i' g' h; simp [evaluate] at h
  | succ n ih =>
    intro node i g v i' g' h
    cases node with
    | program body =>
      exact evaluate_program_import_stable _ ih _ _ _ _ _ _ _ h
    | block_statement body =>
      simp only [evaluate, evaluate_block_statement] at h
      split at h
      · rename_i r i1 g1 hb
        simp only [Outcome.ok.injEq, Prod.mk.injEq] at h
        obtain ⟨_, rfl, rfl⟩ := h
        have := evaluate_block_body_import_stable _ ih _ _ _ _ _ _ _ hb
        exact ⟨this.1, this.2⟩
      all_goals simp at h
    | variable_declaration name value =>
      simp only [evaluate, evaluate_variable_declaration] at h
      split at h
      · rename_i r i1 g1 hv
        split at h
        · simp only [Outcome.ok.injEq, Prod.mk.injEq] at h
          obtain ⟨_, rfl, rfl⟩ := h
          exact import_stable_trans (ih _ _ _ _ _ _ hv) (import_stable_of_eq rfl rfl)
        · simp at h
      all_goals simp at h
    | assignment_expression name value =>
      simp only [evaluate, evaluate_assignment_expression] at h
      split at h
      · rename_i r i1 g1 hv
        split at h
        · simp only [Outcome.ok.injEq, Prod.mk.injEq] at h
          obtain ⟨_, rfl, rfl⟩ := h
          exact import_stable_trans (ih _ _ _ _ _ _ hv) (import_stable_of_eq rfl rfl)
        · simp at h
      all_goals simp at h
    | binary_expression operator left right =>
      simp only [evaluate, evaluate_binary_expression] at h
      split at h
      · rename_i l i1 g1 hl
        split at h
        · rename_i r i2 g2 hr
          split at h
          · simp only [Outcome.ok.injEq, Prod.mk.injEq] at h
            obtain ⟨_, rfl, rfl⟩ := h
            exact import_stable_trans (ih _ _ _ _ _ _ hl) (ih _ _ _ _ _ _ hr)
          all_goals simp at h
        all_goals simp at h
      all_goals simp at h
    | logical_expression operator left right =>
      simp only [evaluate, evaluate_logical_expression] at h
      split at h
      · rename_i l i1 g1 hl
        have h1 := ih _ _ _ _ _ _ hl
        split at h
        · split at h
          · simp only [Outcome.ok.injEq, Prod.mk.injEq] at h
            obtain ⟨_, rfl, rfl⟩ := h
            exact h1
          · split at h
            · rename_i r i2 g2 hr
              simp only [Outcome.ok.injEq, Prod.mk.injEq] at h
              obtain ⟨_, rfl, rfl⟩ := h
              exact import_stable_trans h1 (ih _ _ _ _ _ _ hr)
            all_goals simp at h
        · split at h
          · split at h
            · simp only [Outcome.ok.injEq, Prod.mk.injEq] at h
              obtain ⟨_, rfl, rfl⟩ := h
              exact h1
            · split at h
              · rename_i r i2 g2 hr
                simp only [Outcome.ok.injEq, Prod.mk.injEq] at h
                obtain ⟨_, rfl, rfl⟩ := h
                exact import_stable_trans h1 (ih _ _ _ _ _ _ hr)
              all_goals simp at h
          · simp at h
      all_goals simp at h
    | literal value =>
      simp only [evaluate, evaluate_literal] at h
      split at h <;>
      · simp only [Outcome.ok.injEq, Prod.mk.injEq] at h
        obtain ⟨_, rfl, rfl⟩ := h
        exact import_stable_refl _ _
    | identifier name =>
      simp only [evaluate, evaluate_identifier] at h
      split at h
      · simp only [Outcome.ok.injEq, Prod.mk.injEq] at h
        obtain ⟨_, rfl, rfl⟩ := h
        exact import_stable_refl _ _
      · simp at h
    | if_statement test consequent alternate =>
      simp only [evaluate, evaluate_if_statement] at h
      split at h
      · rename_i t i1 g1 ht
        have h1 := ih _ _ _ _ _ _ ht
        split at h
        · exact import_stable_trans h1 (ih _ _ _ _ _ _ h)
        · exact import_stable_trans h1 (ih _ _ _ _ _ _ h)
        · simp only [Outcome.ok.injEq, Prod.mk.injEq] at h
          obtain ⟨_, rfl, rfl⟩ := h
          exact h1
      all_goals simp at h
    | while_statement test body =>
      exact evaluate_while_import_stable _ ih _ _ _ _ _ _ _ _ _ h
    | function_declaration name params body =>
      simp only [evaluate, evaluate_function_declaration] at h
      split at h
      · simp only [Outcome.ok.injEq, Prod.mk.injEq] at h
        obtain ⟨_, rfl, rfl⟩ := h
        exact import_stable_of_eq rfl rfl
      · simp at h
    | call_expression name arguments =>
      simp only [evaluate, evaluate_call_expression] at h
      split at h
      · simp at h
      · split at h
        · split at h
          · rename_i args i1 g1 ha
            have h1 := evaluate_arguments_import_stable _ ih _ _ _ _ _ _ _ ha
            split at h
            · split at h
              · rename_i r i2 g2 hb
                have h2 := ih _ _ _ _ _ _ hb
                have h3 : import_stable i g i2 g2 := by
                  refine import_stable_trans h1 (import_stable_trans ?_ h2)
                  exact import_stable_of_eq rfl
                    (by rw [bind_parameters_imported_files]; rfl)
                split at h
                · simp only [Outcome.ok.injEq, Prod.mk.injEq] at h
                  obtain ⟨_, rfl, rfl⟩ := h
                  exact ⟨h3.1, h3.2⟩
                · simp only [Outcome.ok.injEq, Prod.mk.injEq] at h
                  obtain ⟨_, rfl, rfl⟩ := h
                  exact ⟨h3.1, h3.2⟩
              all_goals simp at h
            · simp at h
          all_goals simp at h
        · simp at h
    | return_statement argument =>
      simp only [evaluate, evaluate_return_statement] at h
      split at h
      · rename_i r i1 g1 hv
        simp only [Outcome.ok.injEq, Prod.mk.injEq] at h
        obtain ⟨_, rfl, rfl⟩ := h
        have := ih _ _ _ _ _ _ hv
        exact ⟨this.1, this.2⟩
      all_goals simp at h
    | print_statement argument =>
      simp only [evaluate, evaluate_print_statement] at h
      split at h
      · rename_i r i1 g1 hv
        simp only [Outcome.ok.injEq, Prod.mk.injEq] at h
        obtain ⟨_, rfl, rfl⟩ := h
        exact import_stable_trans (ih _ _ _ _ _ _ hv) (import_stable_of_eq rfl rfl)
      all_goals simp at h
    | import_statement path =>
      simp only [evaluate, evaluate_import_statement] at h
      split at h
      · simp only [Outcome.ok.injEq, Prod.mk.injEq] at h
        obtain ⟨_, rfl, rfl⟩ := h
        exact import_stable_refl _ _
      · split at h
        · simp at h
        · split at h
          · rename_i r g1 hp
            simp only [Outcome.ok.injEq, Prod.mk.injEq] at h
            obtain ⟨_, rfl, rfl⟩ := h
            refine ⟨rfl, fun f hf => ?_⟩
            apply process_import_stable _ ih _ _ _ _ _ _ hp
            simp only [is_file_imported, add_imported_file, List.contains_eq_any_beq,
              List.any_append, Bool.or_eq_true] at hf ⊢
            exact Or.inl hf
          all_goals simp at h


theorem import_registered (read_file : String → Option String) (fuel : Nat) (path : String)
    (i i' : Interpreter) (g g' : Globals) (v : Value)
    (h : evaluate read_file fuel (.import_statement path) i g = .ok (v, i', g')) :
    is_file_imported g' (i.base_dir ++ "/" ++ path) = true ∧ i'.base_dir = i.base_dir := by
  cases fuel with
  | zero => simp [evaluate] at h
  | succ n =>
    simp only [evaluate, evaluate_import_statement] at h
    split at h
    · rename_i hi
      simp only [Outcome.ok.injEq, Prod.mk.injEq] at h
      obtain ⟨_, rfl, rfl⟩ := h
      exact ⟨hi, rfl⟩
    · split at h
      · simp at h
      · split at h
        · rename_i r g1 hp
          simp only [Outcome.ok.injEq, Prod.mk.injEq] at h
          obtain ⟨_, rfl, rfl⟩ := h
          refine ⟨?_, rfl⟩
          apply process_import_stable _ (evaluate_import_stable read_file n) _ _ _ _ _ _ hp
          simp [is_file_imported, add_imported_file]
        all_goals simp at h

theorem import_noop (read_file : String → Option String) (fuel : Nat) (path : String)
    (i : Interpreter) (g : Globals)
    (h : is_file_imported g (i.base_dir ++ "/" ++ path) = true) :
    evaluate read_file (fuel + 1) (.import_statement path) i g = .ok (.null, i, g) := by
  simp [evaluate, evaluate_import_statement, h]

/-! ## C7: lexing the text forms of the tokens -/

/-- The longest prefix that satisfies `p`, when the list is such a prefix
followed by an element that does not. -/
theorem takeWhile_append_stop {α : Type} (p : α → Bool) (w : List α) (c : α) (rest : List α)
    (hw : ∀ x ∈ w, p x = true) (hc : p c = false) :
    (w ++ c :: rest).takeWhile p = w := by
  induction w with
  | nil => simp [List.takeWhile_cons, hc]
  | cons a w ih =>
    have ha : p a = true := hw a (List.mem_cons_self _ _)
    simp [List.takeWhile_cons, ha, ih (fun x hx => hw x (List.mem_cons_of_mem _ hx))]

/-- What is left after the longest prefix that satisfies `p`. -/
theorem dropWhile_append_stop {α : Type} (p : α → Bool) (w : List α) (c : α) (rest : List α)
    (hw : ∀ x ∈ w, p x = true) (hc : p c = false) :
    (w ++ c :: rest).dropWhile p = c :: rest := by
  induction w with
  | nil => simp [List.dropWhile_cons, hc]
  | cons a w ih =>
    have ha : p a = true := hw a (List.mem_cons_self _ _)
    simp [List.dropWhile_cons, ha, ih (fun x hx => hw x (List.mem_cons_of_mem _ hx))]

/-- Dropping a prefix does not make a list longer. -/
theorem length_dropWhile_le {α : Type} (p : α → Bool) (l : List α) :
    (l.dropWhile p).length ≤ l.length := by
  induction l with
  | nil => simp
  | cons a l ih =>
    rw [List.dropWhile_cons]
    split
    · simp only [List.length_cons]; omega
    · exact Nat.le_refl _

/-- The loop of `get_next_token` gives the same result for every fuel above the
length of the input. -/
theorem get_next_token_loop_fuel :
    ∀ (n m : Nat) (cs : List Char), cs.length < n → cs.length < m →
      get_next_token_loop n cs = get_next_token_loop m cs := by
  intro n
  induction n with
  | zero => intro m cs h; exact absurd h (Nat.not_lt_zero _)
  | succ n ih =>
    intro m cs hn hm
    cases m with
    | zero => exact absurd hm (Nat.not_lt_zero _)
    | succ m =>
      cases cs with
      | nil => rfl
      | cons c rest =>
        simp only [List.length_cons] at hn hm
        have h1 := length_dropWhile_le isspace rest
        have h2 := length_dropWhile_le (fun c => decide (c ≠ '\n')) rest
        have e1 : get_next_token_loop n (skip_whitespace (c :: rest)) =
            get_next_token_loop m (skip_whitespace (c :: rest)) ∨ isspace c = false := by
          cases hc : isspace c with
          | false => exact Or.inr rfl
          | true =>
            left
            have : skip_whitespace (c :: rest) = rest.dropWhile isspace := by
              simp [skip_whitespace, List.dropWhile_cons, hc]
            rw [this]
            exact ih m _ (by omega) (by omega)
        have e2 : get_next_token_loop n (rest.dropWhile (fun c => decide (c ≠ '\n'))) =
            get_next_token_loop m (rest.dropWhile (fun c => decide (c ≠ '\n'))) :=
          ih m _ (by omega) (by omega)
        simp only [get_next_token_loop]
        rcases e1 with e1 | e1
        · rw [e1, e2]
        · rw [e1, e2]
          simp

/-- The loop of `get_next_token` with enough fuel is `get_next_token`. -/
theorem get_next_token_loop_eq (n : Nat) (cs : List Char) (h : cs.length < n) :
    get_next_token_loop n cs = get_next_token cs :=
  get_next_token_loop_fuel n (cs.length + 1) cs h (Nat.lt_succ_self _)

/-- One pass of the loop at a white-space character. -/
theorem get_next_token_loop_space (n : Nat) (c : Char) (rest : List Char)
    (hc : isspace c = true) :
    get_next_token_loop (n + 1) (c :: rest) = get_next_token_loop n (rest.dropWhile isspace) := by
  simp only [get_next_token_loop]
  rw [if_pos hc]
  simp [skip_whitespace, List.dropWhile_cons, hc]

/-- At a white-space character `get_next_token` skips the white space. -/
theorem get_next_token_skip (c : Char) (rest : List Char) (hc : isspace c = true) :
    get_next_token (c :: rest) = get_next_token (rest.dropWhile isspace) := by
  have hl := length_dropWhile_le isspace rest
  unfold get_next_token
  rw [List.length_cons, get_next_token_loop_space _ _ _ hc]
  exact get_next_token_loop_fuel _ _ _ (by omega) (by omega)

/-- A white-space character before the input does not change the next token. -/
theorem get_next_token_space (c : Char) (rest : List Char) (hc : isspace c = true) :
    get_next_token (c :: rest) = get_next_token rest := by
  rw [get_next_token_skip c rest hc]
  cases rest with
  | nil => rfl
  | cons d rest' =>
    cases hd : isspace d with
    | false => simp [List.dropWhile_cons, hd]
    | true =>
      rw [get_next_token_skip d rest' hd]
      simp [List.dropWhile_cons, hd]

/-- A white-space character is no digit. -/
theorem isspace_not_isdigit (c : Char) (h : isspace c = true) : isdigit c = false := by
  simp only [isspace, Bool.or_eq_true, decide_eq_true_eq] at h
  rcases h with ((((rfl | rfl) | rfl) | rfl) | rfl) | rfl <;> decide

/-- A white-space character is not part of a word. -/
theorem isspace_not_word (c : Char) (h : isspace c = true) :
    (isalnum c || decide (c = '_')) = false := by
  simp only [isspace, Bool.or_eq_true, decide_eq_true_eq] at h
  rcases h with ((((rfl | rfl) | rfl) | rfl) | rfl) | rfl <;> decide

/-- A digit is no white space. -/
theorem isdigit_not_isspace (c : Char) (h : isdigit c = true) : isspace c = false := by
  cases hs : isspace c with
  | false => rfl
  | true => rw [isspace_not_isdigit c hs] at h; exact absurd h (by decide)

/-- A letter or underscore is no white space. -/
theorem word_start_not_isspace (c : Char) (h : (isalpha c || decide (c = '_')) = true) :
    isspace c = false := by
  cases hs : isspace c with
  | false => rfl
  | true =>
    have := isspace_not_word c hs
    simp only [isalnum, Bool.or_eq_false_iff] at this
    simp only [this.1.1, this.2, Bool.or_false] at h
    exact absurd h (by decide)

/-- A letter or underscore is no digit. -/
theorem isdigit_not_word_start (c : Char) (h : (isalpha c || decide (c = '_')) = true) :
    isdigit c = false := by
  cases hd : isdigit c with
  | false => rfl
  | true =>
    exfalso
    simp only [isdigit, Bool.and_eq_true, decide_eq_true_eq] at hd
    simp only [isalpha, Bool.or_eq_true, Bool.and_eq_true, decide_eq_true_eq] at h
    have h0 : c.val.toNat ≤ 57 := hd.2
    rcases h with (h | h) | h
    · have : 97 ≤ c.val.toNat := h.1
      omega
    · have : 65 ≤ c.val.toNat := h.1
      omega
    · rw [h] at h0; exact absurd h0 (by decide)

/-- `get_next_token` at a digit. -/
theorem get_next_token_digit (c : Char) (rest : List Char) (h : isdigit c = true) :
    get_next_token (c :: rest) = get_number_token (c :: rest) := by
  simp only [get_next_token, List.length_cons, get_next_token_loop]
  rw [if_neg (by simp [isdigit_not_isspace c h]), if_pos h]

/-- `get_next_token` at a letter or an underscore. -/
theorem get_next_token_word_start (c : Char) (rest : List Char)
    (h : (isalpha c || decide (c = '_')) = true) :
    get_next_token (c :: rest) = get_identifier_token (c :: rest) := by
  simp only [get_next_token, List.length_cons, get_next_token_loop]
  rw [if_neg (by simp [word_start_not_isspace c h]),
    if_neg (by simp [isdigit_not_word_start c h]), if_pos h]

/-- `get_next_token` at a quote. -/
theorem get_next_token_quote (rest : List Char) :
    get_next_token ('"' :: rest) = get_string_token ('"' :: rest) := by
  simp only [get_next_token, List.length_cons, get_next_token_loop]
  rw [if_neg (by decide), if_neg (by decide), if_neg (by decide), if_pos trivial]

/-- A word followed by a character that ends it is read as a keyword or an
identifier. -/
theorem get_next_token_word (c : Char) (w : List Char) (stop : Char) (rest : List Char)
    (hc : (isalpha c || decide (c = '_')) = true)
    (hw : ∀ x ∈ w, (isalnum x || decide (x = '_')) = true)
    (hlen : (c :: w).length < 256)
    (hstop : (isalnum stop || decide (stop = '_')) = false) :
    get_next_token (c :: w ++ stop :: rest) =
      .ok (match keyword_type (String.mk (c :: w)) with
        | some t => .plain t
        | none => .identifier (String.mk (c :: w)), stop :: rest) := by
  have hcw : ∀ x ∈ c :: w, (isalnum x || decide (x = '_')) = true := by
    intro x hx
    rcases List.mem_cons.mp hx with rfl | hx
    · simp only [isalnum, Bool.or_eq_true] at hc ⊢
      rcases hc with hc | hc
      · exact Or.inl (Or.inl hc)
      · exact Or.inr hc
    · exact hw x hx
  have e : c :: w ++ stop :: rest = (c :: w) ++ stop :: rest := rfl
  rw [List.cons_append, get_next_token_word_start c _ hc]
  unfold get_identifier_token
  rw [← List.cons_append, takeWhile_append_stop _ _ _ _ hcw hstop,
    dropWhile_append_stop _ _ _ _ hcw hstop]
  simp only [hlen, if_true]
  cases keyword_type (String.mk (c :: w)) <;> rfl

/-- A number literal followed by a space is read as the number it denotes. -/
theorem get_next_token_literal (intPart : List Char) (fracPart : Option (List Char))
    (rest : List Char) (hne : intPart ≠ [])
    (hint : ∀ c ∈ intPart, isdigit c = true) (hfrac : ∀ c ∈ fracPart.getD [], isdigit c = true)
    (hlen : (literal_text intPart fracPart).length < 64) :
    get_next_token (literal_text intPart fracPart ++ ' ' :: rest) =
      .ok (.number (Number.atof intPart fracPart), ' ' :: rest) := by
  obtain ⟨d, ds, rfl⟩ := List.exists_cons_of_ne_nil hne
  have hd : isdigit d = true := hint d (List.mem_cons_self _ _)
  cases fracPart with
  | none =>
    simp only [literal_text] at hlen ⊢
    rw [List.cons_append, get_next_token_digit d _ hd]
    unfold get_number_token
    rw [← List.cons_append, takeWhile_append_stop _ _ _ _ hint (by decide),
      dropWhile_append_stop _ _ _ _ hint (by decide)]
    simp only [List.length_cons] at hlen
    have h63 : ds.length < 63 := by omega
    simp [hlen, h63]
  | some f =>
    simp only [literal_text] at hlen ⊢
    have hf : ∀ c ∈ f, isdigit c = true := by simpa using hfrac
    have e : d :: ds ++ '.' :: f ++ ' ' :: rest = d :: (ds ++ '.' :: (f ++ ' ' :: rest)) := by
      simp
    rw [e, get_next_token_digit d _ hd]
    unfold get_number_token
    rw [← List.cons_append, takeWhile_append_stop _ _ _ _ hint (by decide),
      dropWhile_append_stop _ _ _ _ hint (by decide)]
    simp only [takeWhile_append_stop _ _ _ _ hf (by decide : isdigit ' ' = false),
      dropWhile_append_stop _ _ _ _ hf (by decide : isdigit ' ' = false)]
    simp only [List.length_append, List.length_cons] at hlen
    have h64 : ds.length + 1 + 1 + f.length < 64 := by omega
    simp [h64]

/-- A quoted string followed by anything is read as the string. -/
theorem get_next_token_quoted (s rest : List Char) (hq : ∀ c ∈ s, c ≠ '"')
    (hlen : byteLength s < 1024) :
    get_next_token ('"' :: (s ++ ['"']) ++ rest) = .ok (.string (String.mk s), rest) := by
  have hq' : ∀ c ∈ s, (decide (c ≠ '"')) = true := fun c hc => by simpa using hq c hc
  have e : '"' :: (s ++ ['"']) ++ rest = '"' :: (s ++ '"' :: rest) := by simp
  rw [e, get_next_token_quote]
  simp only [get_string_token, advance_lexer, List.tail_cons]
  rw [takeWhile_append_stop _ _ _ _ hq' (by decide), dropWhile_append_stop _ _ _ _ hq' (by decide)]
  simp [hlen]

/-- The spelling of a token without a value, followed by a space, is read as
that token. -/
theorem get_next_token_spelling (type : TokenType) (c : Char) (w rest : List Char)
    (h : spelling type = some (c :: w)) :
    get_next_token (c :: w ++ ' ' :: rest) = .ok (.plain type, ' ' :: rest) := by
  cases type <;> simp only [spelling, Option.some.injEq, List.cons.injEq, reduceCtorEq] at h
  case TOKEN_LET | TOKEN_IF | TOKEN_ELSE | TOKEN_WHILE | TOKEN_FUNCTION | TOKEN_RETURN
      | TOKEN_TRUE | TOKEN_FALSE | TOKEN_PRINT | TOKEN_IMPORT =>
    obtain ⟨rfl, rfl⟩ := h
    rw [get_next_token_word _ _ ' ' rest (by decide) (by decide) (by decide) (by decide)]
    rfl
  all_goals
    obtain ⟨rfl, rfl⟩ := h
    rfl

/-- What is left after dropping a prefix is part of the list. -/
theorem mem_of_mem_dropWhile {α : Type} (p : α → Bool) (l : List α) (x : α)
    (h : x ∈ l.dropWhile p) : x ∈ l :=
  (List.dropWhile_sublist p).subset h

/-- A prefix is part of the list. -/
theorem mem_of_mem_takeWhile {α : Type} (p : α → Bool) (l : List α) (x : α)
    (h : x ∈ l.takeWhile p) : x ∈ l :=
  (List.takeWhile_sublist p).subset h

/-- The prefix taken by `takeWhile p` satisfies `p`. -/
theorem takeWhile_all {α : Type} (p : α → Bool) (l : List α) :
    ∀ x ∈ l.takeWhile p, p x = true := by
  intro x hx
  exact List.mem_takeWhile_imp hx

/-- The tail is part of the list. -/
theorem mem_of_mem_tail {α : Type} (l : List α) (x : α) (h : x ∈ l.tail) : x ∈ l :=
  List.mem_of_mem_tail h

/-- What `get_number_token` returns at a digit is a `lex_step`. -/
theorem get_number_token_step (c : Char) (rest rest' : List Char) (t : Token)
    (hc : isdigit c = true) (h : get_number_token (c :: rest) = .ok (t, rest')) :
    lex_step (c :: rest) t rest' := by
  have hdrop : (c :: rest).dropWhile isdigit = rest.dropWhile isdigit := by
    simp [List.dropWhile_cons, hc]
  have htake : (c :: rest).takeWhile isdigit = c :: rest.takeWhile isdigit := by
    simp [List.takeWhile_cons, hc]
  have hint : ∀ x ∈ c :: rest.takeWhile isdigit, isdigit x = true := by
    intro x hx
    rcases List.mem_cons.mp hx with rfl | hx
    · exact hc
    · exact takeWhile_all _ _ x hx
  have hl := length_dropWhile_le isdigit rest
  simp only [get_number_token, hdrop, htake] at h
  split at h
  · rename_i rest1 heq
    split at h
    · rename_i hlen
      simp only [Outcome.ok.injEq, Prod.mk.injEq] at h
      obtain ⟨rfl, rfl⟩ := h
      have hl1 := length_dropWhile_le isdigit rest1
      have hlen1 : rest1.length < rest.length := by
        have := congrArg List.length heq
        simp only [List.length_cons] at this
        omega
      refine ⟨fun x hx => ?_, Or.inr ⟨⟨_, _, some _, rfl, List.cons_ne_nil _ _, hint,
        fun x hx => takeWhile_all _ _ x hx, ?_, rfl⟩, by simp only [List.length_cons]; omega⟩⟩
      · have h1 : x ∈ rest1 := mem_of_mem_dropWhile _ _ _ hx
        have h2 : x ∈ List.dropWhile isdigit rest := by rw [heq]; exact List.mem_cons_of_mem _ h1
        exact List.mem_cons_of_mem _ (mem_of_mem_dropWhile _ _ _ h2)
      · simp only [literal_text, List.length_append, List.length_cons] at hlen ⊢
        omega
    · simp at h
  · split at h
    · rename_i hlen
      simp only [Outcome.ok.injEq, Prod.mk.injEq] at h
      obtain ⟨rfl, rfl⟩ := h
      refine ⟨fun x hx => List.mem_cons_of_mem _ (mem_of_mem_dropWhile _ _ _ hx),
        Or.inr ⟨⟨_, _, none, rfl, List.cons_ne_nil _ _, hint, fun x hx => by simp at hx,
          ?_, rfl⟩, by simp only [List.length_cons]; omega⟩⟩
      simp only [literal_text, List.length_cons] at hlen ⊢
      omega
    · simp at h

/-- A keyword type has a spelling. -/
theorem keyword_type_spelling (name : String) (ty : TokenType)
    (h : keyword_type name = some ty) : lexable (.plain ty) := by
  unfold keyword_type at h
  repeat' split at h
  all_goals first
    | (injection h with h; subst h; exact ⟨_, _, rfl⟩)
    | exact Option.noConfusion h

/-- What `get_identifier_token` returns at a letter or underscore is a `lex_step`. -/
theorem get_identifier_token_step (c : Char) (rest rest' : List Char) (t : Token)
    (hc : (isalpha c || decide (c = '_')) = true)
    (h : get_identifier_token (c :: rest) = .ok (t, rest')) :
    lex_step (c :: rest) t rest' := by
  have hp : (isalnum c || decide (c = '_')) = true := by
    simp only [isalnum, Bool.or_eq_true] at hc ⊢
    rcases hc with hc | hc
    · exact Or.inl (Or.inl hc)
    · exact Or.inr hc
  have htake : (c :: rest).takeWhile (fun c => isalnum c || decide (c = '_')) =
      c :: rest.takeWhile (fun c => isalnum c || decide (c = '_')) := by
    simp [List.takeWhile_cons, hp]
  have hdrop : (c :: rest).dropWhile (fun c => isalnum c || decide (c = '_')) =
      rest.dropWhile (fun c => isalnum c || decide (c = '_')) := by
    simp [List.dropWhile_cons, hp]
  have hl := length_dropWhile_le (fun c => isalnum c || decide (c = '_')) rest
  have hsub : ∀ x ∈ rest.dropWhile (fun c => isalnum c || decide (c = '_')),
      x ∈ c :: rest := fun x hx => List.mem_cons_of_mem _ (mem_of_mem_dropWhile _ _ _ hx)
  unfold get_identifier_token at h
  rw [htake, hdrop] at h
  by_cases hlen : (c :: rest.takeWhile (fun c => isalnum c || decide (c = '_'))).length < 256
  · rw [if_pos hlen] at h
    cases hk : keyword_type (String.mk (c :: rest.takeWhile
        (fun c => isalnum c || decide (c = '_')))) with
    | some ty =>
      rw [hk] at h
      have h' : t = .plain ty ∧
          rest' = rest.dropWhile (fun c => isalnum c || decide (c = '_')) := by
        injection h with h; injection h with h1 h2; exact ⟨h1.symm, h2.symm⟩
      obtain ⟨rfl, rfl⟩ := h'
      refine ⟨hsub, Or.inr ⟨?_, by simp only [List.length_cons]; omega⟩⟩
      exact keyword_type_spelling _ _ hk
    | none =>
      rw [hk] at h
      have h' : t = .identifier (String.mk (c :: rest.takeWhile
            (fun c => isalnum c || decide (c = '_')))) ∧
          rest' = rest.dropWhile (fun c => isalnum c || decide (c = '_')) := by
        injection h with h; injection h with h1 h2; exact ⟨h1.symm, h2.symm⟩
      obtain ⟨rfl, rfl⟩ := h'
      exact ⟨hsub, Or.inr ⟨⟨c, _, rfl, hc, takeWhile_all _ _, hlen, hk⟩,
        by simp only [List.length_cons]; omega⟩⟩
  · rw [if_neg hlen] at h
    exact Outcome.noConfusion h

/-- What `get_string_token` returns at a quote is a `lex_step`. -/
theorem get_string_token_step (rest rest' : List Char) (t : Token)
    (hnul : ∀ c ∈ rest, c ≠ '\x00')
    (h : get_string_token ('"' :: rest) = .ok (t, rest')) :
    lex_step ('"' :: rest) t rest' := by
  simp only [get_string_token, advance_lexer, List.tail_cons] at h
  have hl := length_dropWhile_le (fun c => decide (c ≠ '"')) rest
  split at h
  · rename_i hlen
    simp only [Outcome.ok.injEq, Prod.mk.injEq] at h
    obtain ⟨rfl, rfl⟩ := h
    refine ⟨fun x hx => List.mem_cons_of_mem _
        (mem_of_mem_dropWhile _ _ _ (mem_of_mem_tail _ _ hx)),
      Or.inr ⟨⟨_, rfl, fun x hx => ?_, fun x hx => hnul x (mem_of_mem_takeWhile _ _ _ hx), hlen⟩,
        ?_⟩⟩
    · simpa using takeWhile_all _ _ x hx
    · have := List.length_tail (List.dropWhile (fun c => decide (c ≠ '"')) rest)
      simp only [List.length_cons]
      omega
  · simp at h

/-- A `lex_step` from a part of the input is one from the input. -/
theorem lex_step_of_part (cs cs' rest : List Char) (t : Token)
    (hsub : ∀ x ∈ cs', x ∈ cs) (hlen : cs'.length ≤ cs.length) (h : lex_step cs' t rest) :
    lex_step cs t rest := by
  refine ⟨fun x hx => hsub x (h.1 x hx), ?_⟩
  rcases h.2 with h2 | ⟨h2, h3⟩
  · exact Or.inl h2
  · exact Or.inr ⟨h2, by omega⟩

/-- Returning a token without a value that has a spelling is a `lex_step`. -/
theorem lex_step_plain (cs rest rest' : List Char) (t : Token) (type : TokenType)
    (c : Char) (w : List Char) (out : Outcome (Token × List Char))
    (hout : out = .ok (.plain type, rest'))
    (h : out = .ok (t, rest)) (hs : spelling type = some (c :: w))
    (hsub : ∀ x ∈ rest', x ∈ cs) (hlen : rest'.length < cs.length) :
    lex_step cs t rest := by
  rw [hout] at h
  injection h with h
  injection h with h1 h2
  subst h1; subst h2
  exact ⟨hsub, Or.inr ⟨⟨c, w, hs⟩, hlen⟩⟩

/-- What `get_next_token` returns on an input without NUL is a `lex_step`. -/
theorem get_next_token_loop_step :
    ∀ (n : Nat) (cs rest : List Char) (t : Token), (∀ c ∈ cs, c ≠ '\x00') →
      get_next_token_loop n cs = .ok (t, rest) → lex_step cs t rest := by
  intro n
  induction n with
  | zero => intro cs rest t _ h; exact Outcome.noConfusion h
  | succ n ih =>
    intro cs rest t hnul h
    cases cs with
    | nil =>
      have h' : Outcome.ok (Token.eof, ([] : List Char)) = .ok (t, rest) := h
      simp only [Outcome.ok.injEq, Prod.mk.injEq] at h'
      obtain ⟨rfl, rfl⟩ := h'
      exact ⟨fun x hx => hx, Or.inl rfl⟩
    | cons c rest0 =>
      have hsub0 : ∀ x ∈ rest0, x ∈ c :: rest0 := fun x hx => List.mem_cons_of_mem _ hx
      have hlen0 : rest0.length < (c :: rest0).length := by simp
      have hnul0 : ∀ x ∈ rest0, x ≠ '\x00' := fun x hx => hnul x (hsub0 x hx)
      simp only [get_next_token_loop] at h
      by_cases h1 : isspace c = true
      · rw [if_pos h1] at h
        have hs : ∀ x ∈ skip_whitespace (c :: rest0), x ∈ c :: rest0 :=
          fun x hx => mem_of_mem_dropWhile _ _ _ hx
        exact lex_step_of_part _ _ _ _ hs (length_dropWhile_le _ _)
          (ih _ _ _ (fun x hx => hnul x (hs x hx)) h)
      rw [if_neg h1] at h
      by_cases h2 : isdigit c = true
      · rw [if_pos h2] at h
        exact get_number_token_step c rest0 rest t h2 h
      rw [if_neg h2] at h
      by_cases h3 : (isalpha c || decide (c = '_')) = true
      · rw [if_pos h3] at h
        exact get_identifier_token_step c rest0 rest t h3 h
      rw [if_neg h3] at h
      by_cases h4 : c = '"'
      · rw [if_pos h4] at h
        subst h4
        exact get_string_token_step rest0 rest t hnul0 h
      rw [if_neg h4] at h
      by_cases h5 : c = '+'
      · rw [if_pos h5] at h
        exact lex_step_plain _ _ _ _ .TOKEN_PLUS _ _ _ rfl h rfl hsub0 hlen0
      rw [if_neg h5] at h
      by_cases h6 : c = '-'
      · rw [if_pos h6] at h
        exact lex_step_plain _ _ _ _ .TOKEN_MINUS _ _ _ rfl h rfl hsub0 hlen0
      rw [if_neg h6] at h
      by_cases h7 : c = '*'
      · rw [if_pos h7] at h
        exact lex_step_plain _ _ _ _ .TOKEN_MULTIPLY _ _ _ rfl h rfl hsub0 hlen0
      rw [if_neg h7] at h
      by_cases h8 : c = '/'
      · rw [if_pos h8] at h
        split at h
        · rename_i r0 tl
          have hs : ∀ x ∈ ('/' :: tl).dropWhile (fun c => decide (c ≠ '\n')),
              x ∈ c :: '/' :: tl :=
            fun x hx => hsub0 x (mem_of_mem_dropWhile _ _ _ hx)
          have hl := length_dropWhile_le (fun c => decide (c ≠ '\n')) ('/' :: tl)
          exact lex_step_of_part _ _ _ _ hs (by omega)
            (ih _ _ _ (fun x hx => hnul x (hs x hx)) h)
        · exact lex_step_plain _ _ _ _ .TOKEN_DIVIDE _ _ _ rfl h rfl hsub0 hlen0
      rw [if_neg h8] at h
      by_cases h9 : c = '='
      · rw [if_pos h9] at h
        split at h
        · exact lex_step_plain _ _ _ _ .TOKEN_EQUALS _ _ _ rfl h rfl
            (fun x hx => hsub0 x (List.mem_cons_of_mem _ hx))
            (by simp only [List.length_cons]; omega)
        · exact lex_step_plain _ _ _ _ .TOKEN_ASSIGN _ _ _ rfl h rfl hsub0 hlen0
      rw [if_neg h9] at h
      by_cases h10 : c = '>'
      · rw [if_pos h10] at h
        split at h
        · exact lex_step_plain _ _ _ _ .TOKEN_GTE _ _ _ rfl h rfl
            (fun x hx => hsub0 x (List.mem_cons_of_mem _ hx))
            (by simp only [List.length_cons]; omega)
        · exact lex_step_plain _ _ _ _ .TOKEN_GT _ _ _ rfl h rfl hsub0 hlen0
      rw [if_neg h10] at h
      by_cases h11 : c = '<'
      · rw [if_pos h11] at h
        split at h
        · exact lex_step_plain _ _ _ _ .TOKEN_LTE _ _ _ rfl h rfl
            (fun x hx => hsub0 x (List.mem_cons_of_mem _ hx))
            (by simp only [List.length_cons]; omega)
        · exact lex_step_plain _ _ _ _ .TOKEN_LT _ _ _ rfl h rfl hsub0 hlen0
      rw [if_neg h11] at h
      by_cases h12 : c = '!'
      · rw [if_pos h12] at h
        split at h
        · exact lex_step_plain _ _ _ _ .TOKEN_NOT_EQUALS _ _ _ rfl h rfl
            (fun x hx => hsub0 x (List.mem_cons_of_mem _ hx))
            (by simp only [List.length_cons]; omega)
        · exact Outcome.noConfusion h
      rw [if_neg h12] at h
      by_cases h13 : (decide (c = '&') && decide (rest0.head? = some '&')) = true
      · rw [if_pos h13] at h
        exact lex_step_plain _ _ _ _ .TOKEN_AND _ _ _ rfl h rfl
          (fun x hx => hsub0 x (mem_of_mem_tail _ _ hx))
          (by have := List.length_tail rest0; simp only [List.length_cons]; omega)
      rw [if_neg h13] at h
      by_cases h14 : (decide (c = '|') && decide (rest0.head? = some '|')) = true
      · rw [if_pos h14] at h
        exact lex_step_plain _ _ _ _ .TOKEN_OR _ _ _ rfl h rfl
          (fun x hx => hsub0 x (mem_of_mem_tail _ _ hx))
          (by have := List.length_tail rest0; simp only [List.length_cons]; omega)
      rw [if_neg h14] at h
      by_cases h15 : c = '('
      · rw [if_pos h15] at h
        exact lex_step_plain _ _ _ _ .TOKEN_LPAREN _ _ _ rfl h rfl hsub0 hlen0
      rw [if_neg h15] at h
      by_cases h16 : c = ')'
      · rw [if_pos h16] at h
        exact lex_step_plain _ _ _ _ .TOKEN_RPAREN _ _ _ rfl h rfl hsub0 hlen0
      rw [if_neg h16] at h
      by_cases h17 : c = '{'
      · rw [if_pos h17] at h
        exact lex_step_plain _ _ _ _ .TOKEN_LBRACE _ _ _ rfl h rfl hsub0 hlen0
      rw [if_neg h17] at h
      by_cases h18 : c = '}'
      · rw [if_pos h18] at h
        exact lex_step_plain _ _ _ _ .TOKEN_RBRACE _ _ _ rfl h rfl hsub0 hlen0
      rw [if_neg h18] at h
      by_cases h19 : c = ';'
      · rw [if_pos h19] at h
        exact lex_step_plain _ _ _ _ .TOKEN_SEMICOLON _ _ _ rfl h rfl hsub0 hlen0
      rw [if_neg h19] at h
      by_cases h20 : c = ','
      · rw [if_pos h20] at h
        exact lex_step_plain _ _ _ _ .TOKEN_COMMA _ _ _ rfl h rfl hsub0 hlen0
      rw [if_neg h20] at h
      by_cases h21 : c = '%'
      · rw [if_pos h21] at h
        exact lex_step_plain _ _ _ _ .TOKEN_MODULO _ _ _ rfl h rfl hsub0 hlen0
      rw [if_neg h21] at h
      exact Outcome.noConfusion h

/-- A token that the lexer produces before the end of input is not the
end-of-input token. -/
theorem lexable_type_ne_eof (t : Token) (hl : lexable t) : t.type ≠ .TOKEN_EOF := by
  cases t with
  | number v => exact fun h => TokenType.noConfusion h
  | identifier s => exact fun h => TokenType.noConfusion h
  | string s => exact fun h => TokenType.noConfusion h
  | plain type =>
    obtain ⟨c, w, h⟩ := hl
    intro he
    have he' : type = .TOKEN_EOF := he
    rw [he'] at h
    simp [spelling] at h

/-- Every lexable token has a text form. -/
theorem lexable_text_form (t : Token) (hl : lexable t) : ∃ text, is_text_form t text := by
  cases t with
  | number v => exact hl
  | identifier s => exact ⟨_, rfl⟩
  | string s => exact ⟨_, rfl⟩
  | plain type =>
    obtain ⟨c, w, h⟩ := hl
    exact ⟨_, h⟩

/-- A digit is not NUL. -/
theorem isdigit_ne_nul (c : Char) (h : isdigit c = true) : c ≠ '\x00' := by
  intro hc
  subst hc
  exact absurd h (by decide)

/-- A character of a word is not NUL. -/
theorem word_ne_nul (c : Char) (h : (isalnum c || decide (c = '_')) = true) : c ≠ '\x00' := by
  intro hc
  subst hc
  exact absurd h (by decide)

/-- A text form of a lexable token holds no NUL. -/
theorem text_form_no_nul (t : Token) (text : List Char) (hl : lexable t)
    (h : is_text_form t text) : ∀ c ∈ text, c ≠ '\x00' := by
  cases t with
  | number v =>
    obtain ⟨intPart, fracPart, rfl, -, hint, hfrac, -, -⟩ := h
    intro c hc
    cases fracPart with
    | none => exact isdigit_ne_nul c (hint c hc)
    | some f =>
      simp only [literal_text, List.mem_append, List.mem_cons] at hc
      rcases hc with hc | rfl | hc
      · exact isdigit_ne_nul c (hint c hc)
      · decide
      · exact isdigit_ne_nul c (hfrac c hc)
  | identifier s =>
    obtain ⟨c, w, rfl, hc, hw, -, -⟩ := hl
    have h' : text = c :: w := h
    subst h'
    intro x hx
    rcases List.mem_cons.mp hx with rfl | hx
    · apply word_ne_nul
      simp only [isalnum, Bool.or_eq_true] at hc ⊢
      rcases hc with hc | hc
      · exact Or.inl (Or.inl hc)
      · exact Or.inr hc
    · exact word_ne_nul x (hw x hx)
  | string s =>
    obtain ⟨cs, rfl, -, hnul, -⟩ := hl
    have h' : text = '"' :: (cs ++ ['"']) := h
    subst h'
    intro x hx
    simp only [List.mem_append, List.mem_cons, List.mem_singleton, List.not_mem_nil,
      or_false] at hx
    rcases hx with rfl | hx | rfl
    · decide
    · exact hnul x hx
    · decide
  | plain type =>
    have h' : spelling type = some text := h
    cases type <;> simp only [spelling, Option.some.injEq, reduceCtorEq] at h' <;>
      subst h' <;> decide

/-- A text form of a lexable token, followed by a space, is read as that
token. -/
theorem get_next_token_text_form (t : Token) (text rest : List Char) (hl : lexable t)
    (h : is_text_form t text) :
    get_next_token (text ++ ' ' :: rest) = .ok (t, ' ' :: rest) := by
  cases t with
  | number v =>
    obtain ⟨intPart, fracPart, rfl, hne, hint, hfrac, hlen, rfl⟩ := h
    exact get_next_token_literal intPart fracPart rest hne hint hfrac hlen
  | identifier s =>
    obtain ⟨c, w, rfl, hc, hw, hlen, hk⟩ := hl
    have h' : text = c :: w := h
    subst h'
    rw [get_next_token_word c w ' ' rest hc hw hlen (by decide), hk]
  | string s =>
    obtain ⟨cs, rfl, hq, -, hlen⟩ := hl
    have h' : text = '"' :: (cs ++ ['"']) := h
    subst h'
    exact get_next_token_quoted cs (' ' :: rest) hq hlen
  | plain type =>
    obtain ⟨c, w, hs⟩ := hl
    have h' : spelling type = some text := h
    rw [hs] at h'
    cases h'
    exact get_next_token_spelling type c w rest hs

/-- The tokens of a text without NUL are lexable tokens followed by the
end-of-input token. -/
theorem tokenize_loop_shape :
    ∀ (n : Nat) (cs : List Char) (tokens : List Token), (∀ c ∈ cs, c ≠ '\x00') →
      tokenize_loop n cs = .ok tokens →
      ∃ body, tokens = body ++ [Token.eof] ∧ ∀ t ∈ body, lexable t := by
  intro n
  induction n with
  | zero => intro cs tokens _ h; exact Outcome.noConfusion h
  | succ n ih =>
    intro cs tokens hnul h
    simp only [tokenize_loop] at h
    cases hg : get_next_token cs with
    | ok p =>
      obtain ⟨token, rest⟩ := p
      rw [hg] at h
      have hstep := get_next_token_loop_step _ cs rest token hnul hg
      by_cases he : token.type = .TOKEN_EOF
      · simp only [he, if_true, Outcome.ok.injEq] at h
        subst h
        rcases hstep.2 with h2 | ⟨h2, -⟩
        · exact ⟨[], by rw [h2]; rfl, fun t ht => absurd ht (List.not_mem_nil t)⟩
        · exact absurd he (lexable_type_ne_eof token h2)
      · simp only [he, if_false] at h
        rcases hstep.2 with h2 | ⟨h2, -⟩
        · exact absurd (by rw [h2]; rfl) he
        · cases hr : tokenize_loop n rest with
          | ok tokens' =>
            rw [hr] at h
            simp only [Outcome.ok.injEq] at h
            subst h
            obtain ⟨body, rfl, hbody⟩ := ih rest tokens' (fun c hc => hnul c (hstep.1 c hc)) hr
            refine ⟨token :: body, rfl, fun t ht => ?_⟩
            rcases List.mem_cons.mp ht with rfl | ht
            · exact h2
            · exact hbody t ht
          | fatal out => rw [hr] at h; exact Outcome.noConfusion h
          | undefined => rw [hr] at h; exact Outcome.noConfusion h
          | outOfFuel => rw [hr] at h; exact Outcome.noConfusion h
    | fatal out => rw [hg] at h; exact Outcome.noConfusion h
    | undefined => rw [hg] at h; exact Outcome.noConfusion h
    | outOfFuel => rw [hg] at h; exact Outcome.noConfusion h

/-- Joining a text with at least one more text puts a space after it. -/
theorem join_with_spaces_cons (x : List Char) (texts : List (List Char)) :
    join_with_spaces (x :: (texts ++ [[]])) = x ++ ' ' :: join_with_spaces (texts ++ [[]]) := by
  cases texts <;> simp [join_with_spaces, List.intercalate, List.intersperse]

/-- A space before the input does not change its tokens. -/
theorem tokenize_loop_space (n : Nat) (rest : List Char) :
    tokenize_loop n (' ' :: rest) = tokenize_loop n rest := by
  cases n with
  | zero => rfl
  | succ n => simp only [tokenize_loop, get_next_token_space ' ' rest (by decide)]

/-- Text forms of lexable tokens, joined with spaces and followed by the empty
text of the end of input, are read as these tokens. -/
theorem tokenize_loop_texts (body : List Token) (texts : List (List Char))
    (h : List.Forall₂ is_text_form body texts) :
    (∀ t ∈ body, lexable t) →
      (∀ c ∈ join_with_spaces (texts ++ [[]]), c ≠ '\x00') ∧
      ∀ n, (join_with_spaces (texts ++ [[]])).length < n →
        tokenize_loop n (join_with_spaces (texts ++ [[]])) = .ok (body ++ [Token.eof]) := by
  induction h with
  | nil =>
    intro _
    refine ⟨fun c hc => absurd hc (List.not_mem_nil c), fun n hn => ?_⟩
    cases n with
    | zero => exact absurd hn (Nat.not_lt_zero _)
    | succ n => rfl
  | @cons t x body texts h1 _ ih =>
    intro hl
    have ht : lexable t := hl t (List.mem_cons_self _ _)
    obtain ⟨ihnul, ihtok⟩ := ih (fun t ht => hl t (List.mem_cons_of_mem _ ht))
    rw [List.cons_append, join_with_spaces_cons]
    refine ⟨fun c hc => ?_, fun n hn => ?_⟩
    · simp only [List.mem_append, List.mem_cons] at hc
      rcases hc with hc | rfl | hc
      · exact text_form_no_nul t x ht h1 c hc
      · decide
      · exact ihnul c hc
    · cases n with
      | zero => exact absurd hn (Nat.not_lt_zero _)
      | succ n =>
        simp only [List.length_append, List.length_cons] at hn
        simp only [tokenize_loop, get_next_token_text_form t x _ ht h1,
          if_neg (lexable_type_ne_eof t ht), tokenize_loop_space, ihtok n (by omega)]
        rfl

/-- Text forms of tokens that end with the end-of-input token end with the
empty text. -/
theorem text_forms_split :
    ∀ (body : List Token) (texts : List (List Char)),
      List.Forall₂ is_text_form (body ++ [Token.eof]) texts →
      ∃ l, texts = l ++ [[]] ∧ List.Forall₂ is_text_form body l := by
  intro body
  induction body with
  | nil =>
    intro texts h
    cases h with
    | cons h1 h2 =>
      cases h2
      have h1' : some ([] : List Char) = some _ := h1
      cases h1'
      exact ⟨[], rfl, List.Forall₂.nil⟩
  | cons t body ih =>
    intro texts h
    cases h with
    | cons h1 h2 =>
      obtain ⟨l, rfl, hl⟩ := ih _ h2
      exact ⟨_ :: l, rfl, List.Forall₂.cons h1 hl⟩

/-- Lexable tokens have text forms. -/
theorem text_forms_exist :
    ∀ body : List Token, (∀ t ∈ body, lexable t) →
      ∃ texts, List.Forall₂ is_text_form (body ++ [Token.eof]) texts := by
  intro body
  induction body with
  | nil => exact fun _ => ⟨[[]], List.Forall₂.cons rfl List.Forall₂.nil⟩
  | cons t body ih =>
    intro hl
    obtain ⟨texts, h⟩ := ih (fun t ht => hl t (List.mem_cons_of_mem _ ht))
    obtain ⟨x, hx⟩ := lexable_text_form t (hl t (List.mem_cons_self _ _))
    exact ⟨x :: texts, List.Forall₂.cons hx h⟩

/-- A word at the end of the input is read as a keyword or an identifier. -/
theorem get_next_token_word_end (c : Char) (w : List Char)
    (hc : (isalpha c || decide (c = '_')) = true)
    (hw : ∀ x ∈ w, (isalnum x || decide (x = '_')) = true)
    (hlen : (c :: w).length < 256) :
    get_next_token (c :: w) =
      .ok (match keyword_type (String.mk (c :: w)) with
        | some t => .plain t
        | none => .identifier (String.mk (c :: w)), []) := by
  have hcw : ∀ x ∈ c :: w, (isalnum x || decide (x = '_')) = true := by
    intro x hx
    rcases List.mem_cons.mp hx with rfl | hx
    · simp only [isalnum, Bool.or_eq_true] at hc ⊢
      rcases hc with hc | hc
      · exact Or.inl (Or.inl hc)
      · exact Or.inr hc
    · exact hw x hx
  rw [get_next_token_word_start c _ hc]
  unfold get_identifier_token
  rw [takeWhile_eq_self_of_all _ _ hcw, dropWhile_eq_nil_of_all _ _ hcw]
  simp only [hlen, if_true]
  cases keyword_type (String.mk (c :: w)) <;> rfl

/-- A number literal at the end of the input is read as the number it
denotes. -/
theorem get_next_token_literal_end (intPart : List Char) (fracPart : Option (List Char))
    (hne : intPart ≠ [])
    (hint : ∀ c ∈ intPart, isdigit c = true) (hfrac : ∀ c ∈ fracPart.getD [], isdigit c = true)
    (hlen : (literal_text intPart fracPart).length < 64) :
    get_next_token (literal_text intPart fracPart) =
      .ok (.number (Number.atof intPart fracPart), []) := by
  obtain ⟨d, ds, rfl⟩ := List.exists_cons_of_ne_nil hne
  have hd : isdigit d = true := hint d (List.mem_cons_self _ _)
  cases fracPart with
  | none =>
    simp only [literal_text] at hlen ⊢
    rw [get_next_token_digit d _ hd]
    unfold get_number_token
    rw [takeWhile_eq_self_of_all _ _ hint, dropWhile_eq_nil_of_all _ _ hint]
    simp only [List.length_cons] at hlen
    have h63 : ds.length < 63 := by omega
    simp [hlen, h63]
  | some f =>
    simp only [literal_text] at hlen ⊢
    have hf : ∀ c ∈ f, isdigit c = true := by simpa using hfrac
    rw [List.cons_append, get_next_token_digit d _ hd]
    unfold get_number_token
    rw [← List.cons_append, takeWhile_append_stop _ _ _ _ hint (by decide),
      dropWhile_append_stop _ _ _ _ hint (by decide)]
    simp only [takeWhile_eq_self_of_all _ _ hf, dropWhile_eq_nil_of_all _ _ hf]
    simp only [List.length_append, List.length_cons] at hlen
    have h64 : ds.length + 1 + 1 + f.length < 64 := by omega
    simp [h64]

/-- The spelling of a token without a value, at the end of the input, is read
as that token. -/
theorem get_next_token_spelling_end (type : TokenType) (c : Char) (w : List Char)
    (h : spelling type = some (c :: w)) :
    get_next_token (c :: w) = .ok (.plain type, []) := by
  cases type <;> simp only [spelling, Option.some.injEq, List.cons.injEq, reduceCtorEq] at h
  case TOKEN_LET | TOKEN_IF | TOKEN_ELSE | TOKEN_WHILE | TOKEN_FUNCTION | TOKEN_RETURN
      | TOKEN_TRUE | TOKEN_FALSE | TOKEN_PRINT | TOKEN_IMPORT =>
    obtain ⟨rfl, rfl⟩ := h
    rw [get_next_token_word_end _ _ (by decide) (by decide) (by decide)]
    rfl
  all_goals
    obtain ⟨rfl, rfl⟩ := h
    rfl

/-- A text form of a lexable token, at the end of the input, is read as that
token. -/
theorem get_next_token_text_form_end (t : Token) (text : List Char) (hl : lexable t)
    (h : is_text_form t text) :
    get_next_token text = .ok (t, []) := by
  cases t with
  | number v =>
    obtain ⟨intPart, fracPart, rfl, hne, hint, hfrac, hlen, rfl⟩ := h
    exact get_next_token_literal_end intPart fracPart hne hint hfrac hlen
  | identifier s =>
    obtain ⟨c, w, rfl, hc, hw, hlen, hk⟩ := hl
    have h' : text = c :: w := h
    subst h'
    rw [get_next_token_word_end c w hc hw hlen, hk]
  | string s =>
    obtain ⟨cs, rfl, hq, -, hlen⟩ := hl
    have h' : text = '"' :: (cs ++ ['"']) := h
    subst h'
    have e := get_next_token_quoted cs [] hq hlen
    rwa [List.append_nil] at e
  | plain type =>
    obtain ⟨c, w, hs⟩ := hl
    have h' : spelling type = some text := h
    rw [hs] at h'
    cases h'
    exact get_next_token_spelling_end type c w hs

/-- A text form of a lexable token is not empty. -/
theorem text_form_ne_nil (t : Token) (text : List Char) (hl : lexable t)
    (h : is_text_form t text) : text ≠ [] := by
  intro he
  subst he
  have := get_next_token_text_form_end t [] hl h
  have h0 : get_next_token [] = .ok (Token.eof, []) := rfl
  rw [h0] at this
  simp only [Outcome.ok.injEq, Prod.mk.injEq, and_true] at this
  exact lexable_type_ne_eof t hl (by rw [← this]; rfl)

/-- Joining a text with at least one more text puts a space after it. -/
theorem join_with_spaces_cons_cons (x y : List Char) (texts : List (List Char)) :
    join_with_spaces (x :: y :: texts) = x ++ ' ' :: join_with_spaces (y :: texts) := by
  simp [join_with_spaces, List.intercalate, List.intersperse]

/-- Text forms of lexable tokens, joined with spaces, are read as these tokens
and the end of input. -/
theorem tokenize_loop_texts_end (body : List Token) (texts : List (List Char))
    (h : List.Forall₂ is_text_form body texts) :
    (∀ t ∈ body, lexable t) →
      (∀ c ∈ join_with_spaces texts, c ≠ '\x00') ∧
      ∀ n, (join_with_spaces texts).length < n →
        tokenize_loop n (join_with_spaces texts) = .ok (body ++ [Token.eof]) := by
  induction h with
  | nil =>
    intro _
    refine ⟨fun c hc => absurd hc (List.not_mem_nil c), fun n hn => ?_⟩
    cases n with
    | zero => exact absurd hn (Nat.not_lt_zero _)
    | succ n => rfl
  | @cons t x body texts h1 h2 ih =>
    intro hl
    have ht : lexable t := hl t (List.mem_cons_self _ _)
    obtain ⟨ihnul, ihtok⟩ := ih (fun t ht => hl t (List.mem_cons_of_mem _ ht))
    cases h2 with
    | nil =>
      have e : join_with_spaces [x] = x := by simp [join_with_spaces, List.intercalate]
      rw [e]
      refine ⟨text_form_no_nul t x ht h1, fun n hn => ?_⟩
      have hx : 0 < x.length := List.length_pos.mpr (text_form_ne_nil t x ht h1)
      cases n with
      | zero => exact absurd hn (Nat.not_lt_zero _)
      | succ n =>
        simp only [tokenize_loop, get_next_token_text_form_end t x ht h1,
          if_neg (lexable_type_ne_eof t ht)]
        have h0 := ihtok n (by
          have e0 : join_with_spaces [] = [] := rfl
          rw [e0]; simp only [List.length_nil]; omega)
        have e0 : join_with_spaces [] = [] := rfl
        rw [e0] at h0
        rw [h0]
        rfl
    | @cons t' y body' texts' h3 h4 =>
      rw [join_with_spaces_cons_cons]
      refine ⟨fun c hc => ?_, fun n hn => ?_⟩
      · simp only [List.mem_append, List.mem_cons] at hc
        rcases hc with hc | rfl | hc
        · exact text_form_no_nul t x ht h1 c hc
        · decide
        · exact ihnul c hc
      · cases n with
        | zero => exact absurd hn (Nat.not_lt_zero _)
        | succ n =>
          simp only [List.length_append, List.length_cons] at hn
          simp only [tokenize_loop, get_next_token_text_form t x _ ht h1,
            if_neg (lexable_type_ne_eof t ht), tokenize_loop_space, ihtok n (by omega)]
          rfl

/-- Lexable tokens without the end-of-input token have text forms. -/
theorem body_text_forms_exist :
    ∀ body : List Token, (∀ t ∈ body, lexable t) →
      ∃ texts, List.Forall₂ is_text_form body texts := by
  intro body
  induction body with
  | nil => exact fun _ => ⟨[], List.Forall₂.nil⟩
  | cons t body ih =>
    intro hl
    obtain ⟨texts, h⟩ := ih (fun t ht => hl t (List.mem_cons_of_mem _ ht))
    obtain ⟨x, hx⟩ := lexable_text_form t (hl t (List.mem_cons_self _ _))
    exact ⟨x :: texts, List.Forall₂.cons hx h⟩

/-- The function `tokenize` returns tokens when its loop does and the array has
room for the end-of-input token. -/
theorem tokenize_eq_ok (input : List Char) (tokens : List Token) :
    tokenize input = .ok tokens ↔
      tokenize_loop ((create_lexer input).length + 1) (create_lexer input) = .ok tokens ∧
        tokens.length - 1 < token_capacity (tokens.length - 1) := by
  unfold tokenize
  cases h : tokenize_loop ((create_lexer input).length + 1) (create_lexer input) with
  | ok ts =>
    simp only []
    by_cases hc : ts.length - 1 < token_capacity (ts.length - 1)
    · simp only [hc, if_true, Outcome.ok.injEq]
      constructor
      · rintro rfl; exact ⟨rfl, hc⟩
      · rintro ⟨rfl, -⟩; rfl
    · simp only [hc, if_false]
      constructor
      · intro h'; exact Outcome.noConfusion h'
      · rintro ⟨h1, h2⟩
        simp only [Outcome.ok.injEq] at h1
        subst h1
        exact absurd h2 hc
  | fatal out => simp
  | undefined => simp
  | outOfFuel => simp

/-- C7. Lex round trip: when `tokenize` returns the tokens of a program text
`P`, every token has a text form (the name of an identifier, the quoted string,
a number literal that denotes the number, the spelling of an operator or
keyword, the empty text for the end of input); and whichever text forms are
chosen, the text made of them with one space between each is tokenized to the
same tokens, with the same payloads, in the same order.  This holds when the
end-of-input token is rendered too (by the empty text) and when only the tokens
before it are rendered. -/
theorem lex_round_trip (P : List Char) (tokens : List Token)
    (h : tokenize P = .ok tokens) :
    (∃ texts, List.Forall₂ is_text_form tokens texts) ∧
    (∀ texts, List.Forall₂ is_text_form tokens texts →
      tokenize (join_with_spaces texts) = .ok tokens) ∧
    (∃ texts, List.Forall₂ is_text_form tokens.dropLast texts) ∧
    (∀ texts, List.Forall₂ is_text_form tokens.dropLast texts →
      tokenize (join_with_spaces texts) = .ok tokens) := by
  have hnul : ∀ c ∈ create_lexer P, c ≠ '\x00' := fun c hc => by
    simpa using takeWhile_all _ _ c hc
  obtain ⟨h, hcap⟩ := (tokenize_eq_ok P tokens).mp h
  obtain ⟨body, rfl, hbody⟩ := tokenize_loop_shape _ _ tokens hnul h
  have hd : (body ++ [Token.eof]).dropLast = body := List.dropLast_concat
  rw [hd]
  refine ⟨text_forms_exist body hbody, fun texts ht => ?_, body_text_forms_exist body hbody,
    fun texts ht => ?_⟩
  · obtain ⟨l, rfl, hl⟩ := text_forms_split body texts ht
    obtain ⟨hn, htok⟩ := tokenize_loop_texts body l hl hbody
    have hc : create_lexer (join_with_spaces (l ++ [[]])) = join_with_spaces (l ++ [[]]) :=
      takeWhile_eq_self_of_all _ _ (fun c hc => by simpa using hn c hc)
    refine (tokenize_eq_ok _ _).mpr ⟨?_, hcap⟩
    rw [hc]
    exact htok _ (Nat.lt_succ_self _)
  · obtain ⟨hn, htok⟩ := tokenize_loop_texts_end body texts ht hbody
    have hc : create_lexer (join_with_spaces texts) = join_with_spaces texts :=
      takeWhile_eq_self_of_all _ _ (fun c hc => by simpa using hn c hc)
    refine (tokenize_eq_ok _ _).mpr ⟨?_, hcap⟩
    rw [hc]
    exact htok _ (Nat.lt_succ_self _)

/-- Witness of `lex_round_trip`: a program text with a comment, a string and
the literal `3.50`, rendered with the literal `3.5`. -/
theorem lex_round_trip_witness :
    tokenize "x1 = 3.50 + \"a b\";  // c".toList =
        .ok [.identifier "x1", .plain .TOKEN_ASSIGN, .number (.fin (7 / 2)),
          .plain .TOKEN_PLUS, .string "a b", .plain .TOKEN_SEMICOLON, Token.eof] ∧
      join_with_spaces ["x1".toList, "=".toList, "3.5".toList, "+".toList,
          "\"a b\"".toList, ";".toList] = "x1 = 3.5 + \"a b\" ;".toList ∧
      tokenize "x1 = 3.5 + \"a b\" ;".toList =
        .ok [.identifier "x1", .plain .TOKEN_ASSIGN, .number (.fin (7 / 2)),
          .plain .TOKEN_PLUS, .string "a b", .plain .TOKEN_SEMICOLON, Token.eof] :=
  ⟨by decide!, by decide,
    (lex_round_trip "x1 = 3.50 + \"a b\";  // c".toList _ (by decide!)).2.2.2
      ["x1".toList, "=".toList, "3.5".toList, "+".toList, "\"a b\"".toList, ";".toList]
      (.cons rfl (.cons rfl (.cons
        ⟨['3'], some ['5'], rfl, by decide, by decide, by decide, by decide, by decide!⟩
        (.cons rfl (.cons rfl (.cons rfl .nil))))))⟩

/-! ## C11 and C12: the logical operators -/

/-- When the left operand of `&&` is the boolean false, the right operand is not
evaluated. -/
theorem logical_and_false (ev : Eval) (left right : ASTNode) (i i1 : Interpreter)
    (g g1 : Globals) (h : ev left i g = .ok (.boolean false, i1, g1)) :
    evaluate_logical_expression ev "&&" left right i g = .ok (.boolean false, i1, g1) := by
  simp [evaluate_logical_expression, h]

/-- When the left operand of `||` is the boolean true, the right operand is not
evaluated. -/
theorem logical_or_true (ev : Eval) (left right : ASTNode) (i i1 : Interpreter)
    (g g1 : Globals) (h : ev left i g = .ok (.boolean true, i1, g1)) :
    evaluate_logical_expression ev "||" left right i g = .ok (.boolean true, i1, g1) := by
  simp [evaluate_logical_expression, h]

/-- C11. The logical operators short-circuit.  When the left operand of `&&`
evaluates to the boolean false, or the left operand of `||` to the boolean
true, the expression evaluates to that boolean in the state that the left
operand left: interpreter, bindings and output.  This holds for every right
operand and for every evaluator `ev` of the operands, whatever `ev` does on the
right operand (print, assign, exit), so the right operand is not evaluated.
The same is stated for `evaluate` itself; and
`print(false && undefined_name); print(true || undefined_name);` runs to its
end and prints `false` and `true`. -/
theorem logical_short_circuit :
    (∀ (ev : Eval) (left right : ASTNode) (i i1 : Interpreter) (g g1 : Globals),
      ev left i g = .ok (.boolean false, i1, g1) →
      evaluate_logical_expression ev "&&" left right i g = .ok (.boolean false, i1, g1)) ∧
    (∀ (ev : Eval) (left right : ASTNode) (i i1 : Interpreter) (g g1 : Globals),
      ev left i g = .ok (.boolean true, i1, g1) →
      evaluate_logical_expression ev "||" left right i g = .ok (.boolean true, i1, g1)) ∧
    (∀ (read_file : String → Option String) (fuel : Nat) (left right : ASTNode)
        (i i1 : Interpreter) (g g1 : Globals),
      evaluate read_file fuel left i g = .ok (.boolean false, i1, g1) →
      evaluate read_file (fuel + 1) (.logical_expression "&&" left right) i g =
        .ok (.boolean false, i1, g1)) ∧
    (∀ (read_file : String → Option String) (fuel : Nat) (left right : ASTNode)
        (i i1 : Interpreter) (g g1 : Globals),
      evaluate read_file fuel left i g = .ok (.boolean true, i1, g1) →
      evaluate read_file (fuel + 1) (.logical_expression "||" left right) i g =
        .ok (.boolean true, i1, g1)) ∧
    run_output no_files 20 "print(false && undefined_name); print(true || undefined_name);" =
      some "false\ntrue\n" :=
  ⟨logical_and_false, logical_or_true,
    fun _ _ left right _ _ _ _ h => logical_and_false _ left right _ _ _ _ h,
    fun _ _ left right _ _ _ _ h => logical_or_true _ left right _ _ _ _ h, by decide!⟩

/-- C11 at `false && undefined_name`, evaluated where no name is bound: the
value is false and nothing changes, although evaluating `undefined_name` alone
exits with an error. -/
theorem logical_short_circuit_witness :
    evaluate no_files 1 (.identifier "undefined_name") (top_level .null)
        { scopes := [⟨[]⟩], imported_files := [], stdout := "" } = .fatal "" ∧
    evaluate no_files 2
        (.logical_expression "&&" (.literal (.boolean false)) (.identifier "undefined_name"))
        (top_level .null) { scopes := [⟨[]⟩], imported_files := [], stdout := "" } =
      .ok (.boolean false, top_level .null,
        { scopes := [⟨[]⟩], imported_files := [], stdout := "" }) :=
  ⟨rfl, logical_short_circuit.2.2.1 no_files 1 (.literal (.boolean false))
    (.identifier "undefined_name") _ _ _ _ rfl⟩

/-- The result of a logical operator that evaluates its right operand. -/
theorem logical_right (ev : Eval) (operator : String) (left right : ASTNode)
    (i i1 i2 : Interpreter) (g g1 g2 : Globals) (l r : Value)
    (hop : (operator = "&&" ∧ l ≠ .boolean false) ∨ (operator = "||" ∧ l ≠ .boolean true))
    (hl : ev left i g = .ok (l, i1, g1)) (hr : ev right i1 g1 = .ok (r, i2, g2)) :
    evaluate_logical_expression ev operator left right i g =
      .ok (boolean_or_false r, i2, g2) := by
  rcases hop with ⟨rfl, hne⟩ | ⟨rfl, hne⟩
  · simp only [evaluate_logical_expression, hl, if_true]
    cases l with
    | boolean b =>
      cases b
      · exact absurd rfl hne
      · simp [hr]
    | _ => simp [hr]
  · have hd : ¬ ("||" = "&&") := by decide
    simp only [evaluate_logical_expression, hl, hd, if_false, if_true]
    cases l with
    | boolean b =>
      cases b
      · simp [hr]
      · exact absurd rfl hne
    | _ => simp [hr]

/-- A logical operator yields a boolean. -/
theorem logical_boolean (ev : Eval) (operator : String) (left right : ASTNode)
    (i i' : Interpreter) (g g' : Globals) (v : Value)
    (h : evaluate_logical_expression ev operator left right i g = .ok (v, i', g')) :
    ∃ b, v = .boolean b := by
  simp only [evaluate_logical_expression] at h
  split at h
  · split at h
    · split at h
      · simp only [Outcome.ok.injEq, Prod.mk.injEq] at h
        exact ⟨false, h.1.symm⟩
      · split at h
        · rename_i r i2 g2 _
          simp only [Outcome.ok.injEq, Prod.mk.injEq] at h
          obtain ⟨rfl, -, -⟩ := h
          cases r <;> exact ⟨_, rfl⟩
        all_goals simp at h
    · split at h
      · split at h
        · simp only [Outcome.ok.injEq, Prod.mk.injEq] at h
          exact ⟨true, h.1.symm⟩
        · split at h
          · rename_i r i2 g2 _
            simp only [Outcome.ok.injEq, Prod.mk.injEq] at h
            obtain ⟨rfl, -, -⟩ := h
            cases r <;> exact ⟨_, rfl⟩
          all_goals simp at h
      · simp at h
  all_goals simp at h

/-- A logical operator exits with an error only when an operand does. -/
theorem logical_fatal (ev : Eval) (operator : String) (left right : ASTNode)
    (i : Interpreter) (g : Globals) (out : String)
    (h : evaluate_logical_expression ev operator left right i g = .fatal out) :
    ev left i g = .fatal out ∨
      ∃ l i1 g1, ev left i g = .ok (l, i1, g1) ∧ ev right i1 g1 = .fatal out := by
  simp only [evaluate_logical_expression] at h
  split at h
  · rename_i l i1 g1 hl
    refine Or.inr ⟨l, i1, g1, hl, ?_⟩
    split at h
    · split at h
      · simp at h
      · split at h
        · simp at h
        · rename_i o ho
          simp only [Outcome.fatal.injEq] at h
          rw [ho, h]
        all_goals simp at h
    · split at h
      · split at h
        · simp at h
        · split at h
          · simp at h
          · rename_i o ho
            simp only [Outcome.fatal.injEq] at h
            rw [ho, h]
          all_goals simp at h
      · simp at h
  · rename_i o ho
    simp only [Outcome.fatal.injEq] at h
    exact Or.inl (by rw [ho, h])
  all_goals simp at h

/-- C12. A logical operator that does not short-circuit (the left operand of
`&&` is not the boolean false, that of `||` is not the boolean true, which
includes every left operand that is no boolean) evaluates its right operand, in
the state the left operand left; the result is the right value when that is a
boolean and the boolean false otherwise.  Every `&&` or `||` that ends normally
yields a boolean, and one that exits with an error does so because an operand
did.  Witness: `print(true && false); print(true || false);` prints `false`
then `true`. -/
theorem logical_right_operand :
    (∀ (ev : Eval) (operator : String) (left right : ASTNode) (i i1 i2 : Interpreter)
        (g g1 g2 : Globals) (l r : Value),
      (operator = "&&" ∧ l ≠ .boolean false) ∨ (operator = "||" ∧ l ≠ .boolean true) →
      ev left i g = .ok (l, i1, g1) → ev right i1 g1 = .ok (r, i2, g2) →
      (∀ b, r = .boolean b →
        evaluate_logical_expression ev operator left right i g = .ok (.boolean b, i2, g2)) ∧
      ((∀ b, r ≠ .boolean b) →
        evaluate_logical_expression ev operator left right i g =
          .ok (.boolean false, i2, g2))) ∧
    (∀ (ev : Eval) (operator : String) (left right : ASTNode) (i i' : Interpreter)
        (g g' : Globals) (v : Value),
      evaluate_logical_expression ev operator left right i g = .ok (v, i', g') →
      ∃ b, v = .boolean b) ∧
    (∀ (ev : Eval) (operator : String) (left right : ASTNode) (i : Interpreter)
        (g : Globals) (out : String),
      evaluate_logical_expression ev operator left right i g = .fatal out →
      ev left i g = .fatal out ∨
        ∃ l i1 g1, ev left i g = .ok (l, i1, g1) ∧ ev right i1 g1 = .fatal out) ∧
    run_output no_files 20 "print(true && false); print(true || false);" =
      some "false\ntrue\n" := by
  refine ⟨fun ev operator left right i i1 i2 g g1 g2 l r hop hl hr => ?_, logical_boolean,
    logical_fatal, by decide!⟩
  have h := logical_right ev operator left right i i1 i2 g g1 g2 l r hop hl hr
  refine ⟨fun b hb => ?_, fun hb => ?_⟩
  · rw [h, hb]; rfl
  · rw [h]
    cases r with
    | boolean b => exact absurd rfl (hb b)
    | _ => rfl

/-- C12 at `1 && 2` and `0 || true`: a left operand that is no boolean does not
short-circuit; a right operand that is no boolean gives false. -/
theorem logical_right_operand_witness :
    evaluate no_files 2
        (.logical_expression "&&" (.literal (.number (.fin 1))) (.literal (.number (.fin 2))))
        (top_level .null) { scopes := [⟨[]⟩], imported_files := [], stdout := "" } =
      .ok (.boolean false, top_level .null,
        { scopes := [⟨[]⟩], imported_files := [], stdout := "" }) ∧
    evaluate no_files 2
        (.logical_expression "||" (.literal (.number (.fin 0))) (.literal (.boolean true)))
        (top_level .null) { scopes := [⟨[]⟩], imported_files := [], stdout := "" } =
      .ok (.boolean true, top_level .null,
        { scopes := [⟨[]⟩], imported_files := [], stdout := "" }) :=
  ⟨(logical_right_operand.1 (evaluate no_files 1) "&&" (.literal (.number (.fin 1)))
      (.literal (.number (.fin 2))) _ _ _ _ _ _ _ (.number (.fin 2))
      (Or.inl ⟨rfl, by decide⟩) rfl rfl).2 (fun _ h => Value.noConfusion h),
    (logical_right_operand.1 (evaluate no_files 1) "||" (.literal (.number (.fin 0)))
      (.literal (.boolean true)) _ _ _ _ _ _ _ (.boolean true)
      (Or.inr ⟨rfl, by decide⟩) rfl rfl).1 true rfl⟩

/-! ## C13 and C14: a test that is no boolean -/

/-- An `if` without `else` whose test is no boolean yields null. -/
theorem if_non_boolean_none (ev : Eval) (test consequent : ASTNode) (i i1 : Interpreter)
    (g g1 : Globals) (t : Value) (ht : ev test i g = .ok (t, i1, g1))
    (hb : ∀ b, t ≠ .boolean b) :
    evaluate_if_statement ev test consequent none i g = .ok (.null, i1, g1) := by
  simp only [evaluate_if_statement, ht]
  cases t with
  | boolean b => exact absurd rfl (hb b)
  | _ => rfl

/-- An `if` with `else` whose test is no boolean evaluates the alternate. -/
theorem if_non_boolean_some (ev : Eval) (test consequent alternate : ASTNode)
    (i i1 : Interpreter) (g g1 : Globals) (t : Value) (ht : ev test i g = .ok (t, i1, g1))
    (hb : ∀ b, t ≠ .boolean b) :
    evaluate_if_statement ev test consequent (some alternate) i g = ev alternate i1 g1 := by
  simp only [evaluate_if_statement, ht]
  cases t with
  | boolean b => exact absurd rfl (hb b)
  | _ => rfl

/-- A `while` whose test is no boolean ends. -/
theorem while_non_boolean (ev : Eval) (test body : ASTNode) (fuel : Nat) (result : Value)
    (i i1 : Interpreter) (g g1 : Globals) (t : Value) (ht : ev test i g = .ok (t, i1, g1))
    (hb : ∀ b, t ≠ .boolean b) :
    evaluate_while_statement ev test body (fuel + 1) result i g = .ok (result, i1, g1) := by
  simp only [evaluate_while_statement, ht]
  cases t with
  | boolean b => exact absurd rfl (hb b)
  | _ => rfl

/-- C13. A test that is no boolean is treated as false.  When the test of an
`if` evaluates to a value `t` that is no boolean (a number, a string, a
function or null), the consequent is not evaluated: the statement is evaluated
as with any other consequent in its place and, when there is no `else`, yields
null in the state the test left.  When the test of a `while` evaluates to such a
value, the loop ends in the state the test left, the body not being evaluated.
Neither exits with an error.  Stated for every evaluator `ev` of the parts and
for `evaluate`; and a program whose tests are a number, a string, a function
and null prints only what follows these statements. -/
theorem non_boolean_test_is_false :
    (∀ (ev : Eval) (test consequent other : ASTNode) (alternate : Option ASTNode)
        (i i1 : Interpreter) (g g1 : Globals) (t : Value),
      ev test i g = .ok (t, i1, g1) → (∀ b, t ≠ .boolean b) →
      evaluate_if_statement ev test consequent alternate i g =
          evaluate_if_statement ev test other alternate i g ∧
        evaluate_if_statement ev test consequent none i g = .ok (.null, i1, g1)) ∧
    (∀ (ev : Eval) (test body : ASTNode) (fuel : Nat) (result : Value) (i i1 : Interpreter)
        (g g1 : Globals) (t : Value),
      ev test i g = .ok (t, i1, g1) → (∀ b, t ≠ .boolean b) →
      evaluate_while_statement ev test body (fuel + 1) result i g = .ok (result, i1, g1)) ∧
    (∀ (read_file : String → Option String) (fuel : Nat) (test part : ASTNode)
        (i i1 : Interpreter) (g g1 : Globals) (t : Value),
      evaluate read_file (fuel + 1) test i g = .ok (t, i1, g1) → (∀ b, t ≠ .boolean b) →
      evaluate read_file (fuel + 2) (.if_statement test part none) i g = .ok (.null, i1, g1) ∧
        evaluate read_file (fuel + 2) (.while_statement test part) i g =
          .ok (.null, i1, g1)) ∧
    run_output no_files 20
        ("function n() {} if (1) print(1); if (\"x\") print(2); if (n) print(3); " ++
          "if (n()) print(4); while (1) print(5); while (n()) print(6); print(7);") =
      some "7\n" := by
  refine ⟨fun ev test consequent other alternate i i1 g g1 t ht hb => ⟨?_, ?_⟩,
    while_non_boolean, fun read_file fuel test part i i1 g g1 t ht hb => ⟨?_, ?_⟩, by decide!⟩
  · cases alternate with
    | none =>
      rw [if_non_boolean_none ev test consequent i i1 g g1 t ht hb,
        if_non_boolean_none ev test other i i1 g g1 t ht hb]
    | some a =>
      rw [if_non_boolean_some ev test consequent a i i1 g g1 t ht hb,
        if_non_boolean_some ev test other a i i1 g g1 t ht hb]
  · exact if_non_boolean_none ev test consequent i i1 g g1 t ht hb
  · exact if_non_boolean_none _ test part i i1 g g1 t ht hb
  · exact while_non_boolean _ test part fuel .null i i1 g g1 t ht hb

/-- C13 at `if (1) print(1);` and `while (1) print(1);`: null, nothing
printed. -/
theorem non_boolean_test_is_false_witness :
    evaluate no_files 3
        (.if_statement (.literal (.number (.fin 1)))
          (.print_statement (.literal (.number (.fin 1)))) none)
        (top_level .null) { scopes := [⟨[]⟩], imported_files := [], stdout := "" } =
      .ok (.null, top_level .null, { scopes := [⟨[]⟩], imported_files := [], stdout := "" }) ∧
    evaluate no_files 3
        (.while_statement (.literal (.number (.fin 1)))
          (.print_statement (.literal (.number (.fin 1)))))
        (top_level .null) { scopes := [⟨[]⟩], imported_files := [], stdout := "" } =
      .ok (.null, top_level .null, { scopes := [⟨[]⟩], imported_files := [], stdout := "" }) :=
  non_boolean_test_is_false.2.2.1 no_files 1 (.literal (.number (.fin 1)))
    (.print_statement (.literal (.number (.fin 1)))) _ _ _ _ (.number (.fin 1)) rfl
    (fun _ h => Value.noConfusion h)

/-- Counterexample to C14: the test of `if (1) print(1); else print(2);` is a
number, and the alternate is evaluated: the program prints `2`.  The tree of the
statement has an alternate, and its evaluation yields the value of the
alternate, the number 2, not null. -/
theorem if_non_boolean_no_branch_counterexample :
    run_output no_files 20 "if (1) print(1); else print(2);" = some "2\n" ∧
    (tokenize "if (1) print(1); else print(2);".toList).bind parse =
      .ok (.program [.if_statement (.literal (.number (.fin 1)))
        (.print_statement (.literal (.number (.fin 1))))
        (some (.print_statement (.literal (.number (.fin 2)))))]) ∧
    evaluate no_files 3
        (.if_statement (.literal (.number (.fin 1)))
          (.print_statement (.literal (.number (.fin 1))))
          (some (.print_statement (.literal (.number (.fin 2))))))
        (top_level .null) { scopes := [⟨[]⟩], imported_files := [], stdout := "" } =
      .ok (.number (.fin 2), top_level .null,
        { scopes := [⟨[]⟩], imported_files := [], stdout := "2\n" }) :=
  ⟨by decide!, by decide!, by decide!⟩

/-- C14, amended.  When the test of an `if` statement evaluates to a value that
is no boolean, the consequent is not evaluated; when an `else` is present, the
alternate is evaluated in the state the test left and the statement yields what
the alternate yields, exactly as when the test is the boolean false; when no
`else` is present the statement yields null. -/
theorem if_non_boolean_takes_alternate :
    (∀ (ev : Eval) (test consequent alternate : ASTNode) (i i1 : Interpreter)
        (g g1 : Globals) (t : Value),
      ev test i g = .ok (t, i1, g1) → (∀ b, t ≠ .boolean b) →
      evaluate_if_statement ev test consequent (some alternate) i g = ev alternate i1 g1) ∧
    (∀ (ev : Eval) (test consequent alternate : ASTNode) (i i1 : Interpreter)
        (g g1 : Globals),
      ev test i g = .ok (.boolean false, i1, g1) →
      evaluate_if_statement ev test consequent (some alternate) i g = ev alternate i1 g1) ∧
    (∀ (ev : Eval) (test consequent : ASTNode) (i i1 : Interpreter) (g g1 : Globals)
        (t : Value),
      ev test i g = .ok (t, i1, g1) → (∀ b, t ≠ .boolean b) →
      evaluate_if_statement ev test consequent none i g = .ok (.null, i1, g1)) ∧
    (∀ (read_file : String → Option String) (fuel : Nat) (test consequent alternate : ASTNode)
        (i i1 : Interpreter) (g g1 : Globals) (t : Value),
      evaluate read_file fuel test i g = .ok (t, i1, g1) → (∀ b, t ≠ .boolean b) →
      evaluate read_file (fuel + 1) (.if_statement test consequent (some alternate)) i g =
        evaluate read_file fuel alternate i1 g1) :=
  ⟨if_non_boolean_some,
    fun ev test consequent alternate i i1 g g1 ht => by
      simp only [evaluate_if_statement, ht],
    if_non_boolean_none,
    fun _ _ test consequent alternate i i1 g g1 t ht hb =>
      if_non_boolean_some _ test consequent alternate i i1 g g1 t ht hb⟩

/-- The amended C14 at `if ("x") print(1); else print(2);`, the test being a
string: the statement is evaluated as `print(2);` is. -/
theorem if_non_boolean_takes_alternate_witness :
    evaluate no_files 3
        (.if_statement (.literal (.string "x"))
          (.print_statement (.literal (.number (.fin 1))))
          (some (.print_statement (.literal (.number (.fin 2))))))
        (top_level .null) { scopes := [⟨[]⟩], imported_files := [], stdout := "" } =
      evaluate no_files 2 (.print_statement (.literal (.number (.fin 2))))
        (top_level .null) { scopes := [⟨[]⟩], imported_files := [], stdout := "" } :=
  if_non_boolean_takes_alternate.2.2.2 no_files 2 (.literal (.string "x"))
    (.print_statement (.literal (.number (.fin 1))))
    (.print_statement (.literal (.number (.fin 2)))) _ _ _ _ (.string "x") rfl
    (fun _ h => Value.noConfusion h)

/-! ## C16 and C17: the frame and the scope stack of a call -/

/-- Numbering the parameters from `n + 1` for the arguments after a first one
is numbering them from `n` for the arguments without it. -/
theorem parameter_bindings_shift (a : Value) (args : List Value) :
    ∀ (params : List String) (n : Nat),
      (List.enumFrom (n + 1) params).map (fun kp => (kp.2, (a :: args).getD kp.1 .null)) =
        (List.enumFrom n params).map (fun kp => (kp.2, args.getD kp.1 .null)) := by
  intro params
  induction params with
  | nil => intro n; rfl
  | cons p params ih =>
    intro n
    simp only [List.enumFrom, List.map_cons, ih (n + 1)]
    simp

/-- The bindings of a first parameter that has an argument. -/
theorem parameter_bindings_cons_cons (p : String) (params : List String) (a : Value)
    (args : List Value) :
    parameter_bindings (p :: params) (a :: args) = (p, a) :: parameter_bindings params args := by
  simp only [parameter_bindings, List.enum, List.enumFrom, List.map_cons,
    parameter_bindings_shift]
  simp

/-- Without arguments every parameter is bound to null, whatever the numbering. -/
theorem parameter_bindings_null :
    ∀ (params : List String) (n m : Nat),
      (List.enumFrom n params).map (fun kp => (kp.2, ([] : List Value).getD kp.1 .null)) =
        (List.enumFrom m params).map (fun kp => (kp.2, ([] : List Value).getD kp.1 .null)) := by
  intro params
  induction params with
  | nil => intro n m; rfl
  | cons p params ih =>
    intro n m
    simp only [List.enumFrom, List.map_cons, ih (n + 1) (m + 1)]
    simp

/-- The bindings of a first parameter that has no argument. -/
theorem parameter_bindings_cons_nil (p : String) (params : List String) :
    parameter_bindings (p :: params) [] = (p, .null) :: parameter_bindings params [] := by
  simp only [parameter_bindings, List.enum, List.enumFrom, List.map_cons,
    parameter_bindings_null params 1 0]
  simp

/-- Parameter `k` is bound to the value of argument `k`, or to null. -/
theorem parameter_bindings_get :
    ∀ (params : List String) (args : List Value) (k : Nat) (p : String),
      params[k]? = some p →
      (parameter_bindings params args)[k]? = some (p, (args[k]?).getD .null) := by
  intro params
  induction params with
  | nil => intro args k p h; simp at h
  | cons q params ih =>
    intro args k p h
    cases args with
    | nil =>
      rw [parameter_bindings_cons_nil]
      cases k with
      | zero => simp at h ⊢; exact h
      | succ k =>
        simp only [List.getElem?_cons_succ] at h ⊢
        have := ih [] k p h
        simpa using this
    | cons a args =>
      rw [parameter_bindings_cons_cons]
      cases k with
      | zero => simp at h ⊢; exact h
      | succ k =>
        simp only [List.getElem?_cons_succ] at h ⊢
        exact ih args k p h

/-- There is one binding for each parameter. -/
theorem parameter_bindings_length (params : List String) (args : List Value) :
    (parameter_bindings params args).length = params.length := by
  simp [parameter_bindings]

/-- The function `define_variable` on the last scope. -/
theorem define_variable_last (front : List Scope) (entries : List (String × Value))
    (imported : List String) (out : String) (x : String) (v : Value) :
    define_variable { scopes := front ++ [⟨entries⟩], imported_files := imported, stdout := out }
        front.length x v =
      { scopes := front ++ [⟨entries ++ [(x, v)]⟩], imported_files := imported,
        stdout := out } := by
  simp only [define_variable, Globals.mk.injEq, and_true]
  induction front with
  | nil => rfl
  | cons s front ih => simp only [List.cons_append, List.length_cons, List.modify_succ_cons, ih]

/-- The loop that binds the parameters appends `parameter_bindings` to the new
scope. -/
theorem bind_parameters_last (front : List Scope) (imported : List String) (out : String) :
    ∀ (params : List String) (args : List Value) (entries : List (String × Value)),
      bind_parameters front.length params args
          { scopes := front ++ [⟨entries⟩], imported_files := imported, stdout := out } =
        { scopes := front ++ [⟨entries ++ parameter_bindings params args⟩],
          imported_files := imported, stdout := out } := by
  intro params
  induction params with
  | nil => intro args entries; simp [bind_parameters, parameter_bindings]
  | cons p params ih =>
    intro args entries
    cases args with
    | nil =>
      simp only [bind_parameters, define_variable_last, ih, parameter_bindings_cons_nil,
        List.append_assoc, List.singleton_append]
    | cons a args =>
      simp only [bind_parameters, define_variable_last, ih, parameter_bindings_cons_cons,
        List.append_assoc, List.singleton_append]

/-- The globals in which the body of a call is evaluated. -/
theorem enter_function_globals (closure : List Nat) (params : List String) (args : List Value)
    (i : Interpreter) (g : Globals) :
    (enter_function closure params args i g).2 =
      { g with scopes := g.scopes ++ [⟨parameter_bindings params args⟩] } := by
  have h := bind_parameters_last g.scopes g.imported_files g.stdout params args []
  simpa [enter_function, create_scope] using h

/-- The interpreter with which the body of a call is evaluated. -/
theorem enter_function_interpreter (closure : List Nat) (params : List String)
    (args : List Value) (i : Interpreter) (g : Globals) :
    (enter_function closure params args i g).1 =
      { i with scope_stack := closure ++ [g.scopes.length] } := rfl

/-- The function `evaluate_call_expression` once the callee is found and the
arguments are evaluated. -/
theorem evaluate_call_expression_eq (ev : Eval) (name : String) (arguments : List ASTNode)
    (i i1 : Interpreter) (g g1 : Globals) (ref : Nat × Nat) (fname fname' : String)
    (params params' : List String) (body body' : ASTNode) (closure closure' : List Nat)
    (args : List Value)
    (hl : lookup_variable i g name = some ref)
    (hf : g.value_at ref = .function fname params body closure)
    (ha : evaluate_arguments ev arguments [] i g = .ok (args, i1, g1))
    (hf' : g1.value_at ref = .function fname' params' body' closure') :
    evaluate_call_expression ev name arguments i g =
      match ev body' (enter_function closure' params' args i1 g1).1
          (enter_function closure' params' args i1 g1).2 with
      | .ok (result, i2, g2) =>
        .ok (if i2.has_return then i2.return_value else result,
          { i2 with scope_stack := i1.scope_stack, has_return := false }, g2)
      | .fatal out => .fatal out
      | .undefined => .undefined
      | .outOfFuel => .outOfFuel := by
  simp only [evaluate_call_expression, hl, hf, ha, hf', enter_function]
  cases hb : ev body' (push_scope { i1 with scope_stack := closure' } (create_scope g1).1)
      (bind_parameters (create_scope g1).1 params' args (create_scope g1).2) with
  | ok x =>
    obtain ⟨result, i2, g2⟩ := x
    by_cases hr : i2.has_return = true
    · simp [hr]
    · have hr' : i2.has_return = false := by simpa using hr
      simp only [hr', Bool.false_eq_true, if_false]
  | fatal out => rfl
  | undefined => rfl
  | outOfFuel => rfl

/-- The loop over the arguments yields one value for each argument. -/
theorem evaluate_arguments_length (ev : Eval) :
    ∀ (arguments : List ASTNode) (acc args : List Value) (i i1 : Interpreter)
      (g g1 : Globals),
      evaluate_arguments ev arguments acc i g = .ok (args, i1, g1) →
      args.length = acc.length + arguments.length := by
  intro arguments
  induction arguments with
  | nil =>
    intro acc args i i1 g g1 h
    simp only [evaluate_arguments, Outcome.ok.injEq, Prod.mk.injEq] at h
    obtain ⟨rfl, -, -⟩ := h
    rfl
  | cons a arguments ih =>
    intro acc args i i1 g g1 h
    simp only [evaluate_arguments] at h
    split at h
    · have := ih _ _ _ _ _ _ h
      simp only [List.length_append, List.length_cons, List.length_nil] at this ⊢
      omega
    all_goals simp at h

/-- C16. Parameter binding of a call with `k` arguments to a function with `n`
parameters.  (1) The `k` arguments are all evaluated, in order, whatever `n`
is.  (2) The body is evaluated with a new scope at the end of the scopes, as
innermost frame, whose bindings are `parameter_bindings`: (3) one binding for
each parameter, parameter `j` bound to the value of argument `j` when `j < k`
and to null otherwise, so that an argument with index `n` or more is bound to
nothing.  (4) Whenever the callee is a function and the arguments are
evaluated, the call is the evaluation of the body in that state, followed by
the restoring of the scope stack and the taking of the pending return: there
is no exit for a number of arguments that differs from the number of
parameters.  (5) A program that calls a function of two parameters with one
argument and with three prints the null of the missing argument, and the
output of the third argument. -/
theorem call_parameter_binding :
    (∀ (ev : Eval) (arguments : List ASTNode) (args : List Value) (i i1 : Interpreter)
        (g g1 : Globals),
      evaluate_arguments ev arguments [] i g = .ok (args, i1, g1) →
      args.length = arguments.length) ∧
    (∀ (closure : List Nat) (params : List String) (args : List Value) (i : Interpreter)
        (g : Globals),
      (enter_function closure params args i g).2 =
          { g with scopes := g.scopes ++ [⟨parameter_bindings params args⟩] } ∧
        get_current_scope (enter_function closure params args i g).1 = some g.scopes.length) ∧
    (∀ (params : List String) (args : List Value),
      (parameter_bindings params args).length = params.length ∧
        ∀ (j : Nat) (p : String), params[j]? = some p →
          (parameter_bindings params args)[j]? = some (p, (args[j]?).getD .null)) ∧
    (∀ (ev : Eval) (name : String) (arguments : List ASTNode) (i i1 : Interpreter)
        (g g1 : Globals) (ref : Nat × Nat) (fname fname' : String)
        (params params' : List String) (body body' : ASTNode) (closure closure' : List Nat)
        (args : List Value),
      lookup_variable i g name = some ref →
      g.value_at ref = .function fname params body closure →
      evaluate_arguments ev arguments [] i g = .ok (args, i1, g1) →
      g1.value_at ref = .function fname' params' body' closure' →
      evaluate_call_expression ev name arguments i g =
        match ev body' { i1 with scope_stack := closure' ++ [g1.scopes.length] }
            { g1 with scopes := g1.scopes ++ [⟨parameter_bindings params' args⟩] } with
        | .ok (result, i2, g2) =>
          .ok (if i2.has_return then i2.return_value else result,
            { i2 with scope_stack := i1.scope_stack, has_return := false }, g2)
        | .fatal out => .fatal out
        | .undefined => .undefined
        | .outOfFuel => .outOfFuel) ∧
    run_output no_files 20
        ("function p(x) { print(x); return x; } function f(a, b) { print(a); print(b); } " ++
          "f(1); f(1, 2, p(3));") = some "1\nnull\n3\n1\n2\n" := by
  refine ⟨fun ev arguments args i i1 g g1 h => ?_, fun closure params args i g => ⟨?_, ?_⟩,
    fun params args => ⟨parameter_bindings_length params args,
      parameter_bindings_get params args⟩, ?_, by decide!⟩
  · simpa using evaluate_arguments_length ev arguments [] args i i1 g g1 h
  · exact enter_function_globals closure params args i g
  · simp [enter_function_interpreter, get_current_scope]
  · intro ev name arguments i i1 g g1 ref fname fname' params params' body body' closure
      closure' args hl hf ha hf'
    rw [evaluate_call_expression_eq ev name arguments i i1 g g1 ref fname fname' params params'
      body body' closure closure' args hl hf ha hf', enter_function_globals,
      enter_function_interpreter]

/-- C16 at the call `f(1)` of a function `f(a, b)` whose body prints `a` and
`b`: the frame of the call (the scope 1) binds `a` to 1 and `b` to null. -/
theorem call_parameter_binding_witness :
    evaluate_call_expression (evaluate no_files 5) "f" [.literal (.number (.fin 1))]
        (top_level .null) print_params_globals =
      .ok (.null, top_level .null,
        { print_params_globals with
          scopes := print_params_globals.scopes ++
            [⟨[("a", .number (.fin 1)), ("b", .null)]⟩, ⟨[]⟩],
          stdout := "1\nnull\n" }) :=
  (call_parameter_binding.2.2.2.1 (evaluate no_files 5) "f" [.literal (.number (.fin 1))]
    (top_level .null) (top_level .null) print_params_globals print_params_globals (0, 0)
    "f" "f" ["a", "b"] ["a", "b"] print_params_body print_params_body [0] [0]
    [.number (.fin 1)] rfl rfl rfl rfl).trans (by decide!)

/-- A name that no frame of the stack binds is not found. -/
theorem lookup_variable_none (i : Interpreter) (g : Globals) (x : String)
    (h : ∀ s ∈ i.scope_stack, (g.scope s).index_of x = none) :
    lookup_variable i g x = none := by
  simp only [lookup_variable, List.findSome?_eq_none_iff, List.mem_reverse]
  intro s hs
  rw [h s hs]
  rfl

/-- The scopes that existed before a call are the same inside the call. -/
theorem enter_function_scope_old (closure : List Nat) (params : List String)
    (args : List Value) (i : Interpreter) (g : Globals) (s : Nat) (hs : s ≠ g.scopes.length) :
    (enter_function closure params args i g).2.scope s = g.scope s := by
  rw [enter_function_globals]
  simp only [Globals.scope, List.getD_eq_getElem?_getD]
  rcases Nat.lt_or_gt_of_ne hs with h | h
  · rw [List.getElem?_append_left h]
  · rw [List.getElem?_eq_none (by simp; omega), List.getElem?_eq_none (by omega)]

/-- The new scope of a call holds the bindings of the parameters. -/
theorem enter_function_scope_new (closure : List Nat) (params : List String)
    (args : List Value) (i : Interpreter) (g : Globals) :
    (enter_function closure params args i g).2.scope g.scopes.length =
      ⟨parameter_bindings params args⟩ := by
  rw [enter_function_globals]
  simp [Globals.scope]

/-- A name that is no parameter is not bound by `parameter_bindings`. -/
theorem parameter_bindings_index_of_none (params : List String) (args : List Value)
    (x : String) (h : x ∉ params) :
    (Scope.mk (parameter_bindings params args)).index_of x = none := by
  simp only [Scope.index_of, List.findIdx?_eq_none_iff, parameter_bindings, List.mem_map,
    decide_eq_false_iff_not, forall_exists_index, and_imp, Prod.forall]
  intro a b k p hk hab
  simp only [Prod.mk.injEq] at hab
  obtain ⟨rfl, -⟩ := hab
  intro hp
  apply h
  rw [← hp]
  have := List.mem_enumFrom hk
  rw [this.2.2]
  exact List.getElem_mem _

/-- Inside a call, a name that no frame of the closure binds and that is no
parameter is not found. -/
theorem enter_function_lookup_none (closure : List Nat) (params : List String)
    (args : List Value) (i : Interpreter) (g : Globals) (x : String)
    (hc : ∀ s ∈ closure, (g.scope s).index_of x = none) (hp : x ∉ params) :
    lookup_variable (enter_function closure params args i g).1
      (enter_function closure params args i g).2 x = none := by
  apply lookup_variable_none
  intro s hs
  by_cases hn : s = g.scopes.length
  · rw [hn, enter_function_scope_new]
    exact parameter_bindings_index_of_none params args x hp
  · rw [enter_function_scope_old closure params args i g s hn]
    rw [enter_function_interpreter] at hs
    simp only [List.mem_append, List.mem_singleton] at hs
    rcases hs with hs | hs
    · exact hc s hs
    · exact absurd hs hn

/-- C17. Lexical scoping of calls.  (1) The body of a called function is
evaluated with a scope stack that is the closure of the callee, in its order,
followed by one scope, and that scope is new: it is none of the scopes that
existed before.  (2) So a frame of the caller that is not in the closure is not
on that stack.  (3) Whenever the callee is a function and the arguments are
evaluated, the call is the evaluation of the body with that stack, after which
the stack of the caller is put back.  (4) A name that no frame of the closure
binds and that is no parameter is not found at the start of the body, whatever
the frames of the caller bind: evaluating it there exits with an error.  (5) A
function that reads `x`, called from a function that declares `x` in its own
frame, exits with an error (nothing is printed). -/
theorem call_lexical_scope :
    (∀ (closure : List Nat) (params : List String) (args : List Value) (i : Interpreter)
        (g : Globals),
      (enter_function closure params args i g).1.scope_stack = closure ++ [g.scopes.length] ∧
        (enter_function closure params args i g).2.scopes.length = g.scopes.length + 1 ∧
        ∀ s, s < g.scopes.length → s ≠ g.scopes.length) ∧
    (∀ (closure : List Nat) (params : List String) (args : List Value) (i : Interpreter)
        (g : Globals) (s : Nat),
      s ∈ i.scope_stack → s < g.scopes.length → s ∉ closure →
      s ∉ (enter_function closure params args i g).1.scope_stack) ∧
    (∀ (ev : Eval) (name : String) (arguments : List ASTNode) (i i1 : Interpreter)
        (g g1 : Globals) (ref : Nat × Nat) (fname fname' : String)
        (params params' : List String) (body body' : ASTNode) (closure closure' : List Nat)
        (args : List Value),
      lookup_variable i g name = some ref →
      g.value_at ref = .function fname params body closure →
      evaluate_arguments ev arguments [] i g = .ok (args, i1, g1) →
      g1.value_at ref = .function fname' params' body' closure' →
      evaluate_call_expression ev name arguments i g =
        match ev body' (enter_function closure' params' args i1 g1).1
            (enter_function closure' params' args i1 g1).2 with
        | .ok (result, i2, g2) =>
          .ok (if i2.has_return then i2.return_value else result,
            { i2 with scope_stack := i1.scope_stack, has_return := false }, g2)
        | .fatal out => .fatal out
        | .undefined => .undefined
        | .outOfFuel => .outOfFuel) ∧
    (∀ (read_file : String → Option String) (fuel : Nat) (closure : List Nat)
        (params : List String) (args : List Value) (i : Interpreter) (g : Globals)
        (x : String),
      (∀ s ∈ closure, (g.scope s).index_of x = none) → x ∉ params →
      lookup_variable (enter_function closure params args i g).1
          (enter_function closure params args i g).2 x = none ∧
        evaluate read_file (fuel + 1) (.identifier x)
            (enter_function closure params args i g).1
            (enter_function closure params args i g).2 = .fatal g.stdout) ∧
    run_interpreter no_files 20
        ("function f() { return x; } function g() { let x = 1; return f(); } " ++
          "print(g());") = .fatal "" := by
  refine ⟨fun closure params args i g => ⟨rfl, ?_, fun s hs => Nat.ne_of_lt hs⟩,
    fun closure params args i g s _ hlt hnot => ?_, evaluate_call_expression_eq,
    fun read_file fuel closure params args i g x hc hp => ?_, by decide!⟩
  · rw [enter_function_globals]; simp
  · rw [enter_function_interpreter]
    simp only [List.mem_append, List.mem_singleton, not_or]
    exact ⟨hnot, Nat.ne_of_lt hlt⟩
  · have h := enter_function_lookup_none closure params args i g x hc hp
    refine ⟨h, ?_⟩
    simp only [evaluate, evaluate_identifier, h]
    rw [enter_function_globals]

/-- C17 where the caller, with the stack `[0, 1]`, binds `x` in its frame 1 and
the closure of the callee is `[0]`: inside the call the stack is `[0, 2]` and
`x` is not found. -/
theorem call_lexical_scope_witness :
    lookup_variable caller_local_interpreter caller_local_globals "x" = some (1, 0) ∧
    (enter_function [0] [] [] caller_local_interpreter caller_local_globals).1.scope_stack =
      [0, 2] ∧
    lookup_variable
        (enter_function [0] [] [] caller_local_interpreter caller_local_globals).1
        (enter_function [0] [] [] caller_local_interpreter caller_local_globals).2 "x" =
      none :=
  ⟨by decide, rfl,
    (call_lexical_scope.2.2.2.1 no_files 0 [0] [] [] caller_local_interpreter
      caller_local_globals "x" (by decide) (by decide)).1⟩

/-! ## C18: function declarations -/

/-- A name that the frames pushed after the innermost frame `scope` do not
bind, and that `scope` binds at index `j`, is found there. -/
theorem lookup_variable_extended (i : Interpreter) (g : Globals) (scope : Nat) (x : String)
    (j : Nat) (extra : List Nat) (hcur : get_current_scope i = some scope)
    (hextra : ∀ s ∈ extra, (g.scope s).index_of x = none)
    (hj : (g.scope scope).index_of x = some j) :
    lookup_variable { i with scope_stack := i.scope_stack ++ extra } g x = some (scope, j) := by
  have h := lookup_variable_current i g scope x j hcur hj
  simp only [lookup_variable, List.reverse_append, List.findSome?_append] at h ⊢
  have hnone : List.findSome? (fun scope => Option.map (fun j => (scope, j))
      ((g.scope scope).index_of x)) extra.reverse = none := by
    simp only [List.findSome?_eq_none_iff, List.mem_reverse]
    intro s hs
    rw [hextra s hs]
    rfl
  rw [hnone]
  exact h

/-- The value bound by a declaration in a frame that did not bind the name. -/
theorem define_variable_value_at (g : Globals) (scope : Nat) (x : String) (v : Value)
    (hlen : scope < g.scopes.length) (hnone : (g.scope scope).index_of x = none) :
    ((define_variable g scope x v).scope scope).index_of x =
        some (g.scope scope).entries.length ∧
      (define_variable g scope x v).value_at (scope, (g.scope scope).entries.length) = v := by
  have h1 := scope_define_variable_same g scope x v hlen
  refine ⟨?_, ?_⟩
  · have hnone' : (Scope.mk (g.scope scope).entries).index_of x = none := hnone
    rw [h1, index_of_append_none _ _ _ hnone']
    simp [Scope.index_of, List.findIdx?_cons]
  · simp [Globals.value_at, h1]

/-! ## C19: the scope stack after an evaluation -/

/-- The loop of `evaluate_program` keeps the scope stack. -/
theorem evaluate_program_scope_stack (ev : Eval) (hev : keeps_scope_stack ev) :
    ∀ (body : List ASTNode) (r : Value) (i : Interpreter) (g : Globals) (v : Value)
      (i' : Interpreter) (g' : Globals),
      evaluate_program ev body r i g = .ok (v, i', g') → i'.scope_stack = i.scope_stack := by
  intro body
  induction body with
  | nil =>
    intro r i g v i' g' h
    simp only [evaluate_program, Outcome.ok.injEq, Prod.mk.injEq] at h
    obtain ⟨_, rfl, rfl⟩ := h
    rfl
  | cons s body ih =>
    intro r i g v i' g' h
    simp only [evaluate_program] at h
    split at h
    · rename_i r1 i1 g1 hs
      have h1 := hev _ _ _ _ _ _ hs
      split at h
      · simp only [Outcome.ok.injEq, Prod.mk.injEq] at h
        obtain ⟨_, rfl, rfl⟩ := h
        exact h1
      · exact (ih _ _ _ _ _ _ h).trans h1
    all_goals simp at h

/-- The loop of `evaluate_block_statement` keeps the scope stack. -/
theorem evaluate_block_body_scope_stack (ev : Eval) (hev : keeps_scope_stack ev) :
    ∀ (body : List ASTNode) (r : Value) (i : Interpreter) (g : Globals) (v : Value)
      (i' : Interpreter) (g' : Globals),
      evaluate_block_body ev body r i g = .ok (v, i', g') → i'.scope_stack = i.scope_stack := by
  intro body
  induction body with
  | nil =>
    intro r i g v i' g' h
    simp only [evaluate_block_body, Outcome.ok.injEq, Prod.mk.injEq] at h
    obtain ⟨_, rfl, rfl⟩ := h
    rfl
  | cons s body ih =>
    intro r i g v i' g' h
    simp only [evaluate_block_body] at h
    split at h
    · rename_i r1 i1 g1 hs
      have h1 := hev _ _ _ _ _ _ hs
      split at h
      · simp only [Outcome.ok.injEq, Prod.mk.injEq] at h
        obtain ⟨_, rfl, rfl⟩ := h
        exact h1
      · exact (ih _ _ _ _ _ _ h).trans h1
    all_goals simp at h

/-- The loop over the arguments of a call keeps the scope stack. -/
theorem evaluate_arguments_scope_stack (ev : Eval) (hev : keeps_scope_stack ev) :
    ∀ (arguments : List ASTNode) (args : List Value) (i : Interpreter) (g : Globals)
      (vs : List Value) (i' : Interpreter) (g' : Globals),
      evaluate_arguments ev arguments args i g = .ok (vs, i', g') →
      i'.scope_stack = i.scope_stack := by
  intro arguments
  induction arguments with
  | nil =>
    intro args i g vs i' g' h
    simp only [evaluate_arguments, Outcome.ok.injEq, Prod.mk.injEq] at h
    obtain ⟨_, rfl, rfl⟩ := h
    rfl
  | cons s rest ih =>
    intro args i g vs i' g' h
    simp only [evaluate_arguments] at h
    split at h
    · rename_i r1 i1 g1 hs
      exact (ih _ _ _ _ _ _ h).trans (hev _ _ _ _ _ _ hs)
    all_goals simp at h

/-- The loop of `evaluate_while_statement` keeps the scope stack. -/
theorem evaluate_while_scope_stack (ev : Eval) (hev : keeps_scope_stack ev)
    (test body : ASTNode) :
    ∀ (fuel : Nat) (r : Value) (i : Interpreter) (g : Globals) (v : Value)
      (i' : Interpreter) (g' : Globals),
      evaluate_while_statement ev test body fuel r i g = .ok (v, i', g') →
      i'.scope_stack = i.scope_stack := by
  intro fuel
  induction fuel with
  | zero => intro r i g v i' g' h; simp [evaluate_while_statement] at h
  | succ n ih =>
    intro r i g v i' g' h
    simp only [evaluate_while_statement] at h
    split at h
    · rename_i i1 g1 ht
      have h1 := hev _ _ _ _ _ _ ht
      split at h
      · rename_i r2 i2 g2 hb
        have h2 := (hev _ _ _ _ _ _ hb).trans h1
        split at h
        · simp only [Outcome.ok.injEq, Prod.mk.injEq] at h
          obtain ⟨_, rfl, rfl⟩ := h
          exact h2
        · exact (ih _ _ _ _ _ _ h).trans h2
      all_goals simp at h
    · rename_i t i1 g1 _ ht
      simp only [Outcome.ok.injEq, Prod.mk.injEq] at h
      obtain ⟨_, rfl, rfl⟩ := h
      exact hev _ _ _ _ _ _ ht
    all_goals simp at h

/-- Popping the scope that was pushed gives the stack back. -/
theorem pop_scope_of_push (i i1 : Interpreter) (scope : Nat)
    (h : i1.scope_stack = (push_scope i scope).scope_stack) :
    (pop_scope i1).scope_stack = i.scope_stack := by
  simp [pop_scope, h, push_scope]

/-- The function `evaluate` keeps the scope stack. -/
theorem evaluate_scope_stack (read_file : String → Option String) :
    ∀ fuel : Nat, keeps_scope_stack (evaluate read_file fuel) := by
  intro fuel
  induction fuel with
  | zero => intro node i g v i' g' h; simp [evaluate] at h
  | succ n ih =>
    intro node i g v i' g' h
    cases node with
    | program body =>
      exact evaluate_program_scope_stack _ ih _ _ _ _ _ _ _ h
    | block_statement body =>
      simp only [evaluate, evaluate_block_statement] at h
      split at h
      · rename_i r i1 g1 hb
        simp only [Outcome.ok.injEq, Prod.mk.injEq] at h
        obtain ⟨_, rfl, rfl⟩ := h
        exact pop_scope_of_push _ _ _ (evaluate_block_body_scope_stack _ ih _ _ _ _ _ _ _ hb)
      all_goals simp at h
    | variable_declaration name value =>
      simp only [evaluate, evaluate_variable_declaration] at h
      split at h
      · rename_i r i1 g1 hv
        split at h
        · simp only [Outcome.ok.injEq, Prod.mk.injEq] at h
          obtain ⟨_, rfl, rfl⟩ := h
          exact ih _ _ _ _ _ _ hv
        · simp at h
      all_goals simp at h
    | assignment_expression name value =>
      simp only [evaluate, evaluate_assignment_expression] at h
      split at h
      · rename_i r i1 g1 hv
        split at h
        · simp only [Outcome.ok.injEq, Prod.mk.injEq] at h
          obtain ⟨_, rfl, rfl⟩ := h
          exact ih _ _ _ _ _ _ hv
        · simp at h
      all_goals simp at h
    | binary_expression operator left right =>
      simp only [evaluate, evaluate_binary_expression] at h
      split at h
      · rename_i l i1 g1 hl
        split at h
        · rename_i r i2 g2 hr
          split at h
          · simp only [Outcome.ok.injEq, Prod.mk.injEq] at h
            obtain ⟨_, rfl, rfl⟩ := h
            exact (ih _ _ _ _ _ _ hr).trans (ih _ _ _ _ _ _ hl)
          all_goals simp at h
        all_goals simp at h
      all_goals simp at h
    | logical_expression operator left right =>
      simp only [evaluate, evaluate_logical_expression] at h
      split at h
      · rename_i l i1 g1 hl
        have h1 := ih _ _ _ _ _ _ hl
        split at h
        · split at h
          · simp only [Outcome.ok.injEq, Prod.mk.injEq] at h
            obtain ⟨_, rfl, rfl⟩ := h
            exact h1
          · split at h
            · rename_i r i2 g2 hr
              simp only [Outcome.ok.injEq, Prod.mk.injEq] at h
              obtain ⟨_, rfl, rfl⟩ := h
              exact (ih _ _ _ _ _ _ hr).trans h1
            all_goals simp at h
        · split at h
          · split at h
            · simp only [Outcome.ok.injEq, Prod.mk.injEq] at h
              obtain ⟨_, rfl, rfl⟩ := h
              exact h1
            · split at h
              · rename_i r i2 g2 hr
                simp only [Outcome.ok.injEq, Prod.mk.injEq] at h
                obtain ⟨_, rfl, rfl⟩ := h
                exact (ih _ _ _ _ _ _ hr).trans h1
              all_goals simp at h
          · simp at h
      all_goals simp at h
    | literal value =>
      simp only [evaluate, evaluate_literal] at h
      split at h <;>
      · simp only [Outcome.ok.injEq, Prod.mk.injEq] at h
        obtain ⟨_, rfl, rfl⟩ := h
        rfl
    | identifier name =>
      simp only [evaluate, evaluate_identifier] at h
      split at h
      · simp only [Outcome.ok.injEq, Prod.mk.injEq] at h
        obtain ⟨_, rfl, rfl⟩ := h
        rfl
      · simp at h
    | if_statement test consequent alternate =>
      simp only [evaluate, evaluate_if_statement] at h
      split at h
      · rename_i t i1 g1 ht
        have h1 := ih _ _ _ _ _ _ ht
        split at h
        · exact (ih _ _ _ _ _ _ h).trans h1
        · exact (ih _ _ _ _ _ _ h).trans h1
        · simp only [Outcome.ok.injEq, Prod.mk.injEq] at h
          obtain ⟨_, rfl, rfl⟩ := h
          exact h1
      all_goals simp at h
    | while_statement test body =>
      exact evaluate_while_scope_stack _ ih _ _ _ _ _ _ _ _ _ h
    | function_declaration name params body =>
      simp only [evaluate, evaluate_function_declaration] at h
      split at h
      · simp only [Outcome.ok.injEq, Prod.mk.injEq] at h
        obtain ⟨_, rfl, rfl⟩ := h
        rfl
      · simp at h
    | call_expression name arguments =>
      simp only [evaluate, evaluate_call_expression] at h
      split at h
      · simp at h
      · split at h
        · split at h
          · rename_i args i1 g1 ha
            have h1 := evaluate_arguments_scope_stack _ ih _ _ _ _ _ _ _ ha
            split at h
            · split at h
              · rename_i r i2 g2 hb
                split at h
                · simp only [Outcome.ok.injEq, Prod.mk.injEq] at h
                  obtain ⟨_, rfl, rfl⟩ := h
                  exact h1
                · simp only [Outcome.ok.injEq, Prod.mk.injEq] at h
                  obtain ⟨_, rfl, rfl⟩ := h
                  exact h1
              all_goals simp at h
            · simp at h
          all_goals simp at h
        · simp at h
    | return_statement argument =>
      simp only [evaluate, evaluate_return_statement] at h
      split at h
      · rename_i r i1 g1 hv
        simp only [Outcome.ok.injEq, Prod.mk.injEq] at h
        obtain ⟨_, rfl, rfl⟩ := h
        exact ih argument i g r i1 g1 hv
      all_goals simp at h
    | print_statement argument =>
      simp only [evaluate, evaluate_print_statement] at h
      split at h
      · rename_i r i1 g1 hv
        simp only [Outcome.ok.injEq, Prod.mk.injEq] at h
        obtain ⟨_, rfl, rfl⟩ := h
        exact ih _ _ _ _ _ _ hv
      all_goals simp at h
    | import_statement path =>
      simp only [evaluate, evaluate_import_statement] at h
      split at h
      · simp only [Outcome.ok.injEq, Prod.mk.injEq] at h
        obtain ⟨_, rfl, rfl⟩ := h
        rfl
      · split at h
        · simp at h
        · split at h
          · simp only [Outcome.ok.injEq, Prod.mk.injEq] at h
            obtain ⟨_, rfl, rfl⟩ := h
            rfl
          all_goals simp at h

/-- C19. The scope stack is restored exactly.  (1) Whenever the evaluation of a
node ends normally, with or without a pending return, the scope stack of the
interpreter is afterwards the same sequence of scopes as before.  (2) A block
pushes a new scope; when its statements are done the stack is the stack of
before followed by that scope, and the block pops it.  (3) A call puts back the
scope stack that the caller had when the arguments were evaluated, whatever
stack the evaluation of the body leaves.  (4) In `nested_return_body` a
`return` is executed inside two blocks of a loop; afterwards the stack is the
one of before. -/
theorem scope_stack_restored :
    (∀ (read_file : String → Option String) (fuel : Nat) (node : ASTNode)
        (i i' : Interpreter) (g g' : Globals) (v : Value),
      evaluate read_file fuel node i g = .ok (v, i', g') → i'.scope_stack = i.scope_stack) ∧
    (∀ (read_file : String → Option String) (fuel : Nat) (body : List ASTNode)
        (i i1 : Interpreter) (g g1 : Globals) (r : Value),
      evaluate_block_body (evaluate read_file fuel) body .null
          (push_scope i (create_scope g).1) (create_scope g).2 = .ok (r, i1, g1) →
      i1.scope_stack = i.scope_stack ++ [g.scopes.length] ∧
        evaluate read_file (fuel + 1) (.block_statement body) i g =
          .ok (r, pop_scope i1, g1) ∧
        (pop_scope i1).scope_stack = i.scope_stack) ∧
    (∀ (ev : Eval) (name : String) (arguments : List ASTNode) (i i1 i2 : Interpreter)
        (g g1 g2 : Globals) (ref : Nat × Nat) (fname fname' : String)
        (params params' : List String) (body body' : ASTNode) (closure closure' : List Nat)
        (args : List Value) (result : Value),
      lookup_variable i g name = some ref →
      g.value_at ref = .function fname params body closure →
      evaluate_arguments ev arguments [] i g = .ok (args, i1, g1) →
      g1.value_at ref = .function fname' params' body' closure' →
      ev body' (enter_function closure' params' args i1 g1).1
          (enter_function closure' params' args i1 g1).2 = .ok (result, i2, g2) →
      ∃ v i', evaluate_call_expression ev name arguments i g = .ok (v, i', g2) ∧
        i'.scope_stack = i1.scope_stack) ∧
    (evaluate no_files 10 nested_return_body (top_level .null)
          { scopes := [⟨[]⟩], imported_files := [], stdout := "" }).isOk = true := by
  refine ⟨fun read_file fuel node i i' g g' v h =>
      evaluate_scope_stack read_file fuel node i g v i' g' h,
    fun read_file fuel body i i1 g g1 r h => ?_, ?_, by decide!⟩
  · have h1 := evaluate_block_body_scope_stack _ (evaluate_scope_stack read_file fuel)
      _ _ _ _ _ _ _ h
    refine ⟨h1, ?_, pop_scope_of_push _ _ _ h1⟩
    simp only [evaluate, evaluate_block_statement]
    rw [h]
  · intro ev name arguments i i1 i2 g g1 g2 ref fname fname' params params' body body'
      closure closure' args result hl hf ha hf' hb
    rw [evaluate_call_expression_eq ev name arguments i i1 g g1 ref fname fname' params params'
      body body' closure closure' args hl hf ha hf', hb]
    exact ⟨_, _, rfl, rfl⟩

/-- C19 at `nested_return_body`, evaluated with the stack `[0]`: the evaluation
ends with a pending return and the stack `[0]`. -/
theorem scope_stack_restored_witness :
    evaluate no_files 10 nested_return_body (top_level .null)
        { scopes := [⟨[]⟩], imported_files := [], stdout := "" } =
      .ok (.number (.fin 7),
        { scope_stack := [0], return_value := .number (.fin 7), has_return := true,
          base_dir := "." },
        { scopes := [⟨[]⟩, ⟨[]⟩, ⟨[]⟩, ⟨[]⟩], imported_files := [], stdout := "1\n" }) ∧
    ({ scope_stack := [0], return_value := .number (.fin 7), has_return := true,
        base_dir := "." } : Interpreter).scope_stack = (top_level .null).scope_stack :=
  ⟨by decide!,
    scope_stack_restored.1 no_files 10 nested_return_body (top_level .null) _
      { scopes := [⟨[]⟩], imported_files := [], stdout := "" }
      { scopes := [⟨[]⟩, ⟨[]⟩, ⟨[]⟩, ⟨[]⟩], imported_files := [], stdout := "1\n" }
      (.number (.fin 7)) (by decide!)⟩

/-! ## C20: the pending return after a call -/

/-- After a call there is no pending return. -/
theorem evaluate_call_expression_has_return (ev : Eval) (name : String)
    (arguments : List ASTNode) (i i' : Interpreter) (g g' : Globals) (v : Value)
    (h : evaluate_call_expression ev name arguments i g = .ok (v, i', g')) :
    i'.has_return = false := by
  simp only [evaluate_call_expression] at h
  split at h
  · simp at h
  · split at h
    · split at h
      · split at h
        · split at h
          · rename_i r i2 g2 hb
            split at h
            · simp only [Outcome.ok.injEq, Prod.mk.injEq] at h
              obtain ⟨_, rfl, rfl⟩ := h
              rfl
            · rename_i hr
              simp only [Outcome.ok.injEq, Prod.mk.injEq] at h
              obtain ⟨_, rfl, rfl⟩ := h
              simpa using hr
          all_goals simp at h
        · simp at h
      all_goals simp at h
    · simp at h

/-- The loop of `evaluate_program` on statements without `return`. -/
theorem evaluate_program_return_flag (ev : Eval) (hev : keeps_return_flag ev) :
    ∀ (body : List ASTNode) (r : Value) (i : Interpreter) (g : Globals) (v : Value)
      (i' : Interpreter) (g' : Globals),
      evaluate_program ev body r i g = .ok (v, i', g') →
      ASTNode.return_free_list body = true → i.has_return = false →
      i'.has_return = false := by
  intro body
  induction body with
  | nil =>
    intro r i g v i' g' h _ hi
    simp only [evaluate_program, Outcome.ok.injEq, Prod.mk.injEq] at h
    obtain ⟨_, rfl, rfl⟩ := h
    exact hi
  | cons s body ih =>
    intro r i g v i' g' h hf hi
    simp only [ASTNode.return_free_list, Bool.and_eq_true] at hf
    simp only [evaluate_program] at h
    split at h
    · rename_i r1 i1 g1 hs
      have h1 := hev _ _ _ _ _ _ hs hf.1 hi
      split at h
      · simp only [Outcome.ok.injEq, Prod.mk.injEq] at h
        obtain ⟨_, rfl, rfl⟩ := h
        exact h1
      · exact ih _ _ _ _ _ _ h hf.2 h1
    all_goals simp at h

/-- The loop of `evaluate_block_statement` on statements without `return`. -/
theorem evaluate_block_body_return_flag (ev : Eval) (hev : keeps_return_flag ev) :
    ∀ (body : List ASTNode) (r : Value) (i : Interpreter) (g : Globals) (v : Value)
      (i' : Interpreter) (g' : Globals),
      evaluate_block_body ev body r i g = .ok (v, i', g') →
      ASTNode.return_free_list body = true → i.has_return = false →
      i'.has_return = false := by
  intro body
  induction body with
  | nil =>
    intro r i g v i' g' h _ hi
    simp only [evaluate_block_body, Outcome.ok.injEq, Prod.mk.injEq] at h
    obtain ⟨_, rfl, rfl⟩ := h
    exact hi
  | cons s body ih =>
    intro r i g v i' g' h hf hi
    simp only [ASTNode.return_free_list, Bool.and_eq_true] at hf
    simp only [evaluate_block_body] at h
    split at h
    · rename_i r1 i1 g1 hs
      have h1 := hev _ _ _ _ _ _ hs hf.1 hi
      split at h
      · simp only [Outcome.ok.injEq, Prod.mk.injEq] at h
        obtain ⟨_, rfl, rfl⟩ := h
        exact h1
      · exact ih _ _ _ _ _ _ h hf.2 h1
    all_goals simp at h

/-- The loop of `evaluate_while_statement` on a test and a body without
`return`. -/
theorem evaluate_while_return_flag (ev : Eval) (hev : keeps_return_flag ev)
    (test body : ASTNode) (ht : ASTNode.return_free test = true)
    (hb : ASTNode.return_free body = true) :
    ∀ (fuel : Nat) (r : Value) (i : Interpreter) (g : Globals) (v : Value)
      (i' : Interpreter) (g' : Globals),
      evaluate_while_statement ev test body fuel r i g = .ok (v, i', g') →
      i.has_return = false → i'.has_return = false := by
  intro fuel
  induction fuel with
  | zero => intro r i g v i' g' h; simp [evaluate_while_statement] at h
  | succ n ih =>
    intro r i g v i' g' h hi
    simp only [evaluate_while_statement] at h
    split at h
    · rename_i i1 g1 het
      have h1 := hev _ _ _ _ _ _ het ht hi
      split at h
      · rename_i r2 i2 g2 heb
        have h2 := hev _ _ _ _ _ _ heb hb h1
        split at h
        · simp only [Outcome.ok.injEq, Prod.mk.injEq] at h
          obtain ⟨_, rfl, rfl⟩ := h
          exact h2
        · exact ih _ _ _ _ _ _ h h2
      all_goals simp at h
    · rename_i t i1 g1 _ het
      simp only [Outcome.ok.injEq, Prod.mk.injEq] at h
      obtain ⟨_, rfl, rfl⟩ := h
      exact hev _ _ _ _ _ _ het ht hi
    all_goals simp at h

/-- The function `evaluate` on a node without `return` statement leaves no
pending return. -/
theorem evaluate_return_flag (read_file : String → Option String) :
    ∀ fuel : Nat, keeps_return_flag (evaluate read_file fuel) := by
  intro fuel
  induction fuel with
  | zero => intro node i g v i' g' h; simp [evaluate] at h
  | succ n ih =>
    intro node i g v i' g' h hf hi
    cases node with
    | program body =>
      exact evaluate_program_return_flag _ ih _ _ _ _ _ _ _ h
        (by simpa [ASTNode.return_free] using hf) hi
    | block_statement body =>
      simp only [evaluate, evaluate_block_statement] at h
      split at h
      · rename_i r i1 g1 hb
        simp only [Outcome.ok.injEq, Prod.mk.injEq] at h
        obtain ⟨_, rfl, rfl⟩ := h
        exact evaluate_block_body_return_flag _ ih _ _ _ _ _ i1 _ hb
          (by simpa [ASTNode.return_free] using hf) hi
      all_goals simp at h
    | variable_declaration name value =>
      simp only [ASTNode.return_free] at hf
      simp only [evaluate, evaluate_variable_declaration] at h
      split at h
      · rename_i r i1 g1 hv
        split at h
        · simp only [Outcome.ok.injEq, Prod.mk.injEq] at h
          obtain ⟨_, rfl, rfl⟩ := h
          exact ih _ _ _ _ _ _ hv hf hi
        · simp at h
      all_goals simp at h
    | assignment_expression name value =>
      simp only [ASTNode.return_free] at hf
      simp only [evaluate, evaluate_assignment_expression] at h
      split at h
      · rename_i r i1 g1 hv
        split at h
        · simp only [Outcome.ok.injEq, Prod.mk.injEq] at h
          obtain ⟨_, rfl, rfl⟩ := h
          exact ih _ _ _ _ _ _ hv hf hi
        · simp at h
      all_goals simp at h
    | binary_expression operator left right =>
      simp only [ASTNode.return_free, Bool.and_eq_true] at hf
      simp only [evaluate, evaluate_binary_expression] at h
      split at h
      · rename_i l i1 g1 hl
        split at h
        · rename_i r i2 g2 hr
          split at h
          · simp only [Outcome.ok.injEq, Prod.mk.injEq] at h
            obtain ⟨_, rfl, rfl⟩ := h
            exact ih _ _ _ _ _ _ hr hf.2 (ih _ _ _ _ _ _ hl hf.1 hi)
          all_goals simp at h
        all_goals simp at h
      all_goals simp at h
    | logical_expression operator left right =>
      simp only [ASTNode.return_free, Bool.and_eq_true] at hf
      simp only [evaluate, evaluate_logical_expression] at h
      split at h
      · rename_i l i1 g1 hl
        have h1 := ih _ _ _ _ _ _ hl hf.1 hi
        split at h
        · split at h
          · simp only [Outcome.ok.injEq, Prod.mk.injEq] at h
            obtain ⟨_, rfl, rfl⟩ := h
            exact h1
          · split at h
            · rename_i r i2 g2 hr
              simp only [Outcome.ok.injEq, Prod.mk.injEq] at h
              obtain ⟨_, rfl, rfl⟩ := h
              exact ih _ _ _ _ _ _ hr hf.2 h1
            all_goals simp at h
        · split at h
          · split at h
            · simp only [Outcome.ok.injEq, Prod.mk.injEq] at h
              obtain ⟨_, rfl, rfl⟩ := h
              exact h1
            · split at h
              · rename_i r i2 g2 hr
                simp only [Outcome.ok.injEq, Prod.mk.injEq] at h
                obtain ⟨_, rfl, rfl⟩ := h
                exact ih _ _ _ _ _ _ hr hf.2 h1
              all_goals simp at h
          · simp at h
      all_goals simp at h
    | literal value =>
      simp only [evaluate, evaluate_literal] at h
      split at h <;>
      · simp only [Outcome.ok.injEq, Prod.mk.injEq] at h
        obtain ⟨_, rfl, rfl⟩ := h
        exact hi
    | identifier name =>
      simp only [evaluate, evaluate_identifier] at h
      split at h
      · simp only [Outcome.ok.injEq, Prod.mk.injEq] at h
        obtain ⟨_, rfl, rfl⟩ := h
        exact hi
      · simp at h
    | if_statement test consequent alternate =>
      simp only [ASTNode.return_free, Bool.and_eq_true] at hf
      simp only [evaluate, evaluate_if_statement] at h
      split at h
      · rename_i t i1 g1 ht
        have h1 := ih _ _ _ _ _ _ ht hf.1.1 hi
        split at h
        · exact ih _ _ _ _ _ _ h hf.1.2 h1
        · exact ih _ _ _ _ _ _ h (by simpa [ASTNode.return_free_option] using hf.2) h1
        · simp only [Outcome.ok.injEq, Prod.mk.injEq] at h
          obtain ⟨_, rfl, rfl⟩ := h
          exact h1
      all_goals simp at h
    | while_statement test body =>
      simp only [ASTNode.return_free, Bool.and_eq_true] at hf
      exact evaluate_while_return_flag _ ih _ _ hf.1 hf.2 _ _ _ _ _ _ _ h hi
    | function_declaration name params body =>
      simp only [evaluate, evaluate_function_declaration] at h
      split at h
      · simp only [Outcome.ok.injEq, Prod.mk.injEq] at h
        obtain ⟨_, rfl, rfl⟩ := h
        exact hi
      · simp at h
    | call_expression name arguments =>
      exact evaluate_call_expression_has_return _ _ _ _ _ _ _ _ h
    | return_statement argument =>
      simp [ASTNode.return_free] at hf
    | print_statement argument =>
      simp only [ASTNode.return_free] at hf
      simp only [evaluate, evaluate_print_statement] at h
      split at h
      · rename_i r i1 g1 hv
        simp only [Outcome.ok.injEq, Prod.mk.injEq] at h
        obtain ⟨_, rfl, rfl⟩ := h
        exact ih _ _ _ _ _ _ hv hf hi
      all_goals simp at h
    | import_statement path =>
      simp only [evaluate, evaluate_import_statement] at h
      split at h
      · simp only [Outcome.ok.injEq, Prod.mk.injEq] at h
        obtain ⟨_, rfl, rfl⟩ := h
        exact hi
      · split at h
        · simp at h
        · split at h
          · simp only [Outcome.ok.injEq, Prod.mk.injEq] at h
            obtain ⟨_, rfl, rfl⟩ := h
            exact hi
          all_goals simp at h

/-- C20. The pending return is consumed by the call.  (1) When a call
expression completes there is no pending return, whether or not there was one
before it started.  (2) When the body of the callee ends with a pending return,
the value of the call is the value of that return and the flag is cleared;
otherwise the value of the call is the value of the body.  (3) Hence a
statement of the caller in which no `return` statement occurs (the bodies of
functions it declares apart), started without a pending return, ends without
one, whatever calls it makes and whatever `return` statements the callees
execute; so in a block and in a program the statements after it are
evaluated.  (4) `function f() { return 1; } f(); print(2);` prints `2`. -/
theorem return_flag_consumed :
    (∀ (ev : Eval) (name : String) (arguments : List ASTNode) (i i' : Interpreter)
        (g g' : Globals) (v : Value),
      evaluate_call_expression ev name arguments i g = .ok (v, i', g') →
      i'.has_return = false) ∧
    (∀ (ev : Eval) (name : String) (arguments : List ASTNode) (i i1 i2 : Interpreter)
        (g g1 g2 : Globals) (ref : Nat × Nat) (fname fname' : String)
        (params params' : List String) (body body' : ASTNode) (closure closure' : List Nat)
        (args : List Value) (result : Value),
      lookup_variable i g name = some ref →
      g.value_at ref = .function fname params body closure →
      evaluate_arguments ev arguments [] i g = .ok (args, i1, g1) →
      g1.value_at ref = .function fname' params' body' closure' →
      ev body' (enter_function closure' params' args i1 g1).1
          (enter_function closure' params' args i1 g1).2 = .ok (result, i2, g2) →
      (i2.has_return = true →
        evaluate_call_expression ev name arguments i g =
          .ok (i2.return_value,
            { i2 with scope_stack := i1.scope_stack, has_return := false }, g2)) ∧
        (i2.has_return = false →
          evaluate_call_expression ev name arguments i g =
            .ok (result, { i2 with scope_stack := i1.scope_stack }, g2))) ∧
    (∀ (read_file : String → Option String) (fuel : Nat) (statement : ASTNode)
        (rest : List ASTNode) (r v : Value) (i i' : Interpreter) (g g' : Globals),
      ASTNode.return_free statement = true → i.has_return = false →
      evaluate read_file fuel statement i g = .ok (v, i', g') →
      i'.has_return = false ∧
        evaluate_block_body (evaluate read_file fuel) (statement :: rest) r i g =
          evaluate_block_body (evaluate read_file fuel) rest v i' g' ∧
        evaluate_program (evaluate read_file fuel) (statement :: rest) r i g =
          evaluate_program (evaluate read_file fuel) rest v i' g') ∧
    run_output no_files 20 "function f() { return 1; } f(); print(2);" = some "2\n" := by
  refine ⟨evaluate_call_expression_has_return, ?_, ?_, by decide!⟩
  · intro ev name arguments i i1 i2 g g1 g2 ref fname fname' params params' body body'
      closure closure' args result hl hf ha hf' hb
    rw [evaluate_call_expression_eq ev name arguments i i1 g g1 ref fname fname' params params'
      body body' closure closure' args hl hf ha hf', hb]
    refine ⟨fun hr => by simp [hr], fun hr => ?_⟩
    simp only [hr, Bool.false_eq_true, if_false, Outcome.ok.injEq, Prod.mk.injEq, and_true,
      true_and]
  · intro read_file fuel statement rest r v i i' g g' hf hi h
    have h1 := evaluate_return_flag read_file fuel statement i g v i' g' h hf hi
    refine ⟨h1, ?_, ?_⟩
    · simp [evaluate_block_body, h, h1]
    · simp [evaluate_program, h, h1]

/-- C20 at the statement `f();` of the program
`function f() { return 1; } f(); print(2);`: the call ends without pending
return, with the value 1, and `print(2);` is evaluated after it. -/
theorem return_flag_consumed_witness :
    evaluate_block_body (evaluate no_files 5)
        [.call_expression "f" [], .print_statement (.literal (.number (.fin 2)))] .null
        (top_level .null) return_one_globals =
      .ok (.number (.fin 2),
        { top_level .null with return_value := .number (.fin 1) },
        { return_one_globals with
          scopes := return_one_globals.scopes ++ [⟨[]⟩, ⟨[]⟩], stdout := "2\n" }) :=
  ((return_flag_consumed.2.2.1 no_files 5 (.call_expression "f" [])
    [.print_statement (.literal (.number (.fin 2)))] .null (.number (.fin 1))
    (top_level .null) { top_level .null with return_value := .number (.fin 1) }
    return_one_globals
    { return_one_globals with scopes := return_one_globals.scopes ++ [⟨[]⟩, ⟨[]⟩] }
    rfl rfl (by decide!)).2.1).trans (by decide!)

/-! ## C15: the operator `+` on operands of different types -/

/-- The digits produced so far are kept at the end. -/
theorem toDigitsCore_append (b : Nat) :
    ∀ (f n : Nat) (ds : List Char),
      Nat.toDigitsCore b f n ds = Nat.toDigitsCore b f n [] ++ ds := by
  intro f
  induction f with
  | zero => intro n ds; simp [Nat.toDigitsCore]
  | succ f ih =>
    intro n ds
    simp only [Nat.toDigitsCore]
    split
    · simp
    · rw [ih _ (_ :: ds), ih _ [_]]
      simp

/-- With more fuel than the number, the fuel does not matter. -/
theorem toDigitsCore_fuel (b : Nat) (hb : 2 ≤ b) :
    ∀ (f1 f2 n : Nat), n < f1 → n < f2 →
      Nat.toDigitsCore b f1 n [] = Nat.toDigitsCore b f2 n [] := by
  intro f1
  induction f1 with
  | zero => intro f2 n h; omega
  | succ f1 ih =>
    intro f2 n h1 h2
    cases f2 with
    | zero => omega
    | succ f2 =>
      simp only [Nat.toDigitsCore]
      split
      · rfl
      · rename_i hne
        have hpos : 0 < n := by
          rcases Nat.eq_zero_or_pos n with h0 | h0
          · rw [h0] at hne; simp at hne
          · exact h0
        have hlt : n / b < n := Nat.div_lt_self hpos (by omega)
        rw [toDigitsCore_append b f1, toDigitsCore_append b f2,
          ih f2 (n / b) (by omega) (by omega)]

/-- The digits of a number of one digit. -/
theorem toDigits_small (n : Nat) (h : n < 10) : Nat.toDigits 10 n = [Nat.digitChar n] := by
  simp [Nat.toDigits, Nat.toDigitsCore, Nat.div_eq_of_lt h, Nat.mod_eq_of_lt h]

/-- The digits of a number of several digits. -/
theorem toDigits_step (n : Nat) (h : 10 ≤ n) :
    Nat.toDigits 10 n = Nat.toDigits 10 (n / 10) ++ [Nat.digitChar (n % 10)] := by
  have hne : n / 10 ≠ 0 := by omega
  have e1 : Nat.toDigits 10 n =
      Nat.toDigitsCore 10 n (n / 10) [Nat.digitChar (n % 10)] := by
    show Nat.toDigitsCore 10 (n + 1) n [] = _
    rw [Nat.toDigitsCore]
    simp only [hne, if_false]
  have e2 : Nat.toDigits 10 (n / 10) = Nat.toDigitsCore 10 (n / 10 + 1) (n / 10) [] := rfl
  rw [e1, e2, toDigitsCore_append 10 n, toDigitsCore_fuel 10 (by decide) n (n / 10 + 1) (n / 10)
    (by omega) (by omega)]

/-- Multiplying by a power of ten appends zeros. -/
theorem toDigits_mul_pow (n : Nat) (h : 0 < n) :
    ∀ k : Nat, Nat.toDigits 10 (n * 10 ^ k) = Nat.toDigits 10 n ++ List.replicate k '0' := by
  intro k
  induction k with
  | zero => simp
  | succ k ih =>
    have hpos : 0 < n * 10 ^ k := Nat.mul_pos h (by positivity)
    have e : n * 10 ^ (k + 1) = n * 10 ^ k * 10 := by rw [Nat.pow_succ, Nat.mul_assoc]
    rw [e, toDigits_step _ (by omega), Nat.mul_div_cancel _ (by decide), Nat.mul_mod_left, ih,
      List.replicate_succ', List.append_assoc]
    rfl

/-- A number is below ten to the number of its digits. -/
theorem lt_pow_toDigits_length (n : Nat) : n < 10 ^ (Nat.toDigits 10 n).length := by
  induction n using Nat.strong_induction_on with
  | _ n ih =>
    by_cases h : n < 10
    · rw [toDigits_small n h]
      simpa using h
    · have h10 : 10 ≤ n := by omega
      rw [toDigits_step n h10, List.length_append, List.length_singleton, Nat.pow_succ]
      have := ih (n / 10) (by omega)
      omega

/-- A number below `10 ^ 6` has at most six digits, and at least one. -/
theorem toDigits_length_le (n : Nat) (h : n < 10 ^ 6) :
    1 ≤ (Nat.toDigits 10 n).length ∧ (Nat.toDigits 10 n).length ≤ 6 := by
  refine ⟨?_, ?_⟩
  · by_cases h1 : n < 10
    · rw [toDigits_small n h1]; simp
    · rw [toDigits_step n (by omega)]; simp
  · have := Nat.repr_length n 6 (by decide) h
    simpa [Nat.repr] using this

/-- The rational `10 ^ (-k)`. -/
theorem pow10_neg (k : Nat) : Number.pow10 (-(k : Int)) = 1 / ((10 ^ k : Nat) : ℚ) := by
  cases k with
  | zero => simp [Number.pow10]
  | succ k =>
    have h : ¬ (0 : Int) ≤ -((k + 1 : Nat) : Int) := by omega
    simp only [Number.pow10, h, if_false]
    simp

/-- An integer is rounded to itself. -/
theorem roundHalfEven_natCast (m : Nat) : Number.roundHalfEven (m : ℚ) = (m : Int) := by
  have hf : Int.floor ((m : ℚ)) = (m : Int) := Int.floor_natCast m
  simp only [Number.roundHalfEven, hf]
  norm_num

/-- Zeros only are all trailing zeros. -/
theorem stripTrailingZeros_replicate (k : Nat) :
    Number.stripTrailingZeros (List.replicate k '0') = [] := by
  simp only [Number.stripTrailingZeros, List.reverse_replicate, List.reverse_eq_nil_iff]
  apply dropWhile_eq_nil_of_all
  intro c hc
  simp [List.eq_of_mem_replicate hc]

/-- The exponent of a positive integer: the number of its digits, less one. -/
theorem floorLog10_natCast (n : Nat) (h0 : 0 < n) :
    Number.floorLog10 (n : ℚ) = ((Nat.toDigits 10 n).length : Int) - 1 := by
  have h1 : (1 : ℚ) ≤ (n : ℚ) := by exact_mod_cast h0
  simp only [Number.floorLog10, h1, if_true, Int.floor_natCast, Int.toNat_ofNat]

/-- The conversion `%g` of a positive integer below `10 ^ 6` writes its decimal
digits. -/
theorem formatMagnitude_natCast (n : Nat) (h0 : 0 < n) (h : n < 10 ^ 6) :
    Number.formatMagnitude (n : ℚ) = Nat.toDigits 10 n := by
  obtain ⟨hL1, hL6⟩ := toDigits_length_le n h
  have hlt := lt_pow_toDigits_length n
  obtain ⟨k, hk⟩ : ∃ k, (Nat.toDigits 10 n).length + k = 6 :=
    ⟨6 - (Nat.toDigits 10 n).length, by omega⟩
  have hx0 := floorLog10_natCast n h0
  have he : ((Nat.toDigits 10 n).length : Int) - 1 - 5 = -(k : Int) := by omega
  have hdiv : (n : ℚ) / Number.pow10 (((Nat.toDigits 10 n).length : Int) - 1 - 5) =
      ((n * 10 ^ k : Nat) : ℚ) := by
    rw [he, pow10_neg]
    push_cast
    field_simp
  have hm : n * 10 ^ k < 10 ^ 6 := by
    calc n * 10 ^ k < 10 ^ (Nat.toDigits 10 n).length * 10 ^ k :=
          Nat.mul_lt_mul_of_pos_right hlt (by positivity)
      _ = 10 ^ 6 := by rw [← Nat.pow_add, hk]
  have hne : n * 10 ^ k ≠ 1000000 := by omega
  have hds : Nat.toDigits 10 (n * 10 ^ k) = Nat.toDigits 10 n ++ List.replicate k '0' :=
    toDigits_mul_pow n h0 k
  have hpad : Number.paddedDigits 6 (n * 10 ^ k) =
      Nat.toDigits 10 n ++ List.replicate k '0' := by
    simp only [Number.paddedDigits, hds, List.length_append, List.length_replicate, hk]
    simp
  have hcond : ¬ (((Nat.toDigits 10 n).length : Int) - 1 < -4 ∨
      6 ≤ ((Nat.toDigits 10 n).length : Int) - 1) := by omega
  have hnonneg : (0 : Int) ≤ ((Nat.toDigits 10 n).length : Int) - 1 := by omega
  have htoNat : (((Nat.toDigits 10 n).length : Int) - 1).toNat + 1 =
      (Nat.toDigits 10 n).length := by omega
  unfold Number.formatMagnitude
  simp only [hx0, hdiv, roundHalfEven_natCast, Int.toNat_ofNat, hne, if_false, hpad, hcond,
    hnonneg, if_true, htoNat, List.drop_left, List.take_left, stripTrailingZeros_replicate,
    List.append_nil]

/-- The conversion `%g` of an integer of at most six digits. -/
theorem formatG_integer (n : Nat) (h0 : 0 < n) (h : n < 10 ^ 6) :
    Number.formatG (.fin (n : ℚ)) = Nat.repr n ∧
      Number.formatG (.fin (-(n : ℚ))) = "-" ++ Nat.repr n := by
  have hpos : (0 : ℚ) < (n : ℚ) := by exact_mod_cast h0
  have hne : (n : ℚ) ≠ 0 := ne_of_gt hpos
  refine ⟨?_, ?_⟩
  · have h1 : ¬ ((n : ℚ) < 0) := not_lt.mpr hpos.le
    simp only [Number.formatG, hne, if_false, h1, abs_of_pos hpos, List.nil_append,
      formatMagnitude_natCast n h0 h]
    rfl
  · have h1 : -(n : ℚ) < 0 := by linarith
    have h2 : -(n : ℚ) ≠ 0 := by linarith
    simp only [Number.formatG, h2, if_false, h1, if_true, abs_neg, abs_of_pos hpos,
      formatMagnitude_natCast n h0 h]
    rfl

/-- The operator `+` on operands of different types whose strings fit the
buffers. -/
theorem mixed_plus (out : String) (l r : Value) (ht : l.type ≠ r.type)
    (hl : ∀ s, l = .string s → s.utf8ByteSize < 64)
    (hr : ∀ s, r = .string s → s.utf8ByteSize < 64) :
    binary_operation out "+" l r = .ok (.string (stringified l ++ stringified r)) := by
  cases l with
  | number a =>
    cases r with
    | number b => exact absurd rfl ht
    | string t => simp [binary_operation, operand_text, stringified, hr t rfl]
    | boolean b => cases b <;> simp [binary_operation, operand_text, stringified]
    | function n p b c => simp [binary_operation, operand_text, stringified]
    | null => simp [binary_operation, operand_text, stringified]
  | string s =>
    cases r with
    | number b => simp [binary_operation, operand_text, stringified, hl s rfl]
    | string t => exact absurd rfl ht
    | boolean b => cases b <;> simp [binary_operation, operand_text, stringified, hl s rfl]
    | function n p b c => simp [binary_operation, operand_text, stringified, hl s rfl]
    | null => simp [binary_operation, operand_text, stringified, hl s rfl]
  | boolean a =>
    cases r with
    | number b => cases a <;> simp [binary_operation, operand_text, stringified]
    | string t => cases a <;> simp [binary_operation, operand_text, stringified, hr t rfl]
    | boolean b => exact absurd rfl ht
    | function n p b c => cases a <;> simp [binary_operation, operand_text, stringified]
    | null => cases a <;> simp [binary_operation, operand_text, stringified]
  | function n p b c =>
    cases r with
    | number b => simp [binary_operation, operand_text, stringified]
    | string t => simp [binary_operation, operand_text, stringified, hr t rfl]
    | boolean b => cases b <;> simp [binary_operation, operand_text, stringified]
    | function n p b c => exact absurd rfl ht
    | null => simp [binary_operation, operand_text, stringified]
  | null =>
    cases r with
    | number b => simp [binary_operation, operand_text, stringified]
    | string t => simp [binary_operation, operand_text, stringified, hr t rfl]
    | boolean b => cases b <;> simp [binary_operation, operand_text, stringified]
    | function n p b c => simp [binary_operation, operand_text, stringified]
    | null => exact absurd rfl ht

/-- The operator `+` on a string that does not fit the buffer and a value that
is no string. -/
theorem mixed_plus_overflow (out : String) (s : String) (v : Value)
    (hv : v.type ≠ .VALUE_STRING) (hs : 64 ≤ s.utf8ByteSize) :
    binary_operation out "+" (.string s) v = .undefined ∧
      binary_operation out "+" v (.string s) = .undefined := by
  have hn : ¬ s.utf8ByteSize < 64 := by omega
  cases v with
  | string t => exact absurd rfl hv
  | boolean b => cases b <;> simp [binary_operation, operand_text, hn]
  | _ => simp [binary_operation, operand_text, hn]

/-- C15.  The operator `+` on operands of different types.  (1) When every
operand that is a string has fewer than 64 bytes, the result is the string made
of the text of the left operand followed by the text of the right operand, the
text of an operand being `stringified`.  (2) When an operand is a string of 64
bytes or more, the source copies it into an array of 64 bytes, which C does
not define: the claim, made for strings of every length, does not hold of the
source.  (3) The `%g` form of an integer of at most six digits is its decimal
digits, with a minus sign when it is negative; zero is `0`.  (4)
`let s = "hi" + " " + 1; print(s);` prints `hi 1`; a program that adds 1 to a
string of 64 characters is not defined.  (5) The text of a number that is not
finite is that of `%g` too: `print("n" + 0/0); print("i" + 1/0);` prints
`n-nan` and `iinf`. -/
theorem mixed_plus_concatenation :
    (∀ (out : String) (l r : Value), l.type ≠ r.type →
      (∀ s, l = .string s → s.utf8ByteSize < 64) →
      (∀ s, r = .string s → s.utf8ByteSize < 64) →
      binary_operation out "+" l r = .ok (.string (stringified l ++ stringified r))) ∧
    (∀ (out : String) (s : String) (v : Value), v.type ≠ .VALUE_STRING →
      64 ≤ s.utf8ByteSize →
      binary_operation out "+" (.string s) v = .undefined ∧
        binary_operation out "+" v (.string s) = .undefined) ∧
    (∀ n : Nat, 0 < n → n < 10 ^ 6 →
      Number.formatG (.fin (n : ℚ)) = Nat.repr n ∧
        Number.formatG (.fin (-(n : ℚ))) = "-" ++ Nat.repr n) ∧
    Number.formatG (.fin 0) = "0" ∧
    run_output no_files 20 "let s = \"hi\" + \" \" + 1; print(s);" = some "hi 1\n" ∧
    run_interpreter no_files 20
        "print(\"0123456789012345678901234567890123456789012345678901234567890123\" + 1);" =
      .undefined ∧
    run_output no_files 20 "print(\"n\" + 0/0); print(\"i\" + 1/0);" = some "n-nan\niinf\n" :=
  ⟨mixed_plus, mixed_plus_overflow, formatG_integer, by decide!, by decide!, by decide!,
    by decide!⟩

/-- C15 at `"hi " + 1`, and at a string of 64 characters. -/
theorem mixed_plus_concatenation_witness :
    binary_operation "" "+" (.string "hi ") (.number (.fin 1)) = .ok (.string "hi 1") ∧
    binary_operation "" "+"
        (.string "0123456789012345678901234567890123456789012345678901234567890123")
        (.number (.fin 1)) = .undefined :=
  ⟨(mixed_plus_concatenation.1 "" (.string "hi ") (.number (.fin 1)) (by decide)
      (fun s h => by cases h; decide) (fun s h => Value.noConfusion h)).trans (by decide!),
    (mixed_plus_concatenation.2.1 "" _ (.number (.fin 1)) (by decide) (by decide)).1⟩

/-! ## C25: a call of what is no function -/

/-- C25. A call looks its callee up with `lookup_variable`, as an identifier
is looked up.  When no frame binds the name, and when the value bound is no
function, the call exits with an error before any argument is evaluated: the
result is the exit with the output that was there at the start of the call,
for every list of arguments and every evaluator `ev` of the arguments,
whatever `ev` does.  Stated for `evaluate` too; and in the two programs, whose
argument `p(2)` would print `2`, nothing is printed before the exit. -/
theorem call_of_non_function :
    (∀ (ev : Eval) (name : String) (arguments : List ASTNode) (i : Interpreter)
        (g : Globals),
      lookup_variable i g name = none →
      evaluate_call_expression ev name arguments i g = .fatal g.stdout) ∧
    (∀ (ev : Eval) (name : String) (arguments : List ASTNode) (i : Interpreter) (g : Globals)
        (ref : Nat × Nat),
      lookup_variable i g name = some ref →
      (g.value_at ref).type ≠ .VALUE_FUNCTION →
      evaluate_call_expression ev name arguments i g = .fatal g.stdout) ∧
    (∀ (read_file : String → Option String) (fuel : Nat) (name : String)
        (arguments : List ASTNode) (i : Interpreter) (g : Globals),
      (lookup_variable i g name = none ∨
        ∃ ref, lookup_variable i g name = some ref ∧
          (g.value_at ref).type ≠ .VALUE_FUNCTION) →
      evaluate read_file (fuel + 1) (.call_expression name arguments) i g =
          .fatal g.stdout ∧
        (lookup_variable i g name = none →
          evaluate read_file (fuel + 1) (.identifier name) i g = .fatal g.stdout)) ∧
    run_interpreter no_files 20
        "function p(x) { print(x); return x; } let n = 1; n(p(2));" = .fatal "" ∧
    run_interpreter no_files 20
        "function p(x) { print(x); return x; } missing(p(2));" = .fatal "" := by
  have h1 : ∀ (ev : Eval) (name : String) (arguments : List ASTNode) (i : Interpreter)
      (g : Globals), lookup_variable i g name = none →
      evaluate_call_expression ev name arguments i g = .fatal g.stdout := by
    intro ev name arguments i g h
    simp [evaluate_call_expression, h]
  have h2 : ∀ (ev : Eval) (name : String) (arguments : List ASTNode) (i : Interpreter)
      (g : Globals) (ref : Nat × Nat), lookup_variable i g name = some ref →
      (g.value_at ref).type ≠ .VALUE_FUNCTION →
      evaluate_call_expression ev name arguments i g = .fatal g.stdout := by
    intro ev name arguments i g ref h ht
    simp only [evaluate_call_expression, h]
    cases hv : g.value_at ref with
    | function n p b c => rw [hv] at ht; exact absurd rfl ht
    | _ => rfl
  refine ⟨h1, h2, fun read_file fuel name arguments i g h => ⟨?_, fun hn => ?_⟩,
    by decide!, by decide!⟩
  · rcases h with h | ⟨ref, h, ht⟩
    · exact h1 _ name arguments i g h
    · exact h2 _ name arguments i g ref h ht
  · simp [evaluate, evaluate_identifier, hn]

/-- C25 at `n(p(2))` where `n` is bound to the number 1, after `0` was
printed: the exit comes with the output `0` alone. -/
theorem call_of_non_function_witness :
    evaluate no_files 5 (.call_expression "n" [.call_expression "p" [.literal (.number (.fin 2))]])
        (top_level .null) number_callee_globals = .fatal "0\n" :=
  (call_of_non_function.2.2.1 no_files 4 "n"
    [.call_expression "p" [.literal (.number (.fin 2))]] (top_level .null)
    number_callee_globals (Or.inr ⟨(0, 1), by decide, by decide⟩)).1

/-! ## C26: the order of evaluation -/

/-- The arguments before a place in the list are evaluated before those after
it. -/
theorem evaluate_arguments_append (ev : Eval) (later : List ASTNode) :
    ∀ (earlier : List ASTNode) (acc : List Value) (i : Interpreter) (g : Globals),
      evaluate_arguments ev (earlier ++ later) acc i g =
        match evaluate_arguments ev earlier acc i g with
        | .ok (values, i1, g1) => evaluate_arguments ev later values i1 g1
        | .fatal out => .fatal out
        | .undefined => .undefined
        | .outOfFuel => .outOfFuel := by
  intro earlier
  induction earlier with
  | nil => intro acc i g; rfl
  | cons a earlier ih =>
    intro acc i g
    simp only [List.cons_append, evaluate_arguments]
    cases ha : ev a i g with
    | ok x =>
      obtain ⟨v, i1, g1⟩ := x
      exact ih _ _ _
    | fatal out => rfl
    | undefined => rfl
    | outOfFuel => rfl

/-- C26. Evaluation from left to right.  (1) A binary node evaluates its left
operand first; the right operand is evaluated in the state the left operand
left (its output and its bindings), and the result is in the state the right
operand left.  (2) When the left operand exits with an error the node does,
with the output of that moment, whatever the right operand is: the right
operand is not evaluated.  (3) A call evaluates its arguments in index order:
the arguments before any place in the list are evaluated first, from the state
of the call, and those after it in the state the earlier ones left; (4) so
argument `k + 1` is evaluated in the state argument `k` left, and the values
are kept in that order.  (5) A program whose operands and arguments print
themselves prints them from left to right. -/
theorem left_to_right_evaluation :
    (∀ (ev : Eval) (operator : String) (left right : ASTNode) (i i1 : Interpreter)
        (g g1 : Globals) (l : Value),
      ev left i g = .ok (l, i1, g1) →
      evaluate_binary_expression ev operator left right i g =
        match ev right i1 g1 with
        | .ok (r, i2, g2) =>
          match binary_operation g2.stdout operator l r with
          | .ok result => .ok (result, i2, g2)
          | .fatal out => .fatal out
          | .undefined => .undefined
          | .outOfFuel => .outOfFuel
        | .fatal out => .fatal out
        | .undefined => .undefined
        | .outOfFuel => .outOfFuel) ∧
    (∀ (ev : Eval) (operator : String) (left right : ASTNode) (i : Interpreter)
        (g : Globals) (out : String),
      ev left i g = .fatal out →
      evaluate_binary_expression ev operator left right i g = .fatal out) ∧
    (∀ (ev : Eval) (earlier later : List ASTNode) (acc : List Value) (i : Interpreter)
        (g : Globals),
      evaluate_arguments ev (earlier ++ later) acc i g =
        match evaluate_arguments ev earlier acc i g with
        | .ok (values, i1, g1) => evaluate_arguments ev later values i1 g1
        | .fatal out => .fatal out
        | .undefined => .undefined
        | .outOfFuel => .outOfFuel) ∧
    (∀ (ev : Eval) (first second : ASTNode) (i i1 i2 : Interpreter) (g g1 g2 : Globals)
        (v1 v2 : Value),
      ev first i g = .ok (v1, i1, g1) → ev second i1 g1 = .ok (v2, i2, g2) →
      evaluate_arguments ev [first, second] [] i g = .ok ([v1, v2], i2, g2)) ∧
    run_output no_files 20
        ("function p(x) { print(x); return x; } function f(a, b, c) { return 0; } " ++
          "print(p(1) + p(2) * p(3)); f(p(4), p(5), p(6));") =
      some "1\n2\n3\n7\n4\n5\n6\n" := by
  refine ⟨fun ev operator left right i i1 g g1 l h => ?_,
    fun ev operator left right i g out h => ?_, fun ev earlier later acc i g =>
      evaluate_arguments_append ev later earlier acc i g,
    fun ev first second i i1 i2 g g1 g2 v1 v2 h1 h2 => ?_, by decide!⟩
  · simp only [evaluate_binary_expression, h]
  · simp only [evaluate_binary_expression, h]
  · simp [evaluate_arguments, h1, h2]

/-- C26 at `p(1) + p(2)`, where `p` prints its argument and returns it: `1` is
printed before `2`. -/
theorem left_to_right_evaluation_witness :
    evaluate_binary_expression (evaluate no_files 5) "+"
        (.call_expression "p" [.literal (.number (.fin 1))])
        (.call_expression "p" [.literal (.number (.fin 2))])
        (top_level .null) number_callee_globals =
      .ok (.number (.fin 3), { top_level .null with return_value := .number (.fin 2) },
        { number_callee_globals with
          scopes := number_callee_globals.scopes ++
            [⟨[("x", .number (.fin 1))]⟩, ⟨[]⟩, ⟨[("x", .number (.fin 2))]⟩, ⟨[]⟩],
          stdout := "0\n1\n2\n" }) :=
  (left_to_right_evaluation.1 (evaluate no_files 5) "+"
    (.call_expression "p" [.literal (.number (.fin 1))])
    (.call_expression "p" [.literal (.number (.fin 2))])
    (top_level .null) { top_level .null with return_value := .number (.fin 1) }
    number_callee_globals
    { number_callee_globals with
      scopes := number_callee_globals.scopes ++ [⟨[("x", .number (.fin 1))]⟩, ⟨[]⟩],
      stdout := "0\n1\n" }
    (.number (.fin 1)) (by decide!)).trans (by decide!)

/-! ## C28 and C29: operands that are no two numbers -/

/-- C28. The operators on two strings and on two booleans.  For two strings
`+` yields the string made of the left one followed by the right one, and `==`
and `!=` yield the boolean that tells whether the strings are equal, or
differ; for two booleans `==` and `!=` yield the boolean that tells whether
they are equal, or differ.  Every other operator on two strings, `<`, `>`,
`<=`, `>=`, `-`, `*`, `/`, `%` among them, and every other operator on two
booleans, `+` among them, exits with an error, the output being what it
was. -/
theorem same_type_operators :
    (∀ (out : String) (l r : String),
      binary_operation out "+" (.string l) (.string r) = .ok (.string (l ++ r)) ∧
        binary_operation out "==" (.string l) (.string r) = .ok (.boolean (decide (l = r))) ∧
        binary_operation out "!=" (.string l) (.string r) = .ok (.boolean (decide (l ≠ r)))) ∧
    (∀ (out : String) (l r : Bool),
      binary_operation out "==" (.boolean l) (.boolean r) = .ok (.boolean (decide (l = r))) ∧
        binary_operation out "!=" (.boolean l) (.boolean r) =
          .ok (.boolean (decide (l ≠ r)))) ∧
    (∀ (out operator : String) (l r : String),
      operator ≠ "+" → operator ≠ "==" → operator ≠ "!=" →
      binary_operation out operator (.string l) (.string r) = .fatal out) ∧
    (∀ (out operator : String) (l r : Bool),
      operator ≠ "==" → operator ≠ "!=" →
      binary_operation out operator (.boolean l) (.boolean r) = .fatal out) ∧
    (∀ (out : String) (l r : String),
      binary_operation out "<" (.string l) (.string r) = .fatal out ∧
        binary_operation out ">" (.string l) (.string r) = .fatal out ∧
        binary_operation out "<=" (.string l) (.string r) = .fatal out ∧
        binary_operation out ">=" (.string l) (.string r) = .fatal out) ∧
    (∀ (out : String) (l r : Bool),
      binary_operation out "+" (.boolean l) (.boolean r) = .fatal out) ∧
    run_output no_files 20
        ("print(\"a\" + \"b\"); print(\"a\" == \"a\"); print(\"a\" != \"a\"); " ++
          "print(true == false); print(true != false);") =
      some "ab\ntrue\nfalse\nfalse\ntrue\n" ∧
    run_interpreter no_files 20 "print(1); print(\"a\" < \"b\");" = .fatal "1\n" ∧
    run_interpreter no_files 20 "print(1); print(true + true);" = .fatal "1\n" := by
  refine ⟨fun out l r => ⟨rfl, rfl, rfl⟩, fun out l r => ⟨rfl, rfl⟩,
    fun out operator l r h1 h2 h3 => ?_, fun out operator l r h1 h2 => ?_,
    fun out l r => ⟨rfl, rfl, rfl, rfl⟩, fun out l r => rfl, by decide!, by decide!, by decide!⟩
  · simp [binary_operation, h1, h2, h3]
  · simp [binary_operation, h1, h2]

/-- C28 at the operator `-` on two strings. -/
theorem same_type_operators_witness :
    binary_operation "1\n" "-" (.string "a") (.string "b") = .fatal "1\n" :=
  same_type_operators.2.2.1 "1\n" "-" "a" "b" (by decide) (by decide) (by decide)

/-- The operators `==` and `!=` on operands of different types. -/
theorem mixed_equality (out : String) (l r : Value) (ht : l.type ≠ r.type) :
    binary_operation out "==" l r = .ok (.boolean false) ∧
      binary_operation out "!=" l r = .ok (.boolean true) := by
  cases l <;> cases r <;> first
    | exact absurd rfl ht
    | exact ⟨rfl, rfl⟩

/-- An operator other than `+`, `==` and `!=` on operands of different
types. -/
theorem mixed_other (out operator : String) (l r : Value) (ht : l.type ≠ r.type)
    (h1 : operator ≠ "+") (h2 : operator ≠ "==") (h3 : operator ≠ "!=") :
    binary_operation out operator l r = .fatal out := by
  cases l <;> cases r <;> first
    | exact absurd rfl ht
    | simp [binary_operation, h1, h2, h3]

/-- C29. Operands of different types.  Whatever the values of two operands
whose types differ, `==` yields the boolean false and `!=` the boolean true,
and every operator other than `+`, `==` and `!=` exits with an error, the
output being what it was. -/
theorem mixed_type_operators :
    (∀ (out : String) (l r : Value), l.type ≠ r.type →
      binary_operation out "==" l r = .ok (.boolean false) ∧
        binary_operation out "!=" l r = .ok (.boolean true)) ∧
    (∀ (out operator : String) (l r : Value), l.type ≠ r.type →
      operator ≠ "+" → operator ≠ "==" → operator ≠ "!=" →
      binary_operation out operator l r = .fatal out) ∧
    (∀ (ev : Eval) (operator : String) (left right : ASTNode) (i i1 i2 : Interpreter)
        (g g1 g2 : Globals) (l r : Value),
      ev left i g = .ok (l, i1, g1) → ev right i1 g1 = .ok (r, i2, g2) →
      l.type ≠ r.type →
      (operator = "==" →
        evaluate_binary_expression ev operator left right i g =
          .ok (.boolean false, i2, g2)) ∧
      (operator = "!=" →
        evaluate_binary_expression ev operator left right i g =
          .ok (.boolean true, i2, g2)) ∧
      (operator ≠ "+" → operator ≠ "==" → operator ≠ "!=" →
        evaluate_binary_expression ev operator left right i g = .fatal g2.stdout)) ∧
    run_output no_files 20 "print(1 == \"1\"); print(1 != \"1\"); print(true == 1);" =
      some "false\ntrue\nfalse\n" ∧
    run_interpreter no_files 20 "print(1); print(1 < \"2\");" = .fatal "1\n" := by
  refine ⟨mixed_equality, mixed_other,
    fun ev operator left right i i1 i2 g g1 g2 l r hl hr ht => ⟨?_, ?_, ?_⟩,
    by decide!, by decide!⟩
  · intro ho
    simp [evaluate_binary_expression, hl, hr, ho, (mixed_equality g2.stdout l r ht).1]
  · intro ho
    simp [evaluate_binary_expression, hl, hr, ho, (mixed_equality g2.stdout l r ht).2]
  · intro h1 h2 h3
    simp [evaluate_binary_expression, hl, hr, mixed_other g2.stdout operator l r ht h1 h2 h3]

/-- C29 at `1 == "1"` and `1 < "2"`. -/
theorem mixed_type_operators_witness :
    binary_operation "" "==" (.number (.fin 1)) (.string "1") = .ok (.boolean false) ∧
    binary_operation "" "<" (.number (.fin 1)) (.string "2") = .fatal "" :=
  ⟨(mixed_type_operators.1 "" (.number (.fin 1)) (.string "1") (by decide)).1,
    mixed_type_operators.2.1 "" "<" (.number (.fin 1)) (.string "2") (by decide) (by decide)
      (by decide) (by decide)⟩

/-! ## C30: the statement `print` -/

/-- C30. The statement `print`.  (1) When its argument evaluates to `v`, the
statement yields `v` and adds to the standard output the text of `v` followed
by one newline; the interpreter, the scopes with all their bindings and the
set of imported files are those the argument left.  (2) The text of a string
is the string itself, that of a boolean is `true` or `false`, that of a
function is `[Function: ` followed by its name and `]`, that of null is `null`
and that of a number is its `%g` form; (3) the `%g` form of an integer of at
most six digits is its decimal digits, with a minus sign when it is negative,
and zero is `0`.  (4) The name of a function value is the name of its
declaration: a program that prints a string, a boolean, a function, null and
numbers writes these texts, one on each line.  (5) A number that is not finite
is written as `%g` writes it: `0/0` as `-nan`, `1/0` as `inf`, `(0 - 1)/0` as
`-inf`, and `0 * (0 - 1)` as `-0`. -/
theorem print_statement_output :
    (∀ (ev : Eval) (argument : ASTNode) (i i1 : Interpreter) (g g1 : Globals) (v : Value),
      ev argument i g = .ok (v, i1, g1) →
      evaluate_print_statement ev argument i g =
        .ok (v, i1, { g1 with stdout := g1.stdout ++ (print_text v ++ "\n") })) ∧
    ((∀ s : String, print_text (.string s) = s) ∧
      print_text (.boolean true) = "true" ∧ print_text (.boolean false) = "false" ∧
      (∀ (name : String) (params : List String) (body : ASTNode) (closure : List Nat),
        print_text (.function name params body closure) = "[Function: " ++ name ++ "]") ∧
      print_text .null = "null" ∧
      ∀ n : Number, print_text (.number n) = Number.formatG n) ∧
    ((∀ n : Nat, 0 < n → n < 10 ^ 6 →
        print_text (.number (.fin (n : ℚ))) = Nat.repr n ∧
          print_text (.number (.fin (-(n : ℚ)))) = "-" ++ Nat.repr n) ∧
      print_text (.number (.fin 0)) = "0") ∧
    run_output no_files 20
        ("function f() {} print(\"hi\"); print(true); print(f); print(f()); print(42); " ++
          "print(0 - 7); print(2.5);") =
      some "hi\ntrue\n[Function: f]\nnull\n42\n-7\n2.5\n" ∧
    run_output no_files 20 "print(0/0); print(1/0); print((0 - 1)/0); print(0 * (0 - 1));" =
      some "-nan\ninf\n-inf\n-0\n" := by
  refine ⟨fun ev argument i i1 g g1 v h => ?_,
    ⟨fun _ => rfl, rfl, rfl, fun _ _ _ _ => rfl, rfl, fun _ => rfl⟩,
    ⟨fun n h0 h => formatG_integer n h0 h, by decide!⟩, by decide!, by decide!⟩
  simp only [evaluate_print_statement, h, Globals.print]

/-- C30 at `print("hi");` after `1` was printed, and at the number 42. -/
theorem print_statement_output_witness :
    evaluate_print_statement (evaluate no_files 1) (.literal (.string "hi")) (top_level .null)
        { scopes := [⟨[("x", .null)]⟩], imported_files := [], stdout := "1\n" } =
      .ok (.string "hi", top_level .null,
        { scopes := [⟨[("x", .null)]⟩], imported_files := [], stdout := "1\nhi\n" }) ∧
    print_text (.number (.fin ((42 : Nat) : ℚ))) = "42" :=
  ⟨(print_statement_output.1 (evaluate no_files 1) (.literal (.string "hi")) (top_level .null)
      (top_level .null) { scopes := [⟨[("x", .null)]⟩], imported_files := [], stdout := "1\n" }
      { scopes := [⟨[("x", .null)]⟩], imported_files := [], stdout := "1\n" } (.string "hi")
      rfl).trans (by decide),
    ((print_statement_output.2.2.1.1 42 (by decide) (by decide)).1).trans (by decide)⟩

/-! ## C24: assignment -/

/-- What `lookup_variable` finds: the innermost frame of the stack that binds
the name, and the first index of the name in it. -/
theorem lookup_variable_some (i : Interpreter) (g : Globals) (x : String) (s j : Nat)
    (h : lookup_variable i g x = some (s, j)) :
    ∃ outer inner, i.scope_stack = outer ++ s :: inner ∧
      (∀ t ∈ inner, (g.scope t).index_of x = none) ∧ (g.scope s).index_of x = some j := by
  simp only [lookup_variable] at h
  obtain ⟨l1, a, l2, hrev, hfa, hnone⟩ := List.findSome?_eq_some_iff.mp h
  have hstack : i.scope_stack = l2.reverse ++ a :: l1.reverse := by
    have := congrArg List.reverse hrev
    simpa using this
  cases hx : (g.scope a).index_of x with
  | none => rw [hx] at hfa; simp at hfa
  | some k =>
    rw [hx] at hfa
    simp only [Option.map_some', Option.some.injEq, Prod.mk.injEq] at hfa
    obtain ⟨rfl, rfl⟩ := hfa
    refine ⟨l2.reverse, l1.reverse, hstack, fun t ht => ?_, hx⟩
    have := hnone t (List.mem_reverse.mp ht)
    cases ht' : (g.scope t).index_of x with
    | none => rfl
    | some k' => rw [ht'] at this; simp at this

/-- When `lookup_variable` finds nothing, no frame of the stack binds the
name. -/
theorem lookup_variable_eq_none (i : Interpreter) (g : Globals) (x : String)
    (h : lookup_variable i g x = none) :
    ∀ t ∈ i.scope_stack, (g.scope t).index_of x = none := by
  simp only [lookup_variable, List.findSome?_eq_none_iff, List.mem_reverse] at h
  intro t ht
  have := h t ht
  cases ht' : (g.scope t).index_of x with
  | none => rfl
  | some k => rw [ht'] at this; simp at this

/-- The binding at the first index of a name has that name. -/
theorem index_of_get (entries : List (String × Value)) (x : String) (j : Nat)
    (h : (Scope.mk entries).index_of x = some j) :
    ∃ v, entries[j]? = some (x, v) := by
  simp only [Scope.index_of] at h
  obtain ⟨hlt, hp, -⟩ := List.findIdx?_eq_some_iff_getElem.mp h
  refine ⟨entries[j].2, ?_⟩
  rw [List.getElem?_eq_getElem hlt]
  have hx : entries[j].1 = x := by simpa using hp
  rw [← hx]

/-- A scope pointer past the scopes points to no binding. -/
theorem scope_lt_of_index_of (g : Globals) (s : Nat) (x : String) (j : Nat)
    (h : (g.scope s).index_of x = some j) : s < g.scopes.length := by
  by_contra hn
  have : g.scope s = ⟨[]⟩ := by
    simp only [Globals.scope, List.getD_eq_getElem?_getD]
    rw [List.getElem?_eq_none (by omega)]
    rfl
  rw [this] at h
  simp [Scope.index_of] at h

/-- An assignment leaves the other scopes as they are. -/
theorem set_value_at_scope_other (g : Globals) (ref : Nat × Nat) (v : Value) (t : Nat)
    (h : t ≠ ref.1) : (g.set_value_at ref v).scope t = g.scope t := by
  simp only [Globals.scope, Globals.set_value_at, List.getD_eq_getElem?_getD]
  rw [List.getElem?_modify_ne _ _ (Ne.symm h)]

/-- An assignment changes one binding of its scope. -/
theorem set_value_at_scope_same (g : Globals) (s j : Nat) (v : Value)
    (h : s < g.scopes.length) :
    ((g.set_value_at (s, j) v).scope s).entries =
      (g.scope s).entries.modify (fun e => (e.1, v)) j := by
  simp only [Globals.scope, Globals.set_value_at, List.getD_eq_getElem?_getD,
    List.getElem?_modify_eq, List.getElem?_eq_getElem h, Option.map_eq_map, Option.map_some',
    Option.getD_some]

/-- C24. Assignment.  When the expression of `x = expr;` has been evaluated to
`v`: (1) if `lookup_variable` then finds `x` at the index `j` of the scope
`s`, the assignment yields `v` and writes `v` there; (2) `s` is the innermost
frame of the stack that binds `x`, and `j` the first binding of `x` in it; (3)
afterwards the binding `j` of `s` is `x` with the value `v`, every other
binding of `s` is as before, `s` has as many bindings as before, every other
scope is as before and there are as many scopes as before, the output and the
interpreter too.  (4) If no frame of the stack binds `x`, the assignment exits
with an error, with the output of that moment.  (5) The loop
`let i = 0; while (i < 3) { print(i); i = i + 1; }` prints `0`, `1`, `2`; an
assignment to a name that was never declared exits. -/
theorem assignment_updates_binding :
    (∀ (ev : Eval) (x : String) (value : ASTNode) (i i1 : Interpreter) (g g1 : Globals)
        (v : Value) (s j : Nat),
      ev value i g = .ok (v, i1, g1) → lookup_variable i1 g1 x = some (s, j) →
      evaluate_assignment_expression ev x value i g =
          .ok (v, i1, g1.set_value_at (s, j) v) ∧
        (∃ outer inner, i1.scope_stack = outer ++ s :: inner ∧
          (∀ t ∈ inner, (g1.scope t).index_of x = none) ∧
          (g1.scope s).index_of x = some j) ∧
        ((g1.set_value_at (s, j) v).scope s).entries[j]? = some (x, v) ∧
        (∀ k, k ≠ j →
          ((g1.set_value_at (s, j) v).scope s).entries[k]? = (g1.scope s).entries[k]?) ∧
        ((g1.set_value_at (s, j) v).scope s).entries.length =
          (g1.scope s).entries.length ∧
        (∀ t, t ≠ s → (g1.set_value_at (s, j) v).scope t = g1.scope t) ∧
        (g1.set_value_at (s, j) v).scopes.length = g1.scopes.length ∧
        (g1.set_value_at (s, j) v).stdout = g1.stdout ∧
        (g1.set_value_at (s, j) v).imported_files = g1.imported_files) ∧
    (∀ (ev : Eval) (x : String) (value : ASTNode) (i i1 : Interpreter) (g g1 : Globals)
        (v : Value),
      ev value i g = .ok (v, i1, g1) →
      (∀ t ∈ i1.scope_stack, (g1.scope t).index_of x = none) →
      evaluate_assignment_expression ev x value i g = .fatal g1.stdout) ∧
    run_output no_files 20 "let i = 0; while (i < 3) { print(i); i = i + 1; }" =
      some "0\n1\n2\n" ∧
    run_interpreter no_files 20 "print(1); x = 2;" = .fatal "1\n" := by
  refine ⟨fun ev x value i i1 g g1 v s j hv hl => ?_,
    fun ev x value i i1 g g1 v hv hn => ?_, by decide!, by decide!⟩
  · obtain ⟨outer, inner, hstack, hinner, hj⟩ := lookup_variable_some i1 g1 x s j hl
    have hs := scope_lt_of_index_of g1 s x j hj
    obtain ⟨old, hold⟩ := index_of_get (g1.scope s).entries x j hj
    have hsame := set_value_at_scope_same g1 s j v hs
    refine ⟨by simp [evaluate_assignment_expression, hv, hl], ⟨outer, inner, hstack, hinner, hj⟩,
      ?_, fun k hk => ?_, ?_, fun t ht => set_value_at_scope_other g1 (s, j) v t ht, ?_, rfl, rfl⟩
    · rw [hsame, List.getElem?_modify_eq, hold]
      rfl
    · rw [hsame, List.getElem?_modify_ne _ _ (Ne.symm hk)]
    · rw [hsame, List.length_modify]
    · simp [Globals.set_value_at]
  · have hl := lookup_variable_none i1 g1 x hn
    simp [evaluate_assignment_expression, hv, hl]

/-- C24 at `x = 5;` with the stack `[0, 1]`, the scope 0 binding `x` and `y`
and the scope 1, innermost, binding `x` twice: the first binding of the scope
1 is written, nothing else changes. -/
theorem assignment_updates_binding_witness :
    evaluate_assignment_expression (evaluate no_files 1) "x" (.literal (.number (.fin 5)))
        { top_level .null with scope_stack := [0, 1] }
        { scopes := [⟨[("x", .null), ("y", .null)]⟩, ⟨[("x", .null), ("x", .boolean true)]⟩],
          imported_files := [], stdout := "" } =
      .ok (.number (.fin 5), { top_level .null with scope_stack := [0, 1] },
        { scopes := [⟨[("x", .null), ("y", .null)]⟩,
            ⟨[("x", .number (.fin 5)), ("x", .boolean true)]⟩],
          imported_files := [], stdout := "" }) :=
  ((assignment_updates_binding.1 (evaluate no_files 1) "x" (.literal (.number (.fin 5)))
    { top_level .null with scope_stack := [0, 1] }
    { top_level .null with scope_stack := [0, 1] }
    { scopes := [⟨[("x", .null), ("y", .null)]⟩, ⟨[("x", .null), ("x", .boolean true)]⟩],
      imported_files := [], stdout := "" }
    { scopes := [⟨[("x", .null), ("y", .null)]⟩, ⟨[("x", .null), ("x", .boolean true)]⟩],
      imported_files := [], stdout := "" }
    (.number (.fin 5)) 1 0 rfl (by decide)).1).trans (by decide!)

/-! ## C23: the scope of a block -/

/-- Two functions that agree on a list find the same thing in it. -/
theorem findSome_congr {α β : Type} (f f' : α → Option β) :
    ∀ l : List α, (∀ t ∈ l, f t = f' t) → l.findSome? f = l.findSome? f' := by
  intro l
  induction l with
  | nil => intro _; rfl
  | cons a l ih =>
    intro h
    simp only [List.findSome?_cons, h a (List.mem_cons_self _ _),
      ih (fun t ht => h t (List.mem_cons_of_mem _ ht))]

/-- A lookup depends on the scopes of the stack only. -/
theorem lookup_variable_congr (i : Interpreter) (g g' : Globals) (x : String)
    (h : ∀ t ∈ i.scope_stack, g'.scope t = g.scope t) :
    lookup_variable i g' x = lookup_variable i g x ∧
      (lookup_variable i g' x).map g'.value_at = (lookup_variable i g x).map g.value_at := by
  have h1 : lookup_variable i g' x = lookup_variable i g x := by
    simp only [lookup_variable]
    apply findSome_congr
    intro t ht
    rw [h t (List.mem_reverse.mp ht)]
  refine ⟨h1, ?_⟩
  rw [h1]
  cases hl : lookup_variable i g x with
  | none => rfl
  | some ref =>
    obtain ⟨s, j⟩ := ref
    obtain ⟨outer, inner, hstack, -, -⟩ := lookup_variable_some i g x s j hl
    have hs : s ∈ i.scope_stack := by rw [hstack]; simp
    simp only [Option.map_some', Globals.value_at, h s hs]

/-- The function `evaluate_variable_declaration` once the value is evaluated. -/
theorem evaluate_variable_declaration_eq (ev : Eval) (x : String) (value : ASTNode)
    (i i1 : Interpreter) (g g1 : Globals) (v : Value) (s : Nat)
    (hv : ev value i g = .ok (v, i1, g1)) (hs : get_current_scope i1 = some s) :
    evaluate_variable_declaration ev x value i g = .ok (v, i1, define_variable g1 s x v) := by
  simp [evaluate_variable_declaration, hv, hs]

/-- The innermost frame of a stack that ends with `scope`. -/
theorem get_current_scope_append (i : Interpreter) (front : List Nat) (scope : Nat)
    (h : i.scope_stack = front ++ [scope]) : get_current_scope i = some scope := by
  simp [get_current_scope, h]

/-- A block that holds one declaration. -/
theorem evaluate_block_of_let (read_file : String → Option String) (fuel : Nat) (x : String)
    (value : ASTNode) (i i1 : Interpreter) (g g1 : Globals) (v : Value)
    (hv : evaluate read_file fuel value (push_scope i (create_scope g).1) (create_scope g).2 =
      .ok (v, i1, g1)) :
    evaluate read_file (fuel + 2) (.block_statement [.variable_declaration x value]) i g =
      .ok (v, pop_scope i1, define_variable g1 g.scopes.length x v) := by
  have hstack := evaluate_scope_stack read_file fuel _ _ _ _ _ _ hv
  have hcur : get_current_scope i1 = some g.scopes.length :=
    get_current_scope_append i1 i.scope_stack _ hstack
  have hlet := evaluate_variable_declaration_eq (evaluate read_file fuel) x value _ _ _ _ v _
    hv hcur
  simp only [evaluate, evaluate_block_statement, evaluate_block_body, hlet, ite_self]

/-- C23. The scope of a block.  (1) A block evaluates its statements with the
scope stack of before followed by one new scope, and pops that scope when they
are done.  (2) A `let` appends its binding to the innermost frame: in a block,
to the frame of the block; every other scope is as before.  (3) When that
frame did not bind the name yet, a lookup of the name inside the block finds
the new binding, whatever the outer frames bind.  (4) A lookup depends on the
scopes of the stack only, and the frame of the block is none of the scopes that
existed before it.  (5) So after a block that holds a `let`, with the stack of
before, every lookup finds what it finds in the state the expression of the
`let` left: the outer binding of the name with the value it has there, or
nothing; the `let` changed none of this.  (6) A name that no frame of the stack
binds is not found, and evaluating it exits with an error.  (7)
`let x = 1; { let x = 2; print(x); } print(x);` prints `2` then `1`, and
`{ let y = 1; print(y); } print(y);` prints `1` and exits with an error. -/
theorem block_scoping :
    (∀ (read_file : String → Option String) (fuel : Nat) (body : List ASTNode)
        (i : Interpreter) (g : Globals),
      evaluate read_file (fuel + 1) (.block_statement body) i g =
        match evaluate_block_body (evaluate read_file fuel) body .null
            { i with scope_stack := i.scope_stack ++ [g.scopes.length] }
            { g with scopes := g.scopes ++ [⟨[]⟩] } with
        | .ok (result, i1, g1) =>
          .ok (result, { i1 with scope_stack := i1.scope_stack.dropLast }, g1)
        | .fatal out => .fatal out
        | .undefined => .undefined
        | .outOfFuel => .outOfFuel) ∧
    (∀ (ev : Eval) (x : String) (value : ASTNode) (i i1 : Interpreter) (g g1 : Globals)
        (v : Value) (front : List Nat) (scope : Nat),
      ev value i g = .ok (v, i1, g1) → i1.scope_stack = front ++ [scope] →
      scope < g1.scopes.length →
      evaluate_variable_declaration ev x value i g =
          .ok (v, i1, define_variable g1 scope x v) ∧
        ((define_variable g1 scope x v).scope scope).entries =
          (g1.scope scope).entries ++ [(x, v)] ∧
        ∀ t, t ≠ scope → (define_variable g1 scope x v).scope t = g1.scope t) ∧
    (∀ (x : String) (v : Value) (i : Interpreter) (g : Globals) (front : List Nat)
        (scope : Nat),
      i.scope_stack = front ++ [scope] → scope < g.scopes.length →
      (g.scope scope).index_of x = none →
      (lookup_variable i (define_variable g scope x v) x).map
        (define_variable g scope x v).value_at = some v) ∧
    (∀ (i : Interpreter) (g g' : Globals) (x : String),
      (∀ t ∈ i.scope_stack, g'.scope t = g.scope t) →
      lookup_variable i g' x = lookup_variable i g x ∧
        (lookup_variable i g' x).map g'.value_at = (lookup_variable i g x).map g.value_at) ∧
    (∀ (read_file : String → Option String) (fuel : Nat) (x : String) (value : ASTNode)
        (i i1 : Interpreter) (g g1 : Globals) (v : Value),
      (∀ t ∈ i.scope_stack, t < g.scopes.length) →
      evaluate read_file fuel value { i with scope_stack := i.scope_stack ++ [g.scopes.length] }
          { g with scopes := g.scopes ++ [⟨[]⟩] } = .ok (v, i1, g1) →
      ∃ i2 g2,
        evaluate read_file (fuel + 2) (.block_statement [.variable_declaration x value]) i g =
          .ok (v, i2, g2) ∧
        i2.scope_stack = i.scope_stack ∧
        ∀ y, lookup_variable i2 g2 y = lookup_variable i g1 y ∧
          (lookup_variable i2 g2 y).map g2.value_at =
            (lookup_variable i g1 y).map g1.value_at) ∧
    (∀ (read_file : String → Option String) (fuel : Nat) (i : Interpreter) (g : Globals)
        (x : String),
      (∀ t ∈ i.scope_stack, (g.scope t).index_of x = none) →
      evaluate read_file (fuel + 1) (.identifier x) i g = .fatal g.stdout) ∧
    run_output no_files 20 "let x = 1; { let x = 2; print(x); } print(x);" =
      some "2\n1\n" ∧
    run_interpreter no_files 20 "{ let y = 1; print(y); } print(y);" = .fatal "1\n" := by
  refine ⟨fun read_file fuel body i g => ?_,
    fun ev x value i i1 g g1 v front scope hv hstack hlt => ⟨?_, ?_, ?_⟩,
    fun x v i g front scope hstack hlt hnone => ?_, lookup_variable_congr,
    fun read_file fuel x value i i1 g g1 v hwf hv => ?_,
    fun read_file fuel i g x hn => ?_, by decide!, by decide!⟩
  · simp only [evaluate, evaluate_block_statement, create_scope, push_scope, pop_scope]
  · exact evaluate_variable_declaration_eq ev x value i i1 g g1 v scope hv
      (get_current_scope_append i1 front scope hstack)
  · rw [scope_define_variable_same g1 scope x v hlt]
  · intro t ht
    exact scope_define_variable_other g1 scope t x v ht
  · obtain ⟨h1, h2⟩ := define_variable_value_at g scope x v hlt hnone
    rw [lookup_variable_current i _ scope x _ (get_current_scope_append i front scope hstack) h1]
    simp [h2]
  · have hblock := evaluate_block_of_let read_file fuel x value i i1 g g1 v hv
    have hstack := evaluate_scope_stack read_file fuel _ _ _ _ _ _ hv
    refine ⟨_, _, hblock, pop_scope_of_push i i1 _ hstack, fun y => ?_⟩
    have hpop : (pop_scope i1).scope_stack = i.scope_stack := pop_scope_of_push i i1 _ hstack
    have hsame : ∀ t ∈ i.scope_stack,
        (define_variable g1 g.scopes.length x v).scope t = g1.scope t := fun t ht =>
      scope_define_variable_other g1 _ t x v (Nat.ne_of_lt (hwf t ht))
    have hc := lookup_variable_congr i g1 _ y hsame
    have e : ∀ gg : Globals, lookup_variable (pop_scope i1) gg y = lookup_variable i gg y := by
      intro gg
      simp only [lookup_variable, hpop]
    rw [e]
    exact hc
  · simp [evaluate, evaluate_identifier, lookup_variable_none i g x hn]

/-- C23 at `{ let x = 2; }` evaluated where the global scope binds `x` to 1:
afterwards the lookup of `x` finds the global binding and the value 1. -/
theorem block_scoping_witness :
    ∃ i2 g2,
      evaluate no_files 3
          (.block_statement [.variable_declaration "x" (.literal (.number (.fin 2)))])
          (top_level .null) outer_x_globals = .ok (.number (.fin 2), i2, g2) ∧
        i2.scope_stack = [0] ∧
        (lookup_variable i2 g2 "x").map g2.value_at = some (.number (.fin 1)) := by
  obtain ⟨i2, g2, h1, h2, h3⟩ := block_scoping.2.2.2.2.1 no_files 1 "x"
    (.literal (.number (.fin 2))) (top_level .null)
    { top_level .null with scope_stack := [0, 1] } outer_x_globals
    { outer_x_globals with scopes := outer_x_globals.scopes ++ [⟨[]⟩] } (.number (.fin 2))
    (by decide) rfl
  exact ⟨i2, g2, h1, h2, (h3 "x").2.trans (by decide)⟩

/-! ## C27: the operators on two numbers -/

/-- The test of `representable` for an integer, at a natural number of at most
`2 ^ 53`. -/
theorem representable_natAbs (m : Nat) (h : m ≤ 2 ^ 53) :
    (decide (m < 2 ^ 53) ||
      (decide (m < 2 ^ 1024) && decide (m % 2 ^ (Number.bitLength m m - 53) = 0))) = true := by
  rcases Nat.lt_or_ge m (2 ^ 53) with hlt | hge
  · rw [Bool.or_eq_true]
    exact Or.inl (decide_eq_true hlt)
  · have he : m = 2 ^ 53 := Nat.le_antisymm h hge
    subst he
    decide!

/-- An integer of absolute value at most `2 ^ 53` is the value of a double. -/
theorem representable_intCast (c : Int) (h : c.natAbs ≤ 2 ^ 53) :
    Number.representable (c : ℚ) = true := by
  simp only [Number.representable, Rat.intCast_den, Rat.intCast_num, if_true]
  exact representable_natAbs c.natAbs h

/-- Such an integer is rounded to itself. -/
theorem roundToDouble_intCast (c : Int) (h : c.natAbs ≤ 2 ^ 53) :
    Number.roundToDouble (c : ℚ) = Number.ofInt c := by
  simp [Number.roundToDouble, representable_intCast c h, Number.ofInt]

/-- The sum of two integers, when it is of absolute value at most `2 ^ 53`. -/
theorem add_ofInt (a b : Int) (h : (a + b).natAbs ≤ 2 ^ 53) :
    Number.add (Number.ofInt a) (Number.ofInt b) = Number.ofInt (a + b) := by
  have hr := roundToDouble_intCast (a + b) h
  simp only [Number.ofInt, Number.add] at hr ⊢
  push_cast at hr
  by_cases h0 : (a : ℚ) + (b : ℚ) = 0
  · simp [h0]
  · simp only [h0, if_false, hr]
    push_cast
    rfl

/-- The difference of two integers, when it is of absolute value at most
`2 ^ 53`. -/
theorem sub_ofInt (a b : Int) (h : (a - b).natAbs ≤ 2 ^ 53) :
    Number.sub (Number.ofInt a) (Number.ofInt b) = Number.ofInt (a - b) := by
  by_cases hb : b = 0
  · subst hb
    simp [Number.sub, Number.neg, Number.ofInt, Number.add]
  · have hbq : (b : ℚ) ≠ 0 := by exact_mod_cast hb
    have e : Number.neg (Number.ofInt b) = Number.ofInt (-b) := by
      simp [Number.neg, Number.ofInt, hbq]
    rw [Number.sub, e, add_ofInt a (-b) (by rwa [← sub_eq_add_neg]), ← sub_eq_add_neg]

/-- The product of two integers, when it is of absolute value at most
`2 ^ 53`; a product that is zero may be the negative zero. -/
theorem mul_ofInt (a b : Int) (h : (a * b).natAbs ≤ 2 ^ 53) :
    (Number.mul (Number.ofInt a) (Number.ofInt b)).toRat? = some ((a * b : Int) : ℚ) ∧
      (a * b ≠ 0 → Number.mul (Number.ofInt a) (Number.ofInt b) = Number.ofInt (a * b)) := by
  have hr := roundToDouble_intCast (a * b) h
  simp only [Number.ofInt, Number.mul] at hr ⊢
  push_cast at hr
  by_cases h0 : (a : ℚ) * (b : ℚ) = 0
  · have h0' : a * b = 0 := by exact_mod_cast h0
    refine ⟨?_, fun hne => absurd h0' hne⟩
    simp only [h0, if_true, h0']
    cases decide ((a : ℚ) < 0) != decide ((b : ℚ) < 0) <;> simp [Number.signedZero, Number.toRat?]
  · simp only [h0, if_false, hr]
    push_cast
    exact ⟨rfl, fun _ => rfl⟩

/-- The comparisons of two integers. -/
theorem compare_ofInt (a b : Int) :
    Number.eq (Number.ofInt a) (Number.ofInt b) = decide (a = b) ∧
      Number.lt (Number.ofInt a) (Number.ofInt b) = decide (a < b) ∧
      Number.le (Number.ofInt a) (Number.ofInt b) = decide (a ≤ b) := by
  have h1 : Number.eq (Number.ofInt a) (Number.ofInt b) = decide (a = b) := by
    by_cases h : a = b
    · subst h
      simp [Number.eq, Number.ofInt, Number.toRat?]
    · have hq : (a : ℚ) ≠ (b : ℚ) := by exact_mod_cast h
      simp [Number.eq, Number.ofInt, Number.toRat?, h, hq]
  have h2 : Number.lt (Number.ofInt a) (Number.ofInt b) = decide (a < b) := by
    simp [Number.lt, Number.ofInt, Number.toRat?]
  refine ⟨h1, h2, ?_⟩
  simp only [Number.le, h1, h2]
  rcases lt_trichotomy a b with h | h | h
  · simp [h, h.le]
  · simp [h]
  · simp [h, not_le.mpr h, not_lt.mpr h.le, (ne_of_gt h)]

/-- Counterexample to C27: the operands `2 ^ 53` and `1` are integers that a
double holds exactly, and their sum by `+` is `2 ^ 53`, not the integer
`2 ^ 53 + 1`; `a - b` and `a * b` fail in the same way at `-(2 ^ 53)`, `1` and
at `2 ^ 53 - 1`, `3`.  In a program: `9007199254740992 + 1` is equal to
`9007199254740992`. -/
theorem exact_integer_arithmetic_counterexample :
    binary_operation "" "+" (.number (Number.ofInt (2 ^ 53))) (.number (Number.ofInt 1)) =
      .ok (.number (Number.ofInt (2 ^ 53))) ∧
    binary_operation "" "-" (.number (Number.ofInt (-(2 ^ 53)))) (.number (Number.ofInt 1)) =
      .ok (.number (Number.ofInt (-(2 ^ 53)))) ∧
    binary_operation "" "*" (.number (Number.ofInt (2 ^ 53 - 1))) (.number (Number.ofInt 3)) =
      .ok (.number (Number.ofInt (3 * 2 ^ 53 - 4))) ∧
    run_output no_files 20 "print(9007199254740992 + 1 == 9007199254740992);" =
      some "true\n" :=
  ⟨by decide!, by decide!, by decide!, by decide!⟩

/-- C27, amended.  (1) On two numbers, `+`, `-`, `*` and `/` yield a number
and `==`, `!=`, `>`, `>=`, `<`, `<=` yield a boolean.  (2) On operands that are
integers, `+`, `-` and `*` yield the exact integer result when that result is
of absolute value at most `2 ^ 53`, the range in which a double holds every
integer (a product that is zero may be the negative zero, which is equal to
zero); (3) and the comparisons of operands that are integers yield the
mathematical comparison.  (4) `let x = 1 + 2 * 3; print(x);` prints `7`. -/
theorem number_operators :
    (∀ (out : String) (l r : Number),
      (∃ n, binary_operation out "+" (.number l) (.number r) = .ok (.number n)) ∧
        (∃ n, binary_operation out "-" (.number l) (.number r) = .ok (.number n)) ∧
        (∃ n, binary_operation out "*" (.number l) (.number r) = .ok (.number n)) ∧
        (∃ n, binary_operation out "/" (.number l) (.number r) = .ok (.number n)) ∧
        (∃ b, binary_operation out "==" (.number l) (.number r) = .ok (.boolean b)) ∧
        (∃ b, binary_operation out "!=" (.number l) (.number r) = .ok (.boolean b)) ∧
        (∃ b, binary_operation out ">" (.number l) (.number r) = .ok (.boolean b)) ∧
        (∃ b, binary_operation out ">=" (.number l) (.number r) = .ok (.boolean b)) ∧
        (∃ b, binary_operation out "<" (.number l) (.number r) = .ok (.boolean b)) ∧
        (∃ b, binary_operation out "<=" (.number l) (.number r) = .ok (.boolean b))) ∧
    (∀ (out : String) (a b : Int),
      ((a + b).natAbs ≤ 2 ^ 53 →
        binary_operation out "+" (.number (Number.ofInt a)) (.number (Number.ofInt b)) =
          .ok (.number (Number.ofInt (a + b)))) ∧
      ((a - b).natAbs ≤ 2 ^ 53 →
        binary_operation out "-" (.number (Number.ofInt a)) (.number (Number.ofInt b)) =
          .ok (.number (Number.ofInt (a - b)))) ∧
      ((a * b).natAbs ≤ 2 ^ 53 →
        ∃ n, binary_operation out "*" (.number (Number.ofInt a)) (.number (Number.ofInt b)) =
            .ok (.number n) ∧
          n.toRat? = some ((a * b : Int) : ℚ) ∧ (a * b ≠ 0 → n = Number.ofInt (a * b)))) ∧
    (∀ (out : String) (a b : Int),
      binary_operation out "==" (.number (Number.ofInt a)) (.number (Number.ofInt b)) =
          .ok (.boolean (decide (a = b))) ∧
        binary_operation out "!=" (.number (Number.ofInt a)) (.number (Number.ofInt b)) =
          .ok (.boolean (decide (a ≠ b))) ∧
        binary_operation out ">" (.number (Number.ofInt a)) (.number (Number.ofInt b)) =
          .ok (.boolean (decide (a > b))) ∧
        binary_operation out ">=" (.number (Number.ofInt a)) (.number (Number.ofInt b)) =
          .ok (.boolean (decide (a ≥ b))) ∧
        binary_operation out "<" (.number (Number.ofInt a)) (.number (Number.ofInt b)) =
          .ok (.boolean (decide (a < b))) ∧
        binary_operation out "<=" (.number (Number.ofInt a)) (.number (Number.ofInt b)) =
          .ok (.boolean (decide (a ≤ b)))) ∧
    run_output no_files 20 "let x = 1 + 2 * 3; print(x);" = some "7\n" := by
  refine ⟨fun out l r => ⟨⟨_, rfl⟩, ⟨_, rfl⟩, ⟨_, rfl⟩, ⟨_, rfl⟩, ⟨_, rfl⟩, ⟨_, rfl⟩, ⟨_, rfl⟩,
      ⟨_, rfl⟩, ⟨_, rfl⟩, ⟨_, rfl⟩⟩,
    fun out a b => ⟨fun h => ?_, fun h => ?_, fun h => ?_⟩, fun out a b => ?_, by decide!⟩
  · have e : binary_operation out "+" (.number (Number.ofInt a)) (.number (Number.ofInt b)) =
        .ok (.number (Number.add (Number.ofInt a) (Number.ofInt b))) := rfl
    rw [e, add_ofInt a b h]
  · have e : binary_operation out "-" (.number (Number.ofInt a)) (.number (Number.ofInt b)) =
        .ok (.number (Number.sub (Number.ofInt a) (Number.ofInt b))) := rfl
    rw [e, sub_ofInt a b h]
  · exact ⟨_, rfl, mul_ofInt a b h⟩
  · obtain ⟨h1, h2, h3⟩ := compare_ofInt a b
    obtain ⟨-, h2', h3'⟩ := compare_ofInt b a
    have e1 : binary_operation out "==" (.number (Number.ofInt a)) (.number (Number.ofInt b)) =
        .ok (.boolean (Number.eq (Number.ofInt a) (Number.ofInt b))) := rfl
    have e2 : binary_operation out "!=" (.number (Number.ofInt a)) (.number (Number.ofInt b)) =
        .ok (.boolean (!Number.eq (Number.ofInt a) (Number.ofInt b))) := rfl
    have e3 : binary_operation out ">" (.number (Number.ofInt a)) (.number (Number.ofInt b)) =
        .ok (.boolean (Number.lt (Number.ofInt b) (Number.ofInt a))) := rfl
    have e4 : binary_operation out ">=" (.number (Number.ofInt a)) (.number (Number.ofInt b)) =
        .ok (.boolean (Number.le (Number.ofInt b) (Number.ofInt a))) := rfl
    have e5 : binary_operation out "<" (.number (Number.ofInt a)) (.number (Number.ofInt b)) =
        .ok (.boolean (Number.lt (Number.ofInt a) (Number.ofInt b))) := rfl
    have e6 : binary_operation out "<=" (.number (Number.ofInt a)) (.number (Number.ofInt b)) =
        .ok (.boolean (Number.le (Number.ofInt a) (Number.ofInt b))) := rfl
    refine ⟨by rw [e1, h1], ?_, by rw [e3, h2'], by rw [e4, h3'], by rw [e5, h2],
      by rw [e6, h3]⟩
    rw [e2, h1]
    simp

/-- The amended C27 at `1 + 2 * 3` and at `2 ^ 53 - 1 + 1`. -/
theorem number_operators_witness :
    binary_operation "" "+" (.number (Number.ofInt 1)) (.number (Number.ofInt (2 * 3))) =
      .ok (.number (Number.ofInt 7)) ∧
    binary_operation "" "+" (.number (Number.ofInt (2 ^ 53 - 1))) (.number (Number.ofInt 1)) =
      .ok (.number (Number.ofInt (2 ^ 53))) :=
  ⟨(number_operators.2.1 "" 1 (2 * 3)).1 (by decide),
    (number_operators.2.1 "" (2 ^ 53 - 1) 1).1 (by decide)⟩

/-! ## C21: the scope stack holds a scope -/

/-- The function `evaluate` with fuel is `evaluate_node` on itself. -/
theorem evaluate_succ (read_file : String → Option String) (fuel : Nat) (node : ASTNode)
    (i : Interpreter) (g : Globals) :
    evaluate read_file (fuel + 1) node i g =
      evaluate_node read_file (evaluate read_file fuel) fuel node i g := by
  cases node <;> rfl

/-- The loop of `evaluate_program` calls its evaluator with stacks that hold a
scope. -/
theorem evaluate_program_agree (ev ev' : Eval) (hag : agree_on_stacks ev ev')
    (hev : keeps_scope_stack ev') :
    ∀ (body : List ASTNode) (r : Value) (i : Interpreter) (g : Globals),
      i.scope_stack ≠ [] → evaluate_program ev body r i g = evaluate_program ev' body r i g := by
  intro body
  induction body with
  | nil => intro r i g _; rfl
  | cons s body ih =>
    intro r i g hi
    simp only [evaluate_program, hag s i g hi]
    cases hs : ev' s i g with
    | ok x =>
      obtain ⟨r1, i1, g1⟩ := x
      have h1 : i1.scope_stack ≠ [] := by rw [hev _ _ _ _ _ _ hs]; exact hi
      simp only [ih r1 i1 g1 h1]
    | fatal out => rfl
    | undefined => rfl
    | outOfFuel => rfl

/-- The loop of `evaluate_block_statement` calls its evaluator with stacks that
hold a scope. -/
theorem evaluate_block_body_agree (ev ev' : Eval) (hag : agree_on_stacks ev ev')
    (hev : keeps_scope_stack ev') :
    ∀ (body : List ASTNode) (r : Value) (i : Interpreter) (g : Globals),
      i.scope_stack ≠ [] →
      evaluate_block_body ev body r i g = evaluate_block_body ev' body r i g := by
  intro body
  induction body with
  | nil => intro r i g _; rfl
  | cons s body ih =>
    intro r i g hi
    simp only [evaluate_block_body, hag s i g hi]
    cases hs : ev' s i g with
    | ok x =>
      obtain ⟨r1, i1, g1⟩ := x
      have h1 : i1.scope_stack ≠ [] := by rw [hev _ _ _ _ _ _ hs]; exact hi
      simp only [ih r1 i1 g1 h1]
    | fatal out => rfl
    | undefined => rfl
    | outOfFuel => rfl

/-- The loop over the arguments calls its evaluator with stacks that hold a
scope. -/
theorem evaluate_arguments_agree (ev ev' : Eval) (hag : agree_on_stacks ev ev')
    (hev : keeps_scope_stack ev') :
    ∀ (arguments : List ASTNode) (acc : List Value) (i : Interpreter) (g : Globals),
      i.scope_stack ≠ [] →
      evaluate_arguments ev arguments acc i g = evaluate_arguments ev' arguments acc i g := by
  intro arguments
  induction arguments with
  | nil => intro acc i g _; rfl
  | cons a arguments ih =>
    intro acc i g hi
    simp only [evaluate_arguments, hag a i g hi]
    cases hs : ev' a i g with
    | ok x =>
      obtain ⟨v, i1, g1⟩ := x
      have h1 : i1.scope_stack ≠ [] := by rw [hev _ _ _ _ _ _ hs]; exact hi
      simp only [ih _ i1 g1 h1]
    | fatal out => rfl
    | undefined => rfl
    | outOfFuel => rfl

/-- The loop of `evaluate_while_statement` calls its evaluator with stacks that
hold a scope. -/
theorem evaluate_while_agree (ev ev' : Eval) (hag : agree_on_stacks ev ev')
    (hev : keeps_scope_stack ev') (test body : ASTNode) :
    ∀ (fuel : Nat) (r : Value) (i : Interpreter) (g : Globals),
      i.scope_stack ≠ [] →
      evaluate_while_statement ev test body fuel r i g =
        evaluate_while_statement ev' test body fuel r i g := by
  intro fuel
  induction fuel with
  | zero => intro r i g _; rfl
  | succ n ih =>
    intro r i g hi
    simp only [evaluate_while_statement, hag test i g hi]
    cases ht : ev' test i g with
    | ok x =>
      obtain ⟨t, i1, g1⟩ := x
      have h1 : i1.scope_stack ≠ [] := by rw [hev _ _ _ _ _ _ ht]; exact hi
      cases t with
      | boolean b =>
        cases b with
        | true =>
          simp only [hag body i1 g1 h1]
          cases hb : ev' body i1 g1 with
          | ok y =>
            obtain ⟨r2, i2, g2⟩ := y
            have h2 : i2.scope_stack ≠ [] := by rw [hev _ _ _ _ _ _ hb]; exact h1
            simp only [ih r2 i2 g2 h2]
          | fatal out => rfl
          | undefined => rfl
          | outOfFuel => rfl
        | false => rfl
      | _ => rfl
    | fatal out => rfl
    | undefined => rfl
    | outOfFuel => rfl

/-- A scope stack with a scope pushed holds a scope. -/
theorem push_scope_ne_nil (i : Interpreter) (scope : Nat) :
    (push_scope i scope).scope_stack ≠ [] := by
  simp [push_scope]

/-- One step of `evaluate`: evaluators that agree on the stacks that hold a
scope give the same result from such a stack. -/
theorem evaluate_node_agree (read_file : String → Option String) (ev ev' : Eval)
    (hag : agree_on_stacks ev ev') (hev : keeps_scope_stack ev') (fuel : Nat)
    (node : ASTNode) (i : Interpreter) (g : Globals) (hi : i.scope_stack ≠ []) :
    evaluate_node read_file ev fuel node i g = evaluate_node read_file ev' fuel node i g := by
  cases node with
  | program body => exact evaluate_program_agree ev ev' hag hev body _ i g hi
  | block_statement body =>
    simp only [evaluate_node, evaluate_block_statement]
    rw [evaluate_block_body_agree ev ev' hag hev body _ _ _ (push_scope_ne_nil _ _)]
  | variable_declaration name value =>
    simp only [evaluate_node, evaluate_variable_declaration, hag value i g hi]
  | assignment_expression name value =>
    simp only [evaluate_node, evaluate_assignment_expression, hag value i g hi]
  | binary_expression operator left right =>
    simp only [evaluate_node, evaluate_binary_expression, hag left i g hi]
    cases hl : ev' left i g with
    | ok x =>
      obtain ⟨l, i1, g1⟩ := x
      have h1 : i1.scope_stack ≠ [] := by rw [hev _ _ _ _ _ _ hl]; exact hi
      simp only [hag right i1 g1 h1]
    | fatal out => rfl
    | undefined => rfl
    | outOfFuel => rfl
  | logical_expression operator left right =>
    simp only [evaluate_node, evaluate_logical_expression, hag left i g hi]
    cases hl : ev' left i g with
    | ok x =>
      obtain ⟨l, i1, g1⟩ := x
      have h1 : i1.scope_stack ≠ [] := by rw [hev _ _ _ _ _ _ hl]; exact hi
      simp only [hag right i1 g1 h1]
    | fatal out => rfl
    | undefined => rfl
    | outOfFuel => rfl
  | literal value => rfl
  | identifier name => rfl
  | if_statement test consequent alternate =>
    simp only [evaluate_node, evaluate_if_statement, hag test i g hi]
    cases ht : ev' test i g with
    | ok x =>
      obtain ⟨t, i1, g1⟩ := x
      have h1 : i1.scope_stack ≠ [] := by rw [hev _ _ _ _ _ _ ht]; exact hi
      cases alternate with
      | none =>
        cases t with
        | boolean b => cases b <;> simp only [hag consequent i1 g1 h1]
        | _ => rfl
      | some a =>
        cases t with
        | boolean b => cases b <;> simp only [hag consequent i1 g1 h1, hag a i1 g1 h1]
        | _ => simp only [hag a i1 g1 h1]
    | fatal out => rfl
    | undefined => rfl
    | outOfFuel => rfl
  | while_statement test body =>
    exact evaluate_while_agree ev ev' hag hev test body fuel _ i g hi
  | function_declaration name params body => rfl
  | call_expression name arguments =>
    simp only [evaluate_node, evaluate_call_expression,
      evaluate_arguments_agree ev ev' hag hev arguments [] i g hi]
    cases hlook : lookup_variable i g name with
    | none => rfl
    | some func_value =>
      simp only []
      cases hf : g.value_at func_value with
      | function n ps b c =>
        simp only []
        cases ha : evaluate_arguments ev' arguments [] i g with
        | ok x =>
          obtain ⟨args, i1, g1⟩ := x
          simp only []
          cases hf1 : g1.value_at func_value with
          | function n1 ps1 b1 c1 =>
            simp only [create_scope]
            rw [hag b1 _ _ (push_scope_ne_nil _ _)]
          | _ => rfl
        | fatal out => rfl
        | undefined => rfl
        | outOfFuel => rfl
      | _ => rfl
  | return_statement argument =>
    simp only [evaluate_node, evaluate_return_statement, hag argument i g hi]
  | print_statement argument =>
    simp only [evaluate_node, evaluate_print_statement, hag argument i g hi]
  | import_statement path =>
    simp only [evaluate_node, evaluate_import_statement, process_import]
    split
    · rfl
    · cases hr : read_file (i.base_dir ++ "/" ++ path) with
      | none => rfl
      | some code =>
        simp only []
        cases ht : tokenize code.toList with
        | ok tokens =>
          simp only []
          cases hp : parse tokens with
          | ok ast =>
            simp only []
            cases hs : get_current_scope i with
            | none => rfl
            | some s =>
              simp only [create_interpreter]
              rw [hag ast _ _ (by simp)]
          | fatal out => rfl
          | undefined => rfl
          | outOfFuel => rfl
        | fatal out => rfl
        | undefined => rfl
        | outOfFuel => rfl

/-- The checked evaluator and `evaluate` agree on the stacks that hold a
scope. -/
theorem evaluate_checked_agree (read_file : String → Option String) (bad : EvalResult) :
    ∀ fuel : Nat,
      agree_on_stacks (evaluate_checked read_file bad fuel) (evaluate read_file fuel) := by
  intro fuel
  induction fuel with
  | zero => intro node i g _; rfl
  | succ n ih =>
    intro node i g hi
    simp only [evaluate_checked, hi, if_false]
    rw [evaluate_succ]
    exact evaluate_node_agree read_file _ _ ih (evaluate_scope_stack read_file n) n node i g hi

/-- C21. The scope stack is never empty.  (1) The stack `create_interpreter`
makes holds one scope.  (2) Evaluated from the interpreter `create_interpreter`
makes, the evaluator that checks at every call of `evaluate`, those of the bodies
of functions, of blocks and of imported programs among them, that the stack holds
a scope never meets an empty stack: whatever `bad` it would then yield, it
yields what `evaluate` yields.  (3) The same from every interpreter whose stack
holds a scope.  (4) The check is a real one: with an empty stack the checked
evaluator yields `bad`.  (5) When an evaluation from a stack that holds a scope
ends, the stack holds a scope and `get_current_scope` returns one.  (6) A
`let` whose value is evaluated finds the scope to append to, and so does a
function declaration. -/
theorem scope_stack_never_empty :
    (∀ g : Globals, (create_interpreter g).1.scope_stack = [g.scopes.length] ∧
      (create_interpreter g).1.scope_stack ≠ []) ∧
    (∀ (read_file : String → Option String) (bad : EvalResult) (fuel : Nat) (ast : ASTNode)
      (g : Globals),
      evaluate_checked read_file bad fuel ast (create_interpreter g).1 (create_interpreter g).2 =
        evaluate read_file fuel ast (create_interpreter g).1 (create_interpreter g).2) ∧
    (∀ (read_file : String → Option String) (bad : EvalResult) (fuel : Nat) (node : ASTNode)
      (i : Interpreter) (g : Globals), i.scope_stack ≠ [] →
      evaluate_checked read_file bad fuel node i g = evaluate read_file fuel node i g) ∧
    (∀ (read_file : String → Option String) (bad : EvalResult) (fuel : Nat) (node : ASTNode)
      (i : Interpreter) (g : Globals), i.scope_stack = [] →
      evaluate_checked read_file bad (fuel + 1) node i g = bad) ∧
    (∀ (read_file : String → Option String) (fuel : Nat) (node : ASTNode)
      (i i' : Interpreter) (g g' : Globals) (v : Value), i.scope_stack ≠ [] →
      evaluate read_file fuel node i g = .ok (v, i', g') →
      i'.scope_stack ≠ [] ∧ ∃ scope, get_current_scope i' = some scope) ∧
    (∀ (read_file : String → Option String) (fuel : Nat) (name : String) (value : ASTNode)
      (i i1 : Interpreter) (g g1 : Globals) (v : Value), i.scope_stack ≠ [] →
      evaluate read_file fuel value i g = .ok (v, i1, g1) →
      ∃ scope, get_current_scope i1 = some scope ∧
        evaluate read_file (fuel + 1) (.variable_declaration name value) i g =
          .ok (v, i1, define_variable g1 scope name v)) ∧
    (∀ (read_file : String → Option String) (fuel : Nat) (name : String)
      (params : List String) (body : ASTNode) (i : Interpreter) (g : Globals),
      i.scope_stack ≠ [] →
      ∃ scope, get_current_scope i = some scope ∧
        evaluate read_file (fuel + 1) (.function_declaration name params body) i g =
          .ok (.function name params body i.scope_stack, i,
            define_variable g scope name (.function name params body i.scope_stack))) := by
  have hcur : ∀ i : Interpreter, i.scope_stack ≠ [] →
      ∃ scope, get_current_scope i = some scope := by
    intro i hi
    refine ⟨i.scope_stack.getLast hi, ?_⟩
    simp only [get_current_scope]
    exact List.getLast?_eq_getLast _ hi
  refine ⟨?_, ?_, ?_, ?_, ?_, ?_, ?_⟩
  · intro g
    simp [create_interpreter, create_scope]
  · intro read_file bad fuel ast g
    exact evaluate_checked_agree read_file bad fuel ast _ _
      (by simp [create_interpreter, create_scope])
  · intro read_file bad fuel node i g hi
    exact evaluate_checked_agree read_file bad fuel node i g hi
  · intro read_file bad fuel node i g hi
    simp only [evaluate_checked, hi, if_true]
  · intro read_file fuel node i i' g g' v hi h
    have hs : i'.scope_stack ≠ [] := by
      rw [evaluate_scope_stack read_file fuel _ _ _ _ _ _ h]; exact hi
    exact ⟨hs, hcur i' hs⟩
  · intro read_file fuel name value i i1 g g1 v hi h
    have hs : i1.scope_stack ≠ [] := by
      rw [evaluate_scope_stack read_file fuel _ _ _ _ _ _ h]; exact hi
    obtain ⟨scope, hscope⟩ := hcur i1 hs
    refine ⟨scope, hscope, ?_⟩
    simp only [evaluate, evaluate_variable_declaration, h, hscope]
  · intro read_file fuel name params body i g hi
    obtain ⟨scope, hscope⟩ := hcur i hi
    refine ⟨scope, hscope, ?_⟩
    simp only [evaluate, evaluate_function_declaration, hscope]

/-- C21 at the block `{ let y = p(n); }` evaluated at the top level, `p` being
`function p(x) { print(x); return x; }` and `n` being 1: the checked evaluator
meets no empty stack, in the block, in the call and at the `let`; it prints
`1` and binds `y` in the scope of the block. -/
theorem scope_stack_never_empty_witness :
    (top_level .null).scope_stack ≠ [] ∧
    evaluate_checked no_files (.fatal "empty stack") 10
        (.block_statement [.variable_declaration "y"
          (.call_expression "p" [.identifier "n"])])
        (top_level .null) number_callee_globals =
      .ok (.number (.fin 1),
        { scope_stack := [0], return_value := .number (.fin 1), has_return := false,
          base_dir := "." },
        { scopes := [⟨[("p", .function "p" ["x"]
            (.block_statement [.print_statement (.identifier "x"),
              .return_statement (.identifier "x")]) [0]),
            ("n", .number (.fin 1))]⟩, ⟨[("y", .number (.fin 1))]⟩,
            ⟨[("x", .number (.fin 1))]⟩, ⟨[]⟩],
          imported_files := [], stdout := "0\n1\n" }) :=
  ⟨by decide,
    (scope_stack_never_empty.2.2.1 no_files (.fatal "empty stack") 10
      (.block_statement [.variable_declaration "y"
        (.call_expression "p" [.identifier "n"])])
      (top_level .null) number_callee_globals (by decide)).trans (by decide!)⟩

/-! ## C22: index 0 of the scope stack -/

/-- The globals are `rooted` when every entry of every scope is. -/
theorem Globals.rooted_iff (G : Nat) (g : Globals) :
    g.rooted G = true ↔ ∀ s ∈ g.scopes, ∀ e ∈ s.entries, Value.rooted G e.2 = true := by
  simp only [Globals.rooted, List.all_eq_true]

theorem forall_mem_modify {α : Type} (p : α → Prop) (f : α → α) (hf : ∀ a, p a → p (f a)) :
    ∀ (l : List α) (n : Nat), (∀ a ∈ l, p a) → ∀ a ∈ l.modify f n, p a := by
  intro l
  induction l with
  | nil => intro n _ a ha; simp at ha
  | cons b l ih =>
    intro n h a ha
    cases n with
    | zero =>
      simp only [List.modify_zero_cons, List.mem_cons] at ha
      rcases ha with rfl | ha
      · exact hf b (h b (List.mem_cons_self _ _))
      · exact h a (List.mem_cons_of_mem _ ha)
    | succ n =>
      simp only [List.modify_succ_cons, List.mem_cons] at ha
      rcases ha with rfl | ha
      · exact h a (List.mem_cons_self _ _)
      · exact ih n (fun c hc => h c (List.mem_cons_of_mem _ hc)) a ha

theorem rooted_define_variable (G : Nat) (g : Globals) (scope : Nat) (x : String) (v : Value)
    (hg : g.rooted G = true) (hv : v.rooted G = true) :
    (define_variable g scope x v).rooted G = true := by
  rw [Globals.rooted_iff] at hg ⊢
  refine forall_mem_modify (fun s : Scope => ∀ e ∈ s.entries, Value.rooted G e.2 = true) _ ?_
    g.scopes scope hg
  intro s hs e he
  simp only [List.mem_append, List.mem_singleton] at he
  rcases he with he | rfl
  · exact hs e he
  · exact hv

theorem rooted_set_value_at (G : Nat) (g : Globals) (ref : Nat × Nat) (v : Value)
    (hg : g.rooted G = true) (hv : v.rooted G = true) :
    (g.set_value_at ref v).rooted G = true := by
  rw [Globals.rooted_iff] at hg ⊢
  refine forall_mem_modify (fun s : Scope => ∀ e ∈ s.entries, Value.rooted G e.2 = true) _ ?_
    g.scopes ref.1 hg
  intro s hs
  refine forall_mem_modify (fun e : String × Value => Value.rooted G e.2 = true) _ ?_
    s.entries ref.2 hs
  intro e _
  exact hv

theorem rooted_value_at (G : Nat) (g : Globals) (ref : Nat × Nat) (hg : g.rooted G = true) :
    (g.value_at ref).rooted G = true := by
  rw [Globals.rooted_iff] at hg
  simp only [Globals.value_at]
  split
  · rename_i e he
    have hmem : e ∈ (g.scope ref.1).entries := List.get?_mem he
    by_cases hlt : ref.1 < g.scopes.length
    · have hs : g.scope ref.1 ∈ g.scopes := by
        simp only [Globals.scope, List.getD_eq_getElem?_getD, List.getElem?_eq_getElem hlt,
          Option.getD_some]
        exact List.getElem_mem _
      exact hg _ hs e hmem
    · have hs : g.scope ref.1 = ⟨[]⟩ := by
        simp only [Globals.scope, List.getD_eq_getElem?_getD]
        rw [List.getElem?_eq_none (by omega)]
        rfl
      rw [hs] at hmem
      simp at hmem
  · rfl

theorem rooted_create_scope (G : Nat) (g : Globals) (hg : g.rooted G = true) :
    (create_scope g).2.rooted G = true := by
  rw [Globals.rooted_iff] at hg ⊢
  intro s hs e he
  simp only [create_scope, List.mem_append, List.mem_singleton] at hs
  rcases hs with hs | rfl
  · exact hg s hs e he
  · simp at he

theorem rooted_print (G : Nat) (g : Globals) (text : String) (hg : g.rooted G = true) :
    (g.print text).rooted G = true := hg

theorem rooted_bind_parameters (G : Nat) (local_scope : Nat) :
    ∀ (params : List String) (args : List Value) (g : Globals), g.rooted G = true →
      (∀ a ∈ args, Value.rooted G a = true) →
      (bind_parameters local_scope params args g).rooted G = true := by
  intro params
  induction params with
  | nil => intro args g hg _; cases args <;> exact hg
  | cons p params ih =>
    intro args g hg ha
    cases args with
    | nil =>
      simp only [bind_parameters]
      exact ih [] _ (rooted_define_variable G g _ _ _ hg rfl) (by simp)
    | cons a args =>
      simp only [bind_parameters]
      exact ih args _ (rooted_define_variable G g _ _ _ hg (ha a (List.mem_cons_self _ _)))
        (fun b hb => ha b (List.mem_cons_of_mem _ hb))

theorem rooted_ite (G : Nat) (c : Prop) [Decidable c] (a b : Outcome Value)
    (ha : ∀ v, a = .ok v → Value.rooted G v = true)
    (hb : ∀ v, b = .ok v → Value.rooted G v = true) :
    ∀ v, (if c then a else b) = .ok v → Value.rooted G v = true := by
  split
  · exact ha
  · exact hb

theorem rooted_ok_number (G : Nat) (n : Number) :
    ∀ v, (Outcome.ok (Value.number n) : Outcome Value) = .ok v → Value.rooted G v = true := by
  intro v h; cases h; rfl

theorem rooted_ok_boolean (G : Nat) (b : Bool) :
    ∀ v, (Outcome.ok (Value.boolean b) : Outcome Value) = .ok v → Value.rooted G v = true := by
  intro v h; cases h; rfl

theorem rooted_ok_string (G : Nat) (s : String) :
    ∀ v, (Outcome.ok (Value.string s) : Outcome Value) = .ok v → Value.rooted G v = true := by
  intro v h; cases h; rfl

theorem rooted_not_ok_fatal (G : Nat) (out : String) :
    ∀ v, (Outcome.fatal out : Outcome Value) = .ok v → Value.rooted G v = true := by
  intro v h; cases h

theorem rooted_not_ok_undefined (G : Nat) :
    ∀ v, (Outcome.undefined : Outcome Value) = .ok v → Value.rooted G v = true := by
  intro v h; cases h

/-- A binary operation yields no function. -/
theorem rooted_binary_operation (G : Nat) (out operator : String) (l r : Value) :
    ∀ v, binary_operation out operator l r = .ok v → Value.rooted G v = true := by
  unfold binary_operation
  split
  · repeat first
      | exact rooted_ok_number G _
      | exact rooted_ok_boolean G _
      | exact rooted_not_ok_undefined G
      | apply rooted_ite
      | split
  · repeat first
      | exact rooted_ok_string G _
      | exact rooted_ok_boolean G _
      | exact rooted_not_ok_fatal G _
      | apply rooted_ite
  · repeat first
      | exact rooted_ok_boolean G _
      | exact rooted_not_ok_fatal G _
      | apply rooted_ite
  · repeat first
      | exact rooted_ok_string G _
      | exact rooted_ok_boolean G _
      | exact rooted_not_ok_fatal G _
      | exact rooted_not_ok_undefined G
      | apply rooted_ite
      | split

theorem rooted_boolean_or_false (G : Nat) (v : Value) : (boolean_or_false v).rooted G = true := by
  cases v <;> rfl

theorem evaluate_program_rooted (G : Nat) (ev ev' : Eval) (hag : agree_on_rooted G ev ev')
    (hinv : keeps_rooted G ev') :
    ∀ (body : List ASTNode) (r : Value) (i : Interpreter) (g : Globals),
      ASTNode.import_free_list body = true → Value.rooted G r = true → rooted_at G i g →
      evaluate_program ev body r i g = evaluate_program ev' body r i g ∧
      ∀ v i' g', evaluate_program ev' body r i g = .ok (v, i', g') →
        Value.rooted G v = true ∧ rooted_at G i' g' := by
  intro body
  induction body with
  | nil =>
    intro r i g _ hr hi
    refine ⟨rfl, ?_⟩
    intro v i' g' h
    simp only [evaluate_program, Outcome.ok.injEq, Prod.mk.injEq] at h
    obtain ⟨rfl, rfl, rfl⟩ := h
    exact ⟨hr, hi⟩
  | cons s body ih =>
    intro r i g hf hr hi
    simp only [ASTNode.import_free_list, Bool.and_eq_true] at hf
    simp only [evaluate_program, hag s i g hf.1 hi]
    cases hs : ev' s i g with
    | ok x =>
      obtain ⟨r1, i1, g1⟩ := x
      obtain ⟨hr1, hi1⟩ := hinv s i g r1 i1 g1 hf.1 hi hs
      by_cases hret : i1.has_return = true
      · simp only [hret, if_true, true_and, Outcome.ok.injEq, Prod.mk.injEq]
        rintro v i' g' ⟨rfl, rfl, rfl⟩
        exact ⟨hi1.2.1, hi1⟩
      · simp only [hret]
        exact ih r1 i1 g1 hf.2 hr1 hi1
    | fatal out => exact ⟨rfl, fun _ _ _ h => by simp at h⟩
    | undefined => exact ⟨rfl, fun _ _ _ h => by simp at h⟩
    | outOfFuel => exact ⟨rfl, fun _ _ _ h => by simp at h⟩

theorem evaluate_block_body_rooted (G : Nat) (ev ev' : Eval)
    (hag : agree_on_rooted G ev ev') (hinv : keeps_rooted G ev') :
    ∀ (body : List ASTNode) (r : Value) (i : Interpreter) (g : Globals),
      ASTNode.import_free_list body = true → Value.rooted G r = true → rooted_at G i g →
      evaluate_block_body ev body r i g = evaluate_block_body ev' body r i g ∧
      ∀ v i' g', evaluate_block_body ev' body r i g = .ok (v, i', g') →
        Value.rooted G v = true ∧ rooted_at G i' g' := by
  intro body
  induction body with
  | nil =>
    intro r i g _ hr hi
    refine ⟨rfl, ?_⟩
    intro v i' g' h
    simp only [evaluate_block_body, Outcome.ok.injEq, Prod.mk.injEq] at h
    obtain ⟨rfl, rfl, rfl⟩ := h
    exact ⟨hr, hi⟩
  | cons s body ih =>
    intro r i g hf hr hi
    simp only [ASTNode.import_free_list, Bool.and_eq_true] at hf
    simp only [evaluate_block_body, hag s i g hf.1 hi]
    cases hs : ev' s i g with
    | ok x =>
      obtain ⟨r1, i1, g1⟩ := x
      obtain ⟨hr1, hi1⟩ := hinv s i g r1 i1 g1 hf.1 hi hs
      by_cases hret : i1.has_return = true
      · simp only [hret, if_true, true_and, Outcome.ok.injEq, Prod.mk.injEq]
        rintro v i' g' ⟨rfl, rfl, rfl⟩
        exact ⟨hr1, hi1⟩
      · simp only [hret]
        exact ih r1 i1 g1 hf.2 hr1 hi1
    | fatal out => exact ⟨rfl, fun _ _ _ h => by simp at h⟩
    | undefined => exact ⟨rfl, fun _ _ _ h => by simp at h⟩
    | outOfFuel => exact ⟨rfl, fun _ _ _ h => by simp at h⟩

theorem evaluate_arguments_rooted (G : Nat) (ev ev' : Eval)
    (hag : agree_on_rooted G ev ev') (hinv : keeps_rooted G ev') :
    ∀ (arguments : List ASTNode) (acc : List Value) (i : Interpreter) (g : Globals),
      ASTNode.import_free_list arguments = true → (∀ a ∈ acc, Value.rooted G a = true) →
      rooted_at G i g →
      evaluate_arguments ev arguments acc i g = evaluate_arguments ev' arguments acc i g ∧
      ∀ vs i' g', evaluate_arguments ev' arguments acc i g = .ok (vs, i', g') →
        (∀ a ∈ vs, Value.rooted G a = true) ∧ rooted_at G i' g' := by
  intro arguments
  induction arguments with
  | nil =>
    intro acc i g _ hacc hi
    refine ⟨rfl, ?_⟩
    intro vs i' g' h
    simp only [evaluate_arguments, Outcome.ok.injEq, Prod.mk.injEq] at h
    obtain ⟨rfl, rfl, rfl⟩ := h
    exact ⟨hacc, hi⟩
  | cons a arguments ih =>
    intro acc i g hf hacc hi
    simp only [ASTNode.import_free_list, Bool.and_eq_true] at hf
    simp only [evaluate_arguments, hag a i g hf.1 hi]
    cases hs : ev' a i g with
    | ok x =>
      obtain ⟨v1, i1, g1⟩ := x
      obtain ⟨hv1, hi1⟩ := hinv a i g v1 i1 g1 hf.1 hi hs
      refine ih (acc ++ [v1]) i1 g1 hf.2 ?_ hi1
      intro b hb
      simp only [List.mem_append, List.mem_singleton] at hb
      rcases hb with hb | rfl
      · exact hacc b hb
      · exact hv1
    | fatal out => exact ⟨rfl, fun _ _ _ h => by simp at h⟩
    | undefined => exact ⟨rfl, fun _ _ _ h => by simp at h⟩
    | outOfFuel => exact ⟨rfl, fun _ _ _ h => by simp at h⟩

theorem evaluate_while_rooted (G : Nat) (ev ev' : Eval) (hag : agree_on_rooted G ev ev')
    (hinv : keeps_rooted G ev') (test body : ASTNode)
    (htest : ASTNode.import_free test = true) (hbody : ASTNode.import_free body = true) :
    ∀ (fuel : Nat) (r : Value) (i : Interpreter) (g : Globals),
      Value.rooted G r = true → rooted_at G i g →
      evaluate_while_statement ev test body fuel r i g =
          evaluate_while_statement ev' test body fuel r i g ∧
      ∀ v i' g', evaluate_while_statement ev' test body fuel r i g = .ok (v, i', g') →
        Value.rooted G v = true ∧ rooted_at G i' g' := by
  intro fuel
  induction fuel with
  | zero => intro r i g _ _; exact ⟨rfl, fun _ _ _ h => by simp [evaluate_while_statement] at h⟩
  | succ n ih =>
    intro r i g hr hi
    simp only [evaluate_while_statement, hag test i g htest hi]
    cases ht : ev' test i g with
    | ok x =>
      obtain ⟨t, i1, g1⟩ := x
      obtain ⟨-, hi1⟩ := hinv test i g t i1 g1 htest hi ht
      have hstop : ∀ v i' g', (Outcome.ok (r, i1, g1) : EvalResult) = .ok (v, i', g') →
          Value.rooted G v = true ∧ rooted_at G i' g' := by
        intro v i' g' h
        simp only [Outcome.ok.injEq, Prod.mk.injEq] at h
        obtain ⟨rfl, rfl, rfl⟩ := h
        exact ⟨hr, hi1⟩
      cases t with
      | boolean b =>
        cases b with
        | true =>
          simp only [hag body i1 g1 hbody hi1]
          cases hb : ev' body i1 g1 with
          | ok y =>
            obtain ⟨r2, i2, g2⟩ := y
            obtain ⟨hr2, hi2⟩ := hinv body i1 g1 r2 i2 g2 hbody hi1 hb
            by_cases hret : i2.has_return = true
            · simp only [hret, if_true, true_and, Outcome.ok.injEq, Prod.mk.injEq]
              rintro v i' g' ⟨rfl, rfl, rfl⟩
              exact ⟨hr2, hi2⟩
            · simp only [hret]
              exact ih r2 i2 g2 hr2 hi2
          | fatal out => exact ⟨rfl, fun _ _ _ h => by simp at h⟩
          | undefined => exact ⟨rfl, fun _ _ _ h => by simp at h⟩
          | outOfFuel => exact ⟨rfl, fun _ _ _ h => by simp at h⟩
        | false => exact ⟨rfl, hstop⟩
      | _ => exact ⟨rfl, hstop⟩
    | fatal out => exact ⟨rfl, fun _ _ _ h => by simp at h⟩
    | undefined => exact ⟨rfl, fun _ _ _ h => by simp at h⟩
    | outOfFuel => exact ⟨rfl, fun _ _ _ h => by simp at h⟩

theorem head_push_scope (i : Interpreter) (scope G : Nat)
    (h : i.scope_stack.head? = some G) : (push_scope i scope).scope_stack.head? = some G := by
  cases hs : i.scope_stack with
  | nil => rw [hs] at h; simp at h
  | cons a l => rw [hs] at h; simpa [push_scope, hs] using h

/-- One step of `evaluate` for the states `rooted_at` a scope: evaluators that
agree on them give the same result, and the result is `rooted_at` the scope. -/
theorem evaluate_node_rooted (read_file : String → Option String) (G : Nat) (ev ev' : Eval)
    (hag : agree_on_rooted G ev ev') (hinv : keeps_rooted G ev') (hev : keeps_scope_stack ev')
    (fuel : Nat) (node : ASTNode) (i : Interpreter) (g : Globals)
    (hf : ASTNode.import_free node = true) (hi : rooted_at G i g) :
    evaluate_node read_file ev fuel node i g = evaluate_node read_file ev' fuel node i g ∧
    ∀ v i' g', evaluate_node read_file ev' fuel node i g = .ok (v, i', g') →
      Value.rooted G v = true ∧ rooted_at G i' g' := by
  cases node with
  | program body =>
    simp only [ASTNode.import_free] at hf
    exact evaluate_program_rooted G ev ev' hag hinv body .null i g hf rfl hi
  | block_statement body =>
    simp only [ASTNode.import_free] at hf
    have hpush : rooted_at G (push_scope i (create_scope g).1) (create_scope g).2 :=
      ⟨head_push_scope i _ G hi.1, hi.2.1, rooted_create_scope G g hi.2.2⟩
    have key := evaluate_block_body_rooted G ev ev' hag hinv body .null _ _ hf rfl hpush
    simp only [evaluate_node, evaluate_block_statement]
    rw [key.1]
    refine ⟨rfl, ?_⟩
    intro v i' g' h
    split at h
    · rename_i r i1 g1 hb
      simp only [Outcome.ok.injEq, Prod.mk.injEq] at h
      obtain ⟨rfl, rfl, rfl⟩ := h
      obtain ⟨hr, hi1⟩ := key.2 _ _ _ hb
      have hst := evaluate_block_body_scope_stack ev' hev _ _ _ _ _ _ _ hb
      refine ⟨hr, ?_, hi1.2.1, hi1.2.2⟩
      rw [pop_scope_of_push _ _ _ hst]
      exact hi.1
    all_goals simp at h
  | variable_declaration name value =>
    simp only [ASTNode.import_free] at hf
    simp only [evaluate_node, evaluate_variable_declaration, hag value i g hf hi, true_and]
    intro v i' g' h
    split at h
    · rename_i r i1 g1 hv
      obtain ⟨hr, hi1⟩ := hinv _ _ _ _ _ _ hf hi hv
      split at h
      · simp only [Outcome.ok.injEq, Prod.mk.injEq] at h
        obtain ⟨rfl, rfl, rfl⟩ := h
        exact ⟨hr, hi1.1, hi1.2.1, rooted_define_variable G _ _ _ _ hi1.2.2 hr⟩
      · simp at h
    all_goals simp at h
  | assignment_expression name value =>
    simp only [ASTNode.import_free] at hf
    simp only [evaluate_node, evaluate_assignment_expression, hag value i g hf hi, true_and]
    intro v i' g' h
    split at h
    · rename_i r i1 g1 hv
      obtain ⟨hr, hi1⟩ := hinv _ _ _ _ _ _ hf hi hv
      split at h
      · simp only [Outcome.ok.injEq, Prod.mk.injEq] at h
        obtain ⟨rfl, rfl, rfl⟩ := h
        exact ⟨hr, hi1.1, hi1.2.1, rooted_set_value_at G _ _ _ hi1.2.2 hr⟩
      · simp at h
    all_goals simp at h
  | binary_expression operator left right =>
    simp only [ASTNode.import_free, Bool.and_eq_true] at hf
    simp only [evaluate_node, evaluate_binary_expression, hag left i g hf.1 hi]
    cases hl : ev' left i g with
    | ok x =>
      obtain ⟨l, i1, g1⟩ := x
      obtain ⟨-, hi1⟩ := hinv _ _ _ _ _ _ hf.1 hi hl
      simp only [hag right i1 g1 hf.2 hi1, true_and]
      intro v i' g' h
      split at h
      · rename_i r i2 g2 hr
        obtain ⟨-, hi2⟩ := hinv _ _ _ _ _ _ hf.2 hi1 hr
        split at h
        · rename_i res hres
          simp only [Outcome.ok.injEq, Prod.mk.injEq] at h
          obtain ⟨rfl, rfl, rfl⟩ := h
          exact ⟨rooted_binary_operation G _ _ _ _ _ hres, hi2⟩
        all_goals simp at h
      all_goals simp at h
    | fatal out => exact ⟨rfl, fun _ _ _ h => by simp at h⟩
    | undefined => exact ⟨rfl, fun _ _ _ h => by simp at h⟩
    | outOfFuel => exact ⟨rfl, fun _ _ _ h => by simp at h⟩
  | logical_expression operator left right =>
    simp only [ASTNode.import_free, Bool.and_eq_true] at hf
    simp only [evaluate_node, evaluate_logical_expression, hag left i g hf.1 hi]
    cases hl : ev' left i g with
    | ok x =>
      obtain ⟨l, i1, g1⟩ := x
      obtain ⟨-, hi1⟩ := hinv _ _ _ _ _ _ hf.1 hi hl
      simp only [hag right i1 g1 hf.2 hi1, true_and]
      intro v i' g' h
      have hright : ∀ v i' g',
          (match ev' right i1 g1 with
            | .ok (right, i, g) => Outcome.ok (boolean_or_false right, i, g)
            | .fatal out => .fatal out
            | .undefined => .undefined
            | .outOfFuel => .outOfFuel) = Outcome.ok (v, i', g') →
          Value.rooted G v = true ∧ rooted_at G i' g' := by
        intro v i' g' h
        split at h
        · rename_i r i2 g2 hr
          obtain ⟨-, hi2⟩ := hinv _ _ _ _ _ _ hf.2 hi1 hr
          simp only [Outcome.ok.injEq, Prod.mk.injEq] at h
          obtain ⟨rfl, rfl, rfl⟩ := h
          exact ⟨rooted_boolean_or_false G _, hi2⟩
        all_goals simp at h
      split at h
      · split at h
        · simp only [Outcome.ok.injEq, Prod.mk.injEq] at h
          obtain ⟨rfl, rfl, rfl⟩ := h
          exact ⟨rfl, hi1⟩
        · exact hright _ _ _ h
      · split at h
        · split at h
          · simp only [Outcome.ok.injEq, Prod.mk.injEq] at h
            obtain ⟨rfl, rfl, rfl⟩ := h
            exact ⟨rfl, hi1⟩
          · exact hright _ _ _ h
        · simp at h
    | fatal out => exact ⟨rfl, fun _ _ _ h => by simp at h⟩
    | undefined => exact ⟨rfl, fun _ _ _ h => by simp at h⟩
    | outOfFuel => exact ⟨rfl, fun _ _ _ h => by simp at h⟩
  | literal value =>
    refine ⟨rfl, ?_⟩
    intro v i' g' h
    simp only [evaluate_node, evaluate_literal] at h
    split at h <;>
    · simp only [Outcome.ok.injEq, Prod.mk.injEq] at h
      obtain ⟨rfl, rfl, rfl⟩ := h
      exact ⟨rfl, hi⟩
  | identifier name =>
    refine ⟨rfl, ?_⟩
    intro v i' g' h
    simp only [evaluate_node, evaluate_identifier] at h
    split at h
    · simp only [Outcome.ok.injEq, Prod.mk.injEq] at h
      obtain ⟨rfl, rfl, rfl⟩ := h
      exact ⟨rooted_value_at G _ _ hi.2.2, hi⟩
    · simp at h
  | if_statement test consequent alternate =>
    simp only [ASTNode.import_free, Bool.and_eq_true] at hf
    obtain ⟨⟨hft, hfc⟩, hfa⟩ := hf
    simp only [evaluate_node, evaluate_if_statement, hag test i g hft hi]
    cases ht : ev' test i g with
    | ok x =>
      obtain ⟨t, i1, g1⟩ := x
      obtain ⟨-, hi1⟩ := hinv _ _ _ _ _ _ hft hi ht
      have hcons := hinv consequent i1 g1
      cases alternate with
      | none =>
        cases t with
        | boolean b =>
          cases b with
          | true =>
            simp only [hag consequent i1 g1 hfc hi1, true_and]
            intro v i' g' h
            exact hinv _ _ _ _ _ _ hfc hi1 h
          | false =>
            simp only [true_and, Outcome.ok.injEq, Prod.mk.injEq]
            rintro v i' g' ⟨rfl, rfl, rfl⟩
            exact ⟨rfl, hi1⟩
        | _ =>
          simp only [true_and, Outcome.ok.injEq, Prod.mk.injEq]
          rintro v i' g' ⟨rfl, rfl, rfl⟩
          exact ⟨rfl, hi1⟩
      | some a =>
        simp only [ASTNode.import_free_option] at hfa
        cases t with
        | boolean b =>
          cases b with
          | true =>
            simp only [hag consequent i1 g1 hfc hi1, true_and]
            intro v i' g' h
            exact hinv _ _ _ _ _ _ hfc hi1 h
          | false =>
            simp only [hag a i1 g1 hfa hi1, true_and]
            intro v i' g' h
            exact hinv _ _ _ _ _ _ hfa hi1 h
        | _ =>
          simp only [hag a i1 g1 hfa hi1, true_and]
          intro v i' g' h
          exact hinv _ _ _ _ _ _ hfa hi1 h
    | fatal out => exact ⟨rfl, fun _ _ _ h => by simp at h⟩
    | undefined => exact ⟨rfl, fun _ _ _ h => by simp at h⟩
    | outOfFuel => exact ⟨rfl, fun _ _ _ h => by simp at h⟩
  | while_statement test body =>
    simp only [ASTNode.import_free, Bool.and_eq_true] at hf
    exact evaluate_while_rooted G ev ev' hag hinv test body hf.1 hf.2 fuel .null i g rfl hi
  | function_declaration name params body =>
    simp only [ASTNode.import_free] at hf
    refine ⟨rfl, ?_⟩
    intro v i' g' h
    simp only [evaluate_node, evaluate_function_declaration] at h
    have hfun : Value.rooted G (.function name params body i.scope_stack) = true := by
      simp only [Value.rooted, hi.1, hf, decide_True, Bool.and_self]
    split at h
    · simp only [Outcome.ok.injEq, Prod.mk.injEq] at h
      obtain ⟨rfl, rfl, rfl⟩ := h
      exact ⟨hfun, hi.1, hi.2.1, rooted_define_variable G _ _ _ _ hi.2.2 hfun⟩
    · simp at h
  | call_expression name arguments =>
    simp only [ASTNode.import_free] at hf
    have key := evaluate_arguments_rooted G ev ev' hag hinv arguments [] i g hf (by simp) hi
    simp only [evaluate_node, evaluate_call_expression, key.1]
    cases hlook : lookup_variable i g name with
    | none => exact ⟨rfl, fun _ _ _ h => by simp at h⟩
    | some func_value =>
      simp only []
      cases hfv : g.value_at func_value with
      | function n ps b c =>
        simp only []
        cases ha : evaluate_arguments ev' arguments [] i g with
        | ok x =>
          obtain ⟨args, i1, g1⟩ := x
          obtain ⟨hargs, hi1⟩ := key.2 _ _ _ ha
          simp only []
          cases hfv1 : g1.value_at func_value with
          | function n1 ps1 b1 c1 =>
            have hroot := rooted_value_at G g1 func_value hi1.2.2
            rw [hfv1] at hroot
            simp only [Value.rooted, Bool.and_eq_true, decide_eq_true_eq] at hroot
            have henter : rooted_at G (push_scope { i1 with scope_stack := c1 }
                (create_scope g1).1)
                (bind_parameters (create_scope g1).1 ps1 args (create_scope g1).2) :=
              ⟨head_push_scope { i1 with scope_stack := c1 } _ G hroot.1, hi1.2.1,
                rooted_bind_parameters G _ _ _ _ (rooted_create_scope G g1 hi1.2.2) hargs⟩
            simp only [hag b1 _ _ hroot.2 henter, true_and]
            intro v i' g' h
            split at h
            · rename_i r i2 g2 hb
              obtain ⟨hr, hi2⟩ := hinv _ _ _ _ _ _ hroot.2 henter hb
              split at h
              · simp only [Outcome.ok.injEq, Prod.mk.injEq] at h
                obtain ⟨rfl, rfl, rfl⟩ := h
                exact ⟨hi2.2.1, hi1.1, hi2.2.1, hi2.2.2⟩
              · simp only [Outcome.ok.injEq, Prod.mk.injEq] at h
                obtain ⟨rfl, rfl, rfl⟩ := h
                exact ⟨hr, hi1.1, hi2.2.1, hi2.2.2⟩
            all_goals simp at h
          | _ => exact ⟨rfl, fun _ _ _ h => by simp at h⟩
        | fatal out => exact ⟨rfl, fun _ _ _ h => by simp at h⟩
        | undefined => exact ⟨rfl, fun _ _ _ h => by simp at h⟩
        | outOfFuel => exact ⟨rfl, fun _ _ _ h => by simp at h⟩
      | _ => exact ⟨rfl, fun _ _ _ h => by simp at h⟩
  | return_statement argument =>
    simp only [ASTNode.import_free] at hf
    simp only [evaluate_node, evaluate_return_statement, hag argument i g hf hi, true_and]
    intro v i' g' h
    split at h
    · rename_i r i1 g1 hv
      obtain ⟨hr, hi1⟩ := hinv _ _ _ _ _ _ hf hi hv
      simp only [Outcome.ok.injEq, Prod.mk.injEq] at h
      obtain ⟨rfl, rfl, rfl⟩ := h
      exact ⟨hr, hi1.1, hr, hi1.2.2⟩
    all_goals simp at h
  | print_statement argument =>
    simp only [ASTNode.import_free] at hf
    simp only [evaluate_node, evaluate_print_statement, hag argument i g hf hi, true_and]
    intro v i' g' h
    split at h
    · rename_i r i1 g1 hv
      obtain ⟨hr, hi1⟩ := hinv _ _ _ _ _ _ hf hi hv
      simp only [Outcome.ok.injEq, Prod.mk.injEq] at h
      obtain ⟨rfl, rfl, rfl⟩ := h
      exact ⟨hr, hi1.1, hi1.2.1, rooted_print G _ _ hi1.2.2⟩
    all_goals simp at h
  | import_statement path =>
    simp [ASTNode.import_free] at hf

/-- The checked evaluator and `evaluate` agree on the nodes without `import`
statement in the states `rooted_at` the scope, and `evaluate` keeps these
states. -/
theorem evaluate_rooted_agree (read_file : String → Option String) (G : Nat)
    (bad : EvalResult) :
    ∀ fuel : Nat,
      agree_on_rooted G (evaluate_rooted read_file G bad fuel) (evaluate read_file fuel) ∧
      keeps_rooted G (evaluate read_file fuel) := by
  intro fuel
  induction fuel with
  | zero =>
    refine ⟨fun node i g _ _ => rfl, ?_⟩
    intro node i g v i' g' _ _ h
    simp [evaluate] at h
  | succ n ih =>
    refine ⟨?_, ?_⟩
    · intro node i g hf hi
      simp only [evaluate_rooted, hi.1, if_true]
      rw [evaluate_succ]
      exact (evaluate_node_rooted read_file G _ _ ih.1 ih.2 (evaluate_scope_stack read_file n)
        n node i g hf hi).1
    · intro node i g v i' g' hf hi h
      rw [evaluate_succ] at h
      exact (evaluate_node_rooted read_file G _ _ ih.1 ih.2 (evaluate_scope_stack read_file n)
        n node i g hf hi).2 v i' g' h

/-- C22 fails for an import inside a block.  The main file is
`let g = 5; { import("lib.as"); }` and `lib.as` is
`function f() { print(g); } f();`.  (1) The text of the main file is parsed to
`import_in_block`.  (2) The run ends in the fatal error of an undefined
variable with nothing printed: inside the call of `f`, `g` of the global scope is
not found.  (3) The evaluator that checks that index 0 of the scope stack is the
global scope 0 of the run fails its check.  (4) From the state of the interpreter
of the main file at the import statement, with the scope stack `[0, 1]`, the
imported program passes, up to the fatal error, every check that index 0 of the
scope stack is the scope 1 of the block, inside the call of `f` too. -/
theorem index_zero_global_frame_counterexample :
    (tokenize "let g = 5; \x7b import(\"lib.as\"); \x7d".toList >>= parse) = .ok import_in_block ∧
    run_interpreter lib_files 20 "let g = 5; \x7b import(\"lib.as\"); \x7d" = .fatal "" ∧
    evaluate_rooted lib_files 0 (.fatal "index 0") 20 import_in_block
        (create_interpreter Globals.initial).1 (create_interpreter Globals.initial).2 =
      .fatal "index 0" ∧
    evaluate_import_statement lib_files (evaluate_rooted lib_files 1 (.fatal "index 0") 17)
        "lib.as"
        { scope_stack := [0, 1], return_value := .null, has_return := false, base_dir := "." }
        { scopes := [⟨[("g", .number (.fin 5))]⟩, ⟨[]⟩], imported_files := [], stdout := "" } =
      .fatal "" := by
  refine ⟨by decide!, by decide!, by decide!, by decide!⟩

/-- C22, amended.  (1) Index 0 of the scope stack `create_interpreter` makes
is the new scope, the global scope of the run.  (2) In the run of a main file
without `import` statement, index 0 of the scope stack is that scope at every
call of `evaluate`, those of the bodies of functions among them: the evaluator
that checks it yields what `evaluate` yields.  (3) The same from every state
whose scope stack and closures have the scope `G` at index 0: the check passes
and the state in which the evaluation ends is such a state.  (4) An evaluation
that ends leaves the scope stack as it was.  (5) An `import` statement has the
imported program evaluated with a scope stack that holds one scope, the
innermost scope of the importer.  (6) A function declaration makes a function
whose closure is the scope stack.  (7) The body of a call is evaluated with
index 0 of the callee's closure at index 0 of the scope stack. -/
theorem index_zero_of_scope_stack :
    (∀ g : Globals, (create_interpreter g).1.scope_stack.head? = some g.scopes.length) ∧
    (∀ (read_file : String → Option String) (bad : EvalResult) (fuel : Nat) (ast : ASTNode),
      ASTNode.import_free ast = true →
      evaluate_rooted read_file 0 bad fuel ast (create_interpreter Globals.initial).1
          (create_interpreter Globals.initial).2 =
        evaluate read_file fuel ast (create_interpreter Globals.initial).1
          (create_interpreter Globals.initial).2) ∧
    (∀ (read_file : String → Option String) (G : Nat) (bad : EvalResult) (fuel : Nat)
      (node : ASTNode) (i : Interpreter) (g : Globals),
      ASTNode.import_free node = true → rooted_at G i g →
      evaluate_rooted read_file G bad fuel node i g = evaluate read_file fuel node i g ∧
      ∀ v i' g', evaluate read_file fuel node i g = .ok (v, i', g') →
        Value.rooted G v = true ∧ rooted_at G i' g') ∧
    (∀ (read_file : String → Option String) (fuel : Nat) (node : ASTNode)
      (i i' : Interpreter) (g g' : Globals) (v : Value),
      evaluate read_file fuel node i g = .ok (v, i', g') →
      i'.scope_stack = i.scope_stack) ∧
    (∀ (read_file : String → Option String) (ev : Eval) (path code : String)
      (tokens : List Token) (ast : ASTNode) (i : Interpreter) (g : Globals) (s : Nat),
      is_file_imported g (i.base_dir ++ "/" ++ path) = false →
      read_file (i.base_dir ++ "/" ++ path) = some code →
      tokenize code.toList = .ok tokens → parse tokens = .ok ast →
      get_current_scope i = some s →
      evaluate_import_statement read_file ev path i g =
        match ev ast
            { scope_stack := [s], return_value := .null, has_return := false,
              base_dir := (directory_of (i.base_dir ++ "/" ++ path)).getD i.base_dir }
            (create_scope (add_imported_file g (i.base_dir ++ "/" ++ path))).2 with
        | .ok (result, interpreter, g1) =>
          if interpreter.scope_stack.length = 0 then .ok (result, i, g1) else .undefined
        | .fatal out => .fatal out
        | .undefined => .undefined
        | .outOfFuel => .outOfFuel) ∧
    (∀ (read_file : String → Option String) (fuel : Nat) (name : String)
      (params : List String) (body : ASTNode) (i i' : Interpreter) (g g' : Globals)
      (v : Value),
      evaluate read_file (fuel + 1) (.function_declaration name params body) i g =
        .ok (v, i', g') →
      v = .function name params body i.scope_stack) ∧
    (∀ (closure : List Nat) (params : List String) (args : List Value) (i : Interpreter)
      (g : Globals) (G : Nat), closure.head? = some G →
      (enter_function closure params args i g).1.scope_stack = closure ++ [g.scopes.length] ∧
      (enter_function closure params args i g).1.scope_stack.head? = some G) := by
  refine ⟨?_, ?_, ?_, ?_, ?_, ?_, ?_⟩
  · intro g
    simp [create_interpreter, create_scope]
  · intro read_file bad fuel ast hf
    exact (evaluate_rooted_agree read_file 0 bad fuel).1 ast _ _ hf
      ⟨by simp [create_interpreter, create_scope, Globals.initial], rfl, rfl⟩
  · intro read_file G bad fuel node i g hf hi
    exact ⟨(evaluate_rooted_agree read_file G bad fuel).1 node i g hf hi,
      fun v i' g' h => (evaluate_rooted_agree read_file G bad fuel).2 node i g v i' g' hf hi h⟩
  · intro read_file fuel node i i' g g' v h
    exact evaluate_scope_stack read_file fuel _ _ _ _ _ _ h
  · intro read_file ev path code tokens ast i g s himp hread htok hparse hs
    simp only [evaluate_import_statement, himp, hread, process_import, hs, create_interpreter]
    simp only [add_imported_file, htok, hparse]
    cases ev ast _ _ with
    | ok x =>
      obtain ⟨r, i1, g1⟩ := x
      by_cases hl : i1.scope_stack.length = 0 <;> simp [hl]
    | fatal out => simp
    | undefined => simp
    | outOfFuel => simp
  · intro read_file fuel name params body i i' g g' v h
    simp only [evaluate, evaluate_function_declaration] at h
    split at h
    · simp only [Outcome.ok.injEq, Prod.mk.injEq] at h
      exact h.1.symm
    · simp at h
  · intro closure params args i g G hc
    refine ⟨rfl, ?_⟩
    exact head_push_scope { i with scope_stack := closure } _ G hc

/-- C22, amended, at the program `function f() { print(1); } { f(); }`, which
has no `import` statement: during its run index 0 of the scope stack is the
global scope 0 at every call of `evaluate`, in the block and in the call of `f`
too. -/
theorem index_zero_of_scope_stack_witness :
    ASTNode.import_free (.program [.function_declaration "f" []
        (.block_statement [.print_statement (.literal (.number (.fin 1)))]),
      .block_statement [.call_expression "f" []]]) = true ∧
    evaluate_rooted no_files 0 (.fatal "index 0") 20
        (.program [.function_declaration "f" []
          (.block_statement [.print_statement (.literal (.number (.fin 1)))]),
        .block_statement [.call_expression "f" []]])
        (create_interpreter Globals.initial).1 (create_interpreter Globals.initial).2 =
      evaluate no_files 20
        (.program [.function_declaration "f" []
          (.block_statement [.print_statement (.literal (.number (.fin 1)))]),
        .block_statement [.call_expression "f" []]])
        (create_interpreter Globals.initial).1 (create_interpreter Globals.initial).2 :=
  ⟨by decide,
    index_zero_of_scope_stack.2.1 no_files (.fatal "index 0") 20
      (.program [.function_declaration "f" []
        (.block_statement [.print_statement (.literal (.number (.fin 1)))]),
      .block_statement [.call_expression "f" []]]) (by decide)⟩

/-! ## The lexer ends, and its errors end `tokenize` -/

theorem ite_ne_outOfFuel {α : Type} (c : Prop) [Decidable c] (a b : Outcome α)
    (ha : a ≠ .outOfFuel) (hb : b ≠ .outOfFuel) : (if c then a else b) ≠ .outOfFuel := by
  split
  · exact ha
  · exact hb

theorem ok_ne_outOfFuel {α : Type} (a : α) : (Outcome.ok a : Outcome α) ≠ .outOfFuel :=
  fun h => Outcome.noConfusion h

theorem fatal_ne_outOfFuel {α : Type} (out : String) :
    (Outcome.fatal out : Outcome α) ≠ .outOfFuel :=
  fun h => Outcome.noConfusion h

theorem undefined_ne_outOfFuel {α : Type} : (Outcome.undefined : Outcome α) ≠ .outOfFuel :=
  fun h => Outcome.noConfusion h

/-- The loop of `get_next_token` ends: with fuel above the length of the input it
does not run out of fuel. -/
theorem get_next_token_loop_ends :
    ∀ (n : Nat) (cs : List Char), cs.length < n → get_next_token_loop n cs ≠ .outOfFuel := by
  intro n
  induction n with
  | zero => intro cs h; exact absurd h (Nat.not_lt_zero _)
  | succ n ih =>
    intro cs h
    cases cs with
    | nil => intro hh; exact Outcome.noConfusion hh
    | cons c rest =>
      simp only [List.length_cons] at h
      have h1 := length_dropWhile_le isspace rest
      have h2 := length_dropWhile_le (fun c => decide (c ≠ '\n')) rest
      simp only [get_next_token_loop, get_number_token, get_identifier_token, get_string_token]
      by_cases hs : isspace c = true
      · rw [if_pos hs]
        have : skip_whitespace (c :: rest) = rest.dropWhile isspace := by
          simp [skip_whitespace, List.dropWhile_cons, hs]
        rw [this]
        exact ih _ (by omega)
      · rw [if_neg hs]
        repeat (first
          | exact ok_ne_outOfFuel _
          | exact fatal_ne_outOfFuel _
          | exact undefined_ne_outOfFuel
          | exact ih _ (by omega)
          | apply ite_ne_outOfFuel
          | split)

/-- The function `get_next_token` ends. -/
theorem get_next_token_ends (cs : List Char) : get_next_token cs ≠ .outOfFuel :=
  get_next_token_loop_ends _ cs (Nat.lt_succ_self _)

/-- A call of `get_next_token` that returns another token than the end of input
leaves a shorter input, made of characters of the input. -/
theorem get_next_token_consumes (cs rest : List Char) (t : Token)
    (hnul : ∀ c ∈ cs, c ≠ '\x00') (h : get_next_token cs = .ok (t, rest))
    (ht : t.type ≠ .TOKEN_EOF) :
    rest.length < cs.length ∧ ∀ c ∈ rest, c ≠ '\x00' := by
  have hstep := get_next_token_loop_step _ cs rest t hnul h
  refine ⟨?_, fun c hc => hnul c (hstep.1 c hc)⟩
  rcases hstep.2 with h2 | ⟨-, h2⟩
  · exact absurd (by rw [h2]; rfl) ht
  · exact h2

/-- The loop of `tokenize` gives the same result for every fuel above the
length of the input, and does not run out of fuel. -/
theorem tokenize_loop_fuel :
    ∀ (n m : Nat) (cs : List Char), (∀ c ∈ cs, c ≠ '\x00') → cs.length < n → cs.length < m →
      tokenize_loop n cs = tokenize_loop m cs ∧ tokenize_loop n cs ≠ .outOfFuel := by
  intro n
  induction n with
  | zero => intro m cs _ h; exact absurd h (Nat.not_lt_zero _)
  | succ n ih =>
    intro m cs hnul hn hm
    cases m with
    | zero => exact absurd hm (Nat.not_lt_zero _)
    | succ m =>
      simp only [tokenize_loop]
      cases hg : get_next_token cs with
      | ok p =>
        obtain ⟨t, rest⟩ := p
        simp only []
        by_cases ht : t.type = .TOKEN_EOF
        · simp only [ht, if_true]
          exact ⟨trivial, ok_ne_outOfFuel _⟩
        · simp only [ht, if_false]
          obtain ⟨hlen, hnul'⟩ := get_next_token_consumes cs rest t hnul hg ht
          obtain ⟨e, hne⟩ := ih m rest hnul' (by omega) (by omega)
          rw [← e]
          refine ⟨rfl, ?_⟩
          cases hr : tokenize_loop n rest with
          | ok tokens => exact ok_ne_outOfFuel _
          | fatal out => exact fatal_ne_outOfFuel _
          | undefined => exact undefined_ne_outOfFuel
          | outOfFuel => exact absurd hr hne
      | fatal out => exact ⟨rfl, fatal_ne_outOfFuel _⟩
      | undefined => exact ⟨rfl, undefined_ne_outOfFuel⟩
      | outOfFuel => exact absurd hg (get_next_token_ends cs)

/-- The input of a fresh lexer holds no NUL. -/
theorem create_lexer_no_nul (input : List Char) : ∀ c ∈ create_lexer input, c ≠ '\x00' :=
  fun c hc => by simpa using takeWhile_all _ _ c hc

/-- The function `tokenize` ends. -/
theorem tokenize_ends (input : List Char) : tokenize input ≠ .outOfFuel := by
  have h := (tokenize_loop_fuel _ _ (create_lexer input) (create_lexer_no_nul input)
    (Nat.lt_succ_self _) (Nat.lt_succ_self _)).2
  unfold tokenize
  cases hr : tokenize_loop ((create_lexer input).length + 1) (create_lexer input) with
  | ok tokens =>
    simp only []
    exact ite_ne_outOfFuel _ _ _ (ok_ne_outOfFuel _) undefined_ne_outOfFuel
  | fatal out => exact fatal_ne_outOfFuel _
  | undefined => exact undefined_ne_outOfFuel
  | outOfFuel => exact absurd hr h

/-- An error of `get_next_token` at a cursor position ends the loop of
`tokenize` with that error. -/
theorem tokenize_loop_fatal (cs cs' : List Char) (out : String) (hr : lexer_reaches cs cs')
    (hf : get_next_token cs' = .fatal out) :
    ∀ n, (∀ c ∈ cs, c ≠ '\x00') → cs.length < n → tokenize_loop n cs = .fatal out := by
  induction hr with
  | start cs =>
    intro n _ hn
    cases n with
    | zero => exact absurd hn (Nat.not_lt_zero _)
    | succ n => simp only [tokenize_loop, hf]
  | token cs rest cs' t hg ht _ ih =>
    intro n hnul hn
    cases n with
    | zero => exact absurd hn (Nat.not_lt_zero _)
    | succ n =>
      obtain ⟨hlen, hnul'⟩ := get_next_token_consumes cs rest t hnul hg ht
      simp only [tokenize_loop, hg, ht, if_false, ih hf n hnul' (by omega)]

/-- An error of `get_next_token` at a cursor position ends `tokenize` with that
error. -/
theorem tokenize_fatal (input cs' : List Char) (out : String)
    (hr : lexer_reaches (create_lexer input) cs') (hf : get_next_token cs' = .fatal out) :
    tokenize input = .fatal out := by
  unfold tokenize
  rw [tokenize_loop_fatal _ cs' out hr hf _ (create_lexer_no_nul input) (Nat.lt_succ_self _)]

/-! ## C32: characters the lexer rejects -/

theorem lone_bang (rest : List Char) (h : rest.head? ≠ some '=') :
    get_next_token ('!' :: rest) = .fatal "" := by
  simp only [get_next_token, List.length_cons, get_next_token_loop]
  repeat rw [if_neg (by decide)]
  rw [if_pos trivial]
  split
  · simp at h
  · rfl

theorem lone_ampersand (rest : List Char) (h : rest.head? ≠ some '&') :
    get_next_token ('&' :: rest) = .fatal "" := by
  simp only [get_next_token, List.length_cons, get_next_token_loop]
  repeat (first | rw [if_neg (by decide)] | rw [if_neg (by simp [h])])

theorem lone_bar (rest : List Char) (h : rest.head? ≠ some '|') :
    get_next_token ('|' :: rest) = .fatal "" := by
  simp only [get_next_token, List.length_cons, get_next_token_loop]
  repeat (first | rw [if_neg (by decide)] | rw [if_neg (by simp [h])])

theorem no_token_character (c : Char) (rest : List Char) (h : starts_token c = false) :
    get_next_token (c :: rest) = .fatal "" := by
  simp only [starts_token, Bool.or_eq_false_iff, List.contains_cons, List.contains_nil,
    Bool.or_false, beq_eq_false_iff_ne, ne_eq, decide_eq_false_iff_not] at h
  obtain ⟨⟨⟨⟨⟨h1, h2⟩, h3⟩, h4⟩, h5⟩, h6, h7, h8, h9, h10, h11, h12, h13, h14, h15, h16, h17,
    h18, h19, h20, h21, h22⟩ := h
  simp only [get_next_token, List.length_cons, get_next_token_loop]
  simp [h1, h2, h3, h4, h5, h6, h7, h8, h9, h10, h11, h12, h13, h14, h15, h16, h17,
    h18, h19, h20, h21, h22]

/-- C32. What the lexer rejects.  (1) At a `!` that `=` does not follow, at a
`&` that `&` does not follow and at a `|` that `|` does not follow, at the end
of the input too, `get_next_token` exits with an error and returns no token.
(2) So it does at every character for which it has no case, `#`, `.` and `@`
among them.  (3) When `tokenize` comes to such a place after any number of
tokens, it exits with that error.  (4) Texts with such a character are not
tokenized, and a run on one exits before anything is printed. -/
theorem lexer_rejection :
    ((∀ rest : List Char, rest.head? ≠ some '=' → get_next_token ('!' :: rest) = .fatal "") ∧
      (∀ rest : List Char, rest.head? ≠ some '&' → get_next_token ('&' :: rest) = .fatal "") ∧
      (∀ rest : List Char, rest.head? ≠ some '|' → get_next_token ('|' :: rest) = .fatal "") ∧
      get_next_token ['!'] = .fatal "" ∧ get_next_token ['&'] = .fatal "" ∧
      get_next_token ['|'] = .fatal "") ∧
    ((∀ (c : Char) (rest : List Char), starts_token c = false →
        get_next_token (c :: rest) = .fatal "") ∧
      starts_token '#' = false ∧ starts_token '.' = false ∧ starts_token '@' = false) ∧
    (∀ (input cs' : List Char) (out : String), lexer_reaches (create_lexer input) cs' →
      get_next_token cs' = .fatal out → tokenize input = .fatal out) ∧
    (tokenize "let x = !y;".toList = .fatal "" ∧ tokenize "a & b".toList = .fatal "" ∧
      tokenize "a | b".toList = .fatal "" ∧ tokenize "x = 1 !".toList = .fatal "" ∧
      tokenize "x = 1 &".toList = .fatal "" ∧ tokenize "x = 1 |".toList = .fatal "" ∧
      tokenize "let x = 1 # 2;".toList = .fatal "" ∧ tokenize "print(.5);".toList = .fatal "" ∧
      tokenize "print(1); @".toList = .fatal "" ∧
      run_interpreter no_files 20 "print(1); @" = .fatal "") :=
  ⟨⟨lone_bang, lone_ampersand, lone_bar, by decide!, by decide!, by decide!⟩,
    ⟨no_token_character, by decide, by decide, by decide⟩,
    tokenize_fatal,
    ⟨by decide!, by decide!, by decide!, by decide!, by decide!, by decide!, by decide!,
      by decide!, by decide!, by decide!⟩⟩

/-- C32 at `!x`, at `#` and at the text `a # b`, where the lexer comes to `#`
after the token `a`. -/
theorem lexer_rejection_witness :
    get_next_token "!x".toList = .fatal "" ∧ get_next_token "# b".toList = .fatal "" ∧
    tokenize "a # b".toList = .fatal "" :=
  ⟨lexer_rejection.1.1 "x".toList (by decide),
    lexer_rejection.2.1.1 '#' " b".toList (by decide),
    lexer_rejection.2.2.1 "a # b".toList " # b".toList ""
      (.token _ " # b".toList _ (.identifier "a") (by decide!) (by decide) (.start _))
      (by decide!)⟩

/-! ## C33: operators of two characters -/

theorem one_character_assign (rest : List Char) (h : rest.head? ≠ some '=') :
    get_next_token ('=' :: rest) = .ok (.plain .TOKEN_ASSIGN, rest) := by
  simp only [get_next_token, List.length_cons, get_next_token_loop]
  repeat rw [if_neg (by decide)]
  rw [if_pos trivial]
  split
  · simp at h
  · rfl

theorem one_character_gt (rest : List Char) (h : rest.head? ≠ some '=') :
    get_next_token ('>' :: rest) = .ok (.plain .TOKEN_GT, rest) := by
  simp only [get_next_token, List.length_cons, get_next_token_loop]
  repeat rw [if_neg (by decide)]
  rw [if_pos trivial]
  split
  · simp at h
  · rfl

theorem one_character_lt (rest : List Char) (h : rest.head? ≠ some '=') :
    get_next_token ('<' :: rest) = .ok (.plain .TOKEN_LT, rest) := by
  simp only [get_next_token, List.length_cons, get_next_token_loop]
  repeat rw [if_neg (by decide)]
  rw [if_pos trivial]
  split
  · simp at h
  · rfl

/-- C33. Operators of two characters.  (1) Where `==`, `!=`, `>=`, `<=`, `&&`
or `||` begins, `get_next_token` returns the token of the operator and leaves
the input that follows the two characters.  (2) Where `=`, `>` or `<` is not
followed by `=`, it returns the token of the one character and leaves the
input that follows that character.  (3) `===` is read as `==` then `=`, and
`a<=b>=c==d!=e&&f||g<h>i=j` as its operators of two characters and of one. -/
theorem two_character_operators :
    ((∀ rest : List Char,
        get_next_token ('=' :: '=' :: rest) = .ok (.plain .TOKEN_EQUALS, rest)) ∧
      (∀ rest : List Char,
        get_next_token ('!' :: '=' :: rest) = .ok (.plain .TOKEN_NOT_EQUALS, rest)) ∧
      (∀ rest : List Char,
        get_next_token ('>' :: '=' :: rest) = .ok (.plain .TOKEN_GTE, rest)) ∧
      (∀ rest : List Char,
        get_next_token ('<' :: '=' :: rest) = .ok (.plain .TOKEN_LTE, rest)) ∧
      (∀ rest : List Char,
        get_next_token ('&' :: '&' :: rest) = .ok (.plain .TOKEN_AND, rest)) ∧
      (∀ rest : List Char,
        get_next_token ('|' :: '|' :: rest) = .ok (.plain .TOKEN_OR, rest))) ∧
    ((∀ rest : List Char, rest.head? ≠ some '=' →
        get_next_token ('=' :: rest) = .ok (.plain .TOKEN_ASSIGN, rest)) ∧
      (∀ rest : List Char, rest.head? ≠ some '=' →
        get_next_token ('>' :: rest) = .ok (.plain .TOKEN_GT, rest)) ∧
      (∀ rest : List Char, rest.head? ≠ some '=' →
        get_next_token ('<' :: rest) = .ok (.plain .TOKEN_LT, rest))) ∧
    tokenize "===".toList = .ok [.plain .TOKEN_EQUALS, .plain .TOKEN_ASSIGN, Token.eof] ∧
    tokenize "a<=b>=c==d!=e&&f||g<h>i=j".toList =
      .ok [.identifier "a", .plain .TOKEN_LTE, .identifier "b", .plain .TOKEN_GTE,
        .identifier "c", .plain .TOKEN_EQUALS, .identifier "d", .plain .TOKEN_NOT_EQUALS,
        .identifier "e", .plain .TOKEN_AND, .identifier "f", .plain .TOKEN_OR,
        .identifier "g", .plain .TOKEN_LT, .identifier "h", .plain .TOKEN_GT,
        .identifier "i", .plain .TOKEN_ASSIGN, .identifier "j", Token.eof] :=
  ⟨⟨fun _ => rfl, fun _ => rfl, fun _ => rfl, fun _ => rfl, fun _ => rfl, fun _ => rfl⟩,
    ⟨one_character_assign, one_character_gt, one_character_lt⟩, by decide!, by decide!⟩

/-- C33 at `= 1`, where a space follows the `=`. -/
theorem two_character_operators_witness :
    get_next_token "= 1".toList = .ok (.plain .TOKEN_ASSIGN, " 1".toList) :=
  two_character_operators.2.1.1 " 1".toList (by decide)

/-! ## C34: identifiers and keywords -/

/-- The run of word characters at the start of an input. -/
theorem word_run (c : Char) (w rest : List Char)
    (hc : (isalpha c || decide (c = '_')) = true)
    (hw : ∀ x ∈ w, (isalnum x || decide (x = '_')) = true)
    (hrest : ∀ x, rest.head? = some x → (isalnum x || decide (x = '_')) = false) :
    (c :: w ++ rest).takeWhile (fun c => isalnum c || decide (c = '_')) = c :: w ∧
      (c :: w ++ rest).dropWhile (fun c => isalnum c || decide (c = '_')) = rest := by
  have hcw : ∀ x ∈ c :: w, (isalnum x || decide (x = '_')) = true := by
    intro x hx
    rcases List.mem_cons.mp hx with rfl | hx
    · simp only [isalnum, Bool.or_eq_true] at hc ⊢
      rcases hc with hc | hc
      · exact Or.inl (Or.inl hc)
      · exact Or.inr hc
    · exact hw x hx
  cases rest with
  | nil =>
    rw [List.append_nil]
    exact ⟨takeWhile_eq_self_of_all _ _ hcw, dropWhile_eq_nil_of_all _ _ hcw⟩
  | cons stop rest =>
    have hstop := hrest stop rfl
    exact ⟨takeWhile_append_stop _ _ _ _ hcw hstop, dropWhile_append_stop _ _ _ _ hcw hstop⟩

/-- What `get_next_token` does at a run of word characters. -/
theorem get_next_token_run (c : Char) (w rest : List Char)
    (hc : (isalpha c || decide (c = '_')) = true)
    (hw : ∀ x ∈ w, (isalnum x || decide (x = '_')) = true)
    (hrest : ∀ x, rest.head? = some x → (isalnum x || decide (x = '_')) = false) :
    get_next_token (c :: w ++ rest) =
      if (c :: w).length < 256 then
        .ok (match keyword_type (String.mk (c :: w)) with
          | some t => .plain t
          | none => .identifier (String.mk (c :: w)), rest)
      else .undefined := by
  obtain ⟨h1, h2⟩ := word_run c w rest hc hw hrest
  rw [List.cons_append, get_next_token_word_start c _ hc]
  unfold get_identifier_token
  rw [← List.cons_append, h1, h2]
  by_cases hlen : (c :: w).length < 256
  · simp only [hlen, if_true]
    cases keyword_type (String.mk (c :: w)) <;> rfl
  · simp only [hlen, if_false]

/-- The keyword table: a name has a keyword type when it is one of the ten
keywords. -/
theorem keyword_type_eq (name : String) (t : TokenType) :
    keyword_type name = some t ↔ (name, t) ∈ keywords := by
  simp only [keywords, List.mem_cons, Prod.mk.injEq, List.mem_singleton, List.not_mem_nil,
    or_false]
  unfold keyword_type
  constructor
  · intro h
    split_ifs at h with h1 h2 h3 h4 h5 h6 h7 h8 h9 h10 <;>
      simp only [Option.some.injEq, reduceCtorEq] at h <;> subst h <;> simp [*]
  · intro h
    rcases h with h | h | h | h | h | h | h | h | h | h <;> obtain ⟨rfl, rfl⟩ := h <;> decide

theorem tokenize_loop_undefined (n : Nat) (cs : List Char)
    (h : get_next_token cs = .undefined) : tokenize_loop (n + 1) cs = .undefined := by
  simp only [tokenize_loop, h]

/-- C34, what the code does.  (1) At a letter or an underscore followed by a
run of letters, digits and underscores that ends at another character or at
the end of the input, when the whole run is shorter than the buffer of 256
bytes, `get_next_token` returns the keyword token when the run is one of the
ten keywords and otherwise the identifier token that carries the run, and it
leaves the input that follows the run.  (2) The character classes are those of
`[A-Za-z_][A-Za-z0-9_]*`.  (3) `letter` and `if_` are identifiers and the ten
keywords are read as keyword tokens.  (4) When the run has 256 characters or
more the buffer is written past its end: an identifier of 256 letters is the
failing input. -/
theorem identifier_and_keyword_lexing :
    (∀ (c : Char) (w rest : List Char), (isalpha c || decide (c = '_')) = true →
      (∀ x ∈ w, (isalnum x || decide (x = '_')) = true) →
      (∀ x, rest.head? = some x → (isalnum x || decide (x = '_')) = false) →
      (c :: w).length < 256 →
      (∀ t, (String.mk (c :: w), t) ∈ keywords →
        get_next_token (c :: w ++ rest) = .ok (.plain t, rest)) ∧
      ((∀ t, (String.mk (c :: w), t) ∉ keywords) →
        get_next_token (c :: w ++ rest) = .ok (.identifier (String.mk (c :: w)), rest))) ∧
    (∀ c : Char, (isalpha c = true ↔ ('a' ≤ c ∧ c ≤ 'z') ∨ ('A' ≤ c ∧ c ≤ 'Z')) ∧
      (isalnum c = true ↔
        ('a' ≤ c ∧ c ≤ 'z') ∨ ('A' ≤ c ∧ c ≤ 'Z') ∨ ('0' ≤ c ∧ c ≤ '9'))) ∧
    (tokenize "letter if_ _x1".toList =
        .ok [.identifier "letter", .identifier "if_", .identifier "_x1", Token.eof] ∧
      tokenize "let if else while function return true false print import".toList =
        .ok [.plain .TOKEN_LET, .plain .TOKEN_IF, .plain .TOKEN_ELSE, .plain .TOKEN_WHILE,
          .plain .TOKEN_FUNCTION, .plain .TOKEN_RETURN, .plain .TOKEN_TRUE,
          .plain .TOKEN_FALSE, .plain .TOKEN_PRINT, .plain .TOKEN_IMPORT, Token.eof]) ∧
    (∀ (c : Char) (w rest : List Char), (isalpha c || decide (c = '_')) = true →
      (∀ x ∈ w, (isalnum x || decide (x = '_')) = true) →
      (∀ x, rest.head? = some x → (isalnum x || decide (x = '_')) = false) →
      256 ≤ (c :: w).length → get_next_token (c :: w ++ rest) = .undefined) ∧
    tokenize (List.replicate 256 'a') = .undefined := by
  refine ⟨?_, ?_, ⟨by decide!, by decide!⟩, ?_, ?_⟩
  · intro c w rest hc hw hrest hlen
    have h := get_next_token_run c w rest hc hw hrest
    rw [if_pos hlen] at h
    refine ⟨fun t ht => ?_, fun hn => ?_⟩
    · rw [h, (keyword_type_eq _ t).mpr ht]
    · rw [h]
      cases hk : keyword_type (String.mk (c :: w)) with
      | none => rfl
      | some t => exact absurd ((keyword_type_eq _ t).mp hk) (hn t)
  · intro c
    constructor
    · simp only [isalpha, Bool.or_eq_true, Bool.and_eq_true, decide_eq_true_eq]
    · simp only [isalnum, isalpha, isdigit, Bool.or_eq_true, Bool.and_eq_true,
        decide_eq_true_eq, or_assoc]
  · intro c w rest hc hw hrest hlen
    rw [get_next_token_run c w rest hc hw hrest, if_neg (by omega)]
  · have h := get_next_token_run 'a' (List.replicate 255 'a') [] (by decide)
      (fun x hx => by rw [List.eq_of_mem_replicate hx]; decide)
      (fun x hx => Option.noConfusion hx)
    rw [if_neg (by rw [List.length_cons, List.length_replicate]; omega)] at h
    have e : List.replicate 256 'a' = 'a' :: List.replicate 255 'a' ++ [] := by
      rw [List.append_nil]
      rfl
    have hc : create_lexer (List.replicate 256 'a') = List.replicate 256 'a' :=
      takeWhile_eq_self_of_all _ _
        (fun x hx => by rw [List.eq_of_mem_replicate hx]; decide)
    rw [← e] at h
    unfold tokenize
    rw [hc, tokenize_loop_undefined _ _ h]

/-- C34 at the run `letter` followed by ` = 1`, and at the keyword `let`
followed by a space. -/
theorem identifier_and_keyword_lexing_witness :
    get_next_token "letter = 1".toList = .ok (.identifier "letter", " = 1".toList) ∧
    get_next_token "let x".toList = .ok (.plain .TOKEN_LET, " x".toList) :=
  ⟨(identifier_and_keyword_lexing.1 'l' "etter".toList " = 1".toList (by decide) (by decide)
      (by decide) (by decide)).2 (fun t => by cases t <;> decide),
    (identifier_and_keyword_lexing.1 'l' "et".toList " x".toList (by decide) (by decide)
      (by decide) (by decide)).1 .TOKEN_LET (by decide)⟩

/-! ## C35 and C36: white space, comments and strings -/

/-- A prefix without NUL stays in the input of a fresh lexer. -/
theorem create_lexer_append (pre s : List Char) (h : ∀ c ∈ pre, c ≠ '\x00') :
    create_lexer (pre ++ s) = pre ++ create_lexer s := by
  unfold create_lexer
  exact List.takeWhile_append_of_pos (fun c hc => by simpa using h c hc)

/-- White space before the input does not change the next token. -/
theorem get_next_token_whitespace (w cs : List Char) (hw : ∀ c ∈ w, isspace c = true) :
    get_next_token (w ++ cs) = get_next_token cs := by
  induction w with
  | nil => rfl
  | cons a w ih =>
    rw [List.cons_append, get_next_token_space a _ (hw a (List.mem_cons_self _ _))]
    exact ih (fun c hc => hw c (List.mem_cons_of_mem _ hc))

/-- A comment and the newline that ends it do not change the next token. -/
theorem get_next_token_comment (c cs : List Char) (hc : ∀ x ∈ c, x ≠ '\n') :
    get_next_token ('/' :: '/' :: c ++ '\n' :: cs) = get_next_token cs := by
  have hd : ('/' :: c ++ '\n' :: cs).dropWhile (fun x => decide (x ≠ '\n')) = '\n' :: cs := by
    apply dropWhile_append_stop _ ('/' :: c) '\n' cs _ (by decide)
    intro x hx
    rcases List.mem_cons.mp hx with rfl | hx
    · decide
    · simpa using hc x hx
  have e : get_next_token ('/' :: '/' :: c ++ '\n' :: cs) =
      get_next_token_loop ('/' :: c ++ '\n' :: cs).length.succ
        (('/' :: c ++ '\n' :: cs).dropWhile (fun x => decide (x ≠ '\n'))) := by
    simp only [get_next_token, List.cons_append, List.length_cons, get_next_token_loop]
    rw [if_neg (by decide), if_neg (by decide), if_neg (by decide), if_neg (by decide),
      if_neg (by decide), if_neg (by decide), if_neg (by decide), if_pos trivial]
  rw [e, hd, get_next_token_loop_eq _ _ (by simp; omega),
    get_next_token_space '\n' cs (by decide)]

/-- A comment that runs to the end of the input is followed by the end-of-input
token. -/
theorem get_next_token_comment_end (c : List Char) (hc : ∀ x ∈ c, x ≠ '\n') :
    get_next_token ('/' :: '/' :: c) = .ok (Token.eof, []) := by
  have hd : ('/' :: c).dropWhile (fun x => decide (x ≠ '\n')) = [] := by
    apply dropWhile_eq_nil_of_all
    intro x hx
    rcases List.mem_cons.mp hx with rfl | hx
    · decide
    · simpa using hc x hx
  have e : get_next_token ('/' :: '/' :: c) =
      get_next_token_loop ('/' :: c).length.succ
        (('/' :: c).dropWhile (fun x => decide (x ≠ '\n'))) := by
    simp only [get_next_token, List.length_cons, get_next_token_loop]
    rw [if_neg (by decide), if_neg (by decide), if_neg (by decide), if_neg (by decide),
      if_neg (by decide), if_neg (by decide), if_neg (by decide), if_pos trivial]
  rw [e, hd]
  rfl

/-- A prefix that does not change the next token does not change the tokens. -/
theorem tokenize_loop_prefix (pre cs : List Char)
    (hg : get_next_token (pre ++ cs) = get_next_token cs) (hnul : ∀ c ∈ cs, c ≠ '\x00')
    (n m : Nat) (hn : (pre ++ cs).length < n) (hm : cs.length < m) :
    tokenize_loop n (pre ++ cs) = tokenize_loop m cs := by
  cases n with
  | zero => exact absurd hn (Nat.not_lt_zero _)
  | succ n =>
    cases m with
    | zero => exact absurd hm (Nat.not_lt_zero _)
    | succ m =>
      simp only [tokenize_loop, hg]
      cases hr : get_next_token cs with
      | ok p =>
        obtain ⟨t, rest⟩ := p
        simp only []
        by_cases ht : t.type = .TOKEN_EOF
        · simp only [ht, if_true]
        · simp only [ht, if_false]
          obtain ⟨hlen, hnul'⟩ := get_next_token_consumes cs rest t hnul hr ht
          simp only [List.length_append] at hn
          rw [(tokenize_loop_fuel n m rest hnul' (by omega) (by omega)).1]
      | fatal out => rfl
      | undefined => rfl
      | outOfFuel => rfl

/-- A prefix without NUL that does not change the next token does not change
what `tokenize` returns. -/
theorem tokenize_prefix (pre s : List Char) (hpre : ∀ c ∈ pre, c ≠ '\x00')
    (hg : ∀ cs, get_next_token (pre ++ cs) = get_next_token cs) :
    tokenize (pre ++ s) = tokenize s := by
  unfold tokenize
  rw [create_lexer_append pre s hpre,
    tokenize_loop_prefix pre (create_lexer s) (hg _) (create_lexer_no_nul s) _
      ((create_lexer s).length + 1) (Nat.lt_succ_self _) (Nat.lt_succ_self _)]

theorem isspace_ne_nul (c : Char) (h : isspace c = true) : c ≠ '\x00' := by
  intro hc
  rw [hc] at h
  exact absurd h (by decide)

/-- C35. White space and comments.  (1) The white-space characters are the
space, the tab, the carriage return, the line feed, the form feed and the
vertical tab.  (2) For every text `s` and every run `w` of them, `tokenize`
returns for `w` followed by `s` what it returns for `s`.  (3) For every text
`c` without newline (and without NUL, which ends a text), `tokenize` returns
for `//`, `c`, a newline and `s` what it returns for `s`.  (4) A comment that
runs to the end of the input is tokenized to the end-of-input token alone.  (5)
A text with comments and white space of all kinds has the tokens of the text
without them. -/
theorem whitespace_and_comments_discarded :
    (∀ c : Char, isspace c = true ↔ c ∈ [' ', '\t', '\r', '\n', '\x0c', '\x0b']) ∧
    (∀ w s : List Char, (∀ c ∈ w, c ∈ [' ', '\t', '\r', '\n', '\x0c', '\x0b']) →
      tokenize (w ++ s) = tokenize s) ∧
    (∀ c s : List Char, (∀ x ∈ c, x ≠ '\n') → (∀ x ∈ c, x ≠ '\x00') →
      tokenize ('/' :: '/' :: c ++ '\n' :: s) = tokenize s) ∧
    (∀ c : List Char, (∀ x ∈ c, x ≠ '\n') → tokenize ('/' :: '/' :: c) = .ok [Token.eof]) ∧
    tokenize "// one\n \t\r\n\x0c\x0b let // two\n x // three".toList =
      .ok [.plain .TOKEN_LET, .identifier "x", Token.eof] := by
  have hsp : ∀ c : Char, isspace c = true ↔ c ∈ [' ', '\t', '\r', '\n', '\x0c', '\x0b'] := by
    intro c
    simp only [isspace, Bool.or_eq_true, decide_eq_true_eq, List.mem_cons, List.mem_singleton,
      List.not_mem_nil, or_false]
    tauto
  refine ⟨hsp, ?_, ?_, ?_, by decide!⟩
  · intro w s hw
    have hw' : ∀ c ∈ w, isspace c = true := fun c hc => (hsp c).mpr (hw c hc)
    exact tokenize_prefix w s (fun c hc => isspace_ne_nul c (hw' c hc))
      (fun cs => get_next_token_whitespace w cs hw')
  · intro c s hc hnul
    have e : '/' :: '/' :: c ++ '\n' :: s = ('/' :: '/' :: c ++ ['\n']) ++ s := by simp
    rw [e]
    apply tokenize_prefix
    · intro x hx
      simp only [List.cons_append, List.mem_cons, List.mem_append, List.mem_singleton,
        List.not_mem_nil, or_false] at hx
      rcases hx with rfl | rfl | hx | rfl
      · decide
      · decide
      · exact hnul x hx
      · decide
    · intro cs
      have e' : ('/' :: '/' :: c ++ ['\n']) ++ cs = '/' :: '/' :: c ++ '\n' :: cs := by simp
      rw [e', get_next_token_comment c cs hc]
  · intro c hc
    have hc' : ∀ x ∈ create_lexer c, x ≠ '\n' := fun x hx =>
      hc x (mem_of_mem_takeWhile _ _ x hx)
    have e : create_lexer ('/' :: '/' :: c) = '/' :: '/' :: create_lexer c :=
      create_lexer_append ['/', '/'] c (by decide)
    unfold tokenize
    rw [e]
    simp only [List.length_cons, tokenize_loop, get_next_token_comment_end _ hc']
    rfl

/-- C35 at a run of a space and a newline, at a comment, and at a comment that
ends the input. -/
theorem whitespace_and_comments_discarded_witness :
    tokenize (" \n".toList ++ "x = 1;".toList) = tokenize "x = 1;".toList ∧
    tokenize ('/' :: '/' :: " note".toList ++ '\n' :: "x = 1;".toList) =
      tokenize "x = 1;".toList ∧
    tokenize ('/' :: '/' :: " note".toList) = .ok [Token.eof] :=
  ⟨whitespace_and_comments_discarded.2.1 " \n".toList "x = 1;".toList (by decide),
    whitespace_and_comments_discarded.2.2.1 " note".toList "x = 1;".toList (by decide)
      (by decide),
    whitespace_and_comments_discarded.2.2.2.1 " note".toList (by decide)⟩

/-- A string at the start of the input that does not fit the buffer. -/
theorem get_next_token_long_string (s rest : List Char) (hq : ∀ c ∈ s, c ≠ '"')
    (hlen : 1024 ≤ byteLength s) :
    get_next_token ('"' :: s ++ '"' :: rest) = .undefined := by
  have hq' : ∀ c ∈ s, (decide (c ≠ '"')) = true := fun c hc => by simpa using hq c hc
  rw [List.cons_append, get_next_token_quote]
  simp only [get_string_token, advance_lexer, List.tail_cons]
  rw [takeWhile_append_stop _ _ _ _ hq' (by decide)]
  rw [if_neg (by omega)]

theorem byteLength_replicate (n : Nat) : byteLength (List.replicate n 'a') = n := by
  induction n with
  | zero => rfl
  | succ n ih =>
    have h : byteLength (List.replicate (n + 1) 'a') =
        Char.utf8Size 'a' + byteLength (List.replicate n 'a') := by
      simp [byteLength, List.replicate_succ]
    rw [h, ih]
    have : Char.utf8Size 'a' = 1 := by decide
    omega

/-- C36, what the code does.  (1) For every text `s` without a quote (and
without NUL, which ends a text) that is shorter than the buffer of 1024 bytes,
backslashes and newlines included, `tokenize` returns for `s` between quotes one
string token that carries `s`, and the end-of-input token.  (2) A backslash
before a letter stays a backslash and a newline stays a newline.  (3) When `s`
has 1024 bytes or more the buffer is written past its end; a string of 1024
letters between quotes is the failing input. -/
theorem string_literal_lexing :
    (∀ s : List Char, (∀ c ∈ s, c ≠ '"') → (∀ c ∈ s, c ≠ '\x00') → byteLength s < 1024 →
      tokenize ('"' :: s ++ ['"']) = .ok [.string (String.mk s), Token.eof]) ∧
    tokenize ['"', 'a', '\\', 'n', '\n', 'b', '"'] =
      .ok [.string (String.mk ['a', '\\', 'n', '\n', 'b']), Token.eof] ∧
    (∀ s rest : List Char, (∀ c ∈ s, c ≠ '"') → 1024 ≤ byteLength s →
      get_next_token ('"' :: s ++ '"' :: rest) = .undefined) ∧
    tokenize ('"' :: List.replicate 1024 'a' ++ ['"']) = .undefined := by
  refine ⟨?_, by decide!, get_next_token_long_string, ?_⟩
  · intro s hq hnul hlen
    have hc : create_lexer ('"' :: s ++ ['"']) = '"' :: s ++ ['"'] := by
      apply takeWhile_eq_self_of_all
      intro c hc
      simp only [List.cons_append, List.mem_cons, List.mem_append, List.mem_singleton,
        List.not_mem_nil, or_false] at hc
      rcases hc with rfl | hc | rfl
      · decide
      · simpa using hnul c hc
      · decide
    have hn : get_next_token ('"' :: s ++ ['"']) = .ok (.string (String.mk s), []) := by
      have := get_next_token_quoted s [] hq hlen
      simpa using this
    have hl : tokenize_loop (('"' :: s ++ ['"']).length + 1) ('"' :: s ++ ['"']) =
        .ok [.string (String.mk s), Token.eof] := by
      simp only [tokenize_loop, hn]
      simp [Token.type, get_next_token, get_next_token_loop, Token.eof]
    simp only [tokenize, hc, hl]
    rfl
  · have hq : ∀ c ∈ List.replicate 1024 'a', c ≠ '"' := fun c hc => by
      rw [List.eq_of_mem_replicate hc]; decide
    have h := get_next_token_long_string (List.replicate 1024 'a') [] hq
      (by rw [byteLength_replicate])
    have hc : create_lexer ('"' :: List.replicate 1024 'a' ++ ['"']) =
        '"' :: List.replicate 1024 'a' ++ ['"'] := by
      apply takeWhile_eq_self_of_all
      intro c hc
      simp only [List.cons_append, List.mem_cons, List.mem_append, List.mem_singleton,
        List.not_mem_nil, or_false] at hc
      rcases hc with rfl | hc | rfl
      · decide
      · rw [List.eq_of_mem_replicate hc]; decide
      · decide
    unfold tokenize
    rw [hc, tokenize_loop_undefined _ _ h]

/-- C36 at the string `a\b` between quotes. -/
theorem string_literal_lexing_witness :
    tokenize ('"' :: ['a', '\\', 'b'] ++ ['"']) =
      .ok [.string (String.mk ['a', '\\', 'b']), Token.eof] :=
  string_literal_lexing.1 ['a', '\\', 'b'] (by decide) (by decide) (by decide)

/-! ## C37 and C40: statements that begin with an identifier, and `else` -/

theorem bind_ok {α β : Type} (a : α) (f : α → Outcome β) : (Outcome.ok a >>= f) = f a := rfl

theorem bind_fatal {α β : Type} (out : String) (f : α → Outcome β) :
    ((Outcome.fatal out : Outcome α) >>= f) = .fatal out := rfl

theorem bind_undefined {α β : Type} (f : α → Outcome β) :
    ((Outcome.undefined : Outcome α) >>= f) = .undefined := rfl

theorem bind_outOfFuel {α β : Type} (f : α → Outcome β) :
    ((Outcome.outOfFuel : Outcome α) >>= f) = .outOfFuel := rfl

/-- What a sequence returns when it returns a result. -/
theorem bind_eq_ok {α β : Type} (x : Outcome α) (f : α → Outcome β) (b : β)
    (h : (x >>= f) = .ok b) : ∃ a, x = .ok a ∧ f a = .ok b := by
  cases x with
  | ok a => exact ⟨a, rfl, h⟩
  | fatal out => exact Outcome.noConfusion h
  | undefined => exact Outcome.noConfusion h
  | outOfFuel => exact Outcome.noConfusion h

theorem eat_plain (type : TokenType) (ts : List Token) :
    eat type (.plain type :: ts) = .ok (.plain type, ts) := by
  simp [eat, current_token, Token.type, advance_tokens]

theorem current_token_cons (t : Token) (ts : List Token) : current_token (t :: ts) = t := rfl

theorem eat_string_value_identifier (x : String) (ts : List Token) :
    eat_string_value .TOKEN_IDENTIFIER (.identifier x :: ts) = .ok (x, ts) := rfl

theorem parse_statement_identifier (fuel : Nat) (x : String) (ts : List Token) :
    parse_statement (fuel + 1) (.identifier x :: ts) =
      parse_identifier_statement (parse_expression fuel) (.identifier x :: ts) := rfl

/-- A statement that begins with an identifier followed by neither `=` nor `(`
is a parse error. -/
theorem identifier_statement_fatal (fuel : Nat) (x : String) (ts : List Token)
    (h1 : (current_token ts).type ≠ .TOKEN_ASSIGN)
    (h2 : (current_token ts).type ≠ .TOKEN_LPAREN) :
    parse_statement (fuel + 1) (.identifier x :: ts) = .fatal "" := by
  rw [parse_statement_identifier]
  simp only [parse_identifier_statement, eat_string_value_identifier, bind_ok, h1, h2, if_false]

/-- The node of a call that is parsed is a call of the name. -/
theorem parse_function_call_node (pe : Parser ASTNode) (x : String) (ts ts' : List Token)
    (node : ASTNode) (h : parse_function_call pe x ts = .ok (node, ts')) :
    ∃ arguments, node = .call_expression x arguments := by
  have hend : ∀ (arguments : List ASTNode) (ts2 : List Token),
      ((eat .TOKEN_RPAREN ts2 >>= fun p =>
        (pure (ASTNode.call_expression x arguments, p.2) : Outcome (ASTNode × List Token))) =
        .ok (node, ts')) → ∃ arguments, node = .call_expression x arguments := by
    intro arguments ts2 h
    obtain ⟨⟨t, ts3⟩, -, h⟩ := bind_eq_ok _ _ _ h
    have h' : (Outcome.ok (ASTNode.call_expression x arguments, ts3) :
        Outcome (ASTNode × List Token)) = .ok (node, ts') := h
    simp only [Outcome.ok.injEq, Prod.mk.injEq] at h'
    exact ⟨arguments, h'.1.symm⟩
  unfold parse_function_call at h
  obtain ⟨⟨t, ts1⟩, -, h⟩ := bind_eq_ok _ _ _ h
  dsimp only at h
  split at h
  · obtain ⟨⟨argument, ts2⟩, -, h⟩ := bind_eq_ok _ _ _ h
    dsimp only at h
    obtain ⟨⟨arguments, ts3⟩, -, h⟩ := bind_eq_ok _ _ _ h
    exact hend arguments ts3 h
  · exact hend [] ts1 h

/-- C37. A statement that begins with an identifier.  (1) When `=` follows
the identifier, the statement that is parsed is an assignment to the name; it
is parsed when an expression and `;` follow.  (2) When `(` follows, the
statement that is parsed is a call of the name.  (3) With any other token
after the identifier `parse_statement` exits with an error, and so does `parse`
of a program that begins so: no tree is returned.  (4) `x;`, `x + 1;`, and such
a statement after another one or inside a block, are parse errors; `x = 1;`
and `f(1);` are an assignment and a call. -/
theorem identifier_statement :
    ((∀ (fuel : Nat) (x : String) (ts ts' : List Token) (node : ASTNode),
        parse_statement (fuel + 1) (.identifier x :: .plain .TOKEN_ASSIGN :: ts) =
          .ok (node, ts') →
        ∃ value, node = .assignment_expression x value) ∧
      (∀ (fuel : Nat) (x : String) (ts ts' : List Token) (value : ASTNode),
        parse_expression fuel ts = .ok (value, .plain .TOKEN_SEMICOLON :: ts') →
        parse_statement (fuel + 1) (.identifier x :: .plain .TOKEN_ASSIGN :: ts) =
          .ok (.assignment_expression x value, ts'))) ∧
    (∀ (fuel : Nat) (x : String) (ts ts' : List Token) (node : ASTNode),
      parse_statement (fuel + 1) (.identifier x :: .plain .TOKEN_LPAREN :: ts) =
        .ok (node, ts') →
      ∃ arguments, node = .call_expression x arguments) ∧
    ((∀ (fuel : Nat) (x : String) (ts : List Token),
        (current_token ts).type ≠ .TOKEN_ASSIGN → (current_token ts).type ≠ .TOKEN_LPAREN →
        parse_statement (fuel + 1) (.identifier x :: ts) = .fatal "") ∧
      (∀ (x : String) (ts : List Token),
        (current_token ts).type ≠ .TOKEN_ASSIGN → (current_token ts).type ≠ .TOKEN_LPAREN →
        parse (.identifier x :: ts) = .fatal "")) ∧
    ((tokenize "x;".toList).bind parse = .fatal "" ∧
      (tokenize "x + 1;".toList).bind parse = .fatal "" ∧
      (tokenize "x".toList).bind parse = .fatal "" ∧
      (tokenize "print(1); x;".toList).bind parse = .fatal "" ∧
      (tokenize "if (true) \x7b x; \x7d".toList).bind parse = .fatal "" ∧
      (tokenize "x = 1;".toList).bind parse =
        .ok (.program [.assignment_expression "x" (.literal (.number (.fin 1)))]) ∧
      (tokenize "f(1);".toList).bind parse =
        .ok (.program [.call_expression "f" [.literal (.number (.fin 1))]])) := by
  refine ⟨⟨?_, ?_⟩, ?_, ⟨identifier_statement_fatal, ?_⟩,
    ⟨by decide!, by decide!, by decide!, by decide!, by decide!, by decide!, by decide!⟩⟩
  · intro fuel x ts ts' node h
    rw [parse_statement_identifier] at h
    simp only [parse_identifier_statement, eat_string_value_identifier, bind_ok] at h
    have hc : (current_token (Token.plain .TOKEN_ASSIGN :: ts)).type = .TOKEN_ASSIGN := rfl
    rw [if_pos hc] at h
    obtain ⟨⟨_, ts1⟩, -, h⟩ := bind_eq_ok _ _ _ h
    obtain ⟨⟨value, ts2⟩, -, h⟩ := bind_eq_ok _ _ _ h
    obtain ⟨⟨_, ts3⟩, -, h⟩ := bind_eq_ok _ _ _ h
    have h' : (Outcome.ok (ASTNode.assignment_expression x value, ts3) :
        Outcome (ASTNode × List Token)) = .ok (node, ts') := h
    simp only [Outcome.ok.injEq, Prod.mk.injEq] at h'
    exact ⟨value, h'.1.symm⟩
  · intro fuel x ts ts' value h
    rw [parse_statement_identifier]
    simp only [parse_identifier_statement, eat_string_value_identifier, bind_ok]
    simp [current_token, Token.type, eat, advance_tokens, h, bind_ok]
    rfl
  · intro fuel x ts ts' node h
    rw [parse_statement_identifier] at h
    simp only [parse_identifier_statement, eat_string_value_identifier, bind_ok] at h
    have hc1 : (current_token (Token.plain .TOKEN_LPAREN :: ts)).type ≠ .TOKEN_ASSIGN :=
      fun hh => TokenType.noConfusion hh
    have hc2 : (current_token (Token.plain .TOKEN_LPAREN :: ts)).type = .TOKEN_LPAREN := rfl
    rw [if_neg hc1, if_pos hc2] at h
    obtain ⟨⟨call, ts1⟩, hcall, h⟩ := bind_eq_ok _ _ _ h
    obtain ⟨⟨_, ts2⟩, -, h⟩ := bind_eq_ok _ _ _ h
    have h' : (Outcome.ok (call, ts2) : Outcome (ASTNode × List Token)) = .ok (node, ts') := h
    simp only [Outcome.ok.injEq, Prod.mk.injEq] at h'
    obtain ⟨rfl, -⟩ := h'
    exact parse_function_call_node _ x _ _ _ hcall
  · intro x ts h1 h2
    have hs := identifier_statement_fatal (Token.identifier x :: ts).length x ts h1 h2
    simp only [parse, parse_program, parse_body_loop, bind_ok]
    have hne : (current_token (Token.identifier x :: ts)).type ≠ .TOKEN_EOF :=
      fun hh => TokenType.noConfusion hh
    simp only [hne, ne_eq, not_false_eq_true, if_true, hs]
    rfl

/-- C37 at the tokens of `x;`, of `x + 1;` and of `x = 1;`. -/
theorem identifier_statement_witness :
    (parse_statement 3 [.identifier "x", .plain .TOKEN_SEMICOLON, Token.eof] = .fatal "" ∧
      parse [.identifier "x", .plain .TOKEN_PLUS, .number (.fin 1), .plain .TOKEN_SEMICOLON,
        Token.eof] = .fatal "") ∧
    parse_statement 3 [.identifier "x", .plain .TOKEN_ASSIGN, .number (.fin 1),
        .plain .TOKEN_SEMICOLON, Token.eof] =
      .ok (.assignment_expression "x" (.literal (.number (.fin 1))), [Token.eof]) :=
  ⟨⟨identifier_statement.2.2.1.1 2 "x" [.plain .TOKEN_SEMICOLON, Token.eof] (by decide)
      (by decide),
    identifier_statement.2.2.1.2 "x"
      [.plain .TOKEN_PLUS, .number (.fin 1), .plain .TOKEN_SEMICOLON, Token.eof] (by decide)
      (by decide)⟩,
    identifier_statement.1.2 2 "x" [.number (.fin 1), .plain .TOKEN_SEMICOLON, Token.eof]
      [Token.eof] (.literal (.number (.fin 1))) (by decide!)⟩

/-- C40. The `else` after two `if`.  (1) When the tokens after `if (` are
those of an expression `a`, `)`, `if (`, those of an expression `b`, `)`, those
of a statement `S1`, `else` and those of a statement `S2`, and no `else`
follows, `parse_statement` returns the `if` statement with the test `a` and
without alternate whose consequent is the `if` statement with the test `b`, the
consequent `S1` and the alternate `S2`.  (2) So are the programs
`if (a) if (b) print(1); else print(2);` and, with blocks,
`if (a) if (b) { x = 1; } else { x = 2; }` parsed.  (3) Run with `a` true and `b`
false the first program prints 2, and with `a` false it prints nothing: the
`else` belongs to the second `if`. -/
theorem dangling_else :
    (∀ (fuel : Nat) (tsA tsB ts1 ts2 rest : List Token) (a b S1 S2 : ASTNode),
      parse_expression (fuel + 1) tsA =
        .ok (a, .plain .TOKEN_RPAREN :: .plain .TOKEN_IF :: .plain .TOKEN_LPAREN :: tsB) →
      parse_expression fuel tsB = .ok (b, .plain .TOKEN_RPAREN :: ts1) →
      parse_statement fuel ts1 = .ok (S1, .plain .TOKEN_ELSE :: ts2) →
      parse_statement fuel ts2 = .ok (S2, rest) →
      (current_token rest).type ≠ .TOKEN_ELSE →
      parse_statement (fuel + 2) (.plain .TOKEN_IF :: .plain .TOKEN_LPAREN :: tsA) =
        .ok (.if_statement a (.if_statement b S1 (some S2)) none, rest)) ∧
    (tokenize "if (a) if (b) print(1); else print(2);".toList).bind parse =
      .ok (.program [.if_statement (.identifier "a")
        (.if_statement (.identifier "b") (.print_statement (.literal (.number (.fin 1))))
          (some (.print_statement (.literal (.number (.fin 2)))))) none]) ∧
    (tokenize "if (a) if (b) \x7b x = 1; \x7d else \x7b x = 2; \x7d".toList).bind parse =
      .ok (.program [.if_statement (.identifier "a")
        (.if_statement (.identifier "b")
          (.block_statement [.assignment_expression "x" (.literal (.number (.fin 1)))])
          (some (.block_statement
            [.assignment_expression "x" (.literal (.number (.fin 2)))]))) none]) ∧
    run_output no_files 20
        "let a = true; let b = false; if (a) if (b) print(1); else print(2);" =
      some "2\n" ∧
    run_output no_files 20
        "let a = false; let b = false; if (a) if (b) print(1); else print(2);" =
      some "" := by
  refine ⟨?_, by decide!, by decide!, by decide!, by decide!⟩
  intro fuel tsA tsB ts1 ts2 rest a b S1 S2 hA hB h1 h2 hrest
  have hinner : parse_statement (fuel + 1) (.plain .TOKEN_IF :: .plain .TOKEN_LPAREN :: tsB) =
      .ok (.if_statement b S1 (some S2), rest) := by
    have e : parse_statement (fuel + 1) (.plain .TOKEN_IF :: .plain .TOKEN_LPAREN :: tsB) =
        parse_if_statement (parse_expression fuel) (parse_statement fuel)
          (.plain .TOKEN_IF :: .plain .TOKEN_LPAREN :: tsB) := rfl
    rw [e]
    simp only [parse_if_statement, eat_plain, bind_ok, hB, h1, h2, current_token_cons,
      Token.type, if_true]
    rfl
  have e : parse_statement (fuel + 2) (.plain .TOKEN_IF :: .plain .TOKEN_LPAREN :: tsA) =
      parse_if_statement (parse_expression (fuel + 1)) (parse_statement (fuel + 1))
        (.plain .TOKEN_IF :: .plain .TOKEN_LPAREN :: tsA) := rfl
  rw [e]
  simp only [parse_if_statement, eat_plain, bind_ok, hA, hinner, if_neg hrest]
  rfl

/-- C40 at the tokens of `if (a) if (b) x = 1; else x = 2;`. -/
theorem dangling_else_witness :
    parse_statement 4 [.plain .TOKEN_IF, .plain .TOKEN_LPAREN, .identifier "a",
        .plain .TOKEN_RPAREN, .plain .TOKEN_IF, .plain .TOKEN_LPAREN, .identifier "b",
        .plain .TOKEN_RPAREN, .identifier "x", .plain .TOKEN_ASSIGN, .number (.fin 1),
        .plain .TOKEN_SEMICOLON, .plain .TOKEN_ELSE, .identifier "x", .plain .TOKEN_ASSIGN,
        .number (.fin 2), .plain .TOKEN_SEMICOLON, Token.eof] =
      .ok (.if_statement (.identifier "a")
        (.if_statement (.identifier "b")
          (.assignment_expression "x" (.literal (.number (.fin 1))))
          (some (.assignment_expression "x" (.literal (.number (.fin 2)))))) none,
        [Token.eof]) :=
  dangling_else.1 2
    [.identifier "a", .plain .TOKEN_RPAREN, .plain .TOKEN_IF, .plain .TOKEN_LPAREN,
      .identifier "b", .plain .TOKEN_RPAREN, .identifier "x", .plain .TOKEN_ASSIGN,
      .number (.fin 1), .plain .TOKEN_SEMICOLON, .plain .TOKEN_ELSE, .identifier "x",
      .plain .TOKEN_ASSIGN, .number (.fin 2), .plain .TOKEN_SEMICOLON, Token.eof]
    [.identifier "b", .plain .TOKEN_RPAREN, .identifier "x", .plain .TOKEN_ASSIGN,
      .number (.fin 1), .plain .TOKEN_SEMICOLON, .plain .TOKEN_ELSE, .identifier "x",
      .plain .TOKEN_ASSIGN, .number (.fin 2), .plain .TOKEN_SEMICOLON, Token.eof]
    [.identifier "x", .plain .TOKEN_ASSIGN, .number (.fin 1), .plain .TOKEN_SEMICOLON,
      .plain .TOKEN_ELSE, .identifier "x", .plain .TOKEN_ASSIGN, .number (.fin 2),
      .plain .TOKEN_SEMICOLON, Token.eof]
    [.identifier "x", .plain .TOKEN_ASSIGN, .number (.fin 2), .plain .TOKEN_SEMICOLON,
      Token.eof]
    [Token.eof] (.identifier "a") (.identifier "b")
    (.assignment_expression "x" (.literal (.number (.fin 1))))
    (.assignment_expression "x" (.literal (.number (.fin 2))))
    (by decide!) (by decide!) (by decide!) (by decide!) (by decide)

/-! ## C38: equality of null and of functions -/

/-- C38. Equality on null and on functions.  (1) On two nulls `==` yields the
boolean false and `!=` the boolean true.  (2) On two functions, were they the
same function, `==` yields false and `!=` true.  (3) Numbers other than NaN,
strings and booleans are equal to themselves: they are compared by value.  (4)
With `function f() { }`, whose call yields null, the program
`print(f() == f()); print(f() != f()); print(f == f); print(f != f);` prints
`false`, `true`, `false`, `true`. -/
theorem null_and_function_equality :
    (∀ out : String, binary_operation out "==" .null .null = .ok (.boolean false) ∧
      binary_operation out "!=" .null .null = .ok (.boolean true)) ∧
    (∀ (out name name' : String) (params params' : List String) (body body' : ASTNode)
      (closure closure' : List Nat),
      binary_operation out "==" (.function name params body closure)
          (.function name' params' body' closure') = .ok (.boolean false) ∧
        binary_operation out "!=" (.function name params body closure)
          (.function name' params' body' closure') = .ok (.boolean true)) ∧
    ((∀ (out : String) (q : ℚ),
        binary_operation out "==" (.number (.fin q)) (.number (.fin q)) = .ok (.boolean true)) ∧
      (∀ out s : String,
        binary_operation out "==" (.string s) (.string s) = .ok (.boolean true)) ∧
      (∀ (out : String) (b : Bool),
        binary_operation out "==" (.boolean b) (.boolean b) = .ok (.boolean true))) ∧
    run_output no_files 20
        ("function f() \x7b \x7d print(f() == f()); print(f() != f()); " ++
          "print(f == f); print(f != f);") =
      some "false\ntrue\nfalse\ntrue\n" := by
  refine ⟨fun out => ⟨rfl, rfl⟩, fun _ _ _ _ _ _ _ _ _ => ⟨rfl, rfl⟩, ⟨?_, ?_, ?_⟩, by decide!⟩
  · intro out q
    have e : binary_operation out "==" (.number (.fin q)) (.number (.fin q)) =
        .ok (.boolean (Number.eq (.fin q) (.fin q))) := rfl
    rw [e]
    simp [Number.eq, Number.toRat?]
  · intro out s
    have e : binary_operation out "==" (.string s) (.string s) =
        .ok (.boolean (decide (s = s))) := rfl
    rw [e]
    simp
  · intro out b
    have e : binary_operation out "==" (.boolean b) (.boolean b) =
        .ok (.boolean (decide (b = b))) := rfl
    rw [e]
    simp

/-! ## C39: the parser ends -/

theorem ends_ok {α : Type} (a : α) (ts : List Token) :
    ends_with (Outcome.ok (a, ts)) ts.length 0 :=
  ⟨ok_ne_outOfFuel _, fun b ts' h => by
    simp only [Outcome.ok.injEq, Prod.mk.injEq] at h
    rw [← h.2]; exact Nat.le_refl _⟩

theorem ends_fatal {α : Type} (out : String) (len k : Nat) :
    ends_with (Outcome.fatal out : Outcome (α × List Token)) len k :=
  ⟨fatal_ne_outOfFuel _, fun _ _ h => Outcome.noConfusion h⟩

theorem ends_undefined {α : Type} (len k : Nat) :
    ends_with (Outcome.undefined : Outcome (α × List Token)) len k :=
  ⟨undefined_ne_outOfFuel, fun _ _ h => Outcome.noConfusion h⟩

theorem ends_weaken {α : Type} (r : Outcome (α × List Token)) (len len' k k' : Nat)
    (h : ends_with r len k) (hk : k' ≤ k) (hl : len ≤ len') : ends_with r len' k' :=
  ⟨h.1, fun a ts' hr => by have := h.2 a ts' hr; omega⟩

theorem ends_zero {α : Type} (r : Outcome (α × List Token)) (len k : Nat)
    (h : ends_with r len k) : ends_with r len 0 :=
  ends_weaken r len len k 0 h (Nat.zero_le _) (Nat.le_refl _)

theorem ends_ite {α : Type} (c : Prop) [Decidable c] (a b : Outcome (α × List Token))
    (len k : Nat) (ha : c → ends_with a len k) (hb : ¬c → ends_with b len k) :
    ends_with (if c then a else b) len k := by
  split
  · exact ha ‹_›
  · exact hb ‹_›

/-- Sequencing: when the first part ends and consumes `k` tokens, and what
follows ends, the sequence ends and consumes `k` tokens. -/
theorem ends_bind {α β : Type} (x : Outcome (α × List Token))
    (f : α × List Token → Outcome (β × List Token)) (len k : Nat)
    (hx : ends_with x len k)
    (hf : ∀ a ts1, x = .ok (a, ts1) → ts1.length + k ≤ len →
      ends_with (f (a, ts1)) ts1.length 0) :
    ends_with (x >>= f) len k := by
  cases x with
  | ok p =>
    obtain ⟨a, ts1⟩ := p
    have hl := hx.2 a ts1 rfl
    have h := hf a ts1 rfl hl
    exact ⟨h.1, fun b ts2 hb => by have := h.2 b ts2 hb; omega⟩
  | fatal out => exact ends_fatal out len k
  | undefined => exact ends_undefined len k
  | outOfFuel => exact absurd rfl hx.1

/-- The function `eat` consumes a token. -/
theorem ends_eat (type : TokenType) (ts : List Token) (h : type ≠ .TOKEN_EOF) :
    ends_with (eat type ts) ts.length 1 := by
  unfold eat
  apply ends_ite
  · intro hc
    cases ts with
    | nil => exact absurd hc.symm h
    | cons t ts =>
      refine ⟨ok_ne_outOfFuel _, fun a ts1 hr => ?_⟩
      have hr1 : (Outcome.ok (t, ts) : Outcome (Token × List Token)) = .ok (a, ts1) := hr
      simp only [Outcome.ok.injEq, Prod.mk.injEq] at hr1
      rw [← hr1.2]
      exact Nat.le_refl _
  · intro _
    exact ends_fatal _ _ _

/-- The function `eat_string_value` consumes a token. -/
theorem ends_eat_string_value (type : TokenType) (ts : List Token) (h : type ≠ .TOKEN_EOF) :
    ends_with (eat_string_value type ts) ts.length 1 := by
  have he := ends_eat type ts h
  unfold eat_string_value
  cases hr : eat type ts with
  | ok p =>
    obtain ⟨t, ts1⟩ := p
    have hl := he.2 t ts1 hr
    cases hs : t.string_value? with
    | some s =>
      simp only [hs]
      refine ⟨ok_ne_outOfFuel _, fun a ts2 hr2 => ?_⟩
      simp only [Outcome.ok.injEq, Prod.mk.injEq] at hr2
      rw [← hr2.2]
      exact hl
    | none =>
      simp only [hs]
      exact ends_undefined _ _
  | fatal out => exact ends_fatal _ _ _
  | undefined => exact ends_undefined _ _
  | outOfFuel => exact absurd hr he.1

/-- The token list is not empty when the current token is not the end of
input. -/
theorem length_pos_of_current_token (ts : List Token)
    (h : (current_token ts).type ≠ .TOKEN_EOF) : 0 < ts.length := by
  cases ts with
  | nil => exact absurd rfl h
  | cons t ts => simp

theorem length_advance_tokens (ts : List Token) :
    (advance_tokens ts).length = ts.length - 1 := by
  cases ts <;> simp [advance_tokens]

/-- The loop of `parse_function_call` ends. -/
theorem parse_arguments_loop_ends (pe : Parser ASTNode) (n : Nat) (hpe : parser_ends pe n) :
    ∀ (fuel : Nat) (arguments : List ASTNode) (ts : List Token),
      ts.length < fuel → ts.length ≤ n →
      ends_with (parse_arguments_loop pe fuel arguments ts) ts.length 0 := by
  intro fuel
  induction fuel with
  | zero => intro _ ts h; exact absurd h (Nat.not_lt_zero _)
  | succ fuel ih =>
    intro arguments ts hf hn
    unfold parse_arguments_loop
    apply ends_ite
    · intro hc
      have hpos := length_pos_of_current_token ts (by rw [hc]; decide)
      have hadv := length_advance_tokens ts
      have h1 := hpe (advance_tokens ts) (by omega)
      cases hr : pe (advance_tokens ts) with
      | ok p =>
        obtain ⟨argument, ts1⟩ := p
        have hl := h1.2 argument ts1 hr
        simp only []
        exact ends_weaken _ _ _ _ _ (ih (arguments ++ [argument]) ts1 (by omega) (by omega))
          (Nat.le_refl _) (by omega)
      | fatal out => exact ends_fatal _ _ _
      | undefined => exact ends_undefined _ _
      | outOfFuel => exact absurd hr h1.1
    · intro _
      exact ends_ok _ _

/-- The function `parse_function_call` ends. -/
theorem parse_function_call_ends (pe : Parser ASTNode) (n : Nat) (hpe : parser_ends pe n)
    (name : String) (ts : List Token) (hn : ts.length ≤ n) :
    ends_with (parse_function_call pe name ts) ts.length 1 := by
  unfold parse_function_call
  refine ends_bind _ _ _ 1 (ends_eat _ _ (by decide)) (fun a ts1 _ h1 => ?_)
  dsimp only
  have hend : ∀ (arguments : List ASTNode) (ts2 : List Token),
      ends_with (eat .TOKEN_RPAREN ts2 >>= fun p =>
        (pure (ASTNode.call_expression name arguments, p.2) :
          Outcome (ASTNode × List Token))) ts2.length 0 := by
    intro arguments ts2
    refine ends_bind _ _ _ 0 (ends_zero _ _ _ (ends_eat _ _ (by decide))) (fun b ts3 _ _ => ?_)
    exact ends_ok _ _
  apply ends_ite
  · intro _
    refine ends_bind _ _ _ 0 (ends_zero _ _ _ (hpe ts1 (by omega))) (fun b ts2 _ h2 => ?_)
    dsimp only
    refine ends_bind _ _ _ 0 (parse_arguments_loop_ends pe n hpe _ _ ts2 (Nat.lt_succ_self _)
      (by omega)) (fun c ts3 _ h3 => ?_)
    exact hend c ts3
  · intro _
    exact hend [] ts1

theorem ends_ok_advance (node : ASTNode) (ts : List Token)
    (hne : (current_token ts).type ≠ .TOKEN_EOF) :
    ends_with (Outcome.ok (node, advance_tokens ts)) ts.length 1 := by
  have hpos := length_pos_of_current_token ts hne
  have hadv := length_advance_tokens ts
  refine ⟨ok_ne_outOfFuel _, fun a ts1 hr => ?_⟩
  simp only [Outcome.ok.injEq, Prod.mk.injEq] at hr
  rw [← hr.2]
  omega

/-- The function `parse_primary` ends. -/
theorem parse_primary_ends (pe : Parser ASTNode) (n : Nat) (hpe : parser_ends pe n)
    (ts : List Token) (hn : ts.length ≤ n) :
    ends_with (parse_primary pe ts) ts.length 1 := by
  have hadv := length_advance_tokens ts
  unfold parse_primary
  split
  · rename_i v hc
    exact ends_ok_advance _ ts (by rw [hc]; exact fun h => TokenType.noConfusion h)
  · rename_i s hc
    exact ends_ok_advance _ ts (by rw [hc]; exact fun h => TokenType.noConfusion h)
  · rename_i hc
    exact ends_ok_advance _ ts (by rw [hc]; exact fun h => TokenType.noConfusion h)
  · rename_i hc
    exact ends_ok_advance _ ts (by rw [hc]; exact fun h => TokenType.noConfusion h)
  · rename_i name hc
    have hne : (current_token ts).type ≠ .TOKEN_EOF := by
      rw [hc]; exact fun h => TokenType.noConfusion h
    have hpos := length_pos_of_current_token ts hne
    apply ends_ite
    · intro _
      exact ends_weaken _ _ _ 1 1
        (parse_function_call_ends pe n hpe name (advance_tokens ts) (by omega))
        (Nat.le_refl _) (by omega)
    · intro _
      exact ends_ok_advance _ ts hne
  · rename_i hc
    have hne : (current_token ts).type ≠ .TOKEN_EOF := by
      rw [hc]; exact fun h => TokenType.noConfusion h
    have hpos := length_pos_of_current_token ts hne
    have h1 := hpe (advance_tokens ts) (by omega)
    refine ends_weaken _ _ _ 1 1 (ends_bind _ _ _ 1 h1 (fun a ts1 _ hl => ?_)) (Nat.le_refl _)
      (by omega)
    dsimp only
    refine ends_bind _ _ _ 0 (ends_zero _ _ _ (ends_eat _ _ (by decide))) (fun b ts2 _ _ => ?_)
    exact ends_ok _ _
  · exact ends_undefined _ _
  · exact ends_undefined _ _
  · exact ends_undefined _ _
  · exact ends_fatal _ _ _

/-- The loop of a level of binary operators ends. -/
theorem binary_loop_ends (operator : TokenType → Option String)
    (node : String → ASTNode → ASTNode → ASTNode) (operand : Parser ASTNode) (n : Nat)
    (hoperator : operator .TOKEN_EOF = none)
    (hoperand : ∀ ts : List Token, ts.length ≤ n → ends_with (operand ts) ts.length 1) :
    ∀ (fuel : Nat) (left : ASTNode) (ts : List Token), ts.length < fuel → ts.length ≤ n →
      ends_with (binary_loop operator node operand fuel left ts) ts.length 0 := by
  intro fuel
  induction fuel with
  | zero => intro _ ts h; exact absurd h (Nat.not_lt_zero _)
  | succ fuel ih =>
    intro left ts hf hn
    unfold binary_loop
    cases hop : operator (current_token ts).type with
    | none => exact ends_ok _ _
    | some op =>
      have hne : (current_token ts).type ≠ .TOKEN_EOF := by
        intro h
        rw [h, hoperator] at hop
        exact Option.noConfusion hop
      have hpos := length_pos_of_current_token ts hne
      have hadv := length_advance_tokens ts
      have h1 := hoperand (advance_tokens ts) (by omega)
      simp only []
      cases hr : operand (advance_tokens ts) with
      | ok p =>
        obtain ⟨right, ts1⟩ := p
        have hl := h1.2 right ts1 hr
        simp only []
        exact ends_weaken _ _ _ _ _ (ih (node op left right) ts1 (by omega) (by omega))
          (Nat.le_refl _) (by omega)
      | fatal out => exact ends_fatal _ _ _
      | undefined => exact ends_undefined _ _
      | outOfFuel => exact absurd hr h1.1

/-- A level of binary operators ends. -/
theorem binary_level_ends (operator : TokenType → Option String)
    (node : String → ASTNode → ASTNode → ASTNode) (operand : Parser ASTNode) (n : Nat)
    (hoperator : operator .TOKEN_EOF = none)
    (hoperand : ∀ ts : List Token, ts.length ≤ n → ends_with (operand ts) ts.length 1)
    (ts : List Token) (hn : ts.length ≤ n) :
    ends_with (binary_level operator node operand ts) ts.length 1 := by
  have h1 := hoperand ts hn
  unfold binary_level
  cases hr : operand ts with
  | ok p =>
    obtain ⟨left, ts1⟩ := p
    have hl := h1.2 left ts1 hr
    simp only []
    have h2 := binary_loop_ends operator node operand n hoperator hoperand (ts1.length + 1)
      left ts1 (Nat.lt_succ_self _) (by omega)
    exact ⟨h2.1, fun a ts2 hr2 => by have := h2.2 a ts2 hr2; omega⟩
  | fatal out => exact ends_fatal _ _ _
  | undefined => exact ends_undefined _ _
  | outOfFuel => exact absurd hr h1.1

/-- The function `parse_expression` ends: with fuel `n` it ends on every list
of fewer than `n` tokens, and consumes a token when it returns a node. -/
theorem parse_expression_ends : ∀ n : Nat, parser_ends (parse_expression n) n := by
  intro n
  induction n with
  | zero => intro ts h; exact absurd h (Nat.not_lt_zero _)
  | succ n ih =>
    intro ts h
    have hn : ts.length ≤ n := Nat.le_of_lt_succ h
    exact binary_level_ends _ _ _ n rfl (fun ts hts =>
      binary_level_ends _ _ _ n rfl (fun ts hts =>
        binary_level_ends _ _ _ n rfl (fun ts hts =>
          binary_level_ends _ _ _ n rfl (fun ts hts =>
            binary_level_ends _ _ _ n rfl (fun ts hts =>
              binary_level_ends _ _ _ n rfl (fun ts hts =>
                parse_primary_ends (parse_expression n) n ih ts hts) ts hts) ts hts) ts hts)
          ts hts) ts hts) ts hn

/-- The loop of `parse_program` and of `parse_block_statement` ends. -/
theorem parse_body_loop_ends (stop : TokenType) (ps : Parser ASTNode) (n : Nat)
    (hps : parser_ends ps n) :
    ∀ (fuel : Nat) (body : List ASTNode) (ts : List Token), ts.length < fuel → ts.length < n →
      ends_with (parse_body_loop stop ps fuel body ts) ts.length 0 := by
  intro fuel
  induction fuel with
  | zero => intro _ ts h; exact absurd h (Nat.not_lt_zero _)
  | succ fuel ih =>
    intro body ts hf hn
    unfold parse_body_loop
    apply ends_ite
    · intro _
      have h1 := hps ts hn
      cases hr : ps ts with
      | ok p =>
        obtain ⟨statement, ts1⟩ := p
        have hl := h1.2 statement ts1 hr
        simp only []
        exact ends_weaken _ _ _ _ _ (ih (body ++ [statement]) ts1 (by omega) (by omega))
          (Nat.le_refl _) (by omega)
      | fatal out => exact ends_fatal _ _ _
      | undefined => exact ends_undefined _ _
      | outOfFuel => exact absurd hr h1.1
    · intro _
      exact ends_ok _ _

/-- The function `parse_block_statement` ends. -/
theorem parse_block_statement_ends (ps : Parser ASTNode) (n : Nat) (hps : parser_ends ps n)
    (ts : List Token) (hn : ts.length ≤ n) :
    ends_with (parse_block_statement ps ts) ts.length 1 := by
  unfold parse_block_statement
  refine ends_bind _ _ _ 1 (ends_eat _ _ (by decide)) (fun a ts1 _ h1 => ?_)
  dsimp only
  refine ends_bind _ _ _ 0 (parse_body_loop_ends _ ps n hps _ _ ts1 (Nat.lt_succ_self _)
    (by omega)) (fun b ts2 _ h2 => ?_)
  dsimp only
  refine ends_bind _ _ _ 0 (ends_zero _ _ _ (ends_eat _ _ (by decide))) (fun c ts3 _ _ => ?_)
  exact ends_ok _ _

/-- The function `parse_variable_declaration` ends. -/
theorem parse_variable_declaration_ends (pe : Parser ASTNode) (n : Nat)
    (hpe : parser_ends pe n) (ts : List Token) (hn : ts.length ≤ n) :
    ends_with (parse_variable_declaration pe ts) ts.length 1 := by
  unfold parse_variable_declaration
  refine ends_bind _ _ _ 1 (ends_eat _ _ (by decide)) (fun a ts1 _ h1 => ?_)
  dsimp only
  refine ends_bind _ _ _ 0 (ends_zero _ _ _ (ends_eat_string_value _ _ (by decide)))
    (fun b ts2 _ h2 => ?_)
  dsimp only
  refine ends_bind _ _ _ 0 (ends_zero _ _ _ (ends_eat _ _ (by decide))) (fun c ts3 _ h3 => ?_)
  dsimp only
  refine ends_bind _ _ _ 0 (ends_zero _ _ _ (hpe ts3 (by omega))) (fun d ts4 _ h4 => ?_)
  dsimp only
  refine ends_bind _ _ _ 0 (ends_zero _ _ _ (ends_eat _ _ (by decide))) (fun e ts5 _ _ => ?_)
  exact ends_ok _ _

/-- The function `parse_if_statement` ends. -/
theorem parse_if_statement_ends (pe ps : Parser ASTNode) (n : Nat)
    (hpe : parser_ends pe n) (hps : parser_ends ps n) (ts : List Token) (hn : ts.length ≤ n) :
    ends_with (parse_if_statement pe ps ts) ts.length 1 := by
  unfold parse_if_statement
  refine ends_bind _ _ _ 1 (ends_eat _ _ (by decide)) (fun a ts1 _ h1 => ?_)
  dsimp only
  refine ends_bind _ _ _ 0 (ends_zero _ _ _ (ends_eat _ _ (by decide))) (fun b ts2 _ h2 => ?_)
  dsimp only
  refine ends_bind _ _ _ 0 (ends_zero _ _ _ (hpe ts2 (by omega))) (fun c ts3 _ h3 => ?_)
  dsimp only
  refine ends_bind _ _ _ 0 (ends_zero _ _ _ (ends_eat _ _ (by decide))) (fun d ts4 _ h4 => ?_)
  dsimp only
  refine ends_bind _ _ _ 0 (ends_zero _ _ _ (hps ts4 (by omega))) (fun e ts5 _ h5 => ?_)
  dsimp only
  apply ends_ite
  · intro _
    refine ends_bind _ _ _ 0 (ends_zero _ _ _ (ends_eat _ _ (by decide)))
      (fun f ts6 _ h6 => ?_)
    dsimp only
    refine ends_bind _ _ _ 0 (ends_zero _ _ _ (hps ts6 (by omega))) (fun g ts7 _ _ => ?_)
    exact ends_ok _ _
  · intro _
    exact ends_ok _ _

/-- The function `parse_while_statement` ends. -/
theorem parse_while_statement_ends (pe ps : Parser ASTNode) (n : Nat)
    (hpe : parser_ends pe n) (hps : parser_ends ps n) (ts : List Token) (hn : ts.length ≤ n) :
    ends_with (parse_while_statement pe ps ts) ts.length 1 := by
  unfold parse_while_statement
  refine ends_bind _ _ _ 1 (ends_eat _ _ (by decide)) (fun a ts1 _ h1 => ?_)
  dsimp only
  refine ends_bind _ _ _ 0 (ends_zero _ _ _ (ends_eat _ _ (by decide))) (fun b ts2 _ h2 => ?_)
  dsimp only
  refine ends_bind _ _ _ 0 (ends_zero _ _ _ (hpe ts2 (by omega))) (fun c ts3 _ h3 => ?_)
  dsimp only
  refine ends_bind _ _ _ 0 (ends_zero _ _ _ (ends_eat _ _ (by decide))) (fun d ts4 _ h4 => ?_)
  dsimp only
  refine ends_bind _ _ _ 0 (ends_zero _ _ _ (hps ts4 (by omega))) (fun e ts5 _ _ => ?_)
  exact ends_ok _ _

/-- The loop of `parse_function_declaration` ends. -/
theorem parse_params_loop_ends :
    ∀ (fuel : Nat) (params : List String) (ts : List Token), ts.length < fuel →
      ends_with (parse_params_loop fuel params ts) ts.length 0 := by
  intro fuel
  induction fuel with
  | zero => intro _ ts h; exact absurd h (Nat.not_lt_zero _)
  | succ fuel ih =>
    intro params ts hf
    unfold parse_params_loop
    apply ends_ite
    · intro hc
      have hpos := length_pos_of_current_token ts (by rw [hc]; decide)
      have hadv := length_advance_tokens ts
      have h1 := ends_eat_string_value .TOKEN_IDENTIFIER (advance_tokens ts) (by decide)
      cases hr : eat_string_value .TOKEN_IDENTIFIER (advance_tokens ts) with
      | ok p =>
        obtain ⟨param, ts1⟩ := p
        have hl := h1.2 param ts1 hr
        simp only []
        apply ends_ite
        · intro _
          exact ends_weaken _ _ _ _ _ (ih (params ++ [param]) ts1 (by omega)) (Nat.le_refl _)
            (by omega)
        · intro _
          exact ends_undefined _ _
      | fatal out => exact ends_fatal _ _ _
      | undefined => exact ends_undefined _ _
      | outOfFuel => exact absurd hr h1.1
    · intro _
      exact ends_ok _ _

/-- The function `parse_function_declaration` ends. -/
theorem parse_function_declaration_ends (ps : Parser ASTNode) (n : Nat)
    (hps : parser_ends ps n) (ts : List Token) (hn : ts.length ≤ n) :
    ends_with (parse_function_declaration ps ts) ts.length 1 := by
  unfold parse_function_declaration
  refine ends_bind _ _ _ 1 (ends_eat _ _ (by decide)) (fun a ts1 _ h1 => ?_)
  dsimp only
  refine ends_bind _ _ _ 0 (ends_zero _ _ _ (ends_eat_string_value _ _ (by decide)))
    (fun b ts2 _ h2 => ?_)
  dsimp only
  refine ends_bind _ _ _ 0 (ends_zero _ _ _ (ends_eat _ _ (by decide))) (fun c ts3 _ h3 => ?_)
  dsimp only
  have hend : ∀ (params : List String) (ts4 : List Token), ts4.length < n →
      ends_with (eat .TOKEN_RPAREN ts4 >>= fun p => ps p.2 >>= fun q =>
        (pure (ASTNode.function_declaration b params q.1, q.2) :
          Outcome (ASTNode × List Token))) ts4.length 0 := by
    intro params ts4 h4
    refine ends_bind _ _ _ 0 (ends_zero _ _ _ (ends_eat _ _ (by decide)))
      (fun d ts5 _ h5 => ?_)
    dsimp only
    refine ends_bind _ _ _ 0 (ends_zero _ _ _ (hps ts5 (by omega))) (fun e ts6 _ _ => ?_)
    exact ends_ok _ _
  apply ends_ite
  · intro _
    refine ends_bind _ _ _ 0 (ends_zero _ _ _ (ends_eat_string_value _ _ (by decide)))
      (fun d ts4 _ h4 => ?_)
    dsimp only
    refine ends_bind _ _ _ 0 (parse_params_loop_ends _ _ ts4 (Nat.lt_succ_self _))
      (fun e ts5 _ h5 => ?_)
    exact hend e ts5 (by omega)
  · intro _
    exact hend [] ts3 (by omega)

/-- The function `parse_return_statement` ends. -/
theorem parse_return_statement_ends (pe : Parser ASTNode) (n : Nat)
    (hpe : parser_ends pe n) (ts : List Token) (hn : ts.length ≤ n) :
    ends_with (parse_return_statement pe ts) ts.length 1 := by
  unfold parse_return_statement
  refine ends_bind _ _ _ 1 (ends_eat _ _ (by decide)) (fun a ts1 _ h1 => ?_)
  dsimp only
  refine ends_bind _ _ _ 0 (ends_zero _ _ _ (hpe ts1 (by omega))) (fun b ts2 _ h2 => ?_)
  dsimp only
  refine ends_bind _ _ _ 0 (ends_zero _ _ _ (ends_eat _ _ (by decide))) (fun c ts3 _ _ => ?_)
  exact ends_ok _ _

/-- The function `parse_print_statement` ends. -/
theorem parse_print_statement_ends (pe : Parser ASTNode) (n : Nat)
    (hpe : parser_ends pe n) (ts : List Token) (hn : ts.length ≤ n) :
    ends_with (parse_print_statement pe ts) ts.length 1 := by
  unfold parse_print_statement
  refine ends_bind _ _ _ 1 (ends_eat _ _ (by decide)) (fun a ts1 _ h1 => ?_)
  dsimp only
  refine ends_bind _ _ _ 0 (ends_zero _ _ _ (ends_eat _ _ (by decide))) (fun b ts2 _ h2 => ?_)
  dsimp only
  refine ends_bind _ _ _ 0 (ends_zero _ _ _ (hpe ts2 (by omega))) (fun c ts3 _ h3 => ?_)
  dsimp only
  refine ends_bind _ _ _ 0 (ends_zero _ _ _ (ends_eat _ _ (by decide))) (fun d ts4 _ h4 => ?_)
  dsimp only
  refine ends_bind _ _ _ 0 (ends_zero _ _ _ (ends_eat _ _ (by decide))) (fun e ts5 _ _ => ?_)
  exact ends_ok _ _

/-- The function `parse_import_statement` ends. -/
theorem parse_import_statement_ends (ts : List Token) :
    ends_with (parse_import_statement ts) ts.length 1 := by
  unfold parse_import_statement
  refine ends_bind _ _ _ 1 (ends_eat _ _ (by decide)) (fun a ts1 _ h1 => ?_)
  dsimp only
  refine ends_bind _ _ _ 0 (ends_zero _ _ _ (ends_eat _ _ (by decide))) (fun b ts2 _ h2 => ?_)
  dsimp only
  refine ends_bind _ _ _ 0 (ends_zero _ _ _ (ends_eat_string_value _ _ (by decide)))
    (fun c ts3 _ h3 => ?_)
  dsimp only
  refine ends_bind _ _ _ 0 (ends_zero _ _ _ (ends_eat _ _ (by decide))) (fun d ts4 _ h4 => ?_)
  dsimp only
  refine ends_bind _ _ _ 0 (ends_zero _ _ _ (ends_eat _ _ (by decide))) (fun e ts5 _ _ => ?_)
  exact ends_ok _ _

/-- The case `TOKEN_IDENTIFIER` of `parse_statement` ends. -/
theorem parse_identifier_statement_ends (pe : Parser ASTNode) (n : Nat)
    (hpe : parser_ends pe n) (ts : List Token) (hn : ts.length ≤ n) :
    ends_with (parse_identifier_statement pe ts) ts.length 1 := by
  unfold parse_identifier_statement
  refine ends_bind _ _ _ 1 (ends_eat_string_value _ _ (by decide)) (fun a ts1 _ h1 => ?_)
  dsimp only
  apply ends_ite
  · intro _
    refine ends_bind _ _ _ 0 (ends_zero _ _ _ (ends_eat _ _ (by decide)))
      (fun b ts2 _ h2 => ?_)
    dsimp only
    refine ends_bind _ _ _ 0 (ends_zero _ _ _ (hpe ts2 (by omega))) (fun c ts3 _ h3 => ?_)
    dsimp only
    refine ends_bind _ _ _ 0 (ends_zero _ _ _ (ends_eat _ _ (by decide)))
      (fun d ts4 _ _ => ?_)
    exact ends_ok _ _
  · intro _
    apply ends_ite
    · intro _
      refine ends_bind _ _ _ 0
        (ends_zero _ _ _ (parse_function_call_ends pe n hpe a ts1 (by omega)))
        (fun b ts2 _ h2 => ?_)
      dsimp only
      refine ends_bind _ _ _ 0 (ends_zero _ _ _ (ends_eat _ _ (by decide)))
        (fun c ts3 _ _ => ?_)
      exact ends_ok _ _
    · intro _
      exact ends_fatal _ _ _

/-- The function `parse_statement` ends: with fuel `n` it ends on every list of
fewer than `n` tokens, and consumes a token when it returns a statement. -/
theorem parse_statement_ends : ∀ n : Nat, parser_ends (parse_statement n) n := by
  intro n
  induction n with
  | zero => intro ts h; exact absurd h (Nat.not_lt_zero _)
  | succ n ih =>
    intro ts h
    have hn : ts.length ≤ n := Nat.le_of_lt_succ h
    have hpe := parse_expression_ends n
    unfold parse_statement
    split
    · exact parse_variable_declaration_ends _ n hpe ts hn
    · exact parse_if_statement_ends _ _ n hpe ih ts hn
    · exact parse_while_statement_ends _ _ n hpe ih ts hn
    · exact parse_function_declaration_ends _ n ih ts hn
    · exact parse_return_statement_ends _ n hpe ts hn
    · exact parse_print_statement_ends _ n hpe ts hn
    · exact parse_import_statement_ends ts
    · exact parse_identifier_statement_ends _ n hpe ts hn
    · exact parse_block_statement_ends _ n ih ts hn
    · exact ends_fatal _ _ _

/-- The function `parse` ends, and what it returns is a program node. -/
theorem parse_ends (ts : List Token) :
    parse ts ≠ .outOfFuel ∧ ∀ node, parse ts = .ok node → ∃ body, node = .program body := by
  have h := parse_body_loop_ends .TOKEN_EOF (parse_statement (ts.length + 1)) (ts.length + 1)
    (parse_statement_ends _) (ts.length + 1) [] ts (Nat.lt_succ_self _) (Nat.lt_succ_self _)
  unfold parse parse_program
  cases hr : parse_body_loop .TOKEN_EOF (parse_statement (ts.length + 1)) (ts.length + 1) [] ts
    with
  | ok p =>
    obtain ⟨body, ts1⟩ := p
    refine ⟨fun hh => Outcome.noConfusion hh, fun node hnode => ?_⟩
    have hnode1 : (Outcome.ok (ASTNode.program body) : Outcome ASTNode) = .ok node := hnode
    simp only [Outcome.ok.injEq] at hnode1
    exact ⟨body, hnode1.symm⟩
  | fatal out =>
    exact ⟨fun hh => Outcome.noConfusion hh, fun node hnode => Outcome.noConfusion hnode⟩
  | undefined =>
    exact ⟨fun hh => Outcome.noConfusion hh, fun node hnode => Outcome.noConfusion hnode⟩
  | outOfFuel => exact absurd hr h.1


/-- A run of `;` is tokenized to as many tokens, by the loop of `tokenize`. -/
theorem tokenize_loop_semicolons :
    ∀ (k n : Nat), k < n →
      tokenize_loop n (List.replicate k ';') =
        .ok (List.replicate k (.plain .TOKEN_SEMICOLON) ++ [Token.eof]) := by
  intro k
  induction k with
  | zero =>
    intro n hn
    cases n with
    | zero => exact absurd hn (Nat.not_lt_zero _)
    | succ n => rfl
  | succ k ih =>
    intro n hn
    cases n with
    | zero => exact absurd hn (Nat.not_lt_zero _)
    | succ n =>
      have hg : get_next_token (List.replicate (k + 1) ';') =
          .ok (.plain .TOKEN_SEMICOLON, List.replicate k ';') := by
        rw [List.replicate_succ]
        simp only [get_next_token, List.length_cons, get_next_token_loop]
        repeat rw [if_neg (by decide)]
        rw [if_neg (by simp), if_neg (by simp)]
        repeat rw [if_neg (by decide)]
        rw [if_pos trivial]
      have hne : (Token.plain .TOKEN_SEMICOLON).type ≠ .TOKEN_EOF :=
        fun h => TokenType.noConfusion h
      simp only [tokenize_loop, hg, hne, if_false, ih n (by omega)]
      rfl

theorem token_capacity_1024 : token_capacity 1024 = 1024 := by decide!

/-- C39, what the code does.  (1) `tokenize` ends on every input and `parse`
on every list of tokens: the fuel they take is enough.  (2) What `parse` returns
is a program node; so the front end ends with an error, with a program node,
or in a write past the end of a buffer.  (3) Every pass of the loop of
`get_next_token` at white space or at a comment leaves a shorter input, and so
does every call that returns a token other than the end of input.  (4) Every
call of `parse_statement` that returns a statement consumes a token.  (5) The
block `{ let x = 1;` that is not closed ends in a parse error.  (6) The failing
inputs: an identifier of 256 letters, and a text of 1024 tokens, for which the
end-of-input token is written past the end of the array of tokens. -/
theorem front_end_total :
    ((∀ input : List Char, tokenize input ≠ .outOfFuel) ∧
      (∀ ts : List Token, parse ts ≠ .outOfFuel) ∧
      (∀ input : List Char, (tokenize input).bind parse ≠ .outOfFuel)) ∧
    ((∀ (ts : List Token) (node : ASTNode), parse ts = .ok node →
        ∃ body, node = .program body) ∧
      (∀ input : List Char, (∃ out, (tokenize input).bind parse = .fatal out) ∨
        (∃ body, (tokenize input).bind parse = .ok (.program body)) ∨
        (tokenize input).bind parse = .undefined)) ∧
    ((∀ (c : Char) (rest : List Char), isspace c = true →
        (skip_whitespace (c :: rest)).length < (c :: rest).length) ∧
      (∀ (c : Char) (rest : List Char),
        (rest.dropWhile (fun x => decide (x ≠ '\n'))).length < (c :: rest).length) ∧
      (∀ (cs rest : List Char) (t : Token), (∀ c ∈ cs, c ≠ '\x00') →
        get_next_token cs = .ok (t, rest) → t.type ≠ .TOKEN_EOF → rest.length < cs.length)) ∧
    (∀ (n : Nat) (ts ts1 : List Token) (node : ASTNode), ts.length < n →
      parse_statement n ts = .ok (node, ts1) → ts1.length < ts.length) ∧
    (tokenize "\x7b let x = 1;".toList).bind parse = .fatal "" ∧
    ((tokenize (List.replicate 256 'a')).bind parse = .undefined ∧
      (tokenize (List.replicate 1024 ';')).bind parse = .undefined) := by
  have hfront : ∀ input : List Char, (tokenize input).bind parse ≠ .outOfFuel ∧
      ((∃ out, (tokenize input).bind parse = .fatal out) ∨
        (∃ body, (tokenize input).bind parse = .ok (.program body)) ∨
        (tokenize input).bind parse = .undefined) := by
    intro input
    cases ht : tokenize input with
    | ok tokens =>
      have hp := parse_ends tokens
      have e : (Outcome.ok tokens).bind parse = parse tokens := rfl
      rw [e]
      refine ⟨hp.1, ?_⟩
      cases hr : parse tokens with
      | ok node =>
        obtain ⟨body, rfl⟩ := hp.2 node hr
        exact Or.inr (Or.inl ⟨body, rfl⟩)
      | fatal out => exact Or.inl ⟨out, rfl⟩
      | undefined => exact Or.inr (Or.inr rfl)
      | outOfFuel => exact absurd hr hp.1
    | fatal out => exact ⟨fun h => Outcome.noConfusion h, Or.inl ⟨out, rfl⟩⟩
    | undefined => exact ⟨fun h => Outcome.noConfusion h, Or.inr (Or.inr rfl)⟩
    | outOfFuel => exact absurd ht (tokenize_ends input)
  refine ⟨⟨tokenize_ends, fun ts => (parse_ends ts).1, fun input => (hfront input).1⟩,
    ⟨fun ts => (parse_ends ts).2, fun input => (hfront input).2⟩, ⟨?_, ?_, ?_⟩, ?_, by decide!,
    ⟨?_, ?_⟩⟩
  · intro c rest hc
    have h := length_dropWhile_le isspace rest
    have e : skip_whitespace (c :: rest) = rest.dropWhile isspace := by
      simp [skip_whitespace, List.dropWhile_cons, hc]
    rw [e, List.length_cons]
    omega
  · intro c rest
    have h := length_dropWhile_le (fun x => decide (x ≠ '\n')) rest
    rw [List.length_cons]
    omega
  · intro cs rest t hnul h ht
    exact (get_next_token_consumes cs rest t hnul h ht).1
  · intro n ts ts1 node hn h
    have := (parse_statement_ends n ts hn).2 node ts1 h
    omega
  · have h := get_next_token_run 'a' (List.replicate 255 'a') [] (by decide)
      (fun x hx => by rw [List.eq_of_mem_replicate hx]; decide)
      (fun x hx => Option.noConfusion hx)
    rw [if_neg (by rw [List.length_cons, List.length_replicate]; omega)] at h
    have e : List.replicate 256 'a' = 'a' :: List.replicate 255 'a' ++ [] := by
      rw [List.append_nil]
      rfl
    have hc : create_lexer (List.replicate 256 'a') = List.replicate 256 'a' :=
      takeWhile_eq_self_of_all _ _
        (fun x hx => by rw [List.eq_of_mem_replicate hx]; decide)
    rw [← e] at h
    have ht : tokenize (List.replicate 256 'a') = .undefined := by
      unfold tokenize
      rw [hc, tokenize_loop_undefined _ _ h]
    rw [ht]
    rfl
  · have hc : create_lexer (List.replicate 1024 ';') = List.replicate 1024 ';' :=
      takeWhile_eq_self_of_all _ _
        (fun x hx => by rw [List.eq_of_mem_replicate hx]; decide)
    have ht : tokenize (List.replicate 1024 ';') = .undefined := by
      unfold tokenize
      rw [hc, tokenize_loop_semicolons 1024 ((List.replicate 1024 ';').length + 1)
        (by rw [List.length_replicate]; omega)]
      have hl : (List.replicate 1024 (Token.plain .TOKEN_SEMICOLON) ++ [Token.eof]).length - 1 =
          1024 := by
        rw [List.length_append, List.length_replicate]
        rfl
      simp only [hl, token_capacity_1024, Nat.lt_irrefl, if_false]
    rw [ht]
    rfl

/-- C39 at the tokens of `{ let x = 1;`: the call of `parse_statement` for the
`let` consumes tokens. -/
theorem front_end_total_witness :
    ([Token.plain .TOKEN_LET, .identifier "x", .plain .TOKEN_ASSIGN, .number (.fin 1),
        .plain .TOKEN_SEMICOLON, Token.eof].length < 7 ∧
      parse_statement 7 [.plain .TOKEN_LET, .identifier "x", .plain .TOKEN_ASSIGN,
          .number (.fin 1), .plain .TOKEN_SEMICOLON, Token.eof] =
        .ok (.variable_declaration "x" (.literal (.number (.fin 1))), [Token.eof])) ∧
    [Token.eof].length <
      [Token.plain .TOKEN_LET, .identifier "x", .plain .TOKEN_ASSIGN, .number (.fin 1),
        .plain .TOKEN_SEMICOLON, Token.eof].length :=
  ⟨⟨by decide, by decide!⟩,
    front_end_total.2.2.2.1 7
      [.plain .TOKEN_LET, .identifier "x", .plain .TOKEN_ASSIGN, .number (.fin 1),
        .plain .TOKEN_SEMICOLON, Token.eof]
      [Token.eof] (.variable_declaration "x" (.literal (.number (.fin 1)))) (by decide)
      (by decide!)⟩

/-! ## C31: what an import leaves -/

/-- A relation on the globals that holds for the steps that change them holds
for the loop that binds the parameters. -/
theorem bind_parameters_invariant (R : Globals → Globals → Prop)
    (hrefl : ∀ g, R g g) (htrans : ∀ g g1 g2, R g g1 → R g1 g2 → R g g2)
    (hdefine : ∀ g s x v, R g (define_variable g s x v)) (local_scope : Nat) :
    ∀ (params : List String) (args : List Value) (g : Globals),
      R g (bind_parameters local_scope params args g) := by
  intro params
  induction params with
  | nil => intro args g; cases args <;> exact hrefl g
  | cons p params ih =>
    intro args g
    cases args with
    | nil =>
      simp only [bind_parameters]
      exact htrans _ _ _ (hdefine g _ _ _) (ih _ _)
    | cons a args =>
      simp only [bind_parameters]
      exact htrans _ _ _ (hdefine g _ _ _) (ih _ _)

theorem evaluate_program_invariant (R : Globals → Globals → Prop)
    (hrefl : ∀ g, R g g) (htrans : ∀ g g1 g2, R g g1 → R g1 g2 → R g g2) (ev : Eval)
    (hev : ∀ node i g v i' g', ev node i g = .ok (v, i', g') → R g g') :
    ∀ (body : List ASTNode) (r : Value) (i : Interpreter) (g : Globals) (v : Value)
      (i' : Interpreter) (g' : Globals),
      evaluate_program ev body r i g = .ok (v, i', g') → R g g' := by
  intro body
  induction body with
  | nil =>
    intro r i g v i' g' h
    simp only [evaluate_program, Outcome.ok.injEq, Prod.mk.injEq] at h
    obtain ⟨_, rfl, rfl⟩ := h
    exact hrefl _
  | cons s body ih =>
    intro r i g v i' g' h
    simp only [evaluate_program] at h
    split at h
    · rename_i r1 i1 g1 hs
      have h1 := hev _ _ _ _ _ _ hs
      split at h
      · simp only [Outcome.ok.injEq, Prod.mk.injEq] at h
        obtain ⟨_, rfl, rfl⟩ := h
        exact h1
      · exact htrans _ _ _ h1 (ih _ _ _ _ _ _ h)
    all_goals simp at h

theorem evaluate_block_body_invariant (R : Globals → Globals → Prop)
    (hrefl : ∀ g, R g g) (htrans : ∀ g g1 g2, R g g1 → R g1 g2 → R g g2) (ev : Eval)
    (hev : ∀ node i g v i' g', ev node i g = .ok (v, i', g') → R g g') :
    ∀ (body : List ASTNode) (r : Value) (i : Interpreter) (g : Globals) (v : Value)
      (i' : Interpreter) (g' : Globals),
      evaluate_block_body ev body r i g = .ok (v, i', g') → R g g' := by
  intro body
  induction body with
  | nil =>
    intro r i g v i' g' h
    simp only [evaluate_block_body, Outcome.ok.injEq, Prod.mk.injEq] at h
    obtain ⟨_, rfl, rfl⟩ := h
    exact hrefl _
  | cons s body ih =>
    intro r i g v i' g' h
    simp only [evaluate_block_body] at h
    split at h
    · rename_i r1 i1 g1 hs
      have h1 := hev _ _ _ _ _ _ hs
      split at h
      · simp only [Outcome.ok.injEq, Prod.mk.injEq] at h
        obtain ⟨_, rfl, rfl⟩ := h
        exact h1
      · exact htrans _ _ _ h1 (ih _ _ _ _ _ _ h)
    all_goals simp at h

theorem evaluate_arguments_invariant (R : Globals → Globals → Prop)
    (hrefl : ∀ g, R g g) (htrans : ∀ g g1 g2, R g g1 → R g1 g2 → R g g2) (ev : Eval)
    (hev : ∀ node i g v i' g', ev node i g = .ok (v, i', g') → R g g') :
    ∀ (arguments : List ASTNode) (args : List Value) (i : Interpreter) (g : Globals)
      (vs : List Value) (i' : Interpreter) (g' : Globals),
      evaluate_arguments ev arguments args i g = .ok (vs, i', g') → R g g' := by
  intro arguments
  induction arguments with
  | nil =>
    intro args i g vs i' g' h
    simp only [evaluate_arguments, Outcome.ok.injEq, Prod.mk.injEq] at h
    obtain ⟨_, rfl, rfl⟩ := h
    exact hrefl _
  | cons s rest ih =>
    intro args i g vs i' g' h
    simp only [evaluate_arguments] at h
    split at h
    · rename_i r1 i1 g1 hs
      exact htrans _ _ _ (hev _ _ _ _ _ _ hs) (ih _ _ _ _ _ _ h)
    all_goals simp at h

theorem evaluate_while_invariant (R : Globals → Globals → Prop)
    (htrans : ∀ g g1 g2, R g g1 → R g1 g2 → R g g2) (ev : Eval)
    (hev : ∀ node i g v i' g', ev node i g = .ok (v, i', g') → R g g')
    (test body : ASTNode) :
    ∀ (fuel : Nat) (r : Value) (i : Interpreter) (g : Globals) (v : Value)
      (i' : Interpreter) (g' : Globals),
      evaluate_while_statement ev test body fuel r i g = .ok (v, i', g') → R g g' := by
  intro fuel
  induction fuel with
  | zero => intro r i g v i' g' h; simp [evaluate_while_statement] at h
  | succ n ih =>
    intro r i g v i' g' h
    simp only [evaluate_while_statement] at h
    split at h
    · rename_i i1 g1 ht
      have h1 := hev _ _ _ _ _ _ ht
      split at h
      · rename_i r2 i2 g2 hb
        have h2 := htrans _ _ _ h1 (hev _ _ _ _ _ _ hb)
        split at h
        · simp only [Outcome.ok.injEq, Prod.mk.injEq] at h
          obtain ⟨_, rfl, rfl⟩ := h
          exact h2
        · exact htrans _ _ _ h2 (ih _ _ _ _ _ _ h)
      all_goals simp at h
    · rename_i t i1 g1 _ ht
      simp only [Outcome.ok.injEq, Prod.mk.injEq] at h
      obtain ⟨_, rfl, rfl⟩ := h
      exact hev _ _ _ _ _ _ ht
    all_goals simp at h

/-- A reflexive and transitive relation on the globals that holds for the
steps that change them holds from the start to the end of every evaluation. -/
theorem evaluate_invariant (R : Globals → Globals → Prop)
    (hrefl : ∀ g, R g g) (htrans : ∀ g g1 g2, R g g1 → R g1 g2 → R g g2)
    (hdefine : ∀ g s x v, R g (define_variable g s x v))
    (hset : ∀ (g : Globals) ref v, R g (g.set_value_at ref v))
    (hcreate : ∀ g, R g (create_scope g).2)
    (hprint : ∀ (g : Globals) text, R g (g.print text))
    (himport : ∀ g f, R g (add_imported_file g f))
    (read_file : String → Option String) :
    ∀ (fuel : Nat) (node : ASTNode) (i : Interpreter) (g : Globals) (v : Value)
      (i' : Interpreter) (g' : Globals),
      evaluate read_file fuel node i g = .ok (v, i', g') → R g g' := by
  intro fuel
  induction fuel with
  | zero => intro node i g v i' g' h; simp [evaluate] at h
  | succ n ih =>
    intro node i g v i' g' h
    cases node with
    | program body =>
      exact evaluate_program_invariant R hrefl htrans _ ih _ _ _ _ _ _ _ h
    | block_statement body =>
      simp only [evaluate, evaluate_block_statement] at h
      split at h
      · rename_i r i1 g1 hb
        simp only [Outcome.ok.injEq, Prod.mk.injEq] at h
        obtain ⟨_, rfl, rfl⟩ := h
        exact htrans _ _ _ (hcreate g)
          (evaluate_block_body_invariant R hrefl htrans _ ih _ _ _ _ _ _ _ hb)
      all_goals simp at h
    | variable_declaration name value =>
      simp only [evaluate, evaluate_variable_declaration] at h
      split at h
      · rename_i r i1 g1 hv
        split at h
        · simp only [Outcome.ok.injEq, Prod.mk.injEq] at h
          obtain ⟨_, rfl, rfl⟩ := h
          exact htrans _ _ _ (ih _ _ _ _ _ _ hv) (hdefine _ _ _ _)
        · simp at h
      all_goals simp at h
    | assignment_expression name value =>
      simp only [evaluate, evaluate_assignment_expression] at h
      split at h
      · rename_i r i1 g1 hv
        split at h
        · simp only [Outcome.ok.injEq, Prod.mk.injEq] at h
          obtain ⟨_, rfl, rfl⟩ := h
          exact htrans _ _ _ (ih _ _ _ _ _ _ hv) (hset _ _ _)
        · simp at h
      all_goals simp at h
    | binary_expression operator left right =>
      simp only [evaluate, evaluate_binary_expression] at h
      split at h
      · rename_i l i1 g1 hl
        split at h
        · rename_i r i2 g2 hr
          split at h
          · simp only [Outcome.ok.injEq, Prod.mk.injEq] at h
            obtain ⟨_, rfl, rfl⟩ := h
            exact htrans _ _ _ (ih _ _ _ _ _ _ hl) (ih _ _ _ _ _ _ hr)
          all_goals simp at h
        all_goals simp at h
      all_goals simp at h
    | logical_expression operator left right =>
      simp only [evaluate, evaluate_logical_expression] at h
      split at h
      · rename_i l i1 g1 hl
        have h1 := ih _ _ _ _ _ _ hl
        split at h
        · split at h
          · simp only [Outcome.ok.injEq, Prod.mk.injEq] at h
            obtain ⟨_, rfl, rfl⟩ := h
            exact h1
          · split at h
            · rename_i r i2 g2 hr
              simp only [Outcome.ok.injEq, Prod.mk.injEq] at h
              obtain ⟨_, rfl, rfl⟩ := h
              exact htrans _ _ _ h1 (ih _ _ _ _ _ _ hr)
            all_goals simp at h
        · split at h
          · split at h
            · simp only [Outcome.ok.injEq, Prod.mk.injEq] at h
              obtain ⟨_, rfl, rfl⟩ := h
              exact h1
            · split at h
              · rename_i r i2 g2 hr
                simp only [Outcome.ok.injEq, Prod.mk.injEq] at h
                obtain ⟨_, rfl, rfl⟩ := h
                exact htrans _ _ _ h1 (ih _ _ _ _ _ _ hr)
              all_goals simp at h
          · simp at h
      all_goals simp at h
    | literal value =>
      simp only [evaluate, evaluate_literal] at h
      split at h <;>
      · simp only [Outcome.ok.injEq, Prod.mk.injEq] at h
        obtain ⟨_, rfl, rfl⟩ := h
        exact hrefl _
    | identifier name =>
      simp only [evaluate, evaluate_identifier] at h
      split at h
      · simp only [Outcome.ok.injEq, Prod.mk.injEq] at h
        obtain ⟨_, rfl, rfl⟩ := h
        exact hrefl _
      · simp at h
    | if_statement test consequent alternate =>
      simp only [evaluate, evaluate_if_statement] at h
      split at h
      · rename_i t i1 g1 ht
        have h1 := ih _ _ _ _ _ _ ht
        split at h
        · exact htrans _ _ _ h1 (ih _ _ _ _ _ _ h)
        · exact htrans _ _ _ h1 (ih _ _ _ _ _ _ h)
        · simp only [Outcome.ok.injEq, Prod.mk.injEq] at h
          obtain ⟨_, rfl, rfl⟩ := h
          exact h1
      all_goals simp at h
    | while_statement test body =>
      exact evaluate_while_invariant R htrans _ ih _ _ _ _ _ _ _ _ _ h
    | function_declaration name params body =>
      simp only [evaluate, evaluate_function_declaration] at h
      split at h
      · simp only [Outcome.ok.injEq, Prod.mk.injEq] at h
        obtain ⟨_, rfl, rfl⟩ := h
        exact hdefine _ _ _ _
      · simp at h
    | call_expression name arguments =>
      simp only [evaluate, evaluate_call_expression] at h
      split at h
      · simp at h
      · split at h
        · split at h
          · rename_i args i1 g1 ha
            have h1 := evaluate_arguments_invariant R hrefl htrans _ ih _ _ _ _ _ _ _ ha
            split at h
            · split at h
              · rename_i r i2 g2 hb
                have h2 := ih _ _ _ _ _ _ hb
                have h3 : R g g2 :=
                  htrans _ _ _ h1 (htrans _ _ _ (htrans _ _ _ (hcreate g1)
                    (bind_parameters_invariant R hrefl htrans hdefine _ _ _ _)) h2)
                split at h
                · simp only [Outcome.ok.injEq, Prod.mk.injEq] at h
                  obtain ⟨_, rfl, rfl⟩ := h
                  exact h3
                · simp only [Outcome.ok.injEq, Prod.mk.injEq] at h
                  obtain ⟨_, rfl, rfl⟩ := h
                  exact h3
              all_goals simp at h
            · simp at h
          all_goals simp at h
        · simp at h
    | return_statement argument =>
      simp only [evaluate, evaluate_return_statement] at h
      split at h
      · rename_i r i1 g1 hv
        simp only [Outcome.ok.injEq, Prod.mk.injEq] at h
        obtain ⟨_, rfl, rfl⟩ := h
        exact ih _ _ _ _ _ _ hv
      all_goals simp at h
    | print_statement argument =>
      simp only [evaluate, evaluate_print_statement] at h
      split at h
      · rename_i r i1 g1 hv
        simp only [Outcome.ok.injEq, Prod.mk.injEq] at h
        obtain ⟨_, rfl, rfl⟩ := h
        exact htrans _ _ _ (ih _ _ _ _ _ _ hv) (hprint _ _)
      all_goals simp at h
    | import_statement path =>
      simp only [evaluate, evaluate_import_statement] at h
      split at h
      · simp only [Outcome.ok.injEq, Prod.mk.injEq] at h
        obtain ⟨_, rfl, rfl⟩ := h
        exact hrefl _
      · split at h
        · simp at h
        · split at h
          · rename_i r g1 hp
            simp only [Outcome.ok.injEq, Prod.mk.injEq] at h
            obtain ⟨_, rfl, rfl⟩ := h
            simp only [process_import] at hp
            split at hp
            · split at hp
              · split at hp
                · split at hp
                  · rename_i r2 i2 g2 he
                    split at hp
                    · simp only [Outcome.ok.injEq, Prod.mk.injEq] at hp
                      obtain ⟨_, rfl⟩ := hp
                      exact htrans _ _ _ (himport _ _)
                        (htrans _ _ _ (hcreate _) (ih _ _ _ _ _ _ he))
                    · simp at hp
                  all_goals simp at hp
                · simp at hp
              all_goals simp at hp
            all_goals simp at hp
          all_goals simp at h

theorem scopes_grow_refl (g : Globals) : scopes_grow g g :=
  ⟨Nat.le_refl _, fun _ _ _ h => h⟩

theorem scopes_grow_trans (g g1 g2 : Globals) (h1 : scopes_grow g g1)
    (h2 : scopes_grow g1 g2) : scopes_grow g g2 :=
  ⟨Nat.le_trans h1.1 h2.1, fun s x j h => h2.2 s x j (h1.2 s x j h)⟩

theorem scopes_grow_define_variable (g : Globals) (s : Nat) (x : String) (v : Value) :
    scopes_grow g (define_variable g s x v) := by
  refine ⟨Nat.le_of_eq (define_variable_length g s x v).symm, fun t y j h => ?_⟩
  by_cases hts : t = s
  · subst hts
    have hlt := scope_lt_of_index_of g t y j h
    rw [scope_define_variable_same g t x v hlt]
    exact index_of_append_some _ _ y j h
  · rw [scope_define_variable_other g s t x v hts]
    exact h

theorem findIdx_modify_value (v : Value) (x : String) :
    ∀ (entries : List (String × Value)) (k i : Nat),
      List.findIdx? (fun e => decide (e.1 = x)) (entries.modify (fun e => (e.1, v)) k) i =
        List.findIdx? (fun e => decide (e.1 = x)) entries i := by
  intro entries
  induction entries with
  | nil => intro k i; cases k <;> rfl
  | cons e entries ih =>
    intro k i
    cases k with
    | zero => simp only [List.modify_zero_cons, List.findIdx?_cons]
    | succ k => simp only [List.modify_succ_cons, List.findIdx?_cons, ih k (i + 1)]

/-- An assignment to a value keeps the names of a scope. -/
theorem index_of_modify_value (v : Value) (x : String) (entries : List (String × Value))
    (k : Nat) :
    (Scope.mk (entries.modify (fun e => (e.1, v)) k)).index_of x =
      (Scope.mk entries).index_of x := by
  simp only [Scope.index_of]
  exact findIdx_modify_value v x entries k 0

theorem set_value_at_length (g : Globals) (ref : Nat × Nat) (v : Value) :
    (g.set_value_at ref v).scopes.length = g.scopes.length := by
  simp [Globals.set_value_at]

theorem scopes_grow_set_value_at (g : Globals) (ref : Nat × Nat) (v : Value) :
    scopes_grow g (g.set_value_at ref v) := by
  refine ⟨Nat.le_of_eq (set_value_at_length g ref v).symm, fun t y j h => ?_⟩
  by_cases hts : t = ref.1
  · have hlt := scope_lt_of_index_of g t y j h
    obtain ⟨s, k⟩ := ref
    simp only at hts
    subst hts
    have e := set_value_at_scope_same g t k v hlt
    have e2 : (g.set_value_at (t, k) v).scope t =
        ⟨(g.scope t).entries.modify (fun e => (e.1, v)) k⟩ := by
      rw [← e]
    rw [e2, index_of_modify_value]
    exact h
  · rw [set_value_at_scope_other g ref v t hts]
    exact h

theorem scopes_grow_create_scope (g : Globals) : scopes_grow g (create_scope g).2 := by
  refine ⟨by simp [create_scope], fun t y j h => ?_⟩
  have hlt := scope_lt_of_index_of g t y j h
  have e : (create_scope g).2.scope t = g.scope t := by
    simp only [Globals.scope, create_scope, List.getD_eq_getElem?_getD]
    rw [List.getElem?_append_left hlt]
  rw [e]
  exact h

/-- No evaluation loses a scope or a binding. -/
theorem evaluate_scopes_grow (read_file : String → Option String) (fuel : Nat)
    (node : ASTNode) (i : Interpreter) (g : Globals) (v : Value) (i' : Interpreter)
    (g' : Globals) (h : evaluate read_file fuel node i g = .ok (v, i', g')) :
    scopes_grow g g' :=
  evaluate_invariant scopes_grow scopes_grow_refl scopes_grow_trans scopes_grow_define_variable
    scopes_grow_set_value_at scopes_grow_create_scope (fun g _ => scopes_grow_refl g)
    (fun g _ => scopes_grow_refl g) read_file fuel node i g v i' g' h

/-- A name is bound in a scope once it is defined there. -/
theorem index_of_define_variable (g : Globals) (s : Nat) (x : String) (v : Value)
    (hs : s < g.scopes.length) :
    ∃ j, ((define_variable g s x v).scope s).index_of x = some j := by
  rw [scope_define_variable_same g s x v hs]
  cases h : (g.scope s).index_of x with
  | some j => exact ⟨j, index_of_append_some _ _ x j h⟩
  | none =>
    have h' : (Scope.mk (g.scope s).entries).index_of x = none := h
    rw [index_of_append_none _ _ x h']
    refine ⟨0 + (g.scope s).entries.length, ?_⟩
    simp [Scope.index_of, List.findIdx?_cons]

theorem get_current_scope_singleton (i : Interpreter) (s : Nat) (h : i.scope_stack = [s]) :
    get_current_scope i = some s := by
  simp [get_current_scope, h]

/-- A statement of the top level that declares a name binds it in the single
scope of the stack. -/
theorem declaration_binds (read_file : String → Option String) (fuel : Nat)
    (statement : ASTNode) (i i1 : Interpreter) (g g1 : Globals) (v : Value) (s : Nat)
    (x : String) (hi : i.scope_stack = [s]) (hs : s < g.scopes.length)
    (h : evaluate read_file fuel statement i g = .ok (v, i1, g1))
    (hx : x ∈ declared_names [statement]) :
    ∃ j, (g1.scope s).index_of x = some j := by
  cases fuel with
  | zero => simp [evaluate] at h
  | succ n =>
    cases statement with
    | variable_declaration name value =>
      simp only [declared_names, List.mem_singleton] at hx
      subst hx
      simp only [evaluate, evaluate_variable_declaration] at h
      split at h
      · rename_i r i2 g2 hv
        have hst : i2.scope_stack = [s] := by
          rw [evaluate_scope_stack read_file n _ _ _ _ _ _ hv]; exact hi
        have hg := evaluate_scopes_grow read_file n _ _ _ _ _ _ hv
        rw [get_current_scope_singleton i2 s hst] at h
        simp only [Outcome.ok.injEq, Prod.mk.injEq] at h
        obtain ⟨_, _, rfl⟩ := h
        exact index_of_define_variable g2 s x r (Nat.lt_of_lt_of_le hs hg.1)
      all_goals simp at h
    | function_declaration name params body =>
      simp only [declared_names, List.mem_singleton] at hx
      subst hx
      simp only [evaluate, evaluate_function_declaration] at h
      rw [get_current_scope_singleton i s hi] at h
      simp only [Outcome.ok.injEq, Prod.mk.injEq] at h
      obtain ⟨_, _, rfl⟩ := h
      exact index_of_define_variable g s x _ hs
    | _ => simp [declared_names] at hx

theorem declared_names_cons (statement : ASTNode) (body : List ASTNode) :
    declared_names (statement :: body) = declared_names [statement] ++ declared_names body := by
  cases statement <;> rfl

/-- The names that the statements of a program declare are bound in the single
scope of the stack when the evaluation of the program ends, provided no
`return` statement is among them. -/
theorem program_declarations_bound (read_file : String → Option String) (fuel : Nat) :
    ∀ (body : List ASTNode) (r : Value) (i i1 : Interpreter) (g g1 : Globals) (v : Value)
      (s : Nat), i.scope_stack = [s] → s < g.scopes.length → i.has_return = false →
      ASTNode.return_free_list body = true →
      evaluate_program (evaluate read_file fuel) body r i g = .ok (v, i1, g1) →
      ∀ x ∈ declared_names body, ∃ j, (g1.scope s).index_of x = some j := by
  intro body
  induction body with
  | nil => intro r i i1 g g1 v s _ _ _ _ _ x hx; simp [declared_names] at hx
  | cons statement body ih =>
    intro r i i1 g g1 v s hi hs hret hfree h x hx
    simp only [ASTNode.return_free_list, Bool.and_eq_true] at hfree
    simp only [evaluate_program] at h
    split at h
    · rename_i r2 i2 g2 hst
      have hstack : i2.scope_stack = [s] := by
        rw [evaluate_scope_stack read_file fuel _ _ _ _ _ _ hst]; exact hi
      have hgrow := evaluate_scopes_grow read_file fuel _ _ _ _ _ _ hst
      have hret2 : i2.has_return = false :=
        evaluate_return_flag read_file fuel _ _ _ _ _ _ hst hfree.1 hret
      rw [hret2] at h
      simp only [Bool.false_eq_true, if_false] at h
      have hgrow2 := evaluate_program_invariant scopes_grow scopes_grow_refl scopes_grow_trans
        _ (evaluate_scopes_grow read_file fuel) _ _ _ _ _ _ _ h
      rw [declared_names_cons, List.mem_append] at hx
      rcases hx with hx | hx
      · obtain ⟨j, hj⟩ := declaration_binds read_file fuel statement i i2 g g2 r2 s x hi hs
          hst hx
        exact ⟨j, hgrow2.2 s x j hj⟩
      · exact ih r2 i2 i1 g2 g1 v s hstack (Nat.lt_of_lt_of_le hs hgrow.1) hret2 hfree.2 h x hx
    all_goals simp at h

/-- The function `evaluate_import_statement` for a file that is not imported
yet and is read, tokenized and parsed. -/
theorem evaluate_import_statement_eq (read_file : String → Option String) (ev : Eval)
    (path code : String) (tokens : List Token) (ast : ASTNode) (i : Interpreter)
    (g : Globals) (s : Nat)
    (himp : is_file_imported g (i.base_dir ++ "/" ++ path) = false)
    (hread : read_file (i.base_dir ++ "/" ++ path) = some code)
    (htok : tokenize code.toList = .ok tokens) (hparse : parse tokens = .ok ast)
    (hs : get_current_scope i = some s) :
    evaluate_import_statement read_file ev path i g =
      match ev ast
          { scope_stack := [s], return_value := .null, has_return := false,
            base_dir := (directory_of (i.base_dir ++ "/" ++ path)).getD i.base_dir }
          (create_scope (add_imported_file g (i.base_dir ++ "/" ++ path))).2 with
      | .ok (result, interpreter, g1) =>
        if interpreter.scope_stack.length = 0 then .ok (result, i, g1) else .undefined
      | .fatal out => .fatal out
      | .undefined => .undefined
      | .outOfFuel => .outOfFuel := by
  simp only [evaluate_import_statement, himp, hread, process_import, hs, create_interpreter]
  simp only [add_imported_file, htok, hparse]
  cases ev ast _ _ with
  | ok x =>
    obtain ⟨r, i1, g1⟩ := x
    by_cases hl : i1.scope_stack.length = 0 <;> simp [hl]
  | fatal out => simp
  | undefined => simp
  | outOfFuel => simp

/-- No import statement for a file that is not imported yet returns. -/
theorem import_never_returns (read_file : String → Option String) (fuel : Nat)
    (path : String) (i i1 : Interpreter) (g g1 : Globals) (v : Value)
    (himp : is_file_imported g (i.base_dir ++ "/" ++ path) = false) :
    evaluate read_file fuel (.import_statement path) i g ≠ .ok (v, i1, g1) := by
  intro h
  cases fuel with
  | zero => simp [evaluate] at h
  | succ n =>
    simp only [evaluate, evaluate_import_statement, himp] at h
    simp only [Bool.false_eq_true, if_false] at h
    split at h
    · simp at h
    · split at h
      · rename_i r g2 hp
        simp only [process_import] at hp
        split at hp
        · split at hp
          · split at hp
            · split at hp
              · rename_i r2 i2 g3 he
                have hst := evaluate_scope_stack read_file n _ _ _ _ _ _ he
                rw [hst] at hp
                simp at hp
              all_goals simp at hp
            · simp at hp
          all_goals simp at hp
        all_goals simp at hp
      all_goals simp at h

/-- C31, what the code does.  (1) For a file that is not imported yet and is
read, tokenized and parsed, the import statement has the program evaluated by
a new interpreter whose scope stack holds one scope, the innermost scope of the
importer, and whose `base_dir` is the directory of the file; were its scope
stack empty at the end, the statement would return with the interpreter of the
importer as it was, `base_dir` included.  (2) When the evaluation of a program
without `return` statement at its top level ends, from a stack that holds the
one scope `s`, every name that a `let` or a function declaration of its top
level declares is bound in `s`, and a lookup by an importer whose innermost
scope is `s` finds it there.  (3) But when the evaluation of the imported
program ends, the import statement reads through the null pointer it wrote in
the scope stack: the behaviour is undefined.  (4) So no import statement for a
file that is not imported yet returns.  (5) With `lib.as` being
`let x = 1; function f() { }`, the evaluation of the imported program binds `x`
and `f` in the global scope, and the run of `import("lib.as"); print(x);` is
undefined. -/
theorem import_visibility :
    (∀ (read_file : String → Option String) (ev : Eval) (path code : String)
      (tokens : List Token) (ast : ASTNode) (i : Interpreter) (g : Globals) (s : Nat),
      is_file_imported g (i.base_dir ++ "/" ++ path) = false →
      read_file (i.base_dir ++ "/" ++ path) = some code →
      tokenize code.toList = .ok tokens → parse tokens = .ok ast →
      get_current_scope i = some s →
      evaluate_import_statement read_file ev path i g =
        match ev ast
            { scope_stack := [s], return_value := .null, has_return := false,
              base_dir := (directory_of (i.base_dir ++ "/" ++ path)).getD i.base_dir }
            (create_scope (add_imported_file g (i.base_dir ++ "/" ++ path))).2 with
        | .ok (result, interpreter, g1) =>
          if interpreter.scope_stack.length = 0 then .ok (result, i, g1) else .undefined
        | .fatal out => .fatal out
        | .undefined => .undefined
        | .outOfFuel => .outOfFuel) ∧
    (∀ (read_file : String → Option String) (fuel : Nat) (body : List ASTNode)
      (i0 i1 importer : Interpreter) (g0 g1 : Globals) (v : Value) (s : Nat),
      i0.scope_stack = [s] → i0.has_return = false → s < g0.scopes.length →
      ASTNode.return_free_list body = true →
      evaluate read_file (fuel + 1) (.program body) i0 g0 = .ok (v, i1, g1) →
      get_current_scope importer = some s →
      ∀ x ∈ declared_names body, ∃ j, (g1.scope s).index_of x = some j ∧
        lookup_variable importer g1 x = some (s, j)) ∧
    (∀ (read_file : String → Option String) (fuel : Nat) (path code : String)
      (tokens : List Token) (ast : ASTNode) (i i1 : Interpreter) (g g1 : Globals) (s : Nat)
      (v : Value),
      is_file_imported g (i.base_dir ++ "/" ++ path) = false →
      read_file (i.base_dir ++ "/" ++ path) = some code →
      tokenize code.toList = .ok tokens → parse tokens = .ok ast →
      get_current_scope i = some s →
      evaluate read_file fuel ast
          { scope_stack := [s], return_value := .null, has_return := false,
            base_dir := (directory_of (i.base_dir ++ "/" ++ path)).getD i.base_dir }
          (create_scope (add_imported_file g (i.base_dir ++ "/" ++ path))).2 =
        .ok (v, i1, g1) →
      evaluate read_file (fuel + 1) (.import_statement path) i g = .undefined) ∧
    (∀ (read_file : String → Option String) (fuel : Nat) (path : String)
      (i i1 : Interpreter) (g g1 : Globals) (v : Value),
      is_file_imported g (i.base_dir ++ "/" ++ path) = false →
      evaluate read_file fuel (.import_statement path) i g ≠ .ok (v, i1, g1)) ∧
    ((tokenize "let x = 1; function f() \x7b \x7d".toList).bind parse =
        .ok (.program [.variable_declaration "x" (.literal (.number (.fin 1))),
          .function_declaration "f" [] (.block_statement [])]) ∧
      evaluate declaring_files 18
          (.program [.variable_declaration "x" (.literal (.number (.fin 1))),
            .function_declaration "f" [] (.block_statement [])])
          { scope_stack := [0], return_value := .null, has_return := false, base_dir := "." }
          { scopes := [⟨[]⟩, ⟨[]⟩], imported_files := ["./lib.as"], stdout := "" } =
        .ok (.function "f" [] (.block_statement []) [0],
          { scope_stack := [0], return_value := .null, has_return := false, base_dir := "." },
          { scopes := [⟨[("x", .number (.fin 1)),
              ("f", .function "f" [] (.block_statement []) [0])]⟩, ⟨[]⟩],
            imported_files := ["./lib.as"], stdout := "" }) ∧
      run_interpreter declaring_files 20 "import(\"lib.as\"); print(x);" = .undefined) := by
  refine ⟨evaluate_import_statement_eq, ?_, ?_, import_never_returns,
    ⟨by decide!, by decide!, by decide!⟩⟩
  · intro read_file fuel body i0 i1 importer g0 g1 v s hi hret hs hfree h hcur x hx
    obtain ⟨j, hj⟩ := program_declarations_bound read_file fuel body .null i0 i1 g0 g1 v s hi hs
      hret hfree h x hx
    exact ⟨j, hj, lookup_variable_current importer g1 s x j hcur hj⟩
  · intro read_file fuel path code tokens ast i i1 g g1 s v himp hread htok hparse hs he
    have hst := evaluate_scope_stack read_file fuel _ _ _ _ _ _ he
    have e : evaluate read_file (fuel + 1) (.import_statement path) i g =
        evaluate_import_statement read_file (evaluate read_file fuel) path i g := rfl
    rw [e, evaluate_import_statement_eq read_file _ path code tokens ast i g s himp hread htok
      hparse hs, he]
    simp [hst]

/-- C31 at the program `let x = 1; function f() { }` evaluated from the stack
`[0]`: the names `x` and `f` are bound in the scope 0 and are found by an
importer at the top level. -/
theorem import_visibility_witness :
    ∃ j, ((Globals.mk [⟨[("x", .number (.fin 1)),
        ("f", .function "f" [] (.block_statement []) [0])]⟩, ⟨[]⟩] ["./lib.as"] "").scope
          0).index_of "f" = some j ∧
      lookup_variable (top_level .null)
        (Globals.mk [⟨[("x", .number (.fin 1)),
          ("f", .function "f" [] (.block_statement []) [0])]⟩, ⟨[]⟩] ["./lib.as"] "") "f" =
        some (0, j) :=
  import_visibility.2.1 declaring_files 17
    [.variable_declaration "x" (.literal (.number (.fin 1))),
      .function_declaration "f" [] (.block_statement [])]
    { scope_stack := [0], return_value := .null, has_return := false, base_dir := "." }
    { scope_stack := [0], return_value := .null, has_return := false, base_dir := "." }
    (top_level .null)
    { scopes := [⟨[]⟩, ⟨[]⟩], imported_files := ["./lib.as"], stdout := "" }
    (Globals.mk [⟨[("x", .number (.fin 1)),
      ("f", .function "f" [] (.block_statement []) [0])]⟩, ⟨[]⟩] ["./lib.as"] "")
    (.function "f" [] (.block_statement []) [0]) 0 rfl rfl (by decide) (by decide)
    (by decide!) (by decide) "f" (by decide)

/-! ## C6: two imports of one file -/

/-- The directory of `base_dir/path` is `base_dir` when `path` has no slash. -/
theorem directory_of_plain (base_dir path : String) (h : '/' ∉ path.toList) :
    directory_of (base_dir ++ "/" ++ path) = some base_dir := by
  have hcs : (base_dir ++ "/" ++ path).toList = base_dir.toList ++ ('/' :: path.toList) := by
    show (base_dir ++ "/" ++ path).data = base_dir.data ++ ('/' :: path.data)
    simp [String.data_append]
  have hc : (base_dir.toList ++ ('/' :: path.toList)).contains '/' = true := by simp
  have hdrop : List.dropWhile (fun c => decide (c ≠ '/')) path.toList.reverse = [] := by
    rw [List.dropWhile_eq_nil_iff]
    intro c hc
    have : c ≠ '/' := fun e => h (e ▸ List.mem_reverse.mp hc)
    simpa using this
  have hrev : (base_dir.toList ++ ('/' :: path.toList)).reverse =
      path.toList.reverse ++ ('/' :: base_dir.toList.reverse) := by simp
  simp only [directory_of, hcs, hc, if_true, hrev]
  rw [List.dropWhile_append, hdrop]
  simp [List.dropWhile_cons]

/-- A program that begins with the import of a file not imported yet does not
end. -/
theorem import_first_never_returns (read_file : String → Option String) (fuel : Nat)
    (path : String) (rest : List ASTNode) (i i1 : Interpreter) (g g1 : Globals) (v : Value)
    (himp : is_file_imported g (i.base_dir ++ "/" ++ path) = false) :
    evaluate read_file fuel (.program (.import_statement path :: rest)) i g ≠
      .ok (v, i1, g1) := by
  intro h
  cases fuel with
  | zero => simp [evaluate] at h
  | succ n =>
    simp only [evaluate, evaluate_program] at h
    split at h
    · rename_i r i2 g2 hs
      exact import_never_returns read_file n path i i2 g g2 r himp hs
    all_goals simp at h

/-- C6. Importing a file twice, what the code does.  (1) An import statement
whose resolved path `base_dir/path` is in the set of imported files returns
null and leaves the interpreter and the globals (bindings, output, the set) as
they were, whatever `read_file` would return: no file is read.  (2) An import
of a file that is not in the set, and is read, tokenized and parsed, adds the
path to the set and then has the program of the file evaluated, once, in a
state where the path is in the set; when the path has no slash, the
interpreter of that evaluation resolves the same path to the same file.  When
that evaluation ends, the import statement reads through the null pointer it
wrote in the scope stack: the behaviour is undefined.  (3) No evaluation
removes a path from the set or changes `base_dir`.  (4) So an import statement
of the same path that is evaluated while the file is evaluated, after any
evaluation, is such a no-op: the statements of the file are evaluated once.
(5) But an import statement of the same path that follows the first one is not
reached: a program that begins with the import of a file that is not in the
set does not end.  (6) The file `./a.as` being `import("a.as"); print(1);`, the
program of the file, evaluated in the state that `import("a.as");` of the main
file sets up, prints `1` once, and the main file
`import("a.as"); import("a.as");` is undefined. -/
theorem import_idempotence :
    (∀ (read_file : String → Option String) (fuel : Nat) (path : String) (i : Interpreter)
        (g : Globals),
      is_file_imported g (i.base_dir ++ "/" ++ path) = true →
      evaluate read_file (fuel + 1) (.import_statement path) i g = .ok (.null, i, g)) ∧
    (∀ (read_file : String → Option String) (fuel : Nat) (path code : String)
        (ast : ASTNode) (i : Interpreter) (g : Globals) (s : Nat),
      is_file_imported g (i.base_dir ++ "/" ++ path) = false →
      read_file (i.base_dir ++ "/" ++ path) = some code →
      (tokenize code.toList).bind parse = .ok ast →
      get_current_scope i = some s →
      is_file_imported (create_scope (add_imported_file g (i.base_dir ++ "/" ++ path))).2
          (i.base_dir ++ "/" ++ path) = true ∧
        ('/' ∉ path.toList →
          (directory_of (i.base_dir ++ "/" ++ path)).getD i.base_dir = i.base_dir) ∧
        evaluate read_file (fuel + 1) (.import_statement path) i g =
          match evaluate read_file fuel ast
              { scope_stack := [s], return_value := .null, has_return := false,
                base_dir := (directory_of (i.base_dir ++ "/" ++ path)).getD i.base_dir }
              (create_scope (add_imported_file g (i.base_dir ++ "/" ++ path))).2 with
          | .ok _ => .undefined
          | .fatal out => .fatal out
          | .undefined => .undefined
          | .outOfFuel => .outOfFuel) ∧
    (∀ (read_file : String → Option String) (fuel : Nat) (node : ASTNode)
        (i i1 : Interpreter) (g g1 : Globals) (v : Value),
      evaluate read_file fuel node i g = .ok (v, i1, g1) → import_stable i g i1 g1) ∧
    (∀ (read_file : String → Option String) (fuel1 fuel2 : Nat) (path : String)
        (node : ASTNode) (i i1 : Interpreter) (g g1 : Globals) (v : Value),
      is_file_imported g (i.base_dir ++ "/" ++ path) = true →
      evaluate read_file fuel1 node i g = .ok (v, i1, g1) →
      evaluate read_file (fuel2 + 1) (.import_statement path) i1 g1 = .ok (.null, i1, g1)) ∧
    (∀ (read_file : String → Option String) (fuel : Nat) (path : String)
        (rest : List ASTNode) (i i1 : Interpreter) (g g1 : Globals) (v : Value),
      is_file_imported g (i.base_dir ++ "/" ++ path) = false →
      evaluate read_file fuel (.program (.import_statement path :: rest)) i g ≠
        .ok (v, i1, g1)) ∧
    ((tokenize "import(\"a.as\"); print(1);".toList).bind parse =
        .ok (.program [.import_statement "a.as",
          .print_statement (.literal (.number (.fin 1)))]) ∧
      evaluate self_import_files 10
          (.program [.import_statement "a.as", .print_statement (.literal (.number (.fin 1)))])
          { scope_stack := [0], return_value := .null, has_return := false, base_dir := "." }
          (create_scope (add_imported_file (create_interpreter Globals.initial).2
            "./a.as")).2 =
        .ok (.number (.fin 1),
          { scope_stack := [0], return_value := .null, has_return := false, base_dir := "." },
          { scopes := [⟨[]⟩, ⟨[]⟩], imported_files := ["./a.as"], stdout := "1\n" }) ∧
      run_interpreter self_import_files 20 "import(\"a.as\"); import(\"a.as\");" =
        .undefined) := by
  refine ⟨import_noop, ?_, ?_, ?_, import_first_never_returns,
    ⟨by decide!, by decide!, by decide!⟩⟩
  · intro read_file fuel path code ast i g s himp hread hast hs
    obtain ⟨tokens, htok, hparse⟩ := bind_eq_ok _ _ _ hast
    refine ⟨by simp [is_file_imported, add_imported_file, create_scope],
      fun hp => by rw [directory_of_plain _ _ hp]; rfl, ?_⟩
    have e : evaluate read_file (fuel + 1) (.import_statement path) i g =
        evaluate_import_statement read_file (evaluate read_file fuel) path i g := rfl
    rw [e, evaluate_import_statement_eq read_file _ path code tokens ast i g s himp hread htok
      hparse hs]
    cases he : evaluate read_file fuel ast
        { scope_stack := [s], return_value := .null, has_return := false,
          base_dir := (directory_of (i.base_dir ++ "/" ++ path)).getD i.base_dir }
        (create_scope (add_imported_file g (i.base_dir ++ "/" ++ path))).2 with
    | ok x =>
      obtain ⟨r, i1, g1⟩ := x
      have hst := evaluate_scope_stack read_file fuel _ _ _ _ _ _ he
      simp [hst]
    | fatal out => rfl
    | undefined => rfl
    | outOfFuel => rfl
  · intro read_file fuel node i i1 g g1 v h
    exact evaluate_import_stable read_file fuel node i g v i1 g1 h
  · intro read_file fuel1 fuel2 path node i i1 g g1 v hreg h
    obtain ⟨hdir, hkeep⟩ := evaluate_import_stable read_file fuel1 node i g v i1 g1 h
    apply import_noop
    rw [hdir]
    exact hkeep _ hreg

/-- C6 at the main file `import("a.as");` of a new run, the file `./a.as` being
`import("a.as"); print(1);`: the path is not in the set, the import adds it and
has the program of the file evaluated in the state of part (6), where the import
statement of the file is a no-op; when that evaluation ends the behaviour is
undefined. -/
theorem import_idempotence_witness :
    is_file_imported (create_scope (add_imported_file (create_interpreter Globals.initial).2
        ((top_level .null).base_dir ++ "/" ++ "a.as"))).2
        ((top_level .null).base_dir ++ "/" ++ "a.as") = true ∧
    evaluate self_import_files 11 (.import_statement "a.as") (top_level .null)
        (create_interpreter Globals.initial).2 = .undefined :=
  ⟨(import_idempotence.2.1 self_import_files 10 "a.as" "import(\"a.as\"); print(1);"
      (.program [.import_statement "a.as", .print_statement (.literal (.number (.fin 1)))])
      (top_level .null) (create_interpreter Globals.initial).2 0 (by decide!) (by decide!)
      (by decide!) (by decide!)).1,
    ((import_idempotence.2.1 self_import_files 10 "a.as" "import(\"a.as\"); print(1);"
      (.program [.import_statement "a.as", .print_statement (.literal (.number (.fin 1)))])
      (top_level .null) (create_interpreter Globals.initial).2 0 (by decide!) (by decide!)
      (by decide!) (by decide!)).2.2).trans (by decide!)⟩

/-! ## C3: closures -/

/-- The value written by an assignment is the value of the binding. -/
theorem value_at_set_value_at (g : Globals) (s j : Nat) (x : String) (v : Value)
    (h : (g.scope s).index_of x = some j) :
    (g.set_value_at (s, j) v).value_at (s, j) = v := by
  have hs := scope_lt_of_index_of g s x j h
  obtain ⟨w, hw⟩ := index_of_get (g.scope s).entries x j h
  simp only [Globals.value_at, set_value_at_scope_same g s j v hs, List.get?_eq_getElem?,
    List.getElem?_modify_eq, hw]
  rfl

/-- An assignment to another binding leaves the value of a binding. -/
theorem value_at_set_value_at_other (g : Globals) (ref other : Nat × Nat) (v : Value)
    (h : other ≠ ref) : (g.set_value_at ref v).value_at other = g.value_at other := by
  obtain ⟨s, j⟩ := ref
  obtain ⟨t, k⟩ := other
  by_cases hts : t = s
  · subst hts
    have hkj : k ≠ j := fun e => h (by rw [e])
    by_cases hlen : t < g.scopes.length
    · simp only [Globals.value_at, set_value_at_scope_same g t j v hlen, List.get?_eq_getElem?]
      rw [List.getElem?_modify_ne _ _ (Ne.symm hkj)]
    · have e1 : g.scope t = ⟨[]⟩ := by
        simp only [Globals.scope, List.getD_eq_getElem?_getD]
        rw [List.getElem?_eq_none (by omega)]
        rfl
      have e2 : (g.set_value_at (t, j) v).scope t = ⟨[]⟩ := by
        simp only [Globals.scope, List.getD_eq_getElem?_getD]
        rw [List.getElem?_eq_none (by rw [set_value_at_length]; omega)]
        rfl
      simp only [Globals.value_at, e1, e2]
  · simp only [Globals.value_at]
    rw [set_value_at_scope_other g (s, j) v t hts]

/-- The binding that the body of a call finds for a name that a scope `s` of the
closure of the callee binds, when no scope of the closure after `s` binds it. -/
theorem enter_function_lookup (front inner : List Nat) (params : List String)
    (args : List Value) (i : Interpreter) (g0 g : Globals) (s : Nat) (x : String) (j : Nat)
    (hj : (g0.scope s).index_of x = some j) (hgrow : scopes_grow g0 g)
    (hinner : ∀ e ∈ inner, (g.scope e).index_of x = none) (hp : x ∉ params) :
    lookup_variable (enter_function (front ++ s :: inner) params args i g).1
        (enter_function (front ++ s :: inner) params args i g).2 x = some (s, j) ∧
      (enter_function (front ++ s :: inner) params args i g).2.value_at (s, j) =
        g.value_at (s, j) := by
  have hs : s < g.scopes.length := Nat.lt_of_lt_of_le (scope_lt_of_index_of g0 s x j hj) hgrow.1
  have hold := enter_function_scope_old (front ++ s :: inner) params args i g s (Nat.ne_of_lt hs)
  refine ⟨?_, ?_⟩
  · have h := lookup_variable_extended { i with scope_stack := front ++ [s] }
      (enter_function (front ++ s :: inner) params args i g).2 s x j
      (inner ++ [g.scopes.length]) (by simp [get_current_scope])
      (fun e he => by
        by_cases hn : e = g.scopes.length
        · rw [hn, enter_function_scope_new]
          exact parameter_bindings_index_of_none params args x hp
        · rw [enter_function_scope_old _ params args i g e hn]
          rcases List.mem_append.mp he with h1 | h1
          · exact hinner e h1
          · exact absurd (List.mem_singleton.mp h1) hn)
      (by rw [hold]; exact hgrow.2 s x j hj)
    rw [enter_function_interpreter]
    simpa using h
  · simp only [Globals.value_at, hold]

/-- A call that returns has found a function, evaluated the arguments and then
the body, from the closure of the function followed by one new scope; the
globals it returns are those the body left. -/
theorem evaluate_call_expression_ok (ev : Eval) (name : String) (arguments : List ASTNode)
    (i i1 : Interpreter) (g g1 : Globals) (v : Value)
    (h : evaluate_call_expression ev name arguments i g = .ok (v, i1, g1)) :
    ∃ (ref : Nat × Nat) (fname : String) (params : List String) (body : ASTNode)
      (closure : List Nat) (args : List Value) (ia i2 : Interpreter) (ga : Globals)
      (r : Value),
      lookup_variable i g name = some ref ∧
      evaluate_arguments ev arguments [] i g = .ok (args, ia, ga) ∧
      ga.value_at ref = .function fname params body closure ∧
      (enter_function closure params args ia ga).1.scope_stack =
        closure ++ [ga.scopes.length] ∧
      ev body (enter_function closure params args ia ga).1
        (enter_function closure params args ia ga).2 = .ok (r, i2, g1) ∧
      i1.scope_stack = ia.scope_stack := by
  simp only [evaluate_call_expression] at h
  split at h
  · simp at h
  · rename_i ref hl
    split at h
    · split at h
      · rename_i args ia ga ha
        split at h
        · rename_i fname params body closure hf
          split at h
          · rename_i r i2 g2 hb
            refine ⟨ref, fname, params, body, closure, args, ia, i2, ga, r, hl, ha, hf, rfl,
              ?_, ?_⟩
            · split at h
              · simp only [Outcome.ok.injEq, Prod.mk.injEq] at h
                obtain ⟨_, _, rfl⟩ := h
                exact hb
              · simp only [Outcome.ok.injEq, Prod.mk.injEq] at h
                obtain ⟨_, _, rfl⟩ := h
                exact hb
            · split at h
              · simp only [Outcome.ok.injEq, Prod.mk.injEq] at h
                obtain ⟨_, rfl, _⟩ := h
                rfl
              · simp only [Outcome.ok.injEq, Prod.mk.injEq] at h
                obtain ⟨_, rfl, _⟩ := h
                rfl
          all_goals simp at h
        · simp at h
      all_goals simp at h
    · simp at h

/-- C3. Closure capture.  (1) A function declaration yields a function whose
closure is the scope stack of that moment: declared in the body of an outer
function, it holds the scopes of the call of the outer function, by their
pointers (at the start of the body, the closure of the outer function followed
by the scope of the call).  (2) An evaluation that ends, such as the call of the outer function,
leaves the scope stack as it was and loses no scope and no binding: a name bound
at an index of a scope is bound there afterwards (`scopes_grow`, which is
reflexive and transitive).  (3) A call that returns has evaluated the body of
the function from the closure followed by one new scope, whatever the scope
stack of the caller, and returns the globals that the body left.  (4) So when a
name `x`, no parameter, was bound at the index `j` of a scope `s` of the
closure, in a state `g0`, then in every later state `g` in which no scope of
the closure after `s` binds `x`, for every caller, the body of a call finds `x`
at `(s, j)`, where it holds the value that `g` has there: every call reads the
same binding, with what the call before left in it.  (5) The same holds under
scopes that do not bind `x`, as those of the blocks of the body are.  (6) Where
`x` is found at `(s, j)`, reading `x` yields the value there; an assignment to
`x` writes there, the value is then the one written, and every other binding
is as before.  (7) The program of the
claim prints `1` then `2`; after its `let g = mk();` the binding `c` lives in a
scope that only the closure of `g` refers to; and from that state, whatever
number `v` the binding `c` holds, `print(g()); print(g());` prints `v + 1` and
then `v + 1 + 1`, and leaves `v + 1 + 1` in `c`. -/
theorem closure_capture :
    ((∀ (read_file : String → Option String) (fuel : Nat) (name : String)
        (params : List String) (body : ASTNode) (i : Interpreter) (g : Globals) (scope : Nat),
      get_current_scope i = some scope →
      evaluate read_file (fuel + 1) (.function_declaration name params body) i g =
        .ok (.function name params body i.scope_stack, i,
          define_variable g scope name (.function name params body i.scope_stack))) ∧
      (∀ (read_file : String → Option String) (fuel : Nat) (name : String)
        (params : List String) (body : ASTNode) (closure : List Nat)
        (outer_params : List String) (args : List Value) (i : Interpreter) (g : Globals),
      evaluate read_file (fuel + 1) (.function_declaration name params body)
          (enter_function closure outer_params args i g).1
          (enter_function closure outer_params args i g).2 =
        .ok (.function name params body (closure ++ [g.scopes.length]),
          (enter_function closure outer_params args i g).1,
          define_variable (enter_function closure outer_params args i g).2 g.scopes.length
            name (.function name params body (closure ++ [g.scopes.length]))))) ∧
    ((∀ (read_file : String → Option String) (fuel : Nat) (node : ASTNode)
        (i i1 : Interpreter) (g g1 : Globals) (v : Value),
      evaluate read_file fuel node i g = .ok (v, i1, g1) →
      i1.scope_stack = i.scope_stack ∧ scopes_grow g g1) ∧
      (∀ g, scopes_grow g g) ∧
      (∀ g g1 g2, scopes_grow g g1 → scopes_grow g1 g2 → scopes_grow g g2)) ∧
    (∀ (read_file : String → Option String) (fuel : Nat) (name : String)
        (arguments : List ASTNode) (i i1 : Interpreter) (g g1 : Globals) (v : Value),
      evaluate read_file (fuel + 1) (.call_expression name arguments) i g = .ok (v, i1, g1) →
      ∃ (ref : Nat × Nat) (fname : String) (params : List String) (body : ASTNode)
        (closure : List Nat) (args : List Value) (ia i2 : Interpreter) (ga : Globals)
        (r : Value),
        lookup_variable i g name = some ref ∧
        evaluate_arguments (evaluate read_file fuel) arguments [] i g = .ok (args, ia, ga) ∧
        ga.value_at ref = .function fname params body closure ∧
        (enter_function closure params args ia ga).1.scope_stack =
          closure ++ [ga.scopes.length] ∧
        evaluate read_file fuel body (enter_function closure params args ia ga).1
          (enter_function closure params args ia ga).2 = .ok (r, i2, g1) ∧
        i1.scope_stack = ia.scope_stack) ∧
    (∀ (front inner : List Nat) (params : List String) (args : List Value) (i : Interpreter)
        (g0 g : Globals) (s : Nat) (x : String) (j : Nat),
      (g0.scope s).index_of x = some j → scopes_grow g0 g →
      (∀ e ∈ inner, (g.scope e).index_of x = none) → x ∉ params →
      lookup_variable (enter_function (front ++ s :: inner) params args i g).1
          (enter_function (front ++ s :: inner) params args i g).2 x = some (s, j) ∧
        (enter_function (front ++ s :: inner) params args i g).2.value_at (s, j) =
          g.value_at (s, j)) ∧
    (∀ (i : Interpreter) (g0 g : Globals) (s : Nat) (x : String) (j : Nat) (extra : List Nat),
      get_current_scope i = some s → (g0.scope s).index_of x = some j → scopes_grow g0 g →
      (∀ e ∈ extra, (g.scope e).index_of x = none) →
      lookup_variable { i with scope_stack := i.scope_stack ++ extra } g x = some (s, j)) ∧
    (∀ (read_file : String → Option String) (fuel : Nat) (i : Interpreter) (g : Globals)
        (x : String) (s j : Nat),
      lookup_variable i g x = some (s, j) →
      evaluate read_file (fuel + 1) (.identifier x) i g = .ok (g.value_at (s, j), i, g) ∧
        ∀ (value : ASTNode) (v : Value) (i1 : Interpreter) (g1 : Globals),
          evaluate read_file fuel value i g = .ok (v, i1, g1) →
          lookup_variable i1 g1 x = some (s, j) →
          evaluate read_file (fuel + 1) (.assignment_expression x value) i g =
              .ok (v, i1, g1.set_value_at (s, j) v) ∧
            (g1.set_value_at (s, j) v).value_at (s, j) = v ∧
            ∀ other, other ≠ (s, j) →
              (g1.set_value_at (s, j) v).value_at other = g1.value_at other) ∧
    (run_output no_files 100
        ("function mk(){ let c = 0; function inc(){ c = c + 1; return c; } return inc; } " ++
          "let g = mk(); print(g()); print(g());") = some "1\n2\n" ∧
      run_interpreter no_files 100
          ("function mk(){ let c = 0; function inc(){ c = c + 1; return c; } return inc; } " ++
            "let g = mk();") =
        .ok (counter_inc, top_level counter_inc, counter_globals (.fin 0)) ∧
      (tokenize "print(g()); print(g());".toList).bind parse =
        .ok (.program [.print_statement (.call_expression "g" []),
          .print_statement (.call_expression "g" [])]) ∧
      ∀ (v : Number) (return_value : Value),
        evaluate no_files 10
            (.program [.print_statement (.call_expression "g" []),
              .print_statement (.call_expression "g" [])])
            (top_level return_value) (counter_globals v) =
          .ok (.number ((v.add (.fin 1)).add (.fin 1)),
            top_level (.number ((v.add (.fin 1)).add (.fin 1))),
            { counter_globals ((v.add (.fin 1)).add (.fin 1)) with
              scopes := (counter_globals ((v.add (.fin 1)).add (.fin 1))).scopes ++
                [⟨[]⟩, ⟨[]⟩, ⟨[]⟩, ⟨[]⟩],
              stdout := "" ++ ((v.add (.fin 1)).formatG ++ "\n") ++
                (((v.add (.fin 1)).add (.fin 1)).formatG ++ "\n") })) := by
  refine ⟨⟨fun read_file fuel name params body i g scope hcur => ?_,
      fun read_file fuel name params body closure outer_params args i g => ?_⟩,
    ⟨fun read_file fuel node i i1 g g1 v h =>
        ⟨evaluate_scope_stack read_file fuel node i g v i1 g1 h,
          evaluate_scopes_grow read_file fuel node i g v i1 g1 h⟩,
      scopes_grow_refl, scopes_grow_trans⟩,
    fun read_file fuel name arguments i i1 g g1 v h =>
      evaluate_call_expression_ok (evaluate read_file fuel) name arguments i i1 g g1 v h,
    fun front inner params args i g0 g s x j hj hgrow hinner hp =>
      enter_function_lookup front inner params args i g0 g s x j hj hgrow hinner hp,
    fun i g0 g s x j extra hcur hj hgrow hextra =>
      lookup_variable_extended i g s x j extra hcur hextra (hgrow.2 s x j hj),
    fun read_file fuel i g x s j hl => ⟨?_, fun value v i1 g1 hv hl1 => ⟨?_, ?_, ?_⟩⟩,
    ⟨by decide!, by decide!, by decide!, fun _ _ => rfl⟩⟩
  · simp [evaluate, evaluate_function_declaration, hcur]
  · have hcur : get_current_scope (enter_function closure outer_params args i g).1 =
        some g.scopes.length := by
      simp [enter_function_interpreter, get_current_scope]
    simp only [evaluate, evaluate_function_declaration, hcur]
    rfl
  · simp only [evaluate, evaluate_identifier, hl]
  · simp only [evaluate, evaluate_assignment_expression, hv, hl1]
  · obtain ⟨_, _, _, _, hidx⟩ := lookup_variable_some i1 g1 x s j hl1
    exact value_at_set_value_at g1 s j x v hidx
  · intro other hne
    exact value_at_set_value_at_other g1 (s, j) other v hne

/-- C3 at the function `inc` of the claim, whose closure is `[0, 1, 2]`, the
scope 2 being the one in which `mk` declared `c`: called from the top level
once `let g = mk();` is done, the body of `inc` is evaluated with the scope
stack `[0, 1, 2, 3]`, finds `c` at the index 0 of the scope 2, and reads there
the number that the state holds. -/
theorem closure_capture_witness :
    lookup_variable
        (enter_function [0, 1, 2] [] [] (top_level .null) (counter_globals (.fin 5))).1
        (enter_function [0, 1, 2] [] [] (top_level .null) (counter_globals (.fin 5))).2 "c" =
      some (2, 0) ∧
    (enter_function [0, 1, 2] [] [] (top_level .null)
        (counter_globals (.fin 5))).2.value_at (2, 0) = .number (.fin 5) :=
  ⟨(closure_capture.2.2.2.1 [0, 1] [] [] [] (top_level .null) (counter_globals (.fin 5))
      (counter_globals (.fin 5)) 2 "c" 0 (by decide!) (scopes_grow_refl _)
      (fun _ h => absurd h (List.not_mem_nil _)) (List.not_mem_nil _)).1,
    ((closure_capture.2.2.2.1 [0, 1] [] [] [] (top_level .null) (counter_globals (.fin 5))
      (counter_globals (.fin 5)) 2 "c" 0 (by decide!) (scopes_grow_refl _)
      (fun _ h => absurd h (List.not_mem_nil _)) (List.not_mem_nil _)).2).trans (by decide!)⟩

/-! ## C18: the name of a function in its body -/

end AbstractScriptC
